import Mathlib

/-!
# Waypoint navigation of `pr_cmds.c`: a shallow embedding

The development follows the waypoint code of `src/source/pr_cmds.c`:
`RemoveWayFromList`, `AddWayToList`, `GetLowestFromOpenSet`,
`CheckIfEmptyList`, `CheckIfWayInList`, `heuristic_cost_estimate`,
`reconstruct_path`, `Pathfind`, `Do_Pathfind`, `Open_Waypoint`,
`Close_Waypoint`, `Get_Next_Waypoint`, `Get_First_Waypoint` and `TraceMove`.

Modelling decisions.

* A C array `int a[n]` is a function `Fin n → Int`, read and written through
  `aget` and `aset` with a C `int` index. A read outside `0 .. n-1` yields `0`
  and a write outside `0 .. n-1` is dropped (in C both are undefined).
* `MAX_WAYPOINTS` is declared in a header that is not part of the sources; it
  is the parameter `N` of every definition.
* The array of structures `waypoints[]` is split by field. The fields that
  the search never writes (`origin`, `open`, `used`, `special`, `target_id`,
  `dist`) form `Graph`; the scratch fields (`g_score`, `f_score`,
  `came_from`) live in `Search` next to `closedset`, `openset`, `opensetRef`
  and `opensetLength`.
* The C `float` scores, distances and coordinates are exact integers, and in
  the path queries and `TraceMove` exact rationals: rounding, infinities and
  NaN are outside the model.
* The collision sweep `SV_Move` belongs to the physics code; it enters as a
  function parameter. The path queries take the result of `TraceMove` as a
  function parameter in the same way.
* A C loop without a static bound carries a fuel argument and yields `none`
  when the fuel is used up. `AddWayToList` is shown to return for every
  state; `Pathfind` runs its main loop and `reconstruct_path` on fuel
  `MAX_WAYPOINTS`, which is shown to suffice whenever the start, the end and
  the edge targets are valid non-zero indices. The path queries run their
  loop on fuel `MAX_WAYPOINTS`, which suffices for `Get_Next_Waypoint` and,
  on a record with a non-zero entry, for `Get_First_Waypoint`. `TraceMove`
  takes its fuel as an argument.
-/

namespace Waypoints

/-! ## Arrays -/

/-- A C array of `n` ints. -/
abbrev Arr (n : Nat) := Fin n → Int

/-- The read `a[i]`. -/
def aget {n : Nat} (a : Arr n) (i : Int) : Int :=
  if h : 0 ≤ i ∧ i < (n : Int) then a ⟨i.toNat, by omega⟩ else 0

/-- The write `a[i] = v`. -/
def aset {n : Nat} (a : Arr n) (i : Int) (v : Int) : Arr n :=
  fun j => if (j.val : Int) = i then v else a j

/-! ## Data model -/

/-- The fields of `waypoints[]` that the search only reads. `open_` is the C
field `open`; `target_id w k` and `dist w k` are slot `k` of the two
eight-element arrays of waypoint `w`. -/
structure Graph where
  origin : Int → Int × Int × Int
  open_ : Int → Int
  used : Int → Int
  special : Int → String
  target_id : Int → Nat → Int
  dist : Int → Nat → Int

/-- The shared search workspace together with the scratch fields of
`waypoints[]`. -/
structure Search (N : Nat) where
  closedset : Arr N
  openset : Arr N
  opensetRef : Arr N
  opensetLength : Int
  g_score : Arr N
  f_score : Arr N
  came_from : Arr N

/-- `MaxZombies`. -/
def MaxZombies : Nat := 24

/-- `zombie_ai`: one agent path record. -/
structure zombie_ai (N : Nat) where
  zombienum : Int
  pathlist : Arr N

/-- The array `zombie_list[MaxZombies]`. -/
abbrev ZombieList (N : Nat) := Fin MaxZombies → zombie_ai N

/-- The read `zombie_list[i]`; outside `0 .. MaxZombies - 1` it yields a
record of zeros. -/
def zget {N : Nat} (zl : ZombieList N) (i : Int) : zombie_ai N :=
  if h : 0 ≤ i ∧ i < (MaxZombies : Int) then zl ⟨i.toNat, by omega⟩
  else { zombienum := 0, pathlist := fun _ => 0 }

/-- The write `zombie_list[i] = z`; outside `0 .. MaxZombies - 1` it is
dropped. -/
def zset {N : Nat} (zl : ZombieList N) (i : Int) (z : zombie_ai N) : ZombieList N :=
  fun j => if (j.val : Int) = i then z else zl j

/-- The state that `Do_Pathfind` and the path queries work on. -/
structure Nav (N : Nat) where
  ws : Search N
  proces_list : Arr N
  closest_waypoints : Int → Int
  zombie_list : ZombieList N

/-! ## Heuristic -/

/-- Modelled from the spec: the macro `VectorDistanceSquared` is declared in a
header outside the sources; the spec describes it as the squared Euclidean
distance between two positions. -/
def VectorDistanceSquared (a b : Int × Int × Int) : Int :=
  (a.1 - b.1) * (a.1 - b.1) + (a.2.1 - b.2.1) * (a.2.1 - b.2.1)
    + (a.2.2 - b.2.2) * (a.2.2 - b.2.2)

/-- `heuristic_cost_estimate`. -/
def heuristic_cost_estimate (g : Graph) (start_way end_way : Int) : Int :=
  VectorDistanceSquared (g.origin start_way) (g.origin end_way)

/-! ## List primitives -/

/-- The inner loop of `RemoveWayFromList`:
`for (s = i; s < opensetLength; s++) openset[s] = openset[s+1];`
with `k` iterations left. Its last read is `openset[opensetLength]`, which is
inside the array as long as `opensetLength < MAX_WAYPOINTS`. -/
def RemoveWayFromList_shift {N : Nat} (a : Arr N) : Nat → Int → Arr N
  | 0, _ => a
  | k + 1, s => RemoveWayFromList_shift (aset a s (aget a (s + 1))) k (s + 1)

/-- The outer loop of `RemoveWayFromList` for the open list, with `k`
iterations left. -/
def RemoveWayFromList_scan {N : Nat} (waynum : Int) (st : Search N) : Nat → Int → Search N
  | 0, _ => st
  | k + 1, i =>
    if aget st.openset i = waynum then
      { st with
        openset := RemoveWayFromList_shift (aset st.openset i 0)
          (st.opensetLength - i).toNat i
        opensetRef := aset st.opensetRef waynum 0
        opensetLength := st.opensetLength - 1 }
    else RemoveWayFromList_scan waynum st k (i + 1)

/-- `RemoveWayFromList`. -/
def RemoveWayFromList {N : Nat} (listnumber waynum : Int) (st : Search N) : Search N :=
  if listnumber = 1 then { st with closedset := aset st.closedset waynum 0 }
  else if listnumber = 2 then
    RemoveWayFromList_scan waynum st st.opensetLength.toNat 0
  else st

/-- The shifting loop of `AddWayToList`:
`for (i = opensetLength; i > max; i--) openset[i] = openset[i-1];`
with `k` iterations left, so that `i = max + k`. -/
def AddWayToList_shift {N : Nat} (a : Arr N) (max : Int) : Nat → Arr N
  | 0 => a
  | k + 1 => AddWayToList_shift (aset a (max + (k + 1)) (aget a (max + k))) max k

/-- The insertion block of `AddWayToList`, entered when `max - min == 1`. -/
def AddWayToList_insert {N : Nat} (waynum max : Int) (st : Search N) : Search N :=
  { st with
    openset := aset (AddWayToList_shift st.openset max (st.opensetLength - max).toNat)
      max waynum
    opensetLength := st.opensetLength + 1
    opensetRef := aset st.opensetRef waynum 1 }

/-- The `while (max > min)` loop of `AddWayToList`. The division is the
truncating division of C. -/
def AddWayToList_search {N : Nat} (waynum wayVal : Int) (st : Search N) :
    Nat → Int → Int → Option (Int × Search N)
  | 0, _, _ => none
  | fuel + 1, min, max =>
    if max > min then
      if max - min = 1 then some (max, AddWayToList_insert waynum max st)
      else
        let test := Int.tdiv (min + max) 2
        let tv := aget st.f_score (aget st.openset test)
        let min1 := if wayVal > tv then test else min
        let max1 := if wayVal > tv then max else if wayVal < tv then test else max
        let max2 := if wayVal = tv then test else max1
        let min2 := if wayVal = tv then test - 1 else min1
        AddWayToList_search waynum wayVal st fuel min2 max2
    else some (-1, st)

/-- `AddWayToList`: the returned pair is the C return value and the new
state. The fuel covers every run of the binary search: each pass narrows
`max - min`, which starts at `opensetLength + 1`. -/
def AddWayToList {N : Nat} (listnumber waynum : Int) (st : Search N) :
    Option (Int × Search N) :=
  if listnumber = 1 then some (1, { st with closedset := aset st.closedset waynum 1 })
  else if listnumber = 2 then
    AddWayToList_search waynum (aget st.f_score waynum) st
      ((st.opensetLength + 1).toNat + 1) (-1) st.opensetLength
  else some (-1, st)

/-- `GetLowestFromOpenSet`. -/
def GetLowestFromOpenSet {N : Nat} (st : Search N) : Int := aget st.openset 0

/-- The loop of `CheckIfEmptyList`, with `k` iterations left. -/
def CheckIfEmptyList_scan {N : Nat} (listnumber : Int) (st : Search N) : Nat → Int → Int
  | 0, _ => 1
  | k + 1, i =>
    if listnumber = 1 then
      if aget st.closedset i ≠ 0 then 0 else CheckIfEmptyList_scan listnumber st k (i + 1)
    else if listnumber = 2 then
      if aget st.openset i ≠ 0 then 0 else CheckIfEmptyList_scan listnumber st k (i + 1)
    else CheckIfEmptyList_scan listnumber st k (i + 1)

/-- `CheckIfEmptyList`. -/
def CheckIfEmptyList {N : Nat} (listnumber : Int) (st : Search N) : Int :=
  CheckIfEmptyList_scan listnumber st N 0

/-- `CheckIfWayInList`. -/
def CheckIfWayInList {N : Nat} (listnumber waynum : Int) (st : Search N) : Int :=
  if listnumber = 1 ∧ aget st.closedset waynum ≠ 0 then 1
  else if listnumber = 2 ∧ aget st.opensetRef waynum ≠ 0 then 1
  else 0

/-! ## Path reconstruction -/

/-- The clearing loop of `reconstruct_path`, with `k` iterations left. -/
def reconstruct_path_clear {N : Nat} : Nat → Int → Arr N → Arr N
  | 0, _, pl => pl
  | k + 1, i, pl => reconstruct_path_clear k (i + 1) (aset pl i 0)

/-- The `for (i = 0; i < 8; i++)` loop of `reconstruct_path`: the value of
`current` after the loop, where `cf` is `waypoints[current].came_from`. -/
def reconstruct_path_find (g : Graph) (cf current : Int) : Nat → Nat → Int
  | 0, _ => current
  | k + 1, i =>
    if g.target_id cf i < 0 then current
    else if g.target_id cf i = current then cf
    else reconstruct_path_find g cf current k (i + 1)

/-- The `while (1)` loop of `reconstruct_path`. -/
def reconstruct_path_walk {N : Nat} (g : Graph) (st : Search N) (start_node : Int) :
    Nat → Int → Int → Arr N → Option (Arr N)
  | 0, _, _, _ => none
  | fuel + 1, s, current, pl =>
    let pl1 := aset pl s current
    if current = start_node then some pl1
    else if CheckIfWayInList 1 (aget st.came_from current) st ≠ 0 then
      reconstruct_path_walk g st start_node fuel (s + 1)
        (reconstruct_path_find g (aget st.came_from current) current 8 0) pl1
    else some pl1

/-- `reconstruct_path`, as a function from the old `proces_list` to the new
one. -/
def reconstruct_path {N : Nat} (g : Graph) (st : Search N) (start_node current_node : Int)
    (proces_list : Arr N) : Option (Arr N) :=
  reconstruct_path_walk g st start_node N 1 current_node
    (aset (reconstruct_path_clear N 0 proces_list) 0 (-1))

/-! ## The search -/

/-- The clearing loop of `Pathfind`, with `k` iterations left. -/
def Pathfind_clear {N : Nat} : Nat → Int → Search N → Search N
  | 0, _, st => st
  | k + 1, i, st =>
    Pathfind_clear k (i + 1)
      { st with
        openset := aset st.openset i 0
        opensetRef := aset st.opensetRef i 0
        closedset := aset st.closedset i 0
        f_score := aset st.f_score i 0
        g_score := aset st.g_score i 0
        came_from := aset st.came_from i 0 }

/-- The body of the `for (i = 0; i < 8; i++)` loop of `Pathfind` below its
`break` test. -/
def Pathfind_edge {N : Nat} (g : Graph) (end_way current : Int) (i : Nat) (st : Search N) :
    Option (Search N) :=
  let nb := g.target_id current i
  if g.open_ nb = 0 then some st
  else
    let tentative_g_score := aget st.g_score current + g.dist current i
    let tentative_f_score := tentative_g_score + heuristic_cost_estimate g nb end_way
    if CheckIfWayInList 1 nb st ≠ 0 then some st
    else
      let st1 : Search N :=
        if tentative_f_score < aget st.f_score nb then
          { st with
            g_score := aset st.g_score nb tentative_g_score
            f_score := aset st.f_score nb tentative_f_score }
        else st
      if CheckIfWayInList 2 nb st1 = 0 then
        (AddWayToList 2 nb
          { st1 with
            g_score := aset st1.g_score nb tentative_g_score
            f_score := aset st1.f_score nb tentative_f_score
            came_from := aset st1.came_from nb current }).map Prod.snd
      else some st1

/-- The `for (i = 0; i < 8; i++)` loop of `Pathfind`, with `k` iterations
left. -/
def Pathfind_edges {N : Nat} (g : Graph) (end_way current : Int) :
    Nat → Nat → Search N → Option (Search N)
  | 0, _, st => some st
  | k + 1, i, st =>
    if g.target_id current i < 0 then some st
    else
      match Pathfind_edge g end_way current i st with
      | none => none
      | some st1 => Pathfind_edges g end_way current k (i + 1) st1

/-- One pass through the body of the main loop of `Pathfind` for a popped
node other than the goal: move `current` to the closed list and expand it. -/
def Pathfind_expand {N : Nat} (g : Graph) (end_way current : Int) (st : Search N) :
    Option (Search N) :=
  match AddWayToList 1 current st with
  | none => none
  | some (_, st1) =>
    Pathfind_edges g end_way current 8 0 (RemoveWayFromList 2 current st1)

/-- The main loop of `Pathfind`: status, final workspace and `proces_list`. -/
def Pathfind_loop {N : Nat} (g : Graph) (start_way end_way : Int) :
    Nat → Search N → Arr N → Option (Int × Search N × Arr N)
  | 0, _, _ => none
  | fuel + 1, st, pl =>
    if CheckIfEmptyList 2 st = 0 then
      if GetLowestFromOpenSet st = end_way then
        match reconstruct_path g st start_way end_way pl with
        | none => none
        | some pl1 => some (1, st, pl1)
      else
        match Pathfind_expand g end_way (GetLowestFromOpenSet st) st with
        | none => none
        | some st1 => Pathfind_loop g start_way end_way fuel st1 pl
    else some (0, st, pl)

/-- The workspace of `Pathfind` when its main loop is entered. -/
def Pathfind_seed {N : Nat} (g : Graph) (start_way end_way : Int) (st : Search N) :
    Option (Search N) :=
  let st0 : Search N := { Pathfind_clear N 0 st with opensetLength := 0 }
  let st1 : Search N := { st0 with g_score := aset st0.g_score start_way 0 }
  let st2 : Search N :=
    { st1 with
      f_score := aset st1.f_score start_way
        (aget st1.g_score start_way + heuristic_cost_estimate g start_way end_way) }
  (AddWayToList 2 start_way st2).map Prod.snd

/-- `Pathfind`: the status, the workspace and `proces_list` it leaves. The
main loop runs on fuel `N`. -/
def Pathfind {N : Nat} (g : Graph) (start_way end_way : Int) (st : Search N)
    (proces_list : Arr N) : Option (Int × Search N × Arr N) :=
  match Pathfind_seed g start_way end_way st with
  | none => none
  | some st1 => Pathfind_loop g start_way end_way N st1 proces_list

/-- The workspace at the head of iteration `k` of the main loop of `Pathfind`
that starts in `st`, as long as the loop has not returned. -/
def Pathfind_head {N : Nat} (g : Graph) (end_way : Int) : Nat → Search N → Option (Search N)
  | 0, st => some st
  | k + 1, st =>
    if CheckIfEmptyList 2 st = 0 then
      if GetLowestFromOpenSet st = end_way then none
      else
        match Pathfind_expand g end_way (GetLowestFromOpenSet st) st with
        | none => none
        | some st1 => Pathfind_head g end_way k st1
    else none

/-! ## `Do_Pathfind`

The resolver reads the collision sweep `SV_Move` only through the test
`trace.fraction >= 1`; `sweep start end passedict` is that test for the sweep
from `start` to `end` with zero extents that ignores entity `passedict`.
`closest_waypoints` is indexed by entity number; `MAX_EDICTS` is declared
outside the sources, so the array is a function on all entity numbers, and a
waypoint index is stored in its `short` entries unchanged. -/

/-- The loop over the neighbours of the cached waypoint in `Do_Pathfind`, with
`k` iterations left; the pair is `(best_dist, best)`. -/
def Do_Pathfind_neighbors (g : Graph)
    (sweep : Int × Int × Int → Int × Int × Int → Int → Bool)
    (org : Int × Int × Int) (ent prevclosest : Int) : Nat → Nat → Int × Int → Int × Int
  | 0, _, acc => acc
  | k + 1, s, acc =>
    if g.target_id prevclosest s < 0 then acc
    else if VectorDistanceSquared (g.origin (g.target_id prevclosest s)) org < acc.1 then
      if sweep org (g.origin (g.target_id prevclosest s)) ent then
        (VectorDistanceSquared (g.origin (g.target_id prevclosest s)) org,
          g.target_id prevclosest s)
      else Do_Pathfind_neighbors g sweep org ent prevclosest k (s + 1) acc
    else Do_Pathfind_neighbors g sweep org ent prevclosest k (s + 1) acc

/-- The first stage of the resolver in `Do_Pathfind` for one entity: the value
of `(best_dist, best)` after the block on `prevclosest`. The initial
`best_dist` is `max_waypoint_distance * max_waypoint_distance` with
`max_waypoint_distance = 750`. -/
def Do_Pathfind_cached (g : Graph)
    (sweep : Int × Int × Int → Int × Int × Int → Int → Bool)
    (org : Int × Int × Int) (ent prevclosest : Int) : Int × Int :=
  if prevclosest ≥ 0 then
    if sweep org (g.origin prevclosest) ent then
      (VectorDistanceSquared (g.origin prevclosest) org, prevclosest)
    else Do_Pathfind_neighbors g sweep org ent prevclosest 8 0 (750 * 750, -1)
  else (750 * 750, -1)

/-- The scan over all waypoints in `Do_Pathfind`, with `k` iterations left;
the state is `((best_dist_z, best_z), (best_dist_e, best_e))`. -/
def Do_Pathfind_scan (g : Graph)
    (sweep : Int × Int × Int → Int × Int × Int → Int → Bool)
    (zorg : Int × Int × Int) (zent : Int) (eorg : Int × Int × Int) (eent : Int) :
    Nat → Int → (Int × Int) × (Int × Int) → (Int × Int) × (Int × Int)
  | 0, _, acc => acc
  | k + 1, i, acc =>
    if g.used i = 0 ∨ g.open_ i = 0 then
      Do_Pathfind_scan g sweep zorg zent eorg eent k (i + 1) acc
    else
      Do_Pathfind_scan g sweep zorg zent eorg eent k (i + 1)
        (if VectorDistanceSquared (g.origin i) zorg < acc.1.1 ∧ sweep zorg (g.origin i) zent
          then (VectorDistanceSquared (g.origin i) zorg, i) else acc.1,
         if VectorDistanceSquared (g.origin i) eorg < acc.2.1 ∧ sweep eorg (g.origin i) eent
          then (VectorDistanceSquared (g.origin i) eorg, i) else acc.2)

/-- The resolver of `Do_Pathfind`: the pair `(best_z, best_e)`. -/
def Do_Pathfind_resolve (N : Nat) (g : Graph)
    (sweep : Int × Int × Int → Int × Int × Int → Int → Bool)
    (closest_waypoints : Int → Int)
    (zombie_entnum target_entnum : Int) (zorg eorg : Int × Int × Int) : Int × Int :=
  let r := Do_Pathfind_scan g sweep zorg zombie_entnum eorg target_entnum N 0
    (Do_Pathfind_cached g sweep zorg zombie_entnum (closest_waypoints zombie_entnum),
     Do_Pathfind_cached g sweep eorg target_entnum (closest_waypoints target_entnum))
  (r.1.2, r.2.2)

/-- The copy loop `for (s = 0; s < MAX_WAYPOINTS; s++) pathlist[s] =
proces_list[s];`, with `k` iterations left. -/
def Do_Pathfind_copy {N : Nat} (proces_list : Arr N) : Nat → Int → Arr N → Arr N
  | 0, _, pathlist => pathlist
  | k + 1, s, pathlist =>
    Do_Pathfind_copy proces_list k (s + 1) (aset pathlist s (aget proces_list s))

/-- The inner loop of the store in `Do_Pathfind`, which looks for a record
with `zombienum` zero; the result is the new `zombie_list` and the final value
of `i`. -/
def Do_Pathfind_alloc {N : Nat} (zombie_entnum : Int) (proces_list : Arr N) :
    Nat → Int → ZombieList N → ZombieList N × Int
  | 0, i, zl => (zl, i)
  | k + 1, i, zl =>
    if (zget zl i).zombienum = 0 then
      (zset zl i
        { zombienum := zombie_entnum
          pathlist := Do_Pathfind_copy proces_list N 0 (zget zl i).pathlist }, i)
    else Do_Pathfind_alloc zombie_entnum proces_list k (i + 1) zl

/-- The outer loop of the store in `Do_Pathfind`; the result is the new
`zombie_list` and the final value of `i`. -/
def Do_Pathfind_store {N : Nat} (zombie_entnum : Int) (proces_list : Arr N) :
    Nat → Int → ZombieList N → ZombieList N × Int
  | 0, i, zl => (zl, i)
  | k + 1, i, zl =>
    if zombie_entnum = (zget zl i).zombienum then
      (zset zl i
        { zget zl i with
          pathlist := Do_Pathfind_copy proces_list N 0 (zget zl i).pathlist }, i)
    else if i = (MaxZombies : Int) - 1 then
      Do_Pathfind_alloc zombie_entnum proces_list MaxZombies 0 zl
    else Do_Pathfind_store zombie_entnum proces_list k (i + 1) zl

/-- `Do_Pathfind`: the value written to `OFS_RETURN` and the new state.
`zorg` and `eorg` are the origins of the two entities. -/
def Do_Pathfind {N : Nat} (g : Graph)
    (sweep : Int × Int × Int → Int × Int × Int → Int → Bool)
    (zombie_entnum target_entnum : Int) (zorg eorg : Int × Int × Int) (nav : Nav N) :
    Option (Int × Nav N) :=
  let best := Do_Pathfind_resolve N g sweep nav.closest_waypoints zombie_entnum target_entnum
    zorg eorg
  let cw : Int → Int := fun k =>
    if k = target_entnum then best.2 else if k = zombie_entnum then best.1
    else nav.closest_waypoints k
  match Pathfind g best.1 best.2 nav.ws nav.proces_list with
  | none => none
  | some (status, ws1, pl1) =>
    if status ≠ 0 then
      let r := Do_Pathfind_store zombie_entnum pl1 MaxZombies 0 nav.zombie_list
      if aget (zget r.1 r.2).pathlist 2 = 0 ∧ aget (zget r.1 r.2).pathlist 1 ≠ 0 then
        some (-1, { ws := ws1, proces_list := pl1, closest_waypoints := cw, zombie_list := r.1 })
      else
        some (1, { ws := ws1, proces_list := pl1, closest_waypoints := cw, zombie_list := r.1 })
    else
      some (0, { ws := ws1, proces_list := pl1, closest_waypoints := cw,
                 zombie_list := nav.zombie_list })

/-! ## Waypoint groups -/

/-- The loop of `Open_Waypoint` over `i`, with `k` iterations left. `p` is the
string parameter; `special[0]` is non-zero exactly when the tag is not empty,
and `strcmp` yields zero exactly on equal strings. -/
def Open_Waypoint_loop (p : String) : Nat → Int → Graph → Graph
  | 0, _, g => g
  | k + 1, i, g =>
    if g.special i ≠ "" then
      if p = g.special i then
        Open_Waypoint_loop p k (i + 1)
          { g with open_ := fun j => if j = i then 1 else g.open_ j }
      else Open_Waypoint_loop p k (i + 1) g
    else Open_Waypoint_loop p k (i + 1) g

/-- `Open_Waypoint`: the loop runs over `i = 1 .. MAX_WAYPOINTS - 1`. -/
def Open_Waypoint (N : Nat) (p : String) (g : Graph) : Graph :=
  Open_Waypoint_loop p (N - 1) 1 g

/-- The loop of `Close_Waypoint` over `i`, with `k` iterations left. -/
def Close_Waypoint_loop (p : String) : Nat → Int → Graph → Graph
  | 0, _, g => g
  | k + 1, i, g =>
    if g.special i ≠ "" then
      if p = g.special i then
        Close_Waypoint_loop p k (i + 1)
          { g with open_ := fun j => if j = i then 0 else g.open_ j }
      else Close_Waypoint_loop p k (i + 1) g
    else Close_Waypoint_loop p k (i + 1) g

/-- `Close_Waypoint`: the loop runs over `i = 1 .. MAX_WAYPOINTS - 1`. -/
def Close_Waypoint (N : Nat) (p : String) (g : Graph) : Graph :=
  Close_Waypoint_loop p (N - 1) 1 g

/-! ## Vectors

In the path queries and in `TraceMove` a `vec3_t` is a triple of rationals:
the refinement of a steering point scales a segment by products of `0.5` and
`1.5`. `VectorAdd`, `VectorSubtract` and `VectorScale` are the componentwise
operations of the engine's vector header, which is not part of the sources.
`VectorLength` and `VectorNormalize` take a square root; they enter
`TraceMove` as parameters. -/

/-- `vec3_t`. -/
abbrev vec3_t := ℚ × ℚ × ℚ

/-- `VectorAdd`. -/
def VectorAdd (a b : vec3_t) : vec3_t := (a.1 + b.1, a.2.1 + b.2.1, a.2.2 + b.2.2)

/-- `VectorSubtract`. -/
def VectorSubtract (a b : vec3_t) : vec3_t := (a.1 - b.1, a.2.1 - b.2.1, a.2.2 - b.2.2)

/-- `VectorScale`. -/
def VectorScale (v : vec3_t) (s : ℚ) : vec3_t := (v.1 * s, v.2.1 * s, v.2.2 * s)

/-- The vector `waypoints[w].origin`. -/
def origin_vec (g : Graph) (w : Int) : vec3_t :=
  (((g.origin w).1 : ℚ), ((g.origin w).2.1 : ℚ), ((g.origin w).2.2 : ℚ))

/-! ## Path queries

`Get_Next_Waypoint` and `Get_First_Waypoint` read `TraceMove` only through the
test `TraceResult == 1`; `probe start mins maxs end ent` is the value of
`TraceMove(start, mins, maxs, end, MOVE_NOMONSTERS, ent)`, which depends on
the collision world. The entity `ent` is given by its number. -/

/-- The values of the locals after the loop over `zombie_list` in a path
query: the list itself, `i`, `s`, `currentWay`, and whether the function has
returned from inside the loop. -/
structure Located (N : Nat) where
  zombie_list : ZombieList N
  i : Int
  s : Int
  currentWay : Int
  returned : Bool

/-- The loop `for (q = 0; q < iterations; q++)` of the two path queries, with
`k` iterations left; the arguments after `k` are `curScale`, `Scalar` and
`move`, the result is `move`. `Scale` is `0.5`. -/
def Get_Waypoint_refine (probe : vec3_t → vec3_t → vec3_t → vec3_t → Int → Int)
    (start mins maxs : vec3_t) (ent : Int) (curStart toAdd : vec3_t) :
    Nat → ℚ → ℚ → vec3_t → vec3_t
  | 0, _, _, move => move
  | k + 1, curScale, Scalar, move =>
    if probe start mins maxs
        (VectorAdd (VectorScale toAdd (curScale * Scalar)) curStart) ent = 1 then
      Get_Waypoint_refine probe start mins maxs ent curStart toAdd k (curScale * Scalar)
        (1 / 2 + 1) (VectorAdd (VectorScale toAdd (curScale * Scalar)) curStart)
    else
      Get_Waypoint_refine probe start mins maxs ent curStart toAdd k (curScale * Scalar)
        (1 / 2) move

/-- The loop `while(1)` of the two path queries, whose text is the same in
both, with `k` iterations left; the arguments after `k` are `currentWay`,
`skippedWays` and `move`, the result is `move`. -/
def Get_Waypoint_smooth {N : Nat} (g : Graph)
    (probe : vec3_t → vec3_t → vec3_t → vec3_t → Int → Int)
    (start mins maxs : vec3_t) (ent : Int) (pathlist : Arr N) :
    Nat → Int → Int → vec3_t → Option vec3_t
  | 0, _, _, _ => none
  | k + 1, currentWay, skippedWays, move =>
    if probe start mins maxs (origin_vec g (aget pathlist currentWay)) ent = 1 then
      if currentWay = 1 then some (origin_vec g (aget pathlist currentWay))
      else
        Get_Waypoint_smooth g probe start mins maxs ent pathlist k (currentWay - 1)
          (skippedWays + 1) (origin_vec g (aget pathlist currentWay))
    else if skippedWays > 0 then
      some (Get_Waypoint_refine probe start mins maxs ent
        (origin_vec g (aget pathlist (currentWay + 1)))
        (VectorSubtract (origin_vec g (aget pathlist currentWay))
          (origin_vec g (aget pathlist (currentWay + 1))))
        5 1 (1 / 2) move)
    else some move

/-- The loop `for (s = MAX_WAYPOINTS - 1; s > -1; s--)` of `Get_Next_Waypoint`
on one record, with `k` iterations left; the result is the new `pathlist`,
`s`, `currentWay`, and whether the function has returned. -/
def Get_Next_Waypoint_scan {N : Nat} : Nat → Int → Int → Arr N → Arr N × Int × Int × Bool
  | 0, s, currentWay, pathlist => (pathlist, s, currentWay, false)
  | k + 1, s, currentWay, pathlist =>
    if aget pathlist s ≠ 0 then
      if s = 1 then (aset pathlist s 0, s, currentWay, true)
      else (aset pathlist s 0, s - 1, s - 1, false)
    else Get_Next_Waypoint_scan k (s - 1) currentWay pathlist

/-- The loop over `zombie_list` of `Get_Next_Waypoint`, with `k` iterations
left. -/
def Get_Next_Waypoint_find {N : Nat} (entnum : Int) : Nat → Int → ZombieList N → Located N
  | 0, i, zl => { zombie_list := zl, i := i, s := 0, currentWay := 0, returned := false }
  | k + 1, i, zl =>
    if entnum = (zget zl i).zombienum then
      { zombie_list :=
          zset zl i
            { zget zl i with
              pathlist :=
                (Get_Next_Waypoint_scan N ((N : Int) - 1) 0 (zget zl i).pathlist).1 }
        i := i
        s := (Get_Next_Waypoint_scan N ((N : Int) - 1) 0 (zget zl i).pathlist).2.1
        currentWay := (Get_Next_Waypoint_scan N ((N : Int) - 1) 0 (zget zl i).pathlist).2.2.1
        returned := (Get_Next_Waypoint_scan N ((N : Int) - 1) 0 (zget zl i).pathlist).2.2.2 }
    else Get_Next_Waypoint_find entnum k (i + 1) zl

/-- `Get_Next_Waypoint`: the vector written to `OFS_RETURN` and the new
`zombie_list`. The loop `while(1)` runs on fuel `MAX_WAYPOINTS`. -/
def Get_Next_Waypoint {N : Nat} (g : Graph)
    (probe : vec3_t → vec3_t → vec3_t → vec3_t → Int → Int)
    (entnum : Int) (start mins maxs : vec3_t) (zl : ZombieList N) :
    Option (vec3_t × ZombieList N) :=
  let r := Get_Next_Waypoint_find entnum MaxZombies 0 zl
  if r.returned = true then some ((0, 0, 0), r.zombie_list)
  else if r.s = -1 ∨ r.s = 0 then some ((0, 0, 0), r.zombie_list)
  else
    match Get_Waypoint_smooth g probe start (mins.1 - 2, mins.2.1 - 2, mins.2.2)
        (maxs.1 + 2, maxs.2.1 + 2, maxs.2.2) entnum (zget r.zombie_list r.i).pathlist
        N r.currentWay 0
        (origin_vec g (aget (zget r.zombie_list r.i).pathlist r.currentWay)) with
    | none => none
    | some move =>
      some (move,
        zset r.zombie_list r.i
          { zget r.zombie_list r.i with
            pathlist := aset (zget r.zombie_list r.i).pathlist r.s 0 })

/-- The loop `for (s = MAX_WAYPOINTS - 1; s > -1; s--)` of
`Get_First_Waypoint` on one record, with `k` iterations left; the result is
`(s, currentWay)`. -/
def Get_First_Waypoint_scan {N : Nat} (pathlist : Arr N) : Nat → Int → Int → Int × Int
  | 0, s, currentWay => (s, currentWay)
  | k + 1, s, currentWay =>
    if aget pathlist s ≠ 0 then (s, s)
    else Get_First_Waypoint_scan pathlist k (s - 1) currentWay

/-- The loop over `zombie_list` of `Get_First_Waypoint`, with `k` iterations
left. -/
def Get_First_Waypoint_find {N : Nat} (entnum : Int) (zl : ZombieList N) :
    Nat → Int → Located N
  | 0, i => { zombie_list := zl, i := i, s := 0, currentWay := 0, returned := false }
  | k + 1, i =>
    if entnum = (zget zl i).zombienum then
      { zombie_list := zl
        i := i
        s := (Get_First_Waypoint_scan (zget zl i).pathlist N ((N : Int) - 1) 0).1
        currentWay := (Get_First_Waypoint_scan (zget zl i).pathlist N ((N : Int) - 1) 0).2
        returned := false }
    else Get_First_Waypoint_find entnum zl k (i + 1)

/-- `Get_First_Waypoint`: the vector written to `OFS_RETURN` and the new
`zombie_list`. The loop `while(1)` runs on fuel `MAX_WAYPOINTS`. -/
def Get_First_Waypoint {N : Nat} (g : Graph)
    (probe : vec3_t → vec3_t → vec3_t → vec3_t → Int → Int)
    (entnum : Int) (start mins maxs : vec3_t) (zl : ZombieList N) :
    Option (vec3_t × ZombieList N) :=
  let r := Get_First_Waypoint_find entnum zl MaxZombies 0
  if r.s = 0 then some ((0, 0, 0), zl)
  else
    match Get_Waypoint_smooth g probe start (mins.1 - 2, mins.2.1 - 2, mins.2.2)
        (maxs.1 + 2, maxs.2.1 + 2, maxs.2.2) entnum (zget zl r.i).pathlist
        N r.currentWay 0 (origin_vec g (aget (zget zl r.i).pathlist r.currentWay)) with
    | none => none
    | some move =>
      some (move,
        zset zl r.i { zget zl r.i with pathlist := aset (zget zl r.i).pathlist r.s 0 })

/-! ## `TraceMove`

`SV_Move start mins maxs end passedict` is the collision sweep, which
`TraceMove` always calls with `MOVE_NOMONSTERS`; of its result the code reads
`fraction` and `endpos`. The `float` locals are rationals. Both loops run on
the fuel `fuel`. -/

/-- The fields of `trace_t` that `TraceMove` reads. -/
structure trace_t where
  fraction : ℚ
  endpos : vec3_t

/-- The locals of `TraceMove` that live across iterations of its loop. -/
structure TraceMove_vars where
  CurrentPos : vec3_t
  tempHorGoal : vec3_t
  CurrentDist : ℚ
  LoopBreak : Int

/-- The loop `for(i = maxs[0]; i < tempDist; i += maxs[0])` of `TraceMove`,
with `k` iterations left and the current `i`. The result is `none` when the
fuel is used up, `some none` when the loop ends with `skip == 0`, and the new
locals when a sample fell. The counter `i` is a `float` in the source and an
exact rational here: for `maxs[0] = 0` both stay at 0, while for a positive
`maxs[0]` below half a unit in the last place of `i` only the `float` stops
advancing. -/
def TraceMove_fall (SV_Move : vec3_t → vec3_t → vec3_t → vec3_t → Int → trace_t)
    (mins maxs : vec3_t) (ent : Int) (forward : vec3_t) (tempDist : ℚ)
    (v : TraceMove_vars) : Nat → ℚ → Option (Option TraceMove_vars)
  | 0, _ => none
  | k + 1, i =>
    if i < tempDist then
      if (SV_Move (VectorAdd (VectorScale forward i) v.CurrentPos) mins maxs
          (VectorAdd (VectorAdd (VectorScale forward i) v.CurrentPos)
            (VectorScale (0, 0, 1) (-500))) ent).fraction > 0 then
        some (some
          { CurrentPos :=
              VectorAdd (VectorAdd (VectorScale forward i) v.CurrentPos)
                (VectorScale (0, 0, 1)
                  ((SV_Move (VectorAdd (VectorScale forward i) v.CurrentPos) mins maxs
                    (VectorAdd (VectorAdd (VectorScale forward i) v.CurrentPos)
                      (VectorScale (0, 0, 1) (-500))) ent).fraction * -100))
            tempHorGoal :=
              VectorAdd v.tempHorGoal
                (VectorScale (0, 0, 1)
                  ((SV_Move (VectorAdd (VectorScale forward i) v.CurrentPos) mins maxs
                    (VectorAdd (VectorAdd (VectorScale forward i) v.CurrentPos)
                      (VectorScale (0, 0, 1) (-500))) ent).fraction * -100))
            CurrentDist := v.CurrentDist + i
            LoopBreak :=
              if (SV_Move (VectorAdd (VectorScale forward i) v.CurrentPos) mins maxs
                  (VectorAdd (VectorAdd (VectorScale forward i) v.CurrentPos)
                    (VectorScale (0, 0, 1) (-500))) ent).fraction = 1
              then v.LoopBreak + 1 else 0 })
      else TraceMove_fall SV_Move mins maxs ent forward tempDist v k (i + maxs.1)
    else some none

/-- The step-up test of `TraceMove`: the sweep raised by `STEPSIZEB = 18` has
`fraction` above `fraction1 + SLOPELEN / length` or equal to one, with
`SLOPELEN = 10.4`. A division by a zero length yields infinity in C, which no
fraction exceeds. -/
def TraceMove_stepup (SV_Move : vec3_t → vec3_t → vec3_t → vec3_t → Int → trace_t)
    (VectorLength : vec3_t → ℚ) (mins maxs : vec3_t) (ent : Int)
    (CurrentPos tempHorGoal : vec3_t) (fraction1 : ℚ) : Bool :=
  decide
    ((VectorLength (VectorSubtract (VectorAdd tempHorGoal (VectorScale (0, 0, 1) 18))
          (VectorAdd CurrentPos (VectorScale (0, 0, 1) 18))) ≠ 0 ∧
      (SV_Move (VectorAdd CurrentPos (VectorScale (0, 0, 1) 18)) mins maxs
          (VectorAdd tempHorGoal (VectorScale (0, 0, 1) 18)) ent).fraction
        > fraction1 + (52 / 5) /
            VectorLength (VectorSubtract (VectorAdd tempHorGoal (VectorScale (0, 0, 1) 18))
              (VectorAdd CurrentPos (VectorScale (0, 0, 1) 18)))) ∨
     (SV_Move (VectorAdd CurrentPos (VectorScale (0, 0, 1) 18)) mins maxs
          (VectorAdd tempHorGoal (VectorScale (0, 0, 1) 18)) ent).fraction = 1)

/-- The part of the loop body of `TraceMove` after the test of `skip`, where
no sample fell; `loop` is the loop itself, which a `continue` enters again. -/
def TraceMove_advance (SV_Move : vec3_t → vec3_t → vec3_t → vec3_t → Int → trace_t)
    (VectorLength : vec3_t → ℚ) (mins maxs end_ : vec3_t) (ent : Int)
    (loop : TraceMove_vars → Option Int) (v : TraceMove_vars) (trace1 : trace_t) :
    Option Int :=
  let CurrentPos : vec3_t :=
    if trace1.fraction > 0 ∧ trace1.fraction < 1 then trace1.endpos else v.CurrentPos
  let fraction1 : ℚ :=
    if trace1.fraction > 0 ∧ trace1.fraction < 1 then 0 else trace1.fraction
  if fraction1 < 1 then
    if TraceMove_stepup SV_Move VectorLength mins maxs ent CurrentPos v.tempHorGoal fraction1
        = true then
      loop
        { v with
          CurrentPos := VectorAdd CurrentPos (VectorScale (0, 0, 1) 18)
          tempHorGoal :=
            (v.tempHorGoal.1, v.tempHorGoal.2.1,
              (VectorAdd CurrentPos (VectorScale (0, 0, 1) 18)).2.2) }
    else some 0
  else if fraction1 = 1 then
    if end_.2.2 - v.tempHorGoal.2.2 < 18 ∧ end_.2.2 - v.tempHorGoal.2.2 > -1 * 18 then some 1
    else some 0
  else loop { v with CurrentPos := CurrentPos }

/-- The loop `while(CurrentDist < HorDist)` of `TraceMove` and the final
`return 0`, with `k` iterations left. -/
def TraceMove_loop (fuel : Nat)
    (SV_Move : vec3_t → vec3_t → vec3_t → vec3_t → Int → trace_t)
    (VectorLength : vec3_t → ℚ) (mins maxs end_ : vec3_t) (ent : Int)
    (forward : vec3_t) (HorDist : ℚ) : Nat → TraceMove_vars → Option Int
  | 0, _ => none
  | k + 1, v =>
    if v.CurrentDist < HorDist then
      if v.LoopBreak > 20 then some (-1)
      else
        match TraceMove_fall SV_Move mins maxs ent forward
            ((SV_Move v.CurrentPos mins maxs v.tempHorGoal ent).fraction
              * VectorLength (VectorSubtract v.tempHorGoal v.CurrentPos))
            v fuel maxs.1 with
        | none => none
        | some (some v1) =>
          TraceMove_loop fuel SV_Move VectorLength mins maxs end_ ent forward HorDist k v1
        | some none =>
          TraceMove_advance SV_Move VectorLength mins maxs end_ ent
            (TraceMove_loop fuel SV_Move VectorLength mins maxs end_ ent forward HorDist k)
            v (SV_Move v.CurrentPos mins maxs v.tempHorGoal ent)
    else some 0

/-- `TraceMove`: the value returned, or `none` when a loop uses up the fuel.
The parameter `type` of the C function is not read. -/
def TraceMove (fuel : Nat) (SV_Move : vec3_t → vec3_t → vec3_t → vec3_t → Int → trace_t)
    (VectorLength : vec3_t → ℚ) (VectorNormalize : vec3_t → vec3_t)
    (start mins maxs end_ : vec3_t) (ent : Int) : Option Int :=
  if start.1 = end_.1 ∧ start.2.1 = end_.2.1 ∧ start.2.2 = end_.2.2 then some 1
  else
    TraceMove_loop fuel SV_Move VectorLength mins maxs end_ ent
      (VectorNormalize (VectorSubtract (end_.1, end_.2.1, start.2.2) start))
      (VectorLength (VectorSubtract (end_.1, end_.2.1, start.2.2) start))
      fuel
      { CurrentPos := start
        tempHorGoal := (end_.1, end_.2.1, start.2.2)
        CurrentDist := 0
        LoopBreak := 0 }

/-! ## Specification vocabulary -/

/-- Waypoint `n` stands in a slot of the neighbour list of `c` that the loops
over `target_id` read, that is, before the first negative entry. -/
def Edge (g : Graph) (c n : Int) : Prop :=
  ∃ k : Nat, k < 8 ∧ (∀ j : Nat, j ≤ k → 0 ≤ g.target_id c j) ∧ g.target_id c k = n

/-- A valid non-zero waypoint index: `1 .. MAX_WAYPOINTS - 1`. -/
def ValidIndex (N : Nat) (n : Int) : Prop := 1 ≤ n ∧ n < (N : Int)

/-- Every edge that leaves a valid non-zero waypoint ends in one. -/
def ValidGraph (N : Nat) (g : Graph) : Prop :=
  ∀ c n : Int, ValidIndex N c → Edge g c n → ValidIndex N n

/-- One hop of a route: an edge into a waypoint whose `open` flag is set. -/
def OpenStep (g : Graph) (a b : Int) : Prop := Edge g a b ∧ g.open_ b ≠ 0

/-- A directed path `a = n0 -> n1 -> ... -> nk = b` (`k ≥ 0`) along the
neighbour lists in which every node after `n0` is open. -/
def OpenPath (g : Graph) (a b : Int) : Prop := Relation.ReflTransGen (OpenStep g) a b

/-- A directed path from `s` to `b` along the neighbour lists in which every
node other than `s` itself is open, also where the path comes back to `s`. -/
def OpenPathExempt (g : Graph) (s b : Int) : Prop :=
  Relation.ReflTransGen (fun x y => Edge g x y ∧ (g.open_ y ≠ 0 ∨ y = s)) s b

/-- The open list is in ascending `f_score` order. -/
def SortedOpen {N : Nat} (st : Search N) : Prop :=
  ∀ i j : Int, 0 ≤ i → i ≤ j → j < st.opensetLength →
    aget st.f_score (aget st.openset i) ≤ aget st.f_score (aget st.openset j)

/-- A complete route in `proces_list`: the sentinel, then the waypoints from
`e` back to `s` at the indices `1 .. k`, then zeros; no waypoint twice, each
hop along a forward edge, every waypoint before `s` open. -/
structure IsRoute {N : Nat} (g : Graph) (s e : Int) (pl : Arr N) (k : Int) : Prop where
  sentinel : aget pl 0 = -1
  first : aget pl 1 = e
  k_pos : 1 ≤ k
  last : aget pl k = s
  rest : ∀ j : Int, k < j → aget pl j = 0
  nodup : ∀ i j : Int, 1 ≤ i → i ≤ k → 1 ≤ j → j ≤ k → aget pl i = aget pl j → i = j
  edge : ∀ j : Int, 1 ≤ j → j < k → Edge g (aget pl (j + 1)) (aget pl j)
  open_ : ∀ j : Int, 1 ≤ j → j < k → g.open_ (aget pl j) ≠ 0
  valid : ∀ j : Int, 1 ≤ j → j ≤ k → ValidIndex N (aget pl j)

/-! ## Invariants of the search -/

/-- Well-formedness of the open list: `openset[0 .. len)` holds pairwise
different valid waypoints, the rest of `openset` is zero, and `opensetRef`
flags exactly the members. -/
structure OpenOK {N : Nat} (openset opensetRef : Arr N) (len : Int) : Prop where
  len_nonneg : 0 ≤ len
  valid : ∀ i : Int, 0 ≤ i → i < len → ValidIndex N (aget openset i)
  zero : ∀ i : Int, len ≤ i → aget openset i = 0
  inj : ∀ i j : Int, 0 ≤ i → i < len → 0 ≤ j → j < len →
    aget openset i = aget openset j → i = j
  ref : ∀ n : Int, aget opensetRef n ≠ 0 ↔ ∃ i : Int, 0 ≤ i ∧ i < len ∧ aget openset i = n

/-- Number of valid waypoints in the closed list. -/
def closedCount {N : Nat} (closedset : Arr N) : Nat :=
  ((Finset.Ico (1 : Int) N).filter (fun n => aget closedset n ≠ 0)).card

/-- The invariant of the search on the closed list and the open list. `cur`
and `i` describe the expansion in progress: the slots `0 .. i-1` of `cur` have
been handled; at the head of the main loop `i = 8`. -/
structure InvC {N : Nat} (g : Graph) (start_way end_way cur : Int) (i : Nat)
    (closedset openset opensetRef : Arr N) (len : Int) : Prop where
  open_ok : OpenOK openset opensetRef len
  closed_valid : ∀ n : Int, aget closedset n ≠ 0 → ValidIndex N n
  disjoint : ∀ n : Int, aget closedset n ≠ 0 → aget opensetRef n = 0
  sound : ∀ n : Int, aget closedset n ≠ 0 ∨ aget opensetRef n ≠ 0 → OpenPath g start_way n
  start_in : aget closedset start_way ≠ 0 ∨ aget opensetRef start_way ≠ 0
  end_out : aget closedset end_way = 0
  closure : ∀ c : Int, aget closedset c ≠ 0 → ∀ k : Nat, k < 8 → (c = cur → k < i) →
    (∀ j : Nat, j ≤ k → 0 ≤ g.target_id c j) → g.open_ (g.target_id c k) ≠ 0 →
    aget closedset (g.target_id c k) ≠ 0 ∨ aget opensetRef (g.target_id c k) ≠ 0

/-- The invariant `InvC` of a workspace. -/
def Inv {N : Nat} (g : Graph) (start_way end_way cur : Int) (i : Nat) (st : Search N) : Prop :=
  InvC g start_way end_way cur i st.closedset st.openset st.opensetRef st.opensetLength

/-- The invariant of the search on `came_from`: every discovered waypoint
other than the start has a closed predecessor with a forward edge to it and a
smaller rank `r`, and ranks are bounded by the size of the closed list. -/
structure RankC {N : Nat} (g : Graph) (start_way : Int) (r : Int → Nat)
    (closedset opensetRef came_from : Arr N) : Prop where
  parent : ∀ n : Int, aget closedset n ≠ 0 ∨ aget opensetRef n ≠ 0 → n ≠ start_way →
    aget closedset (aget came_from n) ≠ 0 ∧ Edge g (aget came_from n) n ∧
      g.open_ n ≠ 0 ∧ r (aget came_from n) < r n
  closed_lt : ∀ n : Int, aget closedset n ≠ 0 → r n < closedCount closedset
  open_le : ∀ n : Int, aget opensetRef n ≠ 0 → r n ≤ closedCount closedset

/-- The invariant `RankC` of a workspace. -/
def RankOK {N : Nat} (g : Graph) (start_way : Int) (r : Int → Nat) (st : Search N) : Prop :=
  RankC g start_way r st.closedset st.opensetRef st.came_from

/-- The invariant of the search on the scores: the start has `g_score` zero,
every discovered waypoint has `f_score = g_score + heuristic`, every
discovered waypoint other than the start got its `g_score` from a closed
waypoint with an edge to it, and the start is closed as soon as another
waypoint is discovered. -/
structure ScoreC {N : Nat} (g : Graph) (s e : Int)
    (closedset opensetRef g_score f_score : Arr N) : Prop where
  start_zero : aget g_score s = 0
  f_eq : ∀ n : Int, aget closedset n ≠ 0 ∨ aget opensetRef n ≠ 0 →
    aget f_score n = aget g_score n + heuristic_cost_estimate g n e
  pred : ∀ n : Int, aget closedset n ≠ 0 ∨ aget opensetRef n ≠ 0 → n ≠ s →
    ∃ (p : Int) (k : Nat), aget closedset p ≠ 0 ∧ k < 8 ∧
      (∀ j : Nat, j ≤ k → 0 ≤ g.target_id p j) ∧ g.target_id p k = n ∧
      aget g_score n = aget g_score p + g.dist p k
  start_first : ∀ n : Int, aget closedset n ≠ 0 ∨ aget opensetRef n ≠ 0 → n ≠ s →
    aget closedset s ≠ 0

/-- The invariant `ScoreC` of a workspace. -/
def ScoreOK {N : Nat} (g : Graph) (s e : Int) (st : Search N) : Prop :=
  ScoreC g s e st.closedset st.opensetRef st.g_score st.f_score

/-! ## Vocabulary of the resolver -/

/-- Waypoint `i` is used and open, and the sweep from `org` to it that ignores
`ent` is unobstructed. -/
def Candidate (g : Graph) (sweep : Int × Int × Int → Int × Int × Int → Int → Bool)
    (org : Int × Int × Int) (ent i : Int) : Prop :=
  g.used i ≠ 0 ∧ g.open_ i ≠ 0 ∧ sweep org (g.origin i) ent = true

/-- Waypoint `b` of the table is a candidate and no candidate of the table is
nearer to `org`. -/
def Nearest (N : Nat) (g : Graph) (sweep : Int × Int × Int → Int × Int × Int → Int → Bool)
    (org : Int × Int × Int) (ent b : Int) : Prop :=
  0 ≤ b ∧ b < (N : Int) ∧ Candidate g sweep org ent b ∧
    ∀ j : Int, 0 ≤ j → j < (N : Int) → Candidate g sweep org ent j →
      VectorDistanceSquared (g.origin b) org ≤ VectorDistanceSquared (g.origin j) org

/-! ## Vocabulary of the path queries -/

/-- Record `i` is the one that the path queries find for the entity `entnum`:
the lowest record of `zombie_list` with that `zombienum`. -/
def FirstRecord {N : Nat} (zl : ZombieList N) (entnum i : Int) : Prop :=
  0 ≤ i ∧ i < (MaxZombies : Int) ∧ (zget zl i).zombienum = entnum ∧
    ∀ j : Int, 0 ≤ j → j < i → (zget zl j).zombienum ≠ entnum

/-- Every entry of `pathlist` above index `m` is zero. -/
def ZeroAbove {N : Nat} (pathlist : Arr N) (m : Int) : Prop :=
  ∀ j : Int, m < j → aget pathlist j = 0

/-- The `zombie_list` after successive calls of `Get_Next_Waypoint` for one
entity, one call for each start position of the list. -/
def Get_Next_Waypoint_calls {N : Nat} (g : Graph)
    (probe : vec3_t → vec3_t → vec3_t → vec3_t → Int → Int)
    (entnum : Int) (mins maxs : vec3_t) : List vec3_t → ZombieList N → Option (ZombieList N)
  | [], zl => some zl
  | start :: rest, zl =>
    match Get_Next_Waypoint g probe entnum start mins maxs zl with
    | none => none
    | some r => Get_Next_Waypoint_calls g probe entnum mins maxs rest r.2

/-! ## Vocabulary of `TraceMove` -/

/-- The locals of `TraceMove` after `k` iterations in each of which the first
sample, at the distance `maxs[0]`, fell the full length. -/
def TraceMove_fallen (forward : vec3_t) (maxs0 : ℚ) (v : TraceMove_vars) :
    Nat → TraceMove_vars
  | 0 => v
  | k + 1 =>
    { CurrentPos :=
        VectorAdd (VectorAdd (VectorScale forward maxs0)
          (TraceMove_fallen forward maxs0 v k).CurrentPos) (VectorScale (0, 0, 1) (1 * -100))
      tempHorGoal :=
        VectorAdd (TraceMove_fallen forward maxs0 v k).tempHorGoal
          (VectorScale (0, 0, 1) (1 * -100))
      CurrentDist := (TraceMove_fallen forward maxs0 v k).CurrentDist + maxs0
      LoopBreak := (TraceMove_fallen forward maxs0 v k).LoopBreak + 1 }

/-! ## Vocabulary of the refinement and of call sequences -/

/-- The values of `curScale` and `temp` in the successive iterations of the
loop `for (q = 0; q < iterations; q++)` of the path queries, with `k`
iterations left; the arguments after `k` are `curScale` and `Scalar` at the
head of the iteration. -/
def Get_Waypoint_refine_trace (probe : vec3_t → vec3_t → vec3_t → vec3_t → Int → Int)
    (start mins maxs : vec3_t) (ent : Int) (curStart toAdd : vec3_t) :
    Nat → ℚ → ℚ → List (ℚ × vec3_t)
  | 0, _, _ => []
  | k + 1, curScale, Scalar =>
    (curScale * Scalar, VectorAdd (VectorScale toAdd (curScale * Scalar)) curStart) ::
      Get_Waypoint_refine_trace probe start mins maxs ent curStart toAdd k (curScale * Scalar)
        (if probe start mins maxs
            (VectorAdd (VectorScale toAdd (curScale * Scalar)) curStart) ent = 1
          then 1 / 2 + 1 else 1 / 2)

/-- The last point of a list whose probe succeeds, and `move` when there is
none. -/
def lastReached (probe : vec3_t → vec3_t → vec3_t → vec3_t → Int → Int)
    (start mins maxs : vec3_t) (ent : Int) (points : List vec3_t) (move : vec3_t) : vec3_t :=
  ((points.filter (fun t => decide (probe start mins maxs t ent = 1))).getLast?).getD move

/-- The point `a + c (b - a)` lies on the segment from `a` to `b`. -/
def OnSegment (a b p : vec3_t) : Prop :=
  ∃ c : ℚ, 0 ≤ c ∧ c ≤ 1 ∧ p = VectorAdd (VectorScale (VectorSubtract b a) c) a

/-- The `zombie_list` after a sequence of path queries for one entity; an
entry `(true, start)` of the list is a call of `Get_Next_Waypoint` and an
entry `(false, start)` a call of `Get_First_Waypoint`. -/
def Get_Waypoint_calls {N : Nat} (g : Graph)
    (probe : vec3_t → vec3_t → vec3_t → vec3_t → Int → Int)
    (entnum : Int) (mins maxs : vec3_t) :
    List (Bool × vec3_t) → ZombieList N → Option (ZombieList N)
  | [], zl => some zl
  | (true, start) :: rest, zl =>
    match Get_Next_Waypoint g probe entnum start mins maxs zl with
    | none => none
    | some r => Get_Waypoint_calls g probe entnum mins maxs rest r.2
  | (false, start) :: rest, zl =>
    match Get_First_Waypoint g probe entnum start mins maxs zl with
    | none => none
    | some r => Get_Waypoint_calls g probe entnum mins maxs rest r.2

/-- Every call of `Get_Next_Waypoint` in the sequence finds a non-zero entry
at an index `≥ 1` in record `i`. -/
def NextGuarded {N : Nat} (g : Graph)
    (probe : vec3_t → vec3_t → vec3_t → vec3_t → Int → Int)
    (entnum : Int) (mins maxs : vec3_t) (i : Int) :
    List (Bool × vec3_t) → ZombieList N → Prop
  | [], _ => True
  | (true, start) :: rest, zl =>
    (∃ x : Int, 1 ≤ x ∧ aget (zget zl i).pathlist x ≠ 0) ∧
      ∀ r : vec3_t × ZombieList N,
        Get_Next_Waypoint g probe entnum start mins maxs zl = some r →
        NextGuarded g probe entnum mins maxs i rest r.2
  | (false, start) :: rest, zl =>
    ∀ r : vec3_t × ZombieList N,
      Get_First_Waypoint g probe entnum start mins maxs zl = some r →
      NextGuarded g probe entnum mins maxs i rest r.2


/-! ## Vocabulary of the points of a search -/

/-- The three conditions of the membership mirror: `opensetRef[n]` is non-zero
exactly for the waypoints `n` that occur in `openset[0 .. len)`, no waypoint
occurs twice in that range, and every entry of `openset` at an index `≥ len`
is zero. -/
structure Mirror {N : Nat} (openset opensetRef : Arr N) (len : Int) : Prop where
  ref : ∀ n : Int, aget opensetRef n ≠ 0 ↔ ∃ i : Int, 0 ≤ i ∧ i < len ∧ aget openset i = n
  inj : ∀ i j : Int, 0 ≤ i → i < len → 0 ≤ j → j < len →
    aget openset i = aget openset j → i = j
  zero : ∀ i : Int, len ≤ i → aget openset i = 0

/-- The workspace inside iteration `k` of the main loop of `Pathfind` that
starts in `st`, after `current` has been moved to the closed list and the
first `j` passes of the loop over its neighbours have been made (fewer when
the loop has left at a negative `target_id`). -/
def Pathfind_point {N : Nat} (g : Graph) (end_way : Int) (k j : Nat) (st : Search N) :
    Option (Search N) :=
  match Pathfind_head g end_way k st with
  | none => none
  | some st1 =>
    if CheckIfEmptyList 2 st1 = 0 then
      if GetLowestFromOpenSet st1 = end_way then none
      else
        match AddWayToList 1 (GetLowestFromOpenSet st1) st1 with
        | none => none
        | some (_, st2) =>
          Pathfind_edges g end_way (GetLowestFromOpenSet st1) j 0
            (RemoveWayFromList 2 (GetLowestFromOpenSet st1) st2)
    else none

/-- Waypoint `a` is closed before waypoint `b` in the search that enters its
main loop in `st`: at the head of some iteration `a` is in the closed list and
`b` is not. -/
def ClosedBefore {N : Nat} (g : Graph) (end_way : Int) (st : Search N) (a b : Int) : Prop :=
  ∃ (m : Nat) (stm : Search N), Pathfind_head g end_way m st = some stm ∧
    aget stm.closedset a ≠ 0 ∧ aget stm.closedset b = 0
/-! ## Example inputs -/

/-- The all-zero workspace with the given `opensetLength`. -/
def Search.zero (N : Nat) (len : Int) : Search N :=
  { closedset := fun _ => 0
    openset := fun _ => 0
    opensetRef := fun _ => 0
    opensetLength := len
    g_score := fun _ => 0
    f_score := fun _ => 0
    came_from := fun _ => 0 }

/-- The chain `1 -> 2 -> 3` with distances 10 and 15, every waypoint open and
at the same position. -/
def chainGraph : Graph :=
  { origin := fun _ => (0, 0, 0)
    open_ := fun _ => 1
    used := fun _ => 1
    special := fun _ => ""
    target_id := fun w k => if w = 1 ∧ k = 0 then 2 else if w = 2 ∧ k = 0 then 3 else -1
    dist := fun w _ => if w = 1 then 10 else 15 }

/-- The fork `1 -> 2` (1), `1 -> 3` (50), `1 -> 4` (100), `2 -> 4` (1), every
waypoint open and at the same position. -/
def forkGraph : Graph :=
  { origin := fun _ => (0, 0, 0)
    open_ := fun _ => 1
    used := fun _ => 1
    special := fun _ => ""
    target_id := fun w k =>
      if w = 1 then (if k = 0 then 2 else if k = 1 then 3 else if k = 2 then 4 else -1)
      else if w = 2 then (if k = 0 then 4 else -1)
      else -1
    dist := fun w k =>
      if w = 1 then (if k = 0 then 1 else if k = 1 then 50 else 100) else 1 }

/-- A workspace of four waypoints whose open list holds waypoint 2 alone;
waypoints 1 and 2 both have `f_score` 5. -/
def tieState : Search 4 :=
  { closedset := fun _ => 0
    openset := fun i => if i.val = 0 then 2 else 0
    opensetRef := fun i => if i.val = 2 then 1 else 0
    opensetLength := 1
    g_score := fun _ => 0
    f_score := fun i => if i.val = 1 ∨ i.val = 2 then 5 else 0
    came_from := fun _ => 0 }

/-- The chain `1 -> 2 -> 3` with waypoint `i` at `(10 i, 0, 0)`; the waypoints
1, 2, 3 are used and open. -/
def navGraph : Graph :=
  { chainGraph with
    origin := fun i => (10 * i, 0, 0)
    used := fun i => if 1 ≤ i ∧ i ≤ 3 then 1 else 0 }

/-- A state without cached waypoints and without path records. -/
def navEmpty : Nav 4 :=
  { ws := Search.zero 4 0
    proces_list := fun _ => 0
    closest_waypoints := fun _ => -1
    zombie_list := fun _ => { zombienum := 0, pathlist := fun _ => 0 } }

/-- The collision world without obstacles, as the resolver sees it. -/
def sweepClear : Int × Int × Int → Int × Int × Int → Int → Bool := fun _ _ _ => true

/-- The collision world in which every sweep is obstructed. -/
def sweepBlocked : Int × Int × Int → Int × Int × Int → Int → Bool := fun _ _ _ => false

/-- The graph `navGraph` in which waypoint 2 carries the tag `door`. -/
def gateGraph : Graph :=
  { navGraph with special := fun i => if i = 2 then "door" else "" }

/-- The traversal probe of a world in which every move succeeds. -/
def probeClear : vec3_t → vec3_t → vec3_t → vec3_t → Int → Int := fun _ _ _ _ _ => 1

/-- The traversal probe of a world in which every move is blocked. -/
def probeBlocked : vec3_t → vec3_t → vec3_t → vec3_t → Int → Int := fun _ _ _ _ _ => 0

/-- A `zombie_list` whose record 0 belongs to entity 1 and holds the route
`[-1, 3, 2, 1]` from waypoint 1 to waypoint 3; the other records are free. -/
def routeList : ZombieList 4 :=
  fun i =>
    if i.val = 0 then
      { zombienum := 1, pathlist := fun s => if s.val = 0 then -1 else 4 - (s.val : Int) }
    else { zombienum := 0, pathlist := fun _ => 0 }

/-- The graph `navGraph` moved by 5 along the first axis, so that the origin
of waypoint 0 is not the zero vector. -/
def offsetGraph : Graph :=
  { navGraph with origin := fun i => (10 * i + 5, 0, 0) }

/-- A collision world over level ground: a sweep that ends below its start is
stopped at once, every other sweep is unobstructed. -/
def flatWorld : vec3_t → vec3_t → vec3_t → vec3_t → Int → trace_t :=
  fun start _ _ end_ _ =>
    if end_.2.2 < start.2.2 then { fraction := 0, endpos := start }
    else { fraction := 1, endpos := end_ }

/-- The collision world without any solid: every sweep is unobstructed. -/
def voidWorld : vec3_t → vec3_t → vec3_t → vec3_t → Int → trace_t :=
  fun _ _ _ end_ _ => { fraction := 1, endpos := end_ }

/-- The sum of the absolute values of the components, which is the length of
a vector that lies along one axis. -/
def axisLength (v : vec3_t) : ℚ := |v.1| + |v.2.1| + |v.2.2|

/-- The vector scaled to `axisLength` one; the zero vector stays. -/
def axisNormalize (v : vec3_t) : vec3_t :=
  if axisLength v = 0 then v else VectorScale v (1 / axisLength v)


/-- The traversal probe of a world in which a move succeeds exactly when its
goal lies before 28 on the first axis; a move that does not succeed reports
`-1`. -/
def probeNear : vec3_t → vec3_t → vec3_t → vec3_t → Int → Int :=
  fun _ _ _ end_ _ => if end_.1 < 28 then 1 else -1

/-- The probe `probeNear` with the result `0` in the place of `-1`. -/
def probeNearZero : vec3_t → vec3_t → vec3_t → vec3_t → Int → Int :=
  fun _ _ _ end_ _ => if end_.1 < 28 then 1 else 0

/-- The traversal probe of a world in which only the move to the point
`(30, 0, 0)` is blocked. -/
def probeExcept : vec3_t → vec3_t → vec3_t → vec3_t → Int → Int :=
  fun _ _ _ end_ _ => if end_ = ((30 : ℚ), (0 : ℚ), (0 : ℚ)) then 0 else 1
/-! ## Array lemmas -/

theorem aget_aset {n : Nat} (a : Arr n) (i v j : Int) :
    aget (aset a i v) j = if j = i ∧ 0 ≤ j ∧ j < (n : Int) then v else aget a j := by
  unfold aget aset
  by_cases h : 0 ≤ j ∧ j < (n : Int)
  · have hj : ((j.toNat : Nat) : Int) = j := Int.toNat_of_nonneg h.1
    by_cases hji : j = i
    · subst hji
      simp [h, hj]
    · have : ¬ ((j.toNat : Nat) : Int) = i := by rw [hj]; exact hji
      simp [h, hji, this]
  · have : ¬ (j = i ∧ 0 ≤ j ∧ j < (n : Int)) := fun hh => h hh.2
    simp [h, this]

theorem aget_aset_ne {n : Nat} (a : Arr n) (i v j : Int) (h : j ≠ i) :
    aget (aset a i v) j = aget a j := by
  rw [aget_aset]; simp [h]

theorem aget_aset_eq {n : Nat} (a : Arr n) (i v : Int) (h0 : 0 ≤ i) (h1 : i < (n : Int)) :
    aget (aset a i v) i = v := by
  rw [aget_aset]; simp [h0, h1]

theorem aget_oob {n : Nat} (a : Arr n) (i : Int) (h : ¬ (0 ≤ i ∧ i < (n : Int))) :
    aget a i = 0 := by
  unfold aget; simp [h]

theorem aget_ne_zero_bounds {n : Nat} (a : Arr n) (i : Int) (h : aget a i ≠ 0) :
    0 ≤ i ∧ i < (n : Int) := by
  by_contra hc
  exact h (aget_oob a i hc)

theorem Arr_ext {n : Nat} (a b : Arr n)
    (h : ∀ i : Int, 0 ≤ i → i < (n : Int) → aget a i = aget b i) : a = b := by
  funext j
  have h0 : (0 : Int) ≤ (j.val : Int) := Int.ofNat_nonneg _
  have h1 : ((j.val : Nat) : Int) < (n : Int) := by exact_mod_cast j.isLt
  have := h j.val h0 h1
  simpa [aget, h0, h1] using this

theorem aget_zero {n : Nat} (i : Int) : aget (fun _ => 0 : Arr n) i = 0 := by
  unfold aget; split <;> rfl

theorem AddWayToList_shift_get {N : Nat} (max : Int) (k : Nat) (a : Arr N)
    (h0 : 0 ≤ max) (h1 : max + k < (N : Int)) (j : Int) :
    aget (AddWayToList_shift a max k) j =
      if max < j ∧ j ≤ max + k then aget a (j - 1) else aget a j := by
  induction k generalizing a with
  | zero =>
    have : ¬ (max < j ∧ j ≤ max + ((0 : Nat) : Int)) := by omega
    rw [AddWayToList_shift, if_neg this]
  | succ k ih =>
    have ih1 := ih (aset a (max + (k + 1)) (aget a (max + k))) (by push_cast at h1 ⊢; omega)
    rw [AddWayToList_shift, ih1]
    push_cast at h1 ⊢
    by_cases hj : max < j ∧ j ≤ max + k
    · have hj2 : max < j ∧ j ≤ max + (k + 1) := by omega
      rw [if_pos hj, if_pos hj2, aget_aset_ne _ _ _ _ (by omega)]
    · rw [if_neg hj]
      by_cases hj3 : j = max + (k + 1)
      · have hj2 : max < j ∧ j ≤ max + (k + 1) := by omega
        rw [if_pos hj2, hj3, aget_aset_eq _ _ _ (by omega) (by omega)]
        congr 1; omega
      · have hj2 : ¬ (max < j ∧ j ≤ max + (k + 1)) := by omega
        rw [if_neg hj2, aget_aset_ne _ _ _ _ hj3]

theorem RemoveWayFromList_shift_get {N : Nat} (k : Nat) (s : Int) (a : Arr N)
    (h0 : 0 ≤ s) (h1 : s + k ≤ (N : Int)) (j : Int) :
    aget (RemoveWayFromList_shift a k s) j =
      if s ≤ j ∧ j < s + k then aget a (j + 1) else aget a j := by
  induction k generalizing a s with
  | zero =>
    have : ¬ (s ≤ j ∧ j < s + ((0 : Nat) : Int)) := by omega
    rw [RemoveWayFromList_shift, if_neg this]
  | succ k ih =>
    have ih1 := ih (s + 1) (aset a s (aget a (s + 1))) (by omega) (by push_cast at h1 ⊢; omega)
    rw [RemoveWayFromList_shift, ih1]
    push_cast at h1 ⊢
    by_cases hj : s + 1 ≤ j ∧ j < s + 1 + k
    · have hj2 : s ≤ j ∧ j < s + (k + 1) := by omega
      rw [if_pos hj, if_pos hj2, aget_aset_ne _ _ _ _ (by omega)]
    · rw [if_neg hj]
      by_cases hj3 : j = s
      · have hj2 : s ≤ j ∧ j < s + (k + 1) := by omega
        rw [if_pos hj2, hj3, aget_aset_eq _ _ _ (by omega) (by omega)]
      · have hj2 : ¬ (s ≤ j ∧ j < s + (k + 1)) := by omega
        rw [if_neg hj2, aget_aset_ne _ _ _ _ hj3]


/-! ## The open list -/

theorem OpenOK_len_le {N : Nat} {os ref : Arr N} {len : Int} (h : OpenOK os ref len)
    (hN : 1 ≤ N) : len ≤ (N : Int) - 1 := by
  have hc := Finset.card_le_card_of_injOn (s := Finset.Ico (0 : Int) len)
    (t := Finset.Ico (1 : Int) N) (fun i => aget os i)
    (by
      intro i hi
      rw [Finset.mem_Ico] at hi
      rw [Finset.mem_Ico]
      exact h.valid i hi.1 hi.2)
    (by
      intro i hi j hj hij
      rw [Finset.mem_coe, Finset.mem_Ico] at hi hj
      exact h.inj i j hi.1 hi.2 hj.1 hj.2 hij)
  rw [Int.card_Ico, Int.card_Ico] at hc
  have h0 : 0 ≤ len := h.len_nonneg
  omega

theorem OpenOK_len_lt_of_absent {N : Nat} {os ref : Arr N} {len : Int} (h : OpenOK os ref len)
    (n : Int) (hn : ValidIndex N n) (hr : aget ref n = 0) : len ≤ (N : Int) - 2 := by
  have hc := Finset.card_le_card_of_injOn (s := Finset.Ico (0 : Int) len)
    (t := (Finset.Ico (1 : Int) N).erase n) (fun i => aget os i)
    (by
      intro i hi
      rw [Finset.mem_Ico] at hi
      rw [Finset.mem_erase, Finset.mem_Ico]
      refine ⟨?_, h.valid i hi.1 hi.2⟩
      intro he
      exact ((h.ref n).2 ⟨i, hi.1, hi.2, he⟩) hr)
    (by
      intro i hi j hj hij
      rw [Finset.mem_coe, Finset.mem_Ico] at hi hj
      exact h.inj i j hi.1 hi.2 hj.1 hj.2 hij)
  rw [Finset.card_erase_of_mem (by rw [Finset.mem_Ico]; exact hn), Int.card_Ico,
    Int.card_Ico] at hc
  have := h.len_nonneg
  have h1 : 1 ≤ n := hn.1
  have h2 : n < (N : Int) := hn.2
  omega

theorem AddWayToList_search_some {N : Nat} (waynum wayVal : Int) (st : Search N) :
    ∀ (fuel : Nat) (min max : Int), min < max → (max - min).toNat ≤ fuel → -1 ≤ min →
      ∃ p : Int, min < p ∧ p ≤ max ∧
        AddWayToList_search waynum wayVal st fuel min max =
          some (p, AddWayToList_insert waynum p st) := by
  intro fuel
  induction fuel with
  | zero => intro min max h1 h2 _; omega
  | succ fuel ih =>
    intro min max h1 h2 h3
    rw [AddWayToList_search, if_pos h1]
    by_cases hd : max - min = 1
    · rw [if_pos hd]
      exact ⟨max, h1, le_refl _, rfl⟩
    · rw [if_neg hd]
      have ht : Int.tdiv (min + max) 2 = (min + max) / 2 :=
        Int.tdiv_eq_ediv (by omega) (by norm_num)
      simp only [ht]
      generalize aget st.f_score (aget st.openset ((min + max) / 2)) = tv
      have hlo : min < (min + max) / 2 := by omega
      have hhi : (min + max) / 2 < max := by omega
      rcases lt_trichotomy wayVal tv with hlt | heq | hgt
      · have e1 : ¬ wayVal > tv := by omega
        have e3 : ¬ wayVal = tv := by omega
        simp only [if_neg e1, if_pos hlt, if_neg e3]
        obtain ⟨p, hp1, hp2, hp3⟩ := ih min ((min + max) / 2) hlo (by omega) h3
        exact ⟨p, hp1, by omega, hp3⟩
      · have e1 : ¬ wayVal > tv := by omega
        have e2 : ¬ wayVal < tv := by omega
        simp only [if_neg e1, if_neg e2, if_pos heq]
        obtain ⟨p, hp1, hp2, hp3⟩ := ih ((min + max) / 2 - 1) ((min + max) / 2)
          (by omega) (by omega) (by omega)
        exact ⟨p, by omega, by omega, hp3⟩
      · have e3 : ¬ wayVal = tv := by omega
        simp only [if_pos hgt, if_neg e3]
        obtain ⟨p, hp1, hp2, hp3⟩ := ih ((min + max) / 2) max hhi (by omega) (by omega)
        exact ⟨p, by omega, hp2, hp3⟩


theorem AddWayToList_insert_get {N : Nat} (os : Arr N) (len p n : Int)
    (h0 : 0 ≤ p) (h1 : p ≤ len) (h2 : len < (N : Int)) (j : Int) :
    aget (aset (AddWayToList_shift os p (len - p).toNat) p n) j =
      if j = p then n else if p < j ∧ j ≤ len then aget os (j - 1) else aget os j := by
  have hk : p + ((len - p).toNat : Int) = len := by omega
  by_cases hj : j = p
  · rw [if_pos hj, hj, aget_aset_eq _ _ _ h0 (by omega)]
  · rw [if_neg hj, aget_aset_ne _ _ _ _ hj,
      AddWayToList_shift_get p _ os h0 (by omega) j, hk]

theorem OpenOK_insert {N : Nat} {os ref : Arr N} {len : Int} (h : OpenOK os ref len)
    (n p : Int) (hn : ValidIndex N n) (hr : aget ref n = 0) (h0 : 0 ≤ p) (h1 : p ≤ len) :
    OpenOK (aset (AddWayToList_shift os p (len - p).toNat) p n) (aset ref n 1) (len + 1) := by
  have hlen := OpenOK_len_lt_of_absent h n hn hr
  have hget := AddWayToList_insert_get os len p n h0 h1 (by omega)
  have hn1 : 1 ≤ n := hn.1
  have hn2 : n < (N : Int) := hn.2
  have habs : ∀ i : Int, 0 ≤ i → i < len → aget os i ≠ n := by
    intro i hi0 hi1 he
    exact ((h.ref n).2 ⟨i, hi0, hi1, he⟩) hr
  refine ⟨by have := h.len_nonneg; omega, ?_, ?_, ?_, ?_⟩
  · intro i hi0 hi1
    rw [hget]
    split_ifs with c1 c2
    · exact hn
    · exact h.valid (i - 1) (by omega) (by omega)
    · exact h.valid i hi0 (by omega)
  · intro i hi
    rw [hget]
    split_ifs with c1 c2
    · omega
    · omega
    · exact h.zero i (by omega)
  · intro i j hi0 hi1 hj0 hj1
    rw [hget, hget]
    split_ifs with c1 c2 c3 c4 c5 c6 c7
    · intro _; omega
    · intro e; exact absurd e.symm (habs (j - 1) (by omega) (by omega))
    · intro e; exact absurd e.symm (habs j (by omega) (by omega))
    · intro e; exact absurd e (habs (i - 1) (by omega) (by omega))
    · intro e
      have := h.inj (i - 1) (j - 1) (by omega) (by omega) (by omega) (by omega) e
      omega
    · intro e
      have := h.inj (i - 1) j (by omega) (by omega) (by omega) (by omega) e
      omega
    · intro e; exact absurd e (habs i (by omega) (by omega))
    · intro e
      have := h.inj i (j - 1) (by omega) (by omega) (by omega) (by omega) e
      omega
    · intro e
      exact h.inj i j (by omega) (by omega) (by omega) (by omega) e
  · intro m
    rw [aget_aset]
    constructor
    · intro hm
      by_cases hmn : m = n
      · exact ⟨p, h0, by omega, by rw [hget, if_pos rfl, hmn]⟩
      · have hm2 : aget ref m ≠ 0 := by
          have : ¬ (m = n ∧ 0 ≤ m ∧ m < (N : Int)) := fun hh => hmn hh.1
          rwa [if_neg this] at hm
        obtain ⟨i, hi0, hi1, hi2⟩ := (h.ref m).1 hm2
        by_cases hip : i < p
        · refine ⟨i, hi0, by omega, ?_⟩
          rw [hget, if_neg (by omega), if_neg (by omega), hi2]
        · refine ⟨i + 1, by omega, by omega, ?_⟩
          rw [hget, if_neg (by omega), if_pos (by omega)]
          rw [show i + 1 - 1 = i by omega, hi2]
    · rintro ⟨i, hi0, hi1, hi2⟩
      rw [hget] at hi2
      by_cases hmn : m = n
      · rw [if_pos ⟨hmn, by omega, by omega⟩]; norm_num
      · have : ¬ (m = n ∧ 0 ≤ m ∧ m < (N : Int)) := fun hh => hmn hh.1
        rw [if_neg this]
        split_ifs at hi2 with c1 c2
        · exact absurd hi2.symm hmn
        · exact (h.ref m).2 ⟨i - 1, by omega, by omega, hi2⟩
        · exact (h.ref m).2 ⟨i, hi0, by omega, hi2⟩

theorem AddWayToList_open {N : Nat} (n : Int) (st : Search N)
    (h : 0 ≤ st.opensetLength) :
    ∃ p : Int, 0 ≤ p ∧ p ≤ st.opensetLength ∧
      AddWayToList 2 n st = some (p, AddWayToList_insert n p st) := by
  obtain ⟨p, hp1, hp2, hp3⟩ := AddWayToList_search_some n (aget st.f_score n) st
    ((st.opensetLength + 1).toNat + 1) (-1) st.opensetLength (by omega) (by omega) (le_refl _)
  refine ⟨p, by omega, hp2, ?_⟩
  rw [AddWayToList, if_neg (by norm_num), if_pos rfl]
  exact hp3

theorem RemoveWayFromList_head {N : Nat} (st : Search N)
    (h : 0 < st.opensetLength) :
    RemoveWayFromList 2 (aget st.openset 0) st =
      { st with
        openset := RemoveWayFromList_shift (aset st.openset 0 0) st.opensetLength.toNat 0
        opensetRef := aset st.opensetRef (aget st.openset 0) 0
        opensetLength := st.opensetLength - 1 } := by
  rw [RemoveWayFromList, if_neg (by norm_num), if_pos rfl]
  obtain ⟨k, hk⟩ : ∃ k, st.opensetLength.toNat = k + 1 := ⟨st.opensetLength.toNat - 1, by omega⟩
  rw [hk, RemoveWayFromList_scan, if_pos rfl, ← hk]
  simp

theorem RemoveWayFromList_head_get {N : Nat} (os : Arr N) (len : Int)
    (h0 : 0 < len) (h1 : len ≤ (N : Int)) (j : Int) :
    aget (RemoveWayFromList_shift (aset os 0 0) len.toNat 0) j =
      if 0 ≤ j ∧ j < len then aget os (j + 1) else aget os j := by
  rw [RemoveWayFromList_shift_get _ _ _ (le_refl _) (by omega)]
  have e : (0 : Int) + (len.toNat : Int) = len := by omega
  rw [e]
  by_cases hj : 0 ≤ j ∧ j < len
  · rw [if_pos hj, if_pos hj, aget_aset_ne _ _ _ _ (by omega)]
  · rw [if_neg hj, if_neg hj]
    by_cases hj0 : j = 0
    · omega
    · rw [aget_aset_ne _ _ _ _ hj0]

theorem OpenOK_remove_head {N : Nat} {os ref : Arr N} {len : Int} (h : OpenOK os ref len)
    (h0 : 0 < len) :
    OpenOK (RemoveWayFromList_shift (aset os 0 0) len.toNat 0) (aset ref (aget os 0) 0)
      (len - 1) := by
  have hN : 1 ≤ N := by
    have := (h.valid 0 (le_refl _) h0).1
    have := (h.valid 0 (le_refl _) h0).2
    omega
  have hlen := OpenOK_len_le h hN
  have hget := RemoveWayFromList_head_get os len h0 (by omega)
  refine ⟨by omega, ?_, ?_, ?_, ?_⟩
  · intro i hi0 hi1
    rw [hget, if_pos ⟨hi0, by omega⟩]
    exact h.valid (i + 1) (by omega) (by omega)
  · intro i hi
    rw [hget]
    split_ifs with c
    · exact h.zero (i + 1) (by omega)
    · exact h.zero i (by omega)
  · intro i j hi0 hi1 hj0 hj1
    rw [hget, hget, if_pos ⟨hi0, by omega⟩, if_pos ⟨hj0, by omega⟩]
    intro e
    have := h.inj (i + 1) (j + 1) (by omega) (by omega) (by omega) (by omega) e
    omega
  · intro m
    rw [aget_aset]
    constructor
    · intro hm
      by_cases hmn : m = aget os 0 ∧ 0 ≤ m ∧ m < (N : Int)
      · rw [if_pos hmn] at hm; exact absurd rfl hm
      · rw [if_neg hmn] at hm
        obtain ⟨i, hi0, hi1, hi2⟩ := (h.ref m).1 hm
        have hi : i ≠ 0 := by
          intro hi
          apply hmn
          rw [hi] at hi2
          have := h.valid 0 (le_refl _) h0
          rw [hi2] at this
          exact ⟨hi2.symm, by have := this.1; omega, this.2⟩
        refine ⟨i - 1, by omega, by omega, ?_⟩
        rw [hget, if_pos ⟨by omega, by omega⟩, show i - 1 + 1 = i by omega, hi2]
    · rintro ⟨i, hi0, hi1, hi2⟩
      rw [hget, if_pos ⟨hi0, by omega⟩] at hi2
      have hne : m ≠ aget os 0 := by
        intro he
        rw [he] at hi2
        have := h.inj (i + 1) 0 (by omega) (by omega) (le_refl _) h0 hi2
        omega
      have : ¬ (m = aget os 0 ∧ 0 ≤ m ∧ m < (N : Int)) := fun hh => hne hh.1
      rw [if_neg this]
      exact (h.ref m).2 ⟨i + 1, by omega, by omega, hi2⟩

theorem AddWayToList_total {N : Nat} (listnumber n : Int) (st : Search N) :
    ∃ r : Int × Search N, AddWayToList listnumber n st = some r := by
  rw [AddWayToList]
  by_cases h1 : listnumber = 1
  · rw [if_pos h1]; exact ⟨_, rfl⟩
  · rw [if_neg h1]
    by_cases h2 : listnumber = 2
    · rw [if_pos h2]
      by_cases hlen : 0 ≤ st.opensetLength
      · obtain ⟨p, _, _, hp⟩ := AddWayToList_search_some n (aget st.f_score n) st
          ((st.opensetLength + 1).toNat + 1) (-1) st.opensetLength (by omega) (by omega)
          (le_refl _)
        exact ⟨_, hp⟩
      · rw [AddWayToList_search, if_neg (by omega)]
        exact ⟨_, rfl⟩
    · rw [if_neg h2]; exact ⟨_, rfl⟩


/-! ## The closed list -/

theorem closedCount_aset {N : Nat} (cl : Arr N) (c : Int) (hc : ValidIndex N c)
    (h0 : aget cl c = 0) : closedCount (aset cl c 1) = closedCount cl + 1 := by
  unfold closedCount
  have hc1 : 1 ≤ c := hc.1
  have hc2 : c < (N : Int) := hc.2
  have e : (Finset.Ico (1 : Int) N).filter (fun n => aget (aset cl c 1) n ≠ 0) =
      insert c ((Finset.Ico (1 : Int) N).filter (fun n => aget cl n ≠ 0)) := by
    ext n
    simp only [Finset.mem_filter, Finset.mem_insert, Finset.mem_Ico, aget_aset]
    by_cases hn : n = c
    · subst hn
      have : (n = n ∧ 0 ≤ n ∧ n < (N : Int)) := ⟨rfl, by omega, hc2⟩
      simp [this, hc1, hc2]
    · have : ¬ (n = c ∧ 0 ≤ n ∧ n < (N : Int)) := fun hh => hn hh.1
      simp [this, hn]
  rw [e, Finset.card_insert_of_not_mem]
  simp [h0]

theorem closedCount_le {N : Nat} (cl : Arr N) (e : Int) (he : ValidIndex N e)
    (h0 : aget cl e = 0) : closedCount cl + 2 ≤ N := by
  unfold closedCount
  have he1 : 1 ≤ e := he.1
  have he2 : e < (N : Int) := he.2
  have hsub : (Finset.Ico (1 : Int) N).filter (fun n => aget cl n ≠ 0) ⊆
      (Finset.Ico (1 : Int) N).erase e := by
    intro n hn
    rw [Finset.mem_filter] at hn
    rw [Finset.mem_erase]
    refine ⟨?_, hn.1⟩
    intro hne
    rw [hne] at hn
    exact hn.2 h0
  have hc := Finset.card_le_card hsub
  rw [Finset.card_erase_of_mem (by rw [Finset.mem_Ico]; exact he), Int.card_Ico] at hc
  omega

theorem CheckIfEmptyList_scan_open {N : Nat} (st : Search N) (k : Nat) (i : Int) :
    (CheckIfEmptyList_scan 2 st k i = 1 ∧ ∀ j : Int, i ≤ j → j < i + k → aget st.openset j = 0) ∨
    (CheckIfEmptyList_scan 2 st k i = 0 ∧ ∃ j : Int, i ≤ j ∧ j < i + k ∧ aget st.openset j ≠ 0) := by
  induction k generalizing i with
  | zero =>
    left
    refine ⟨rfl, ?_⟩
    intro j h1 h2
    push_cast at h2
    omega
  | succ k ih =>
    rw [CheckIfEmptyList_scan, if_neg (by norm_num), if_pos rfl]
    by_cases h : aget st.openset i ≠ 0
    · right
      rw [if_pos h]
      exact ⟨rfl, i, le_refl _, by push_cast; omega, h⟩
    · rw [if_neg h]
      rcases ih (i + 1) with ⟨h1, h2⟩ | ⟨h1, j, h2, h3, h4⟩
      · left
        refine ⟨h1, ?_⟩
        intro j hj1 hj2
        by_cases hji : j = i
        · rw [hji]; exact not_not.mp h
        · exact h2 j (by omega) (by push_cast at hj2; omega)
      · right
        exact ⟨h1, j, by omega, by push_cast; omega, h4⟩

theorem CheckIfEmptyList_open {N : Nat} (st : Search N)
    (h : OpenOK st.openset st.opensetRef st.opensetLength) :
    (CheckIfEmptyList 2 st = 0 ∧ 0 < st.opensetLength) ∨
    (CheckIfEmptyList 2 st = 1 ∧ st.opensetLength = 0) := by
  unfold CheckIfEmptyList
  rcases CheckIfEmptyList_scan_open st N 0 with ⟨h1, h2⟩ | ⟨h1, j, h2, h3, h4⟩
  · right
    refine ⟨h1, ?_⟩
    by_contra hne
    have hpos : 0 < st.opensetLength := by have := h.len_nonneg; omega
    have hv := h.valid 0 (le_refl _) hpos
    have hv1 : 1 ≤ aget st.openset 0 := hv.1
    have hv2 : aget st.openset 0 < (N : Int) := hv.2
    have := h2 0 (le_refl _) (by omega)
    omega
  · left
    refine ⟨h1, ?_⟩
    by_contra hne
    exact h4 (h.zero j (by omega))


/-! ## One step of the search -/

theorem aget_aset_one_ne_zero {N : Nat} (a : Arr N) (c n : Int) (hc : ValidIndex N c) :
    aget (aset a c 1) n ≠ 0 ↔ n = c ∨ aget a n ≠ 0 := by
  have hc1 : 1 ≤ c := hc.1
  have hc2 : c < (N : Int) := hc.2
  rw [aget_aset]
  by_cases hn : n = c
  · rw [if_pos ⟨hn, by omega, by omega⟩]
    simp [hn]
  · rw [if_neg (fun hh => hn hh.1)]
    simp [hn]

theorem aget_aset_zero_ne_zero {N : Nat} (a : Arr N) (c n : Int) :
    aget (aset a c 0) n ≠ 0 ↔ n ≠ c ∧ aget a n ≠ 0 := by
  rw [aget_aset]
  by_cases hn : n = c ∧ 0 ≤ n ∧ n < (N : Int)
  · rw [if_pos hn]
    simp [hn.1]
  · rw [if_neg hn]
    constructor
    · intro h
      refine ⟨?_, h⟩
      intro hnc
      exact hn ⟨hnc, aget_ne_zero_bounds a n h⟩
    · exact fun h => h.2

theorem CheckIfWayInList_closed {N : Nat} (n : Int) (st : Search N) :
    CheckIfWayInList 1 n st = if aget st.closedset n ≠ 0 then 1 else 0 := by
  unfold CheckIfWayInList
  by_cases h : aget st.closedset n ≠ 0
  · rw [if_pos ⟨rfl, h⟩, if_pos h]
  · rw [if_neg (fun hh => h hh.2), if_neg (by norm_num), if_neg h]

theorem CheckIfWayInList_open {N : Nat} (n : Int) (st : Search N) :
    CheckIfWayInList 2 n st = if aget st.opensetRef n ≠ 0 then 1 else 0 := by
  unfold CheckIfWayInList
  rw [if_neg (by norm_num)]
  by_cases h : aget st.opensetRef n ≠ 0
  · rw [if_pos ⟨rfl, h⟩, if_pos h]
  · rw [if_neg (fun hh => h hh.2), if_neg h]

theorem InvC_head {N : Nat} {g : Graph} {s e cur : Int} {i : Nat} {cl os ref : Arr N}
    {len : Int} (h : InvC g s e cur i cl os ref len) (hlen : 0 < len) :
    ValidIndex N (aget os 0) ∧ aget ref (aget os 0) ≠ 0 ∧ aget cl (aget os 0) = 0 := by
  have hv := h.open_ok.valid 0 (le_refl _) hlen
  have hr : aget ref (aget os 0) ≠ 0 := (h.open_ok.ref _).2 ⟨0, le_refl _, hlen, rfl⟩
  refine ⟨hv, hr, ?_⟩
  by_contra hc
  exact hr (h.disjoint _ hc)

theorem InvC_pop {N : Nat} {g : Graph} {s e cur : Int} {cl os ref : Arr N} {len : Int}
    (h : InvC g s e cur 8 cl os ref len) (hlen : 0 < len) (hne : aget os 0 ≠ e) :
    InvC g s e (aget os 0) 0 (aset cl (aget os 0) 1)
      (RemoveWayFromList_shift (aset os 0 0) len.toNat 0) (aset ref (aget os 0) 0)
      (len - 1) := by
  obtain ⟨hcv, hcr, hcc⟩ := InvC_head h hlen
  refine ⟨OpenOK_remove_head h.open_ok hlen, ?_, ?_, ?_, ?_, ?_, ?_⟩
  · intro n hn
    rcases (aget_aset_one_ne_zero cl _ n hcv).1 hn with hn | hn
    · rw [hn]; exact hcv
    · exact h.closed_valid n hn
  · intro n hn
    by_contra hr
    have hr2 := (aget_aset_zero_ne_zero ref _ n).1 hr
    rcases (aget_aset_one_ne_zero cl _ n hcv).1 hn with hn | hn
    · exact hr2.1 hn
    · exact hr2.2 (h.disjoint n hn)
  · intro n hn
    apply h.sound
    rcases hn with hn | hn
    · rcases (aget_aset_one_ne_zero cl _ n hcv).1 hn with hn | hn
      · right; rw [hn]; exact hcr
      · left; exact hn
    · right; exact ((aget_aset_zero_ne_zero ref _ n).1 hn).2
  · by_cases hs : s = aget os 0
    · left; exact (aget_aset_one_ne_zero cl _ s hcv).2 (Or.inl hs)
    · rcases h.start_in with hh | hh
      · left; exact (aget_aset_one_ne_zero cl _ s hcv).2 (Or.inr hh)
      · right; exact (aget_aset_zero_ne_zero ref _ s).2 ⟨hs, hh⟩
  · by_contra hc
    rcases (aget_aset_one_ne_zero cl _ e hcv).1 hc with hc | hc
    · exact hne hc.symm
    · exact hc h.end_out
  · intro c hc k hk hck hpre hop
    have hcne : c ≠ aget os 0 := by
      intro hh
      have := hck hh
      omega
    have hc2 : aget cl c ≠ 0 := by
      rcases (aget_aset_one_ne_zero cl _ c hcv).1 hc with hc | hc
      · exact absurd hc hcne
      · exact hc
    by_cases ht : g.target_id c k = aget os 0
    · left; exact (aget_aset_one_ne_zero cl _ _ hcv).2 (Or.inl ht)
    · rcases h.closure c hc2 k hk (fun _ => hk) hpre hop with hh | hh
      · left; exact (aget_aset_one_ne_zero cl _ _ hcv).2 (Or.inr hh)
      · right; exact (aget_aset_zero_ne_zero ref _ _).2 ⟨ht, hh⟩

theorem RankC_pop {N : Nat} {g : Graph} {s : Int} {r : Int → Nat} {cl ref cf : Arr N}
    (h : RankC g s r cl ref cf) (c : Int) (hcv : ValidIndex N c) (hcr : aget ref c ≠ 0)
    (hcc : aget cl c = 0) : RankC g s r (aset cl c 1) (aset ref c 0) cf := by
  have hcount := closedCount_aset cl c hcv hcc
  have hold : ∀ n : Int, aget (aset cl c 1) n ≠ 0 ∨ aget (aset ref c 0) n ≠ 0 →
      aget cl n ≠ 0 ∨ aget ref n ≠ 0 := by
    intro n hn
    rcases hn with hn | hn
    · rcases (aget_aset_one_ne_zero cl _ n hcv).1 hn with hn | hn
      · right; rw [hn]; exact hcr
      · left; exact hn
    · right; exact ((aget_aset_zero_ne_zero ref _ n).1 hn).2
  refine ⟨?_, ?_, ?_⟩
  · intro n hn hns
    obtain ⟨h1, h2, h3, h4⟩ := h.parent n (hold n hn) hns
    exact ⟨(aget_aset_one_ne_zero cl _ _ hcv).2 (Or.inr h1), h2, h3, h4⟩
  · intro n hn
    rw [hcount]
    rcases (aget_aset_one_ne_zero cl _ n hcv).1 hn with hn | hn
    · rw [hn]
      have := h.open_le c hcr
      omega
    · have := h.closed_lt n hn
      omega
  · intro n hn
    rw [hcount]
    have := h.open_le n ((aget_aset_zero_ne_zero ref _ n).1 hn).2
    omega

theorem InvC_advance {N : Nat} {g : Graph} {s e cur : Int} {i : Nat} {cl os ref : Arr N}
    {len : Int} (h : InvC g s e cur i cl os ref len)
    (hd : g.open_ (g.target_id cur i) ≠ 0 →
      aget cl (g.target_id cur i) ≠ 0 ∨ aget ref (g.target_id cur i) ≠ 0) :
    InvC g s e cur (i + 1) cl os ref len := by
  refine ⟨h.open_ok, h.closed_valid, h.disjoint, h.sound, h.start_in, h.end_out, ?_⟩
  intro c hc k hk hck hpre hop
  by_cases hci : c = cur ∧ k = i
  · obtain ⟨h1, h2⟩ := hci
    subst h1; subst h2
    exact hd hop
  · apply h.closure c hc k hk _ hpre hop
    intro hcc
    have := hck hcc
    have : k ≠ i := fun hki => hci ⟨hcc, hki⟩
    omega

theorem InvC_finish {N : Nat} {g : Graph} {s e cur : Int} {i : Nat} {cl os ref : Arr N}
    {len : Int} (h : InvC g s e cur i cl os ref len)
    (hd : i = 8 ∨ g.target_id cur i < 0) (cur2 : Int) :
    InvC g s e cur2 8 cl os ref len := by
  refine ⟨h.open_ok, h.closed_valid, h.disjoint, h.sound, h.start_in, h.end_out, ?_⟩
  intro c hc k hk _ hpre hop
  apply h.closure c hc k hk _ hpre hop
  intro hcc
  subst hcc
  rcases hd with hd | hd
  · omega
  · by_contra hki
    have := hpre i (by omega)
    omega

theorem InvC_insert {N : Nat} {g : Graph} {s e cur : Int} {i : Nat} {cl os ref : Arr N}
    {len : Int} (h : InvC g s e cur i cl os ref len) (n p : Int)
    (hn : ValidIndex N n) (hr : aget ref n = 0) (hcl : aget cl n = 0)
    (hpath : OpenPath g s n) (h0 : 0 ≤ p) (h1 : p ≤ len) :
    InvC g s e cur i cl (aset (AddWayToList_shift os p (len - p).toNat) p n)
      (aset ref n 1) (len + 1) := by
  refine ⟨OpenOK_insert h.open_ok n p hn hr h0 h1, h.closed_valid, ?_, ?_, ?_, h.end_out, ?_⟩
  · intro m hm
    by_contra hc
    rcases (aget_aset_one_ne_zero ref _ m hn).1 hc with hc | hc
    · rw [hc] at hm
      exact hm hcl
    · exact hc (h.disjoint m hm)
  · intro m hm
    rcases hm with hm | hm
    · exact h.sound m (Or.inl hm)
    · rcases (aget_aset_one_ne_zero ref _ m hn).1 hm with hm | hm
      · rw [hm]; exact hpath
      · exact h.sound m (Or.inr hm)
  · rcases h.start_in with hh | hh
    · left; exact hh
    · right; exact (aget_aset_one_ne_zero ref _ _ hn).2 (Or.inr hh)
  · intro c hc k hk hck hpre hop
    rcases h.closure c hc k hk hck hpre hop with hh | hh
    · left; exact hh
    · right; exact (aget_aset_one_ne_zero ref _ _ hn).2 (Or.inr hh)


theorem ScoreC_pop {N : Nat} {g : Graph} {s e : Int} {cl ref gs fs : Arr N}
    (h : ScoreC g s e cl ref gs fs) (c : Int) (hcv : ValidIndex N c)
    (hcr : aget ref c ≠ 0) : ScoreC g s e (aset cl c 1) (aset ref c 0) gs fs := by
  have hold : ∀ n : Int, aget (aset cl c 1) n ≠ 0 ∨ aget (aset ref c 0) n ≠ 0 →
      aget cl n ≠ 0 ∨ aget ref n ≠ 0 := by
    intro n hn
    rcases hn with hn | hn
    · rcases (aget_aset_one_ne_zero cl _ n hcv).1 hn with hn | hn
      · right; rw [hn]; exact hcr
      · left; exact hn
    · right; exact ((aget_aset_zero_ne_zero ref _ n).1 hn).2
  refine ⟨h.start_zero, fun n hn => h.f_eq n (hold n hn), ?_, ?_⟩
  · intro n hn hns
    obtain ⟨p, k, h1, h2⟩ := h.pred n (hold n hn) hns
    exact ⟨p, k, (aget_aset_one_ne_zero cl _ p hcv).2 (Or.inr h1), h2⟩
  · intro n hn hns
    exact (aget_aset_one_ne_zero cl _ s hcv).2 (Or.inr (h.start_first n (hold n hn) hns))

theorem ScoreC_update {N : Nat} {g : Graph} {s e : Int} {cl ref gs fs : Arr N}
    (h : ScoreC g s e cl ref gs fs) (cur : Int) (i : Nat) (hcur : aget cl cur ≠ 0)
    (hi : i < 8) (hpre : ∀ j : Nat, j ≤ i → 0 ≤ g.target_id cur j)
    (hcl0 : aget cl (g.target_id cur i) = 0) (ref1 gs1 fs1 : Arr N)
    (hoff : ∀ n : Int, n ≠ g.target_id cur i →
      aget gs1 n = aget gs n ∧ aget fs1 n = aget fs n ∧ (aget ref1 n ≠ 0 → aget ref n ≠ 0))
    (hon : (aget gs1 (g.target_id cur i) = aget gs (g.target_id cur i) ∧
        aget fs1 (g.target_id cur i) = aget fs (g.target_id cur i) ∧
        (aget ref1 (g.target_id cur i) ≠ 0 → aget ref (g.target_id cur i) ≠ 0)) ∨
      (aget gs1 (g.target_id cur i) = aget gs cur + g.dist cur i ∧
        aget fs1 (g.target_id cur i) =
          aget gs cur + g.dist cur i + heuristic_cost_estimate g (g.target_id cur i) e)) :
    ScoreC g s e cl ref1 gs1 fs1 := by
  have hsc : aget cl s ≠ 0 := by
    by_cases hcs : cur = s
    · rw [← hcs]; exact hcur
    · exact h.start_first cur (Or.inl hcur) hcs
  have hne : ∀ n : Int, aget cl n ≠ 0 → n ≠ g.target_id cur i := by
    intro n hn hh
    rw [hh] at hn
    exact hn hcl0
  have hgcl : ∀ n : Int, aget cl n ≠ 0 → aget gs1 n = aget gs n :=
    fun n hn => (hoff n (hne n hn)).1
  refine ⟨?_, ?_, ?_, fun _ _ _ => hsc⟩
  · rw [hgcl s hsc]; exact h.start_zero
  · intro n hn
    by_cases hnb : n = g.target_id cur i
    · rcases hon with ⟨a1, a2, a3⟩ | ⟨a1, a2⟩
      · rw [hnb, a1, a2]
        apply h.f_eq
        rcases hn with hn | hn
        · exact absurd hnb (hne n hn)
        · right; rw [hnb] at hn; exact a3 hn
      · rw [hnb, a1, a2]
    · obtain ⟨b1, b2, b3⟩ := hoff n hnb
      rw [b1, b2]
      apply h.f_eq
      rcases hn with hn | hn
      · left; exact hn
      · right; exact b3 hn
  · intro n hn hns
    by_cases hnb : n = g.target_id cur i
    · rcases hon with ⟨a1, a2, a3⟩ | ⟨a1, a2⟩
      · have hold : aget cl n ≠ 0 ∨ aget ref n ≠ 0 := by
          rcases hn with hn | hn
          · left; exact hn
          · right; rw [hnb] at hn; rw [hnb]; exact a3 hn
        obtain ⟨p, k, h1, h2, h3, h4, h5⟩ := h.pred n hold hns
        refine ⟨p, k, h1, h2, h3, h4, ?_⟩
        rw [hgcl p h1, hnb, a1, ← hnb]
        exact h5
      · refine ⟨cur, i, hcur, hi, hpre, hnb.symm, ?_⟩
        rw [hgcl cur hcur, hnb, a1]
    · obtain ⟨b1, b2, b3⟩ := hoff n hnb
      have hold : aget cl n ≠ 0 ∨ aget ref n ≠ 0 := by
        rcases hn with hn | hn
        · left; exact hn
        · right; exact b3 hn
      obtain ⟨p, k, h1, h2, h3, h4, h5⟩ := h.pred n hold hns
      refine ⟨p, k, h1, h2, h3, h4, ?_⟩
      rw [hgcl p h1, b1]
      exact h5


theorem RankC_insert {N : Nat} {g : Graph} {s : Int} {r : Int → Nat} {cl ref cf : Arr N}
    (h : RankC g s r cl ref cf) (n cur : Int) (hn : ValidIndex N n)
    (hcl : aget cl n = 0) (hcur : aget cl cur ≠ 0) (hedge : Edge g cur n)
    (hop : g.open_ n ≠ 0) :
    RankC g s (Function.update r n (r cur + 1)) cl (aset ref n 1) (aset cf n cur) := by
  have hn1 : 1 ≤ n := hn.1
  have hn2 : n < (N : Int) := hn.2
  have hne : ∀ m : Int, aget cl m ≠ 0 → m ≠ n := by
    intro m hm hmn
    rw [hmn] at hm
    exact hm hcl
  refine ⟨?_, ?_, ?_⟩
  · intro m hm hms
    by_cases hmn : m = n
    · subst hmn
      rw [aget_aset_eq _ _ _ (by omega) hn2]
      refine ⟨hcur, hedge, hop, ?_⟩
      rw [Function.update_noteq (hne cur hcur), Function.update_same]
      omega
    · rw [aget_aset_ne _ _ _ _ hmn]
      have hm2 : aget cl m ≠ 0 ∨ aget ref m ≠ 0 := by
        rcases hm with hm | hm
        · left; exact hm
        · rcases (aget_aset_one_ne_zero ref _ m hn).1 hm with hm | hm
          · exact absurd hm hmn
          · right; exact hm
      obtain ⟨h1, h2, h3, h4⟩ := h.parent m hm2 hms
      refine ⟨h1, h2, h3, ?_⟩
      rw [Function.update_noteq (hne _ h1), Function.update_noteq hmn]
      exact h4
  · intro m hm
    rw [Function.update_noteq (hne m hm)]
    exact h.closed_lt m hm
  · intro m hm
    by_cases hmn : m = n
    · subst hmn
      rw [Function.update_same]
      have := h.closed_lt cur hcur
      omega
    · rw [Function.update_noteq hmn]
      rcases (aget_aset_one_ne_zero ref _ m hn).1 hm with hm | hm
      · exact absurd hm hmn
      · exact h.open_le m hm

theorem Pathfind_edge_tail {N : Nat} {g : Graph} {s e cur : Int} {i : Nat} {st : Search N}
    (h : Inv g s e cur i st) (r : Int → Nat) (hr : RankOK g s r st)
    (hsc : ScoreOK g s e st) (hi : i < 8)
    (hpre : ∀ j : Nat, j ≤ i → 0 ≤ g.target_id cur j)
    (hcur : aget st.closedset cur ≠ 0) (hedge : Edge g cur (g.target_id cur i))
    (hnb : ValidIndex N (g.target_id cur i)) (hop : g.open_ (g.target_id cur i) ≠ 0)
    (hcl0 : aget st.closedset (g.target_id cur i) = 0)
    (gs fs : Arr N) (tg tf : Int)
    (htg : tg = aget st.g_score cur + g.dist cur i)
    (htf : tf = tg + heuristic_cost_estimate g (g.target_id cur i) e)
    (hgs : ∀ n : Int, n ≠ g.target_id cur i → aget gs n = aget st.g_score n)
    (hfs : ∀ n : Int, n ≠ g.target_id cur i → aget fs n = aget st.f_score n)
    (hon : (aget gs (g.target_id cur i) = aget st.g_score (g.target_id cur i) ∧
        aget fs (g.target_id cur i) = aget st.f_score (g.target_id cur i)) ∨
      (aget gs (g.target_id cur i) = tg ∧ aget fs (g.target_id cur i) = tf)) :
    ∃ (st1 : Search N) (r1 : Int → Nat),
      (if CheckIfWayInList 2 (g.target_id cur i)
            ({ st with g_score := gs, f_score := fs } : Search N) = 0 then
          (AddWayToList 2 (g.target_id cur i)
            ({ st with
              g_score := aset gs (g.target_id cur i) tg
              f_score := aset fs (g.target_id cur i) tf
              came_from := aset st.came_from (g.target_id cur i) cur } : Search N)).map Prod.snd
        else some ({ st with g_score := gs, f_score := fs } : Search N)) = some st1 ∧
      Inv g s e cur (i + 1) st1 ∧
      RankOK g s r1 st1 ∧ ScoreOK g s e st1 ∧ st1.closedset = st.closedset ∧
      ∀ n : Int, aget st.closedset n ≠ 0 →
        aget st1.g_score n = aget st.g_score n ∧ aget st1.f_score n = aget st.f_score n ∧
        aget st1.came_from n = aget st.came_from n := by
  have hne : ∀ n : Int, aget st.closedset n ≠ 0 → n ≠ g.target_id cur i := by
    intro n hn hh
    rw [hh] at hn
    exact hn hcl0
  rw [CheckIfWayInList_open]
  dsimp only
  by_cases href : aget st.opensetRef (g.target_id cur i) ≠ 0
  · rw [if_pos href, if_neg (by norm_num)]
    refine ⟨_, r, rfl, ?_, hr, ?_, rfl, ?_⟩
    · exact InvC_advance h (fun _ => Or.inr href)
    · refine ScoreC_update hsc cur i hcur hi hpre hcl0 st.opensetRef gs fs
        (fun n hn => ⟨hgs n hn, hfs n hn, fun hh => hh⟩) ?_
      rcases hon with ⟨a1, a2⟩ | ⟨a1, a2⟩
      · exact Or.inl ⟨a1, a2, fun hh => hh⟩
      · exact Or.inr ⟨by rw [a1, htg], by rw [a2, htf, htg]⟩
    · intro n hn
      exact ⟨hgs n (hne n hn), hfs n (hne n hn), rfl⟩
  · rw [if_neg href, if_pos rfl]
    have href0 : aget st.opensetRef (g.target_id cur i) = 0 := not_not.mp href
    obtain ⟨p, hp0, hp1, hp2⟩ := AddWayToList_open (g.target_id cur i)
      ({ st with
        g_score := aset gs (g.target_id cur i) tg
        f_score := aset fs (g.target_id cur i) tf
        came_from := aset st.came_from (g.target_id cur i) cur } : Search N)
      h.open_ok.len_nonneg
    rw [hp2]
    refine ⟨_, Function.update r (g.target_id cur i) (r cur + 1), rfl, ?_, ?_, ?_, rfl, ?_⟩
    · have hpath : OpenPath g s (g.target_id cur i) :=
        Relation.ReflTransGen.tail (h.sound cur (Or.inl hcur)) ⟨hedge, hop⟩
      have h2 := InvC_insert h (g.target_id cur i) p hnb href0 hcl0 hpath hp0 hp1
      exact InvC_advance h2
        (fun _ => Or.inr ((aget_aset_one_ne_zero _ _ _ hnb).2 (Or.inl rfl)))
    · exact RankC_insert hr (g.target_id cur i) cur hnb hcl0 hcur hedge hop
    · refine ScoreC_update hsc cur i hcur hi hpre hcl0 (aset st.opensetRef (g.target_id cur i) 1)
        (aset gs (g.target_id cur i) tg) (aset fs (g.target_id cur i) tf) ?_ ?_
      · intro n hn
        refine ⟨by rw [aget_aset_ne _ _ _ _ hn]; exact hgs n hn,
          by rw [aget_aset_ne _ _ _ _ hn]; exact hfs n hn, ?_⟩
        intro hh
        rcases (aget_aset_one_ne_zero _ _ n hnb).1 hh with hh | hh
        · exact absurd hh hn
        · exact hh
      · right
        have hb1 : 1 ≤ g.target_id cur i := hnb.1
        have hb2 : g.target_id cur i < (N : Int) := hnb.2
        rw [aget_aset_eq _ _ _ (by omega) hb2, aget_aset_eq _ _ _ (by omega) hb2, htf, htg]
        exact ⟨rfl, rfl⟩
    · intro n hn
      have hn2 := hne n hn
      refine ⟨?_, ?_, ?_⟩
      · show aget (aset gs (g.target_id cur i) tg) n = aget st.g_score n
        rw [aget_aset_ne _ _ _ _ hn2]; exact hgs n hn2
      · show aget (aset fs (g.target_id cur i) tf) n = aget st.f_score n
        rw [aget_aset_ne _ _ _ _ hn2]; exact hfs n hn2
      · show aget (aset st.came_from (g.target_id cur i) cur) n = aget st.came_from n
        rw [aget_aset_ne _ _ _ _ hn2]

theorem Pathfind_edge_spec {N : Nat} {g : Graph} {s e cur : Int} {i : Nat} {st : Search N}
    (hv : ValidGraph N g) (h : Inv g s e cur i st) (r : Int → Nat) (hr : RankOK g s r st)
    (hsc : ScoreOK g s e st) (hi : i < 8) (hcur : aget st.closedset cur ≠ 0)
    (hpre : ∀ j : Nat, j ≤ i → 0 ≤ g.target_id cur j) :
    ∃ (st1 : Search N) (r1 : Int → Nat),
      Pathfind_edge g e cur i st = some st1 ∧ Inv g s e cur (i + 1) st1 ∧
      RankOK g s r1 st1 ∧ ScoreOK g s e st1 ∧ st1.closedset = st.closedset ∧
      ∀ n : Int, aget st.closedset n ≠ 0 →
        aget st1.g_score n = aget st.g_score n ∧ aget st1.f_score n = aget st.f_score n ∧
        aget st1.came_from n = aget st.came_from n := by
  have hedge : Edge g cur (g.target_id cur i) := ⟨i, hi, hpre, rfl⟩
  have hnb : ValidIndex N (g.target_id cur i) := hv cur _ (h.closed_valid cur hcur) hedge
  rw [Pathfind_edge]
  dsimp only
  rw [CheckIfWayInList_closed]
  by_cases hop : g.open_ (g.target_id cur i) = 0
  · rw [if_pos hop]
    exact ⟨st, r, rfl, InvC_advance h (fun hh => absurd hop hh), hr, hsc, rfl,
      fun n _ => ⟨rfl, rfl, rfl⟩⟩
  · rw [if_neg hop]
    by_cases hcl : aget st.closedset (g.target_id cur i) ≠ 0
    · rw [if_pos hcl, if_pos (by norm_num)]
      exact ⟨st, r, rfl, InvC_advance h (fun _ => Or.inl hcl), hr, hsc, rfl,
        fun n _ => ⟨rfl, rfl, rfl⟩⟩
    · rw [if_neg hcl, if_neg (by norm_num)]
      have hcl0 : aget st.closedset (g.target_id cur i) = 0 := not_not.mp hcl
      by_cases hlt : aget st.g_score cur + g.dist cur i +
          heuristic_cost_estimate g (g.target_id cur i) e < aget st.f_score (g.target_id cur i)
      · simp only [if_pos hlt]
        have hb1 : 1 ≤ g.target_id cur i := hnb.1
        have hb2 : g.target_id cur i < (N : Int) := hnb.2
        exact Pathfind_edge_tail h r hr hsc hi hpre hcur hedge hnb hop hcl0 _ _ _ _ rfl rfl
          (fun n hn => aget_aset_ne _ _ _ _ hn) (fun n hn => aget_aset_ne _ _ _ _ hn)
          (Or.inr ⟨aget_aset_eq _ _ _ (by omega) hb2, aget_aset_eq _ _ _ (by omega) hb2⟩)
      · simp only [if_neg hlt]
        exact Pathfind_edge_tail h r hr hsc hi hpre hcur hedge hnb hop hcl0
          st.g_score st.f_score _ _ rfl rfl (fun n _ => rfl) (fun n _ => rfl)
          (Or.inl ⟨rfl, rfl⟩)


theorem Pathfind_edges_spec {N : Nat} {g : Graph} {s e cur : Int} (hv : ValidGraph N g)
    (cur2 : Int) :
    ∀ (k i : Nat) (st : Search N) (r : Int → Nat), i + k = 8 → Inv g s e cur i st →
      RankOK g s r st → ScoreOK g s e st → aget st.closedset cur ≠ 0 →
      (∀ j : Nat, j < i → 0 ≤ g.target_id cur j) →
      ∃ (st1 : Search N) (r1 : Int → Nat),
        Pathfind_edges g e cur k i st = some st1 ∧ Inv g s e cur2 8 st1 ∧
        RankOK g s r1 st1 ∧ ScoreOK g s e st1 ∧ st1.closedset = st.closedset ∧
        ∀ n : Int, aget st.closedset n ≠ 0 →
          aget st1.g_score n = aget st.g_score n ∧ aget st1.f_score n = aget st.f_score n ∧
          aget st1.came_from n = aget st.came_from n := by
  intro k
  induction k with
  | zero =>
    intro i st r hik h hr hsc _ _
    exact ⟨st, r, rfl, InvC_finish h (Or.inl (by omega)) cur2, hr, hsc, rfl,
      fun n _ => ⟨rfl, rfl, rfl⟩⟩
  | succ k ih =>
    intro i st r hik h hr hsc hcur hpre
    rw [Pathfind_edges]
    by_cases hneg : g.target_id cur i < 0
    · rw [if_pos hneg]
      exact ⟨st, r, rfl, InvC_finish h (Or.inr hneg) cur2, hr, hsc, rfl,
        fun n _ => ⟨rfl, rfl, rfl⟩⟩
    · rw [if_neg hneg]
      have hpre2 : ∀ j : Nat, j ≤ i → 0 ≤ g.target_id cur j := by
        intro j hj
        by_cases hji : j = i
        · rw [hji]; omega
        · exact hpre j (by omega)
      obtain ⟨st1, r1, h1, h2, h3, h3b, h4, h5⟩ :=
        Pathfind_edge_spec hv h r hr hsc (by omega) hcur hpre2
      rw [h1]
      dsimp only
      obtain ⟨st2, r2, k1, k2, k3, k3b, k4, k5⟩ := ih (i + 1) st1 r1 (by omega) h2 h3 h3b
        (by rw [h4]; exact hcur) (fun j hj => hpre2 j (by omega))
      refine ⟨st2, r2, k1, k2, k3, k3b, by rw [k4, h4], ?_⟩
      intro n hn
      obtain ⟨a1, a2, a3⟩ := h5 n hn
      obtain ⟨b1, b2, b3⟩ := k5 n (by rw [h4]; exact hn)
      exact ⟨by rw [b1, a1], by rw [b2, a2], by rw [b3, a3]⟩

theorem Pathfind_expand_spec {N : Nat} {g : Graph} {s e cur : Int} {st : Search N}
    (hv : ValidGraph N g) (h : Inv g s e cur 8 st) (r : Int → Nat) (hr : RankOK g s r st)
    (hsc : ScoreOK g s e st)
    (hlen : 0 < st.opensetLength) (hne : aget st.openset 0 ≠ e) (cur2 : Int) :
    ∃ (st1 : Search N) (r1 : Int → Nat),
      Pathfind_expand g e (aget st.openset 0) st = some st1 ∧ Inv g s e cur2 8 st1 ∧
      RankOK g s r1 st1 ∧ ScoreOK g s e st1 ∧ st1.closedset = aset st.closedset (aget st.openset 0) 1 ∧
      closedCount st1.closedset = closedCount st.closedset + 1 ∧
      ∀ n : Int, aget st.closedset n ≠ 0 ∨ n = aget st.openset 0 →
        aget st1.g_score n = aget st.g_score n ∧ aget st1.f_score n = aget st.f_score n ∧
        aget st1.came_from n = aget st.came_from n := by
  obtain ⟨hcv, hcr, hcc⟩ := InvC_head h hlen
  rw [Pathfind_expand, AddWayToList, if_pos rfl]
  dsimp only
  have hrem := RemoveWayFromList_head
    ({ st with closedset := aset st.closedset (aget st.openset 0) 1 } : Search N) hlen
  dsimp only at hrem
  rw [hrem]
  have hcl1 : aget (aset st.closedset (aget st.openset 0) 1) (aget st.openset 0) ≠ 0 :=
    (aget_aset_one_ne_zero _ _ _ hcv).2 (Or.inl rfl)
  have hpop : Inv g s e (aget st.openset 0) 0
      ({ st with
        closedset := aset st.closedset (aget st.openset 0) 1
        openset := RemoveWayFromList_shift (aset st.openset 0 0) st.opensetLength.toNat 0
        opensetRef := aset st.opensetRef (aget st.openset 0) 0
        opensetLength := st.opensetLength - 1 } : Search N) := InvC_pop h hlen hne
  have hrpop : RankOK g s r
      ({ st with
        closedset := aset st.closedset (aget st.openset 0) 1
        openset := RemoveWayFromList_shift (aset st.openset 0 0) st.opensetLength.toNat 0
        opensetRef := aset st.opensetRef (aget st.openset 0) 0
        opensetLength := st.opensetLength - 1 } : Search N) := RankC_pop hr _ hcv hcr hcc
  have hspop : ScoreOK g s e
      ({ st with
        closedset := aset st.closedset (aget st.openset 0) 1
        openset := RemoveWayFromList_shift (aset st.openset 0 0) st.opensetLength.toNat 0
        opensetRef := aset st.opensetRef (aget st.openset 0) 0
        opensetLength := st.opensetLength - 1 } : Search N) := ScoreC_pop hsc _ hcv hcr
  obtain ⟨st2, r2, k1, k2, k3, k3b, k4, k5⟩ := Pathfind_edges_spec hv cur2 8 0 _ r (by omega)
    hpop hrpop hspop hcl1 (fun j hj => by omega)
  refine ⟨st2, r2, k1, k2, k3, k3b, k4, ?_, ?_⟩
  · rw [k4]
    exact closedCount_aset _ _ hcv hcc
  · intro n hn
    apply k5 n
    rcases hn with hn | hn
    · exact (aget_aset_one_ne_zero _ _ _ hcv).2 (Or.inr hn)
    · exact (aget_aset_one_ne_zero _ _ _ hcv).2 (Or.inl hn)


/-! ## Path reconstruction -/

theorem reconstruct_path_find_edge (g : Graph) (c n : Int) :
    ∀ (k i : Nat), (∃ j : Nat, i ≤ j ∧ j < i + k ∧
        (∀ j2 : Nat, i ≤ j2 → j2 ≤ j → 0 ≤ g.target_id c j2) ∧ g.target_id c j = n) →
      reconstruct_path_find g c n k i = c := by
  intro k
  induction k with
  | zero =>
    rintro i ⟨j, h1, h2, _⟩
    omega
  | succ k ih =>
    rintro i ⟨j, h1, h2, h3, h4⟩
    rw [reconstruct_path_find, if_neg (by have := h3 i (le_refl _) h1; omega)]
    by_cases hi : g.target_id c i = n
    · rw [if_pos hi]
    · rw [if_neg hi]
      have hji : j ≠ i := by
        intro hji
        rw [hji] at h4
        exact hi h4
      exact ih (i + 1) ⟨j, by omega, by omega, fun j2 a b => h3 j2 (by omega) b, h4⟩

theorem reconstruct_path_find_of_edge (g : Graph) (c n : Int) (h : Edge g c n) :
    reconstruct_path_find g c n 8 0 = c := by
  obtain ⟨k, hk, hpre, hkn⟩ := h
  exact reconstruct_path_find_edge g c n 8 0
    ⟨k, Nat.zero_le _, by omega, fun j2 _ b => hpre j2 b, hkn⟩

theorem reconstruct_path_clear_get {N : Nat} (k : Nat) (i : Int) (pl : Arr N) (j : Int) :
    aget (reconstruct_path_clear k i pl) j =
      if i ≤ j ∧ j < i + k then 0 else aget pl j := by
  induction k generalizing i pl with
  | zero =>
    rw [reconstruct_path_clear, if_neg (by push_cast; omega)]
  | succ k ih =>
    rw [reconstruct_path_clear, ih]
    push_cast
    by_cases h1 : i + 1 ≤ j ∧ j < i + 1 + k
    · rw [if_pos h1, if_pos (by omega)]
    · rw [if_neg h1, aget_aset]
      by_cases h2 : j = i ∧ 0 ≤ j ∧ j < (N : Int)
      · rw [if_pos h2, if_pos (by omega)]
      · rw [if_neg h2]
        by_cases h3 : i ≤ j ∧ j < i + (k + 1)
        · rw [if_pos h3]
          have hji : j = i := by omega
          exact aget_oob pl j (fun hb => h2 ⟨hji, hb⟩)
        · rw [if_neg h3]

theorem reconstruct_path_walk_spec {N : Nat} {g : Graph} {s : Int} {st : Search N}
    {r : Int → Nat} (hr : RankOK g s r st) :
    ∀ (fuel : Nat) (sidx cur : Int) (pl : Arr N),
      (aget st.closedset cur ≠ 0 ∨ aget st.opensetRef cur ≠ 0) → r cur < fuel →
      1 ≤ sidx → sidx + r cur < (N : Int) →
      ∃ (pl1 : Arr N) (k : Int),
        reconstruct_path_walk g st s fuel sidx cur pl = some pl1 ∧ sidx ≤ k ∧ k < (N : Int) ∧
        aget pl1 sidx = cur ∧ aget pl1 k = s ∧
        (∀ j : Int, j < sidx ∨ k < j → aget pl1 j = aget pl j) ∧
        ∀ j : Int, sidx ≤ j → j < k →
          Edge g (aget pl1 (j + 1)) (aget pl1 j) ∧ r (aget pl1 (j + 1)) < r (aget pl1 j) ∧
          g.open_ (aget pl1 j) ≠ 0 ∧ aget pl1 j ≠ s ∧
          aget st.closedset (aget pl1 (j + 1)) ≠ 0 := by
  intro fuel
  induction fuel with
  | zero => intro sidx cur pl _ h; omega
  | succ fuel ih =>
    intro sidx cur pl hcur hfuel hs hN
    rw [reconstruct_path_walk]
    have hself : aget (aset pl sidx cur) sidx = cur := aget_aset_eq _ _ _ (by omega) (by omega)
    by_cases hcs : cur = s
    · rw [if_pos hcs]
      refine ⟨aset pl sidx cur, sidx, rfl, le_refl _, by omega, hself, by rw [hself, hcs], ?_, ?_⟩
      · intro j hj
        exact aget_aset_ne _ _ _ _ (by omega)
      · intro j h1 h2
        omega
    · rw [if_neg hcs]
      obtain ⟨p1, p2, p3, p4⟩ := hr.parent cur hcur hcs
      rw [CheckIfWayInList_closed, if_pos p1, if_pos (by norm_num),
        reconstruct_path_find_of_edge g _ _ p2]
      obtain ⟨pl1, k, w1, w2, w3, w4, w5, w6, w7⟩ := ih (sidx + 1) (aget st.came_from cur)
        (aset pl sidx cur) (Or.inl p1) (by omega) (by omega) (by omega)
      have hsame : aget pl1 sidx = cur := by
        rw [w6 sidx (Or.inl (by omega))]
        exact hself
      refine ⟨pl1, k, w1, by omega, w3, hsame, w5, ?_, ?_⟩
      · intro j hj
        rw [w6 j (by omega)]
        exact aget_aset_ne _ _ _ _ (by omega)
      · intro j h1 h2
        by_cases hj : j = sidx
        · rw [hj, w4, hsame]
          exact ⟨p2, p4, p3, hcs, p1⟩
        · exact w7 j (by omega) h2

theorem reconstruct_path_spec {N : Nat} {g : Graph} {s e : Int} {st : Search N}
    {r : Int → Nat} (hr : RankOK g s r st)
    (he : aget st.closedset e ≠ 0 ∨ aget st.opensetRef e ≠ 0) (hre : r e + 2 ≤ N)
    (pl : Arr N) :
    ∃ (pl1 : Arr N) (k : Int),
      reconstruct_path g st s e pl = some pl1 ∧ 1 ≤ k ∧ k < (N : Int) ∧
      aget pl1 0 = -1 ∧ aget pl1 1 = e ∧ aget pl1 k = s ∧
      (∀ j : Int, k < j → aget pl1 j = 0) ∧
      ∀ j : Int, 1 ≤ j → j < k →
        Edge g (aget pl1 (j + 1)) (aget pl1 j) ∧ r (aget pl1 (j + 1)) < r (aget pl1 j) ∧
        g.open_ (aget pl1 j) ≠ 0 ∧ aget pl1 j ≠ s ∧
        aget st.closedset (aget pl1 (j + 1)) ≠ 0 := by
  obtain ⟨pl1, k, w1, w2, w3, w4, w5, w6, w7⟩ := reconstruct_path_walk_spec hr N 1 e
    (aset (reconstruct_path_clear N 0 pl) 0 (-1)) he (by omega) (le_refl _) (by omega)
  refine ⟨pl1, k, w1, w2, w3, ?_, w4, w5, ?_, w7⟩
  · rw [w6 0 (Or.inl (by norm_num))]
    exact aget_aset_eq _ _ _ (le_refl _) (by omega)
  · intro j hj
    rw [w6 j (Or.inr hj), aget_aset_ne _ _ _ _ (by omega), reconstruct_path_clear_get]
    by_cases hb : 0 ≤ j ∧ j < 0 + (N : Int)
    · rw [if_pos hb]
    · rw [if_neg hb]
      exact aget_oob _ _ (by omega)


/-! ## The main loop -/

theorem rank_strict_anti (r : Int → Nat) (f : Int → Int) (k : Int)
    (h : ∀ j : Int, 1 ≤ j → j < k → r (f (j + 1)) < r (f j)) :
    ∀ (d : Nat) (i : Int), 1 ≤ i → i + d + 1 ≤ k → r (f (i + d + 1)) < r (f i) := by
  intro d
  induction d with
  | zero =>
    intro i h1 h2
    have := h i h1 (by push_cast at h2; omega)
    simpa using this
  | succ d ih =>
    intro i h1 h2
    push_cast at h2 ⊢
    have a := ih i h1 (by omega)
    have b := h (i + d + 1) (by omega) (by omega)
    have e : i + (d + 1) + 1 = i + d + 1 + 1 := by ring
    rw [e]
    omega

theorem IsRoute_of_reconstruct {N : Nat} {g : Graph} {s e : Int} {st : Search N}
    {r : Int → Nat} {pl1 : Arr N} {k : Int} (he : ValidIndex N e)
    (hcv : ∀ n : Int, aget st.closedset n ≠ 0 → ValidIndex N n)
    (h0 : aget pl1 0 = -1) (h1 : aget pl1 1 = e) (hk : 1 ≤ k) (hs : aget pl1 k = s)
    (hrest : ∀ j : Int, k < j → aget pl1 j = 0)
    (hstep : ∀ j : Int, 1 ≤ j → j < k →
      Edge g (aget pl1 (j + 1)) (aget pl1 j) ∧ r (aget pl1 (j + 1)) < r (aget pl1 j) ∧
      g.open_ (aget pl1 j) ≠ 0 ∧ aget pl1 j ≠ s ∧
      aget st.closedset (aget pl1 (j + 1)) ≠ 0) :
    IsRoute g s e pl1 k := by
  have hanti := rank_strict_anti r (fun j => aget pl1 j) k (fun j a b => (hstep j a b).2.1)
  have hlt : ∀ i j : Int, 1 ≤ i → i < j → j ≤ k → r (aget pl1 j) < r (aget pl1 i) := by
    intro i j a b c
    have := hanti (j - i - 1).toNat i a (by omega)
    have e2 : i + ((j - i - 1).toNat : Int) + 1 = j := by omega
    rw [e2] at this
    exact this
  refine ⟨h0, h1, hk, hs, hrest, ?_, fun j a b => (hstep j a b).1,
    fun j a b => (hstep j a b).2.2.1, ?_⟩
  · intro i j hi1 hi2 hj1 hj2 hij
    by_contra hne
    rcases lt_or_gt_of_ne hne with hlt2 | hlt2
    · have := hlt i j hi1 hlt2 hj2
      rw [hij] at this
      omega
    · have := hlt j i hj1 hlt2 hi2
      rw [hij] at this
      omega
  · intro j hj1 hj2
    by_cases hj : j = 1
    · rw [hj, h1]; exact he
    · have := (hstep (j - 1) (by omega) (by omega)).2.2.2.2
      rw [show j - 1 + 1 = j by omega] at this
      exact hcv _ this

theorem InvC_no_path {N : Nat} {g : Graph} {s e cur : Int} {cl os ref : Arr N}
    (h : InvC g s e cur 8 cl os ref 0) : ¬ OpenPath g s e := by
  have hnoref : ∀ n : Int, aget ref n = 0 := by
    intro n
    by_contra hc
    obtain ⟨i, h1, h2, _⟩ := (h.open_ok.ref n).1 hc
    omega
  have hall : ∀ n : Int, OpenPath g s n → aget cl n ≠ 0 := by
    intro n hp
    induction hp with
    | refl =>
      rcases h.start_in with hh | hh
      · exact hh
      · exact absurd (hnoref s) hh
    | tail _ hstep ih =>
      obtain ⟨⟨k, hk, hpre, hkn⟩, hop⟩ := hstep
      rw [← hkn] at hop
      rcases h.closure _ ih k hk (fun _ => hk) hpre hop with hh | hh
      · rw [hkn] at hh; exact hh
      · exact absurd (hnoref _) hh
  intro hp
  exact hall e hp h.end_out

theorem Pathfind_loop_spec {N : Nat} {g : Graph} {s e : Int} (hv : ValidGraph N g)
    (he : ValidIndex N e) (pl : Arr N) :
    ∀ (fuel : Nat) (st : Search N) (r : Int → Nat) (cur : Int), Inv g s e cur 8 st →
      RankOK g s r st → ScoreOK g s e st → N ≤ fuel + closedCount st.closedset + 1 →
      ∃ (status : Int) (st1 : Search N) (pl1 : Arr N) (r1 : Int → Nat),
        Pathfind_loop g s e fuel st pl = some (status, st1, pl1) ∧
        Inv g s e cur 8 st1 ∧ RankOK g s r1 st1 ∧ ScoreOK g s e st1 ∧
        ((status = 1 ∧ OpenPath g s e ∧ aget st1.openset 0 = e ∧ 0 < st1.opensetLength ∧
            ∃ k : Int, IsRoute g s e pl1 k) ∨
         (status = 0 ∧ ¬ OpenPath g s e ∧ pl1 = pl ∧ st1.opensetLength = 0 ∧
            CheckIfEmptyList 2 st1 = 1)) := by
  intro fuel
  induction fuel with
  | zero =>
    intro st r cur h _ _ hf
    have := closedCount_le st.closedset e he h.end_out
    omega
  | succ fuel ih =>
    intro st r cur h hr hsc hf
    rw [Pathfind_loop]
    rcases CheckIfEmptyList_open st h.open_ok with ⟨c1, c2⟩ | ⟨c1, c2⟩
    · rw [c1, if_pos rfl]
      obtain ⟨hcv, hcr, hcc⟩ := InvC_head h c2
      by_cases hend : GetLowestFromOpenSet st = e
      · rw [if_pos hend]
        have hend2 : aget st.openset 0 = e := hend
        rw [hend2] at hcr
        have hcount := closedCount_le st.closedset e he h.end_out
        have hre := hr.open_le e hcr
        obtain ⟨pl1, k, w1, w2, w3, w4, w5, w6, w7, w8⟩ :=
          reconstruct_path_spec hr (Or.inr hcr) (by omega) pl
        rw [w1]
        refine ⟨1, st, pl1, r, rfl, h, hr, hsc,
          Or.inl ⟨rfl, h.sound e (Or.inr hcr), hend2, c2, k, ?_⟩⟩
        exact IsRoute_of_reconstruct he h.closed_valid w4 w5 w2 w6 w7 w8
      · rw [if_neg hend]
        obtain ⟨st1, r1, k1, k2, k3, k3b, k4, k5, _⟩ :=
          Pathfind_expand_spec hv h r hr hsc c2 hend cur
        have k1b : Pathfind_expand g e (GetLowestFromOpenSet st) st = some st1 := k1
        rw [k1b]
        exact ih st1 r1 cur k2 k3 k3b (by omega)
    · rw [c1, if_neg (by norm_num)]
      refine ⟨0, st, pl, r, rfl, h, hr, hsc, Or.inr ⟨rfl, ?_, rfl, c2, c1⟩⟩
      have h2 : InvC g s e cur 8 st.closedset st.openset st.opensetRef 0 := by
        rw [← c2]; exact h
      exact InvC_no_path h2


/-! ## The states at the head of the main loop -/

theorem Pathfind_head_spec {N : Nat} {g : Graph} {s e : Int} (hv : ValidGraph N g) :
    ∀ (k : Nat) (st : Search N) (r : Int → Nat) (cur : Int), Inv g s e cur 8 st →
      RankOK g s r st → ScoreOK g s e st →
      ∀ st1 : Search N, Pathfind_head g e k st = some st1 →
        Inv g s e cur 8 st1 ∧ (∃ r1 : Int → Nat, RankOK g s r1 st1) ∧ ScoreOK g s e st1 ∧
        ∀ n : Int, aget st.closedset n ≠ 0 →
          aget st1.closedset n ≠ 0 ∧ aget st1.g_score n = aget st.g_score n ∧
          aget st1.f_score n = aget st.f_score n ∧
          aget st1.came_from n = aget st.came_from n := by
  intro k
  induction k with
  | zero =>
    intro st r cur h hr hsc st1 hst
    rw [Pathfind_head] at hst
    cases hst
    exact ⟨h, ⟨r, hr⟩, hsc, fun n hn => ⟨hn, rfl, rfl, rfl⟩⟩
  | succ k ih =>
    intro st r cur h hr hsc st1 hst
    rw [Pathfind_head] at hst
    rcases CheckIfEmptyList_open st h.open_ok with ⟨c1, c2⟩ | ⟨c1, c2⟩
    · rw [c1, if_pos rfl] at hst
      by_cases hend : GetLowestFromOpenSet st = e
      · rw [if_pos hend] at hst
        cases hst
      · rw [if_neg hend] at hst
        obtain ⟨hcv, _, _⟩ := InvC_head h c2
        obtain ⟨st2, r2, k1, k2, k3, k3b, k4, _, k6⟩ :=
          Pathfind_expand_spec hv h r hr hsc c2 hend cur
        have k1b : Pathfind_expand g e (GetLowestFromOpenSet st) st = some st2 := k1
        rw [k1b] at hst
        obtain ⟨a1, a2, a3, a4⟩ := ih st2 r2 cur k2 k3 k3b st1 hst
        refine ⟨a1, a2, a3, ?_⟩
        intro n hn
        have hn2 : aget st2.closedset n ≠ 0 := by
          rw [k4]
          exact (aget_aset_one_ne_zero _ _ n hcv).2 (Or.inr hn)
        obtain ⟨b1, b2, b3, b4⟩ := a4 n hn2
        obtain ⟨d1, d2, d3⟩ := k6 n (Or.inl hn)
        exact ⟨b1, by rw [b2, d1], by rw [b3, d2], by rw [b4, d3]⟩
    · rw [c1, if_neg (by norm_num)] at hst
      cases hst

theorem Pathfind_loop_head {N : Nat} (g : Graph) (s e : Int) (pl : Arr N) :
    ∀ (fuel : Nat) (st : Search N) (status : Int) (st1 : Search N) (pl1 : Arr N),
      Pathfind_loop g s e fuel st pl = some (status, st1, pl1) →
      ∃ k : Nat, Pathfind_head g e k st = some st1 := by
  intro fuel
  induction fuel with
  | zero =>
    intro st status st1 pl1 h
    rw [Pathfind_loop] at h
    cases h
  | succ fuel ih =>
    intro st status st1 pl1 h
    rw [Pathfind_loop] at h
    by_cases c1 : CheckIfEmptyList 2 st = 0
    · rw [if_pos c1] at h
      by_cases hend : GetLowestFromOpenSet st = e
      · rw [if_pos hend] at h
        cases hrec : reconstruct_path g st s e pl with
        | none => rw [hrec] at h; cases h
        | some pl2 =>
          rw [hrec] at h
          cases h
          exact ⟨0, rfl⟩
      · rw [if_neg hend] at h
        cases hexp : Pathfind_expand g e (GetLowestFromOpenSet st) st with
        | none => rw [hexp] at h; cases h
        | some st2 =>
          rw [hexp] at h
          obtain ⟨k, hk⟩ := ih st2 status st1 pl1 h
          refine ⟨k + 1, ?_⟩
          rw [Pathfind_head, if_pos c1, if_neg hend, hexp]
          exact hk
    · rw [if_neg c1] at h
      cases h
      exact ⟨0, rfl⟩


/-! ## What one edge relaxation can change -/

theorem AddWayToList_search_state {N : Nat} (n wayVal : Int) (st : Search N) :
    ∀ (fuel : Nat) (min max : Int) (r : Int × Search N),
      AddWayToList_search n wayVal st fuel min max = some r →
      r.2 = st ∨ ∃ p : Int, r.2 = AddWayToList_insert n p st := by
  intro fuel
  induction fuel with
  | zero =>
    intro min max r h
    rw [AddWayToList_search] at h
    cases h
  | succ fuel ih =>
    intro min max r h
    rw [AddWayToList_search] at h
    by_cases h1 : max > min
    · rw [if_pos h1] at h
      by_cases h2 : max - min = 1
      · rw [if_pos h2] at h
        cases h
        exact Or.inr ⟨max, rfl⟩
      · rw [if_neg h2] at h
        exact ih _ _ r h
    · rw [if_neg h1] at h
      cases h
      exact Or.inl rfl

theorem Pathfind_edge_closed_frame {N : Nat} (g : Graph) (e cur : Int) (i : Nat)
    (st st1 : Search N) (n : Int) (hn : aget st.closedset n ≠ 0)
    (h : Pathfind_edge g e cur i st = some st1) :
    aget st1.closedset n ≠ 0 ∧ aget st1.g_score n = aget st.g_score n ∧
    aget st1.f_score n = aget st.f_score n ∧ aget st1.came_from n = aget st.came_from n ∧
    aget st1.opensetRef n = aget st.opensetRef n := by
  rw [Pathfind_edge] at h
  dsimp only at h
  rw [CheckIfWayInList_closed] at h
  by_cases hop : g.open_ (g.target_id cur i) = 0
  · rw [if_pos hop] at h
    cases h
    exact ⟨hn, rfl, rfl, rfl, rfl⟩
  · rw [if_neg hop] at h
    by_cases hcl : aget st.closedset (g.target_id cur i) ≠ 0
    · rw [if_pos hcl, if_pos (by norm_num)] at h
      cases h
      exact ⟨hn, rfl, rfl, rfl, rfl⟩
    · rw [if_neg hcl, if_neg (by norm_num)] at h
      have hne : n ≠ g.target_id cur i := by
        intro hh
        rw [hh] at hn
        exact hcl hn
      have key : ∀ (gs fs : Arr N), aget gs n = aget st.g_score n →
          aget fs n = aget st.f_score n →
          (if CheckIfWayInList 2 (g.target_id cur i)
                ({ st with g_score := gs, f_score := fs } : Search N) = 0 then
              (AddWayToList 2 (g.target_id cur i)
                ({ st with
                  g_score := aset gs (g.target_id cur i)
                    (aget st.g_score cur + g.dist cur i)
                  f_score := aset fs (g.target_id cur i)
                    (aget st.g_score cur + g.dist cur i +
                      heuristic_cost_estimate g (g.target_id cur i) e)
                  came_from := aset st.came_from (g.target_id cur i) cur } :
                    Search N)).map Prod.snd
            else some ({ st with g_score := gs, f_score := fs } : Search N)) = some st1 →
          aget st1.closedset n ≠ 0 ∧ aget st1.g_score n = aget st.g_score n ∧
          aget st1.f_score n = aget st.f_score n ∧
          aget st1.came_from n = aget st.came_from n ∧
          aget st1.opensetRef n = aget st.opensetRef n := by
        intro gs fs hgs hfs hk
        by_cases hin : CheckIfWayInList 2 (g.target_id cur i)
            ({ st with g_score := gs, f_score := fs } : Search N) = 0
        · rw [if_pos hin] at hk
          rw [AddWayToList, if_neg (by norm_num), if_pos rfl] at hk
          cases hs : AddWayToList_search (g.target_id cur i)
              (aget (aset fs (g.target_id cur i)
                (aget st.g_score cur + g.dist cur i +
                  heuristic_cost_estimate g (g.target_id cur i) e)) (g.target_id cur i))
              ({ st with
                g_score := aset gs (g.target_id cur i) (aget st.g_score cur + g.dist cur i)
                f_score := aset fs (g.target_id cur i)
                  (aget st.g_score cur + g.dist cur i +
                    heuristic_cost_estimate g (g.target_id cur i) e)
                came_from := aset st.came_from (g.target_id cur i) cur } : Search N)
              ((st.opensetLength + 1).toNat + 1) (-1) st.opensetLength with
          | none =>
            rw [hs] at hk
            cases hk
          | some r =>
            rw [hs] at hk
            have hr : r.2 = st1 := by simpa using hk
            rcases AddWayToList_search_state _ _ _ _ _ _ r hs with hst | ⟨p, hst⟩
            · rw [← hr, hst]
              exact ⟨hn, by
                show aget (aset gs (g.target_id cur i) _) n = _
                rw [aget_aset_ne _ _ _ _ hne, hgs], by
                show aget (aset fs (g.target_id cur i) _) n = _
                rw [aget_aset_ne _ _ _ _ hne, hfs], by
                show aget (aset st.came_from (g.target_id cur i) cur) n = _
                rw [aget_aset_ne _ _ _ _ hne], rfl⟩
            · rw [← hr, hst]
              exact ⟨hn, by
                show aget (aset gs (g.target_id cur i) _) n = _
                rw [aget_aset_ne _ _ _ _ hne, hgs], by
                show aget (aset fs (g.target_id cur i) _) n = _
                rw [aget_aset_ne _ _ _ _ hne, hfs], by
                show aget (aset st.came_from (g.target_id cur i) cur) n = _
                rw [aget_aset_ne _ _ _ _ hne], by
                show aget (aset st.opensetRef (g.target_id cur i) 1) n = _
                rw [aget_aset_ne _ _ _ _ hne]⟩
        · rw [if_neg hin] at hk
          cases hk
          exact ⟨hn, hgs, hfs, rfl, rfl⟩
      by_cases hlt : aget st.g_score cur + g.dist cur i +
          heuristic_cost_estimate g (g.target_id cur i) e < aget st.f_score (g.target_id cur i)
      · simp only [if_pos hlt] at h
        exact key _ _ (aget_aset_ne _ _ _ _ hne) (aget_aset_ne _ _ _ _ hne) h
      · simp only [if_neg hlt] at h
        exact key st.g_score st.f_score rfl rfl h


/-! ## Seeding and the whole search -/

theorem Search_ext {N : Nat} (a b : Search N) (h1 : a.closedset = b.closedset)
    (h2 : a.openset = b.openset) (h3 : a.opensetRef = b.opensetRef)
    (h4 : a.opensetLength = b.opensetLength) (h5 : a.g_score = b.g_score)
    (h6 : a.f_score = b.f_score) (h7 : a.came_from = b.came_from) : a = b := by
  cases a
  cases b
  simp_all

theorem aget_aset_zero_clear {N : Nat} (a : Arr N) (i : Int) (k : Nat) (j : Int) :
    (if i + 1 ≤ j ∧ j < i + 1 + (k : Int) then 0 else aget (aset a i 0) j) =
      if i ≤ j ∧ j < i + ((k + 1 : Nat) : Int) then 0 else aget a j := by
  push_cast
  by_cases h1 : i + 1 ≤ j ∧ j < i + 1 + (k : Int)
  · rw [if_pos h1, if_pos (by omega)]
  · rw [if_neg h1, aget_aset]
    by_cases h2 : j = i ∧ 0 ≤ j ∧ j < (N : Int)
    · rw [if_pos h2, if_pos (by omega)]
    · rw [if_neg h2]
      by_cases h3 : i ≤ j ∧ j < i + ((k : Int) + 1)
      · rw [if_pos h3]
        have hji : j = i := by omega
        exact aget_oob a j (fun hb => h2 ⟨hji, hb⟩)
      · rw [if_neg h3]

theorem Pathfind_clear_get {N : Nat} (k : Nat) (i : Int) (st : Search N) (j : Int) :
    (aget (Pathfind_clear k i st).closedset j =
        if i ≤ j ∧ j < i + (k : Int) then 0 else aget st.closedset j) ∧
    (aget (Pathfind_clear k i st).openset j =
        if i ≤ j ∧ j < i + (k : Int) then 0 else aget st.openset j) ∧
    (aget (Pathfind_clear k i st).opensetRef j =
        if i ≤ j ∧ j < i + (k : Int) then 0 else aget st.opensetRef j) ∧
    (aget (Pathfind_clear k i st).g_score j =
        if i ≤ j ∧ j < i + (k : Int) then 0 else aget st.g_score j) ∧
    (aget (Pathfind_clear k i st).f_score j =
        if i ≤ j ∧ j < i + (k : Int) then 0 else aget st.f_score j) ∧
    (aget (Pathfind_clear k i st).came_from j =
        if i ≤ j ∧ j < i + (k : Int) then 0 else aget st.came_from j) ∧
    (Pathfind_clear k i st).opensetLength = st.opensetLength := by
  induction k generalizing i st with
  | zero =>
    have hn : ¬ (i ≤ j ∧ j < i + ((0 : Nat) : Int)) := by push_cast; omega
    simp only [Pathfind_clear, if_neg hn, and_self]
  | succ k ih =>
    rw [Pathfind_clear]
    obtain ⟨a1, a2, a3, a4, a5, a6, a7⟩ := ih (i + 1)
      { st with
        openset := aset st.openset i 0
        opensetRef := aset st.opensetRef i 0
        closedset := aset st.closedset i 0
        f_score := aset st.f_score i 0
        g_score := aset st.g_score i 0
        came_from := aset st.came_from i 0 }
    rw [a1, a2, a3, a4, a5, a6, a7]
    dsimp only
    exact ⟨aget_aset_zero_clear _ _ _ _, aget_aset_zero_clear _ _ _ _,
      aget_aset_zero_clear _ _ _ _, aget_aset_zero_clear _ _ _ _,
      aget_aset_zero_clear _ _ _ _, aget_aset_zero_clear _ _ _ _, rfl⟩

theorem Pathfind_clear_zero {N : Nat} (st : Search N) :
    Pathfind_clear N 0 st = Search.zero N st.opensetLength := by
  have key : ∀ (a b : Arr N), (∀ j : Int, aget a j =
      if 0 ≤ j ∧ j < 0 + (N : Int) then 0 else aget b j) → a = fun _ => 0 := by
    intro a b hab
    apply Arr_ext
    intro j h0 h1
    rw [hab j, if_pos ⟨h0, by omega⟩, aget_zero]
  apply Search_ext
  · exact key _ _ (fun j => (Pathfind_clear_get N 0 st j).1)
  · exact key _ _ (fun j => (Pathfind_clear_get N 0 st j).2.1)
  · exact key _ _ (fun j => (Pathfind_clear_get N 0 st j).2.2.1)
  · exact (Pathfind_clear_get N 0 st 0).2.2.2.2.2.2
  · exact key _ _ (fun j => (Pathfind_clear_get N 0 st j).2.2.2.1)
  · exact key _ _ (fun j => (Pathfind_clear_get N 0 st j).2.2.2.2.1)
  · exact key _ _ (fun j => (Pathfind_clear_get N 0 st j).2.2.2.2.2.1)

theorem OpenOK_zero {N : Nat} : OpenOK (fun _ => 0 : Arr N) (fun _ => 0 : Arr N) 0 := by
  refine ⟨le_refl _, ?_, ?_, ?_, ?_⟩
  · intro i h1 h2; omega
  · intro i _; exact aget_zero i
  · intro i j h1 h2; omega
  · intro n
    constructor
    · intro h; exact absurd (aget_zero n) h
    · rintro ⟨i, h1, h2, _⟩; omega

theorem Pathfind_seed_spec {N : Nat} (g : Graph) (s e cur : Int) (hs : ValidIndex N s)
    (st : Search N) :
    ∃ st1 : Search N, Pathfind_seed g s e st = some st1 ∧ Inv g s e cur 8 st1 ∧
      RankOK g s (fun _ => 0) st1 ∧ ScoreOK g s e st1 ∧ st1.closedset = (fun _ => 0) := by
  rw [Pathfind_seed, Pathfind_clear_zero]
  dsimp only [Search.zero]
  obtain ⟨p, hp0, hp1, hp2⟩ := AddWayToList_open s
    ({ closedset := fun _ => 0
       openset := fun _ => 0
       opensetRef := fun _ => 0
       opensetLength := 0
       g_score := aset (fun _ => 0) s 0
       f_score := aset (fun _ => 0) s
        (aget (aset (fun _ => 0 : Arr N) s 0) s + heuristic_cost_estimate g s e)
       came_from := fun _ => 0 } : Search N) (le_refl _)
  rw [hp2]
  dsimp only at hp0 hp1
  have hs1 : 1 ≤ s := hs.1
  have hs2 : s < (N : Int) := hs.2
  have honly : ∀ n : Int, aget (fun _ => 0 : Arr N) n ≠ 0 ∨
      aget (aset (fun _ => 0 : Arr N) s 1) n ≠ 0 → n = s := by
    intro n hn
    rcases hn with hn | hn
    · exact absurd (aget_zero n) hn
    · rcases (aget_aset_one_ne_zero _ _ n hs).1 hn with hn | hn
      · exact hn
      · exact absurd (aget_zero n) hn
  refine ⟨_, rfl, ?_, ?_, ?_, rfl⟩
  · refine ⟨OpenOK_insert OpenOK_zero s p hs (aget_zero s) hp0 hp1, ?_, ?_, ?_, ?_, ?_, ?_⟩
    · intro n hn; exact absurd (aget_zero n) hn
    · intro n hn; exact absurd (aget_zero n) hn
    · intro n hn
      rcases hn with hn | hn
      · exact absurd (aget_zero n) hn
      · rcases (aget_aset_one_ne_zero _ _ n hs).1 hn with hn | hn
        · rw [hn]; exact Relation.ReflTransGen.refl
        · exact absurd (aget_zero n) hn
    · right; exact (aget_aset_one_ne_zero _ _ s hs).2 (Or.inl rfl)
    · exact aget_zero e
    · intro c hc; exact absurd (aget_zero c) hc
  · refine ⟨?_, ?_, ?_⟩
    · intro n hn hns
      rcases hn with hn | hn
      · exact absurd (aget_zero n) hn
      · rcases (aget_aset_one_ne_zero _ _ n hs).1 hn with hn | hn
        · exact absurd hn hns
        · exact absurd (aget_zero n) hn
    · intro n hn; exact absurd (aget_zero n) hn
    · intro n _; exact Nat.zero_le _
  · refine ⟨?_, ?_, ?_, ?_⟩
    · show aget (aset (fun _ => 0 : Arr N) s 0) s = 0
      exact aget_aset_eq _ _ _ (by omega) hs2
    · intro n hn
      have hns := honly n hn
      subst hns
      show aget (aset (fun _ => 0 : Arr N) n
          (aget (aset (fun _ => 0 : Arr N) n 0) n + heuristic_cost_estimate g n e)) n =
        aget (aset (fun _ => 0 : Arr N) n 0) n + heuristic_cost_estimate g n e
      exact aget_aset_eq _ _ _ (by omega) hs2
    · intro n hn hns
      exact absurd (honly n hn) hns
    · intro n hn hns
      exact absurd (honly n hn) hns

theorem closedCount_zero {N : Nat} : closedCount (fun _ => 0 : Arr N) = 0 := by
  unfold closedCount
  rw [Finset.card_eq_zero, Finset.filter_eq_empty_iff]
  intro n _ hn
  exact hn (aget_zero n)

theorem Pathfind_spec {N : Nat} {g : Graph} {s e : Int} (hv : ValidGraph N g)
    (hs : ValidIndex N s) (he : ValidIndex N e) (st : Search N) (pl : Arr N) :
    ∃ (status : Int) (st1 : Search N) (pl1 : Arr N) (r1 : Int → Nat),
      Pathfind g s e st pl = some (status, st1, pl1) ∧
      Inv g s e 0 8 st1 ∧ RankOK g s r1 st1 ∧ ScoreOK g s e st1 ∧
      ((status = 1 ∧ OpenPath g s e ∧ aget st1.openset 0 = e ∧ 0 < st1.opensetLength ∧
          ∃ k : Int, IsRoute g s e pl1 k) ∨
       (status = 0 ∧ ¬ OpenPath g s e ∧ pl1 = pl ∧ st1.opensetLength = 0 ∧
          CheckIfEmptyList 2 st1 = 1)) := by
  obtain ⟨st1, h1, h2, h3, h3b, h4⟩ := Pathfind_seed_spec g s e 0 hs st
  rw [Pathfind, h1]
  dsimp only
  exact Pathfind_loop_spec hv he pl N st1 _ 0 h2 h3 h3b (by rw [h4, closedCount_zero]; omega)


/-! ## Example graphs -/

theorem chainGraph_edge (c n : Int) (h : Edge chainGraph c n) :
    (c = 1 ∧ n = 2) ∨ (c = 2 ∧ n = 3) := by
  obtain ⟨k, _, hpre, hkn⟩ := h
  have hk0 : k = 0 := by
    by_contra hk
    have := hpre k (le_refl _)
    simp [chainGraph, hk] at this
  subst hk0
  have h0 := hpre 0 (le_refl _)
  simp only [chainGraph, and_true] at hkn h0
  by_cases h1 : c = 1
  · left; rw [if_pos h1] at hkn; exact ⟨h1, hkn.symm⟩
  · rw [if_neg h1] at hkn h0
    by_cases h2 : c = 2
    · right; rw [if_pos h2] at hkn; exact ⟨h2, hkn.symm⟩
    · rw [if_neg h2] at h0; omega

theorem chainGraph_valid : ValidGraph 4 chainGraph := by
  intro c n _ h
  rcases chainGraph_edge c n h with ⟨_, h2⟩ | ⟨_, h2⟩
  · rw [h2]; exact ⟨by norm_num, by norm_num⟩
  · rw [h2]; exact ⟨by norm_num, by norm_num⟩

theorem OpenPath_iff_exempt (g : Graph) (s e : Int) :
    OpenPath g s e ↔ OpenPathExempt g s e := by
  constructor
  · intro h
    exact Relation.ReflTransGen.mono (fun x y hxy => ⟨hxy.1, Or.inl hxy.2⟩) h
  · intro h
    induction h with
    | refl => exact Relation.ReflTransGen.refl
    | tail _ hstep ih =>
      rcases hstep.2 with ho | hs
      · exact Relation.ReflTransGen.tail ih ⟨hstep.1, ho⟩
      · rw [hs]; exact Relation.ReflTransGen.refl

/-! ## Properties of `Pathfind` -/

/-- C1: for every graph whose start, end and edge targets are valid non-zero
indices, `Pathfind` returns, and it returns 1 if and only if there is a
directed path from start to end along the neighbour lists in which every node
after the first is open; when there is none the open list is empty at the end
and the status is 0. Such a path exists exactly when one exists in which every
node other than the start itself is open. -/
theorem Pathfind_status_iff_path {N : Nat} (g : Graph) (s e : Int) (st : Search N)
    (pl : Arr N) (hv : ValidGraph N g) (hs : ValidIndex N s) (he : ValidIndex N e) :
    ∃ (status : Int) (st1 : Search N) (pl1 : Arr N),
      Pathfind g s e st pl = some (status, st1, pl1) ∧
      (status = 1 ↔ OpenPath g s e) ∧
      (¬ OpenPath g s e → status = 0 ∧ CheckIfEmptyList 2 st1 = 1) ∧
      (OpenPath g s e ↔ OpenPathExempt g s e) := by
  obtain ⟨status, st1, pl1, _, h1, _, _, _, h5⟩ := Pathfind_spec hv hs he st pl
  refine ⟨status, st1, pl1, h1, ?_, ?_, OpenPath_iff_exempt g s e⟩
  · rcases h5 with ⟨a, b, _⟩ | ⟨a, b, _⟩
    · exact ⟨fun _ => b, fun _ => a⟩
    · constructor
      · intro h; rw [a] at h; norm_num at h
      · intro h; exact absurd h b
  · intro hn
    rcases h5 with ⟨_, b, _⟩ | ⟨a, _, _, _, c⟩
    · exact absurd b hn
    · exact ⟨a, c⟩

/-- Witness of C1 on the chain `1 -> 2 -> 3`, searched from 1 to 3. -/
theorem Pathfind_status_iff_path_witness :
    ValidGraph 4 chainGraph ∧ ValidIndex 4 1 ∧ ValidIndex 4 3 ∧
    ∃ (status : Int) (st1 : Search 4) (pl1 : Arr 4),
      Pathfind chainGraph 1 3 (Search.zero 4 0) (fun _ => 0) = some (status, st1, pl1) ∧
      (status = 1 ↔ OpenPath chainGraph 1 3) ∧
      (¬ OpenPath chainGraph 1 3 → status = 0 ∧ CheckIfEmptyList 2 st1 = 1) ∧
      (OpenPath chainGraph 1 3 ↔ OpenPathExempt chainGraph 1 3) :=
  ⟨chainGraph_valid, ⟨by decide, by decide⟩, ⟨by decide, by decide⟩,
    Pathfind_status_iff_path chainGraph 1 3 (Search.zero 4 0) (fun _ => 0) chainGraph_valid
      ⟨by decide, by decide⟩ ⟨by decide, by decide⟩⟩

/-- C2: for every graph whose start, end and edge targets are valid non-zero
indices, `Pathfind` returns, and when it returns 1 `proces_list` holds a
complete route: entry 0 is the sentinel -1, entry 1 is the end, some entry
`k ≥ 1` is the start, every entry after `k` is 0, no waypoint occurs twice in
`1 .. k`, and for `1 ≤ j < k` waypoint `proces_list[j+1]` has a forward edge to
`proces_list[j]`. -/
theorem Pathfind_route_complete {N : Nat} (g : Graph) (s e : Int) (st : Search N)
    (pl : Arr N) (hv : ValidGraph N g) (hs : ValidIndex N s) (he : ValidIndex N e) :
    ∃ (status : Int) (st1 : Search N) (pl1 : Arr N),
      Pathfind g s e st pl = some (status, st1, pl1) ∧
      (status = 1 →
        aget pl1 0 = -1 ∧ aget pl1 1 = e ∧
        ∃ k : Int, 1 ≤ k ∧ aget pl1 k = s ∧ (∀ j : Int, k < j → aget pl1 j = 0) ∧
          (∀ i j : Int, 1 ≤ i → i ≤ k → 1 ≤ j → j ≤ k → aget pl1 i = aget pl1 j → i = j) ∧
          (∀ j : Int, 1 ≤ j → j < k → Edge g (aget pl1 (j + 1)) (aget pl1 j))) := by
  obtain ⟨status, st1, pl1, _, h1, _, _, _, h5⟩ := Pathfind_spec hv hs he st pl
  refine ⟨status, st1, pl1, h1, ?_⟩
  intro hst
  rcases h5 with ⟨_, _, _, _, k, hr⟩ | ⟨a, _⟩
  · exact ⟨hr.sentinel, hr.first, k, hr.k_pos, hr.last, hr.rest, hr.nodup, hr.edge⟩
  · rw [a] at hst; norm_num at hst

/-- Witness of C2 on the chain `1 -> 2 -> 3`, searched from 1 to 3. -/
theorem Pathfind_route_complete_witness :
    ValidGraph 4 chainGraph ∧ ValidIndex 4 1 ∧ ValidIndex 4 3 ∧
    ∃ (status : Int) (st1 : Search 4) (pl1 : Arr 4),
      Pathfind chainGraph 1 3 (Search.zero 4 0) (fun _ => 0) = some (status, st1, pl1) ∧
      (status = 1 →
        aget pl1 0 = -1 ∧ aget pl1 1 = 3 ∧
        ∃ k : Int, 1 ≤ k ∧ aget pl1 k = 1 ∧ (∀ j : Int, k < j → aget pl1 j = 0) ∧
          (∀ i j : Int, 1 ≤ i → i ≤ k → 1 ≤ j → j ≤ k → aget pl1 i = aget pl1 j → i = j) ∧
          (∀ j : Int, 1 ≤ j → j < k → Edge chainGraph (aget pl1 (j + 1)) (aget pl1 j))) :=
  ⟨chainGraph_valid, ⟨by decide, by decide⟩, ⟨by decide, by decide⟩,
    Pathfind_route_complete chainGraph 1 3 (Search.zero 4 0) (fun _ => 0) chainGraph_valid
      ⟨by decide, by decide⟩ ⟨by decide, by decide⟩⟩


theorem OpenPath_end_open (g : Graph) (s e : Int) (h : OpenPath g s e) :
    e = s ∨ g.open_ e ≠ 0 := by
  rcases Relation.ReflTransGen.cases_tail h with h1 | ⟨_, _, h2⟩
  · left; exact h1
  · right; exact h2.2

theorem Pathfind_final_head {N : Nat} (g : Graph) (s e : Int) (st st0 : Search N) (pl : Arr N)
    (h0 : Pathfind_seed g s e st = some st0) (status : Int) (st1 : Search N) (pl1 : Arr N)
    (h : Pathfind g s e st pl = some (status, st1, pl1)) :
    ∃ k : Nat, Pathfind_head g e k st0 = some st1 := by
  rw [Pathfind, h0] at h
  exact Pathfind_loop_head g s e pl N st0 status st1 pl1 h

/-- C4: closed-set finality. In the run of `Pathfind` from any workspace, on a
graph with a valid non-zero start and valid non-zero edge targets, the workspace that
`Pathfind` leaves is one of the loop-head states, and once a waypoint `n` is in
the closed list at the head of an iteration, at the head of every later
iteration `n` is still closed, its `g_score`, `f_score` and `came_from` are
unchanged, `CheckIfWayInList(2, n)` is 0 and `n` is not in
`openset[0 .. opensetLength)`. Moreover, in any workspace whatever, the
handling of one edge leaves the closed flag, the scores, `came_from` and the
`opensetRef` flag of every closed waypoint as they are. -/
theorem closed_is_final {N : Nat} (g : Graph) (s e : Int) (st : Search N) (pl : Arr N)
    (hv : ValidGraph N g) (hs : ValidIndex N s) :
    ∃ st0 : Search N, Pathfind_seed g s e st = some st0 ∧
      (∀ (status : Int) (st1 : Search N) (pl1 : Arr N),
        Pathfind g s e st pl = some (status, st1, pl1) →
        ∃ k : Nat, Pathfind_head g e k st0 = some st1) ∧
      (∀ (k m : Nat) (stk stm : Search N) (n : Int),
        Pathfind_head g e k st0 = some stk → aget stk.closedset n ≠ 0 →
        Pathfind_head g e m stk = some stm →
        aget stm.closedset n ≠ 0 ∧ aget stm.g_score n = aget stk.g_score n ∧
        aget stm.f_score n = aget stk.f_score n ∧
        aget stm.came_from n = aget stk.came_from n ∧
        CheckIfWayInList 2 n stm = 0 ∧
        ∀ i : Int, 0 ≤ i → i < stm.opensetLength → aget stm.openset i ≠ n) ∧
      ∀ (cur : Int) (i : Nat) (sta stb : Search N) (n : Int), aget sta.closedset n ≠ 0 →
        Pathfind_edge g e cur i sta = some stb →
        aget stb.closedset n ≠ 0 ∧ aget stb.g_score n = aget sta.g_score n ∧
        aget stb.f_score n = aget sta.f_score n ∧
        aget stb.came_from n = aget sta.came_from n ∧
        aget stb.opensetRef n = aget sta.opensetRef n := by
  obtain ⟨st0, h1, h2, h3, h3b, _⟩ := Pathfind_seed_spec g s e 0 hs st
  refine ⟨st0, h1, fun status st1 pl1 h => Pathfind_final_head g s e st st0 pl h1 status st1 pl1 h,
    ?_, fun cur i sta stb n hn h => Pathfind_edge_closed_frame g e cur i sta stb n hn h⟩
  intro k m stk stm n hk hn hm
  obtain ⟨a1, ⟨r1, a2⟩, a3, _⟩ := Pathfind_head_spec hv k st0 _ 0 h2 h3 h3b stk hk
  obtain ⟨b1, _, _, b4⟩ := Pathfind_head_spec hv m stk r1 0 a1 a2 a3 stm hm
  obtain ⟨c1, c2, c3, c4⟩ := b4 n hn
  have href : aget stm.opensetRef n = 0 := b1.disjoint n c1
  refine ⟨c1, c2, c3, c4, ?_, ?_⟩
  · rw [CheckIfWayInList_open, if_neg (by rw [href]; norm_num)]
  · intro i hi0 hi1 hin
    exact ((b1.open_ok.ref n).2 ⟨i, hi0, hi1, hin⟩) href

/-- Witness of C4 on the chain `1 -> 2 -> 3`, searched from 1 to 3. -/
theorem closed_is_final_witness :
    ValidGraph 4 chainGraph ∧ ValidIndex 4 1 ∧
    ∃ st0 : Search 4, Pathfind_seed chainGraph 1 3 (Search.zero 4 0) = some st0 ∧
      (∀ (status : Int) (st1 : Search 4) (pl1 : Arr 4),
        Pathfind chainGraph 1 3 (Search.zero 4 0) (fun _ => 0) = some (status, st1, pl1) →
        ∃ k : Nat, Pathfind_head chainGraph 3 k st0 = some st1) ∧
      (∀ (k m : Nat) (stk stm : Search 4) (n : Int),
        Pathfind_head chainGraph 3 k st0 = some stk → aget stk.closedset n ≠ 0 →
        Pathfind_head chainGraph 3 m stk = some stm →
        aget stm.closedset n ≠ 0 ∧ aget stm.g_score n = aget stk.g_score n ∧
        aget stm.f_score n = aget stk.f_score n ∧
        aget stm.came_from n = aget stk.came_from n ∧
        CheckIfWayInList 2 n stm = 0 ∧
        ∀ i : Int, 0 ≤ i → i < stm.opensetLength → aget stm.openset i ≠ n) ∧
      ∀ (cur : Int) (i : Nat) (sta stb : Search 4) (n : Int), aget sta.closedset n ≠ 0 →
        Pathfind_edge chainGraph 3 cur i sta = some stb →
        aget stb.closedset n ≠ 0 ∧ aget stb.g_score n = aget sta.g_score n ∧
        aget stb.f_score n = aget sta.f_score n ∧
        aget stb.came_from n = aget sta.came_from n ∧
        aget stb.opensetRef n = aget sta.opensetRef n :=
  ⟨chainGraph_valid, ⟨by decide, by decide⟩,
    closed_is_final chainGraph 1 3 (Search.zero 4 0) (fun _ => 0) chainGraph_valid
      ⟨by decide, by decide⟩⟩

/-- C8: waypoints whose `open` flag is clear are excluded. The handling of an
edge into a waypoint whose `open` flag is clear changes nothing. In the run of
`Pathfind` on a graph with valid non-zero start, end and edge targets, at the
head of every iteration each waypoint in the open list or the closed list
other than the start has its `open` flag set; on status 1 every waypoint of the
route in `proces_list` other than the start has its `open` flag set; and if
the end differs from the start and is not open the status is 0. -/
theorem closed_waypoints_excluded {N : Nat} (g : Graph) (s e : Int) (st : Search N)
    (pl : Arr N) (hv : ValidGraph N g) (hs : ValidIndex N s) (he : ValidIndex N e) :
    ∃ (st0 : Search N) (status : Int) (st1 : Search N) (pl1 : Arr N),
      Pathfind_seed g s e st = some st0 ∧
      Pathfind g s e st pl = some (status, st1, pl1) ∧
      (∀ (cur : Int) (i : Nat) (sta : Search N), g.open_ (g.target_id cur i) = 0 →
        Pathfind_edge g e cur i sta = some sta) ∧
      (∀ (k : Nat) (stk : Search N) (n : Int), Pathfind_head g e k st0 = some stk →
        (CheckIfWayInList 2 n stk ≠ 0 ∨ CheckIfWayInList 1 n stk ≠ 0 ∨
          ∃ i : Int, 0 ≤ i ∧ i < stk.opensetLength ∧ aget stk.openset i = n) →
        n ≠ s → g.open_ n ≠ 0) ∧
      (status = 1 → ∃ k : Int, 1 ≤ k ∧ aget pl1 k = s ∧
        (∀ j : Int, k < j → aget pl1 j = 0) ∧
        ∀ j : Int, 1 ≤ j → j ≤ k → aget pl1 j ≠ s → g.open_ (aget pl1 j) ≠ 0) ∧
      (e ≠ s → g.open_ e = 0 → status = 0) := by
  obtain ⟨st0, h1, h2, h3, h3b, _⟩ := Pathfind_seed_spec g s e 0 hs st
  obtain ⟨status, st1, pl1, _, p1, _, _, _, p5⟩ := Pathfind_spec hv hs he st pl
  refine ⟨st0, status, st1, pl1, h1, p1, ?_, ?_, ?_, ?_⟩
  · intro cur i sta hop
    rw [Pathfind_edge]
    dsimp only
    rw [if_pos hop]
  · intro k stk n hk hn hns
    obtain ⟨a1, ⟨r1, a2⟩, _, _⟩ := Pathfind_head_spec hv k st0 _ 0 h2 h3 h3b stk hk
    have hdisc : aget stk.closedset n ≠ 0 ∨ aget stk.opensetRef n ≠ 0 := by
      rcases hn with hn | hn | ⟨i, hi0, hi1, hi2⟩
      · right
        intro hc
        rw [CheckIfWayInList_open, if_neg (not_not.mpr hc)] at hn
        exact hn rfl
      · left
        intro hc
        rw [CheckIfWayInList_closed, if_neg (not_not.mpr hc)] at hn
        exact hn rfl
      · right
        exact (a1.open_ok.ref n).2 ⟨i, hi0, hi1, hi2⟩
    exact (a2.parent n hdisc hns).2.2.1
  · intro hst
    rcases p5 with ⟨_, _, _, _, k, hr⟩ | ⟨a, _⟩
    · refine ⟨k, hr.k_pos, hr.last, hr.rest, ?_⟩
      intro j hj1 hj2 hjs
      have hjk : j ≠ k := by
        intro hjk
        rw [hjk] at hjs
        exact hjs hr.last
      exact hr.open_ j hj1 (by omega)
    · rw [a] at hst; norm_num at hst
  · intro hes hop
    rcases p5 with ⟨_, b, _⟩ | ⟨a, _⟩
    · rcases OpenPath_end_open g s e b with hh | hh
      · exact absurd hh hes
      · exact absurd hop hh
    · exact a

/-- Witness of C8 on the chain `1 -> 2 -> 3`, searched from 1 to 3. -/
theorem closed_waypoints_excluded_witness :
    ValidGraph 4 chainGraph ∧ ValidIndex 4 1 ∧ ValidIndex 4 3 ∧
    ∃ (st0 : Search 4) (status : Int) (st1 : Search 4) (pl1 : Arr 4),
      Pathfind_seed chainGraph 1 3 (Search.zero 4 0) = some st0 ∧
      Pathfind chainGraph 1 3 (Search.zero 4 0) (fun _ => 0) = some (status, st1, pl1) ∧
      (∀ (cur : Int) (i : Nat) (sta : Search 4),
        chainGraph.open_ (chainGraph.target_id cur i) = 0 →
        Pathfind_edge chainGraph 3 cur i sta = some sta) ∧
      (∀ (k : Nat) (stk : Search 4) (n : Int), Pathfind_head chainGraph 3 k st0 = some stk →
        (CheckIfWayInList 2 n stk ≠ 0 ∨ CheckIfWayInList 1 n stk ≠ 0 ∨
          ∃ i : Int, 0 ≤ i ∧ i < stk.opensetLength ∧ aget stk.openset i = n) →
        n ≠ 1 → chainGraph.open_ n ≠ 0) ∧
      (status = 1 → ∃ k : Int, 1 ≤ k ∧ aget pl1 k = 1 ∧
        (∀ j : Int, k < j → aget pl1 j = 0) ∧
        ∀ j : Int, 1 ≤ j → j ≤ k → aget pl1 j ≠ 1 → chainGraph.open_ (aget pl1 j) ≠ 0) ∧
      ((3 : Int) ≠ 1 → chainGraph.open_ 3 = 0 → status = 0) :=
  ⟨chainGraph_valid, ⟨by decide, by decide⟩, ⟨by decide, by decide⟩,
    closed_waypoints_excluded chainGraph 1 3 (Search.zero 4 0) (fun _ => 0) chainGraph_valid
      ⟨by decide, by decide⟩ ⟨by decide, by decide⟩⟩


/-- C5, evaluated on the fork `1 -> 2` (1), `1 -> 3` (50), `1 -> 4` (100),
`2 -> 4` (1), searched from 1 to 4: at the head of the third iteration the
open list is `[3, 4]` with `f_score` 50 and 2, so it is not in ascending order
and `GetLowestFromOpenSet` takes waypoint 3 although waypoint 4 has the smaller
`f_score`. -/
theorem openset_unsorted_at_head :
    ((Pathfind_seed forkGraph 1 4 (Search.zero 5 0)).bind (Pathfind_head forkGraph 4 2)).map
      (fun st => (st.opensetLength, GetLowestFromOpenSet st, aget st.openset 1,
        aget st.f_score (aget st.openset 0), aget st.f_score (aget st.openset 1))) =
      some (2, 3, 4, 50, 2) := by
  decide!

theorem AddWayToList_search_tie {N : Nat} (waynum : Int) (st : Search N)
    (hs : SortedOpen st) :
    ∀ (fuel : Nat) (min max : Int), min < max → (max - min).toNat ≤ fuel → -1 ≤ min →
      max ≤ st.opensetLength →
      (((∀ i : Int, 0 ≤ i → i ≤ min →
            aget st.f_score (aget st.openset i) < aget st.f_score waynum) ∧
          (∀ i : Int, max ≤ i → i < st.opensetLength →
            aget st.f_score waynum < aget st.f_score (aget st.openset i)) ∧
          ∃ i : Int, 0 ≤ i ∧ i < st.opensetLength ∧
            aget st.f_score (aget st.openset i) = aget st.f_score waynum) ∨
        (max - min = 1 ∧ max < st.opensetLength ∧
          aget st.f_score (aget st.openset max) = aget st.f_score waynum)) →
      ∃ p : Int, 0 ≤ p ∧ p < st.opensetLength ∧
        aget st.f_score (aget st.openset p) = aget st.f_score waynum ∧
        AddWayToList_search waynum (aget st.f_score waynum) st fuel min max =
          some (p, AddWayToList_insert waynum p st) := by
  intro fuel
  induction fuel with
  | zero => intro min max h1 h2 _ _ _; omega
  | succ fuel ih =>
    intro min max h1 h2 h3 h4 hinv
    rw [AddWayToList_search, if_pos h1]
    rcases hinv with ⟨hlo, hhi, e0, he0, he1, he2⟩ | ⟨hd, hm, hf⟩
    · have hmin : min < e0 := by
        by_contra hc
        have := hlo e0 he0 (by omega)
        omega
      have hmax : e0 < max := by
        by_contra hc
        have := hhi e0 (by omega) he1
        omega
      rw [if_neg (by omega)]
      have ht : Int.tdiv (min + max) 2 = (min + max) / 2 :=
        Int.tdiv_eq_ediv (by omega) (by norm_num)
      simp only [ht]
      have hlo2 : min < (min + max) / 2 := by omega
      have hhi2 : (min + max) / 2 < max := by omega
      rcases lt_trichotomy (aget st.f_score waynum)
          (aget st.f_score (aget st.openset ((min + max) / 2))) with hlt | heq | hgt
      · have e1 : ¬ aget st.f_score waynum >
            aget st.f_score (aget st.openset ((min + max) / 2)) := by omega
        have e3 : ¬ aget st.f_score waynum =
            aget st.f_score (aget st.openset ((min + max) / 2)) := by omega
        simp only [if_neg e1, if_pos hlt, if_neg e3]
        refine ih min ((min + max) / 2) hlo2 (by omega) h3 (by omega) (Or.inl ⟨hlo, ?_, ?_⟩)
        · intro i hi1 hi2
          have := hs ((min + max) / 2) i (by omega) hi1 hi2
          omega
        · exact ⟨e0, he0, he1, he2⟩
      · have e1 : ¬ aget st.f_score waynum >
            aget st.f_score (aget st.openset ((min + max) / 2)) := by omega
        have e2 : ¬ aget st.f_score waynum <
            aget st.f_score (aget st.openset ((min + max) / 2)) := by omega
        simp only [if_neg e1, if_neg e2, if_pos heq]
        exact ih ((min + max) / 2 - 1) ((min + max) / 2) (by omega) (by omega) (by omega)
          (by omega) (Or.inr ⟨by omega, by omega, heq.symm⟩)
      · have e3 : ¬ aget st.f_score waynum =
            aget st.f_score (aget st.openset ((min + max) / 2)) := by omega
        simp only [if_pos hgt, if_neg e3]
        refine ih ((min + max) / 2) max hhi2 (by omega) (by omega) h4 (Or.inl ⟨?_, hhi, ?_⟩)
        · intro i hi1 hi2
          have := hs i ((min + max) / 2) hi1 hi2 (by omega)
          omega
        · exact ⟨e0, he0, he1, he2⟩
    · rw [if_pos hd]
      exact ⟨max, by omega, hm, hf, rfl⟩

/-- C6 refuted on `tieState`: the open list is `[2]`, waypoints 1 and 2 have
the same `f_score`, and `AddWayToList(2, 1)` returns index 0, so the equal
entry 2 does not stand before waypoint 1 in the new open list. -/
theorem tie_not_after_equal :
    ¬ (∀ (p : Int) (st1 : Search 4), AddWayToList 2 1 tieState = some (p, st1) →
        ∀ i : Int, 0 ≤ i → i < tieState.opensetLength →
          aget tieState.f_score (aget tieState.openset i) = aget tieState.f_score 1 →
          ∃ j : Int, 0 ≤ j ∧ j < p ∧ aget st1.openset j = aget tieState.openset i) := by
  intro h
  have hp : (AddWayToList 2 1 tieState).map Prod.fst = some 0 := by decide!
  cases hr : AddWayToList 2 1 tieState with
  | none => rw [hr] at hp; cases hp
  | some r =>
    obtain ⟨p, st1⟩ := r
    rw [hr] at hp
    have hp0 : p = 0 := by simpa using hp
    have hf : aget tieState.f_score (aget tieState.openset 0) = aget tieState.f_score 1 := by
      decide!
    obtain ⟨j, hj0, hj1, _⟩ := h p st1 hr 0 (le_refl _) (by decide!) hf
    omega

/-- C6 as amended: for every open list in ascending `f_score` order with room
for one more entry and every waypoint `n` whose `f_score` equals that of some
entry, `AddWayToList(2, n)` returns an index `p` at which an entry of equal
`f_score` stood, puts `n` there and moves that entry to `p + 1`, leaving the
entries before `p` in place: `n` comes immediately before an equal entry. -/
theorem AddWayToList_tie_before {N : Nat} (n : Int) (st : Search N)
    (hroom : st.opensetLength < (N : Int)) (hs : SortedOpen st)
    (heq : ∃ i : Int, 0 ≤ i ∧ i < st.opensetLength ∧
      aget st.f_score (aget st.openset i) = aget st.f_score n) :
    ∃ (p : Int) (st1 : Search N), AddWayToList 2 n st = some (p, st1) ∧
      0 ≤ p ∧ p < st.opensetLength ∧
      aget st.f_score (aget st.openset p) = aget st.f_score n ∧
      aget st1.openset p = n ∧ aget st1.openset (p + 1) = aget st.openset p ∧
      (∀ i : Int, 0 ≤ i → i < p → aget st1.openset i = aget st.openset i) ∧
      st1.opensetLength = st.opensetLength + 1 := by
  obtain ⟨i0, hi0, hi1, hi2⟩ := heq
  obtain ⟨p, hp0, hp1, hp2, hp3⟩ := AddWayToList_search_tie n st hs
    ((st.opensetLength + 1).toNat + 1) (-1) st.opensetLength (by omega) (by omega) (le_refl _)
    (le_refl _) (Or.inl ⟨fun i a b => by omega, fun i a b => by omega, i0, hi0, hi1, hi2⟩)
  have hget := AddWayToList_insert_get st.openset st.opensetLength p n hp0 (by omega) hroom
  refine ⟨p, AddWayToList_insert n p st, ?_, hp0, hp1, hp2, ?_, ?_, ?_, rfl⟩
  · rw [AddWayToList, if_neg (by norm_num), if_pos rfl]
    exact hp3
  · show aget (aset (AddWayToList_shift st.openset p (st.opensetLength - p).toNat) p n) p = n
    rw [hget, if_pos rfl]
  · show aget (aset (AddWayToList_shift st.openset p (st.opensetLength - p).toNat) p n)
        (p + 1) = aget st.openset p
    rw [hget, if_neg (by omega), if_pos (by omega), show p + 1 - 1 = p by omega]
  · intro i hi0 hi1
    show aget (aset (AddWayToList_shift st.openset p (st.opensetLength - p).toNat) p n) i =
      aget st.openset i
    rw [hget, if_neg (by omega), if_neg (by omega)]

theorem tieState_sorted : SortedOpen tieState := by
  intro i j hi hij hj
  have hj1 : j < 1 := hj
  have hi0 : i = 0 := by omega
  have hj0 : j = 0 := by omega
  rw [hi0, hj0]

/-- Witness of the amended C6 on `tieState` with waypoint 1. -/
theorem AddWayToList_tie_before_witness :
    tieState.opensetLength < ((4 : Nat) : Int) ∧ SortedOpen tieState ∧
    (∃ i : Int, 0 ≤ i ∧ i < tieState.opensetLength ∧
      aget tieState.f_score (aget tieState.openset i) = aget tieState.f_score 1) ∧
    ∃ (p : Int) (st1 : Search 4), AddWayToList 2 1 tieState = some (p, st1) ∧
      0 ≤ p ∧ p < tieState.opensetLength ∧
      aget tieState.f_score (aget tieState.openset p) = aget tieState.f_score 1 ∧
      aget st1.openset p = 1 ∧ aget st1.openset (p + 1) = aget tieState.openset p ∧
      (∀ i : Int, 0 ≤ i → i < p → aget st1.openset i = aget tieState.openset i) ∧
      st1.opensetLength = tieState.opensetLength + 1 :=
  ⟨by decide!, tieState_sorted, ⟨0, by decide!, by decide!, by decide!⟩,
    AddWayToList_tie_before 1 tieState (by decide!) tieState_sorted
      ⟨0, by decide!, by decide!, by decide!⟩⟩


theorem reconstruct_path_clear_zero {N : Nat} (pl : Arr N) :
    reconstruct_path_clear N 0 pl = fun _ => 0 := by
  apply Arr_ext
  intro j h0 h1
  rw [reconstruct_path_clear_get, if_pos ⟨h0, by omega⟩, aget_zero]

theorem reconstruct_path_pl {N : Nat} (g : Graph) (st : Search N) (s e : Int)
    (pl pl2 : Arr N) : reconstruct_path g st s e pl = reconstruct_path g st s e pl2 := by
  rw [reconstruct_path, reconstruct_path, reconstruct_path_clear_zero,
    reconstruct_path_clear_zero]

theorem Pathfind_loop_pl {N : Nat} (g : Graph) (s e : Int) :
    ∀ (fuel : Nat) (st : Search N) (pl pl2 : Arr N),
      (Pathfind_loop g s e fuel st pl).map (fun r => (r.1, r.2.1)) =
        (Pathfind_loop g s e fuel st pl2).map (fun r => (r.1, r.2.1)) ∧
      ∀ (ws : Search N) (p : Arr N), Pathfind_loop g s e fuel st pl = some (1, ws, p) →
        Pathfind_loop g s e fuel st pl2 = some (1, ws, p) := by
  intro fuel
  induction fuel with
  | zero =>
    intro st pl pl2
    rw [Pathfind_loop, Pathfind_loop]
    exact ⟨rfl, fun ws p h => by cases h⟩
  | succ fuel ih =>
    intro st pl pl2
    rw [Pathfind_loop, Pathfind_loop]
    by_cases c1 : CheckIfEmptyList 2 st = 0
    · rw [if_pos c1, if_pos c1]
      by_cases hend : GetLowestFromOpenSet st = e
      · rw [if_pos hend, if_pos hend, reconstruct_path_pl g st s e pl pl2]
        exact ⟨rfl, fun ws p h => h⟩
      · rw [if_neg hend, if_neg hend]
        cases hexp : Pathfind_expand g e (GetLowestFromOpenSet st) st with
        | none => exact ⟨rfl, fun ws p h => by cases h⟩
        | some st2 => exact ih st2 pl pl2
    · rw [if_neg c1, if_neg c1]
      refine ⟨rfl, ?_⟩
      intro ws p h
      have h2 := congrArg (Option.map (fun r : Int × Search N × Arr N => r.1)) h
      simp at h2

theorem Pathfind_seed_any {N : Nat} (g : Graph) (s e : Int) (st st2 : Search N) :
    Pathfind_seed g s e st = Pathfind_seed g s e st2 := by
  rw [Pathfind_seed, Pathfind_seed, Pathfind_clear_zero, Pathfind_clear_zero]
  rfl

/-- C7: `Pathfind` is a function of the graph and the end points only. For any
two prior workspaces and any two prior contents of `proces_list`, the two runs
agree on whether they return, on the status and on the workspace they leave,
and whenever one returns 1 the other returns 1 with the same `proces_list`. -/
theorem Pathfind_deterministic {N : Nat} (g : Graph) (s e : Int) (st st2 : Search N)
    (pl pl2 : Arr N) :
    (Pathfind g s e st pl).map (fun r => (r.1, r.2.1)) =
      (Pathfind g s e st2 pl2).map (fun r => (r.1, r.2.1)) ∧
    ∀ (ws : Search N) (p : Arr N), Pathfind g s e st pl = some (1, ws, p) →
      Pathfind g s e st2 pl2 = some (1, ws, p) := by
  rw [Pathfind, Pathfind, Pathfind_seed_any g s e st st2]
  cases hseed : Pathfind_seed g s e st2 with
  | none => exact ⟨rfl, fun ws p h => by cases h⟩
  | some st0 => exact Pathfind_loop_pl g s e N st0 pl pl2


theorem chain_edges (g : Graph) (A B C : Int)
    (hA0 : g.target_id A 0 = B) (hA1 : g.target_id A 1 < 0)
    (hB0 : g.target_id B 0 = C) (hB1 : g.target_id B 1 < 0)
    (hrest : ∀ c : Int, c ≠ A → c ≠ B → g.target_id c 0 < 0)
    (c n : Int) (k : Nat) (hpre : ∀ j : Nat, j ≤ k → 0 ≤ g.target_id c j)
    (hkn : g.target_id c k = n) : k = 0 ∧ ((c = A ∧ n = B) ∨ (c = B ∧ n = C)) := by
  have h0 := hpre 0 (Nat.zero_le k)
  by_cases hcA : c = A
  · subst hcA
    have hk : k = 0 := by
      by_contra hk
      have := hpre 1 (by omega)
      omega
    subst hk
    exact ⟨rfl, Or.inl ⟨rfl, by rw [← hkn, hA0]⟩⟩
  · by_cases hcB : c = B
    · subst hcB
      have hk : k = 0 := by
        by_contra hk
        have := hpre 1 (by omega)
        omega
      subst hk
      exact ⟨rfl, Or.inr ⟨rfl, by rw [← hkn, hB0]⟩⟩
    · have := hrest c hcA hcB
      omega

/-- C3: for three different valid waypoints `A`, `B`, `C` with `B` and `C`
open, whose only edges are `A -> B` (distance `d1`) and `B -> C` (distance
`d2`), `Pathfind(A, C)` returns 1 with `proces_list = [-1, C, B, A, 0, ...]`
and `g_score` of `C` equal to `d1 + d2`, and `Pathfind(C, A)` returns 0 and
leaves `proces_list` as it was. -/
theorem Pathfind_chain {N : Nat} (g : Graph) (A B C d1 d2 : Int) (st : Search N)
    (pl : Arr N) (hA : ValidIndex N A) (hB : ValidIndex N B) (hC : ValidIndex N C)
    (hAB : A ≠ B) (hBC : B ≠ C) (hAC : A ≠ C)
    (hoB : g.open_ B ≠ 0) (hoC : g.open_ C ≠ 0)
    (hA0 : g.target_id A 0 = B) (hA1 : g.target_id A 1 < 0)
    (hB0 : g.target_id B 0 = C) (hB1 : g.target_id B 1 < 0)
    (hrest : ∀ c : Int, c ≠ A → c ≠ B → g.target_id c 0 < 0)
    (hd1 : g.dist A 0 = d1) (hd2 : g.dist B 0 = d2) :
    (∃ (st1 : Search N) (pl1 : Arr N), Pathfind g A C st pl = some (1, st1, pl1) ∧
      aget pl1 0 = -1 ∧ aget pl1 1 = C ∧ aget pl1 2 = B ∧ aget pl1 3 = A ∧
      (∀ j : Int, 4 ≤ j → aget pl1 j = 0) ∧ aget st1.g_score C = d1 + d2) ∧
    ∃ st2 : Search N, Pathfind g C A st pl = some (0, st2, pl) := by
  have hed := chain_edges g A B C hA0 hA1 hB0 hB1 hrest
  have hedge : ∀ c n : Int, Edge g c n → (c = A ∧ n = B) ∨ (c = B ∧ n = C) := by
    rintro c n ⟨k, _, hpre, hkn⟩
    exact (hed c n k hpre hkn).2
  have hv : ValidGraph N g := by
    intro c n _ h
    rcases hedge c n h with ⟨_, h2⟩ | ⟨_, h2⟩
    · rw [h2]; exact hB
    · rw [h2]; exact hC
  have hEAB : Edge g A B := ⟨0, by norm_num, fun j hj => by
    have : j = 0 := by omega
    rw [this, hA0]; have := hB.1; omega, hA0⟩
  have hEBC : Edge g B C := ⟨0, by norm_num, fun j hj => by
    have : j = 0 := by omega
    rw [this, hB0]; have := hC.1; omega, hB0⟩
  have hpath : OpenPath g A C :=
    Relation.ReflTransGen.tail (Relation.ReflTransGen.tail Relation.ReflTransGen.refl
      ⟨hEAB, hoB⟩) ⟨hEBC, hoC⟩
  have hnopath : ¬ OpenPath g C A := by
    have hall : ∀ x : Int, OpenPath g C x → x = C := by
      intro x hx
      induction hx with
      | refl => rfl
      | tail _ hstep ih =>
        rw [ih] at hstep
        rcases hedge _ _ hstep.1 with ⟨h1, _⟩ | ⟨h1, _⟩
        · exact absurd h1.symm hAC
        · exact absurd h1.symm hBC
    intro hp
    exact hAC (hall A hp)
  constructor
  · obtain ⟨status, st1, pl1, _, p1, p2, _, p4, p5⟩ := Pathfind_spec hv hA hC st pl
    rcases p5 with ⟨a, _, hhead, hlen, k, hr⟩ | ⟨_, b, _⟩
    · rw [a] at p1
      have hk1 : k ≠ 1 := by
        intro hk
        have := hr.last
        rw [hk, hr.first] at this
        exact hAC this.symm
      have hk1b := hr.k_pos
      have e2 : aget pl1 2 = B := by
        have := hr.edge 1 (le_refl _) (by omega)
        rw [hr.first] at this
        rcases hedge _ _ this with ⟨_, h2⟩ | ⟨h1, _⟩
        · exact absurd h2.symm hBC
        · exact h1
      have hk2 : k ≠ 2 := by
        intro hk
        have := hr.last
        rw [hk, e2] at this
        exact hAB this.symm
      have e3 : aget pl1 3 = A := by
        have := hr.edge 2 (by norm_num) (by omega)
        rw [e2] at this
        rcases hedge _ _ this with ⟨h1, _⟩ | ⟨_, h2⟩
        · exact h1
        · exact absurd h2 hBC
      have hk3 : k = 3 := by
        by_contra hk
        have := hr.edge 3 (by norm_num) (by omega)
        rw [e3] at this
        rcases hedge _ _ this with ⟨_, h2⟩ | ⟨_, h2⟩
        · exact hAB h2
        · exact hAC h2
      have hrefC : aget st1.opensetRef C ≠ 0 :=
        (p2.open_ok.ref C).2 ⟨0, le_refl _, hlen, hhead⟩
      obtain ⟨p, kc, c1, _, c3, c4, c5⟩ := p4.pred C (Or.inr hrefC) (fun h => hAC h.symm)
      obtain ⟨hkc, hpc⟩ := hed p C kc c3 c4
      have hpB : p = B := by
        rcases hpc with ⟨_, h2⟩ | ⟨h1, _⟩
        · exact absurd h2.symm hBC
        · exact h1
      subst hkc
      rw [hpB] at c1 c5
      obtain ⟨q, kb, b1, _, b3, b4, b5⟩ := p4.pred B (Or.inl c1) (fun h => hAB h.symm)
      obtain ⟨hkb, hqc⟩ := hed q B kb b3 b4
      have hqA : q = A := by
        rcases hqc with ⟨h1, _⟩ | ⟨_, h2⟩
        · exact h1
        · exact absurd h2 hBC
      subst hkb
      rw [hqA] at b5
      have hg0 := p4.start_zero
      refine ⟨st1, pl1, p1, hr.sentinel, hr.first, e2, e3, ?_, ?_⟩
      · intro j hj
        exact hr.rest j (by omega)
      · rw [c5, b5, hg0, hd1, hd2]
        ring
    · exact absurd hpath b
  · obtain ⟨status, st1, pl1, _, p1, _, _, _, p5⟩ := Pathfind_spec hv hC hA st pl
    rcases p5 with ⟨_, b, _⟩ | ⟨a, _, c, _⟩
    · exact absurd b hnopath
    · rw [a, c] at p1
      exact ⟨st1, p1⟩

/-- Witness of C3 on the spec's instance: the chain `1 -> 2 -> 3` with
distances 10 and 15, for which the cost of waypoint 3 is 25. -/
theorem Pathfind_chain_witness :
    (∃ (st1 : Search 4) (pl1 : Arr 4),
      Pathfind chainGraph 1 3 (Search.zero 4 0) (fun _ => 0) = some (1, st1, pl1) ∧
      aget pl1 0 = -1 ∧ aget pl1 1 = 3 ∧ aget pl1 2 = 2 ∧ aget pl1 3 = 1 ∧
      (∀ j : Int, 4 ≤ j → aget pl1 j = 0) ∧ aget st1.g_score 3 = 10 + 15) ∧
    ∃ st2 : Search 4,
      Pathfind chainGraph 3 1 (Search.zero 4 0) (fun _ => 0) = some (0, st2, fun _ => 0) :=
  Pathfind_chain chainGraph 1 2 3 10 15 (Search.zero 4 0) (fun _ => 0)
    ⟨by decide, by decide⟩ ⟨by decide, by decide⟩ ⟨by decide, by decide⟩
    (by decide) (by decide) (by decide) (by decide) (by decide)
    (by decide) (by decide) (by decide) (by decide)
    (fun c h1 h2 => by simp [chainGraph, h1, h2]) (by decide) (by decide)


/-! ## `Do_Pathfind` -/

theorem zget_zset {N : Nat} (zl : ZombieList N) (i j : Int) (z : zombie_ai N) :
    zget (zset zl i z) j =
      if j = i ∧ 0 ≤ j ∧ j < (MaxZombies : Int) then z else zget zl j := by
  unfold zget zset
  by_cases h : 0 ≤ j ∧ j < (MaxZombies : Int)
  · have hj : ((j.toNat : Nat) : Int) = j := Int.toNat_of_nonneg h.1
    by_cases hji : j = i
    · subst hji
      simp [h, hj]
    · have : ¬ ((j.toNat : Nat) : Int) = i := by rw [hj]; exact hji
      simp [h, hji, this]
  · have : ¬ (j = i ∧ 0 ≤ j ∧ j < (MaxZombies : Int)) := fun hh => h hh.2
    simp [h, this]

theorem zget_zset_eq {N : Nat} (zl : ZombieList N) (i : Int) (z : zombie_ai N)
    (h0 : 0 ≤ i) (h1 : i < (MaxZombies : Int)) : zget (zset zl i z) i = z := by
  rw [zget_zset, if_pos ⟨rfl, h0, h1⟩]

theorem zget_zset_ne {N : Nat} (zl : ZombieList N) (i j : Int) (z : zombie_ai N)
    (h : j ≠ i) : zget (zset zl i z) j = zget zl j := by
  rw [zget_zset, if_neg (fun hh => h hh.1)]

theorem Do_Pathfind_copy_get {N : Nat} (pl : Arr N) (k : Nat) (s : Int) (dst : Arr N)
    (j : Int) :
    aget (Do_Pathfind_copy pl k s dst) j =
      if s ≤ j ∧ j < s + k then aget pl j else aget dst j := by
  induction k generalizing s dst with
  | zero =>
    rw [Do_Pathfind_copy, if_neg (by push_cast; omega)]
  | succ k ih =>
    rw [Do_Pathfind_copy, ih]
    push_cast
    by_cases h1 : s + 1 ≤ j ∧ j < s + 1 + k
    · rw [if_pos h1, if_pos (by omega)]
    · rw [if_neg h1, aget_aset]
      by_cases h2 : j = s ∧ 0 ≤ j ∧ j < (N : Int)
      · rw [if_pos h2, if_pos (by omega), h2.1]
      · rw [if_neg h2]
        by_cases h3 : s ≤ j ∧ j < s + (k + 1)
        · rw [if_pos h3]
          have hjs : j = s := by omega
          rw [aget_oob dst j (fun hb => h2 ⟨hjs, hb⟩),
            aget_oob pl j (fun hb => h2 ⟨hjs, hb⟩)]
        · rw [if_neg h3]

theorem Do_Pathfind_copy_all {N : Nat} (pl dst : Arr N) :
    Do_Pathfind_copy pl N 0 dst = pl := by
  apply Arr_ext
  intro j h0 h1
  rw [Do_Pathfind_copy_get, if_pos ⟨h0, by omega⟩]

theorem Do_Pathfind_alloc_spec {N : Nat} (ent : Int) (pl : Arr N) (zl : ZombieList N) :
    ∀ (k : Nat) (i : Int), i + k = (MaxZombies : Int) → 0 ≤ i →
      (∃ i0 : Int, i ≤ i0 ∧ i0 < (MaxZombies : Int) ∧ (zget zl i0).zombienum = 0 ∧
        (∀ j : Int, i ≤ j → j < i0 → (zget zl j).zombienum ≠ 0) ∧
        Do_Pathfind_alloc ent pl k i zl =
          (zset zl i0 { zombienum := ent, pathlist := pl }, i0)) ∨
      ((∀ j : Int, i ≤ j → j < (MaxZombies : Int) → (zget zl j).zombienum ≠ 0) ∧
        Do_Pathfind_alloc ent pl k i zl = (zl, (MaxZombies : Int))) := by
  intro k
  induction k with
  | zero =>
    intro i hik _
    right
    refine ⟨fun j h1 h2 => by push_cast at hik; omega, ?_⟩
    rw [Do_Pathfind_alloc]
    push_cast at hik
    rw [← hik]
    simp
  | succ k ih =>
    intro i hik hi
    rw [Do_Pathfind_alloc]
    push_cast at hik
    by_cases hz : (zget zl i).zombienum = 0
    · left
      rw [if_pos hz, Do_Pathfind_copy_all]
      exact ⟨i, le_refl _, by omega, hz, fun j h1 h2 => by omega, rfl⟩
    · rw [if_neg hz]
      rcases ih (i + 1) (by omega) (by omega) with ⟨i0, a1, a2, a3, a4, a5⟩ | ⟨b1, b2⟩
      · left
        refine ⟨i0, by omega, a2, a3, ?_, a5⟩
        intro j h1 h2
        by_cases hji : j = i
        · rw [hji]; exact hz
        · exact a4 j (by omega) h2
      · right
        refine ⟨?_, b2⟩
        intro j h1 h2
        by_cases hji : j = i
        · rw [hji]; exact hz
        · exact b1 j (by omega) h2

theorem Do_Pathfind_store_spec {N : Nat} (ent : Int) (pl : Arr N) (zl : ZombieList N) :
    ∀ (k : Nat) (i : Int), i + k = (MaxZombies : Int) → 0 ≤ i → 1 ≤ k →
      (∃ i0 : Int, i ≤ i0 ∧ i0 < (MaxZombies : Int) ∧ (zget zl i0).zombienum = ent ∧
        (∀ j : Int, i ≤ j → j < i0 → (zget zl j).zombienum ≠ ent) ∧
        Do_Pathfind_store ent pl k i zl =
          (zset zl i0 { zombienum := ent, pathlist := pl }, i0)) ∨
      ((∀ j : Int, i ≤ j → j < (MaxZombies : Int) → (zget zl j).zombienum ≠ ent) ∧
        Do_Pathfind_store ent pl k i zl = Do_Pathfind_alloc ent pl MaxZombies 0 zl) := by
  intro k
  induction k with
  | zero => intro i _ _ hk; omega
  | succ k ih =>
    intro i hik hi _
    rw [Do_Pathfind_store]
    push_cast at hik
    by_cases hz : ent = (zget zl i).zombienum
    · left
      rw [if_pos hz, Do_Pathfind_copy_all]
      refine ⟨i, le_refl _, by omega, hz.symm, fun j h1 h2 => by omega, ?_⟩
      rw [hz]
    · rw [if_neg hz]
      by_cases hlast : i = (MaxZombies : Int) - 1
      · right
        rw [if_pos hlast]
        refine ⟨?_, rfl⟩
        intro j h1 h2
        have hji : j = i := by omega
        rw [hji]
        exact fun hh => hz hh.symm
      · rw [if_neg hlast]
        rcases ih (i + 1) (by omega) (by omega) (by omega) with
          ⟨i0, a1, a2, a3, a4, a5⟩ | ⟨b1, b2⟩
        · left
          refine ⟨i0, by omega, a2, a3, ?_, a5⟩
          intro j h1 h2
          by_cases hji : j = i
          · rw [hji]; exact fun hh => hz hh.symm
          · exact a4 j (by omega) h2
        · right
          refine ⟨?_, b2⟩
          intro j h1 h2
          by_cases hji : j = i
          · rw [hji]; exact fun hh => hz hh.symm
          · exact b1 j (by omega) h2


theorem Do_Pathfind_store_outcome {N : Nat} (ent : Int) (pl : Arr N) (zl : ZombieList N) :
    (∃ i0 : Int, 0 ≤ i0 ∧ i0 < (MaxZombies : Int) ∧ (zget zl i0).zombienum = ent ∧
      (∀ j : Int, 0 ≤ j → j < i0 → (zget zl j).zombienum ≠ ent) ∧
      Do_Pathfind_store ent pl MaxZombies 0 zl =
        (zset zl i0 { zombienum := ent, pathlist := pl }, i0)) ∨
    ((∀ j : Int, 0 ≤ j → j < (MaxZombies : Int) → (zget zl j).zombienum ≠ ent) ∧
      ∃ i0 : Int, 0 ≤ i0 ∧ i0 < (MaxZombies : Int) ∧ (zget zl i0).zombienum = 0 ∧
        (∀ j : Int, 0 ≤ j → j < i0 → (zget zl j).zombienum ≠ 0) ∧
        Do_Pathfind_store ent pl MaxZombies 0 zl =
          (zset zl i0 { zombienum := ent, pathlist := pl }, i0)) ∨
    ((∀ j : Int, 0 ≤ j → j < (MaxZombies : Int) → (zget zl j).zombienum ≠ ent) ∧
      (∀ j : Int, 0 ≤ j → j < (MaxZombies : Int) → (zget zl j).zombienum ≠ 0) ∧
      Do_Pathfind_store ent pl MaxZombies 0 zl = (zl, (MaxZombies : Int))) := by
  rcases Do_Pathfind_store_spec ent pl zl MaxZombies 0 (by simp) (le_refl _)
    (by unfold MaxZombies; omega) with ⟨i0, a1, a2, a3, a4, a5⟩ | ⟨b1, b2⟩
  · exact Or.inl ⟨i0, a1, a2, a3, a4, a5⟩
  · rcases Do_Pathfind_alloc_spec ent pl zl MaxZombies 0 (by simp) (le_refl _) with
      ⟨i0, a1, a2, a3, a4, a5⟩ | ⟨c1, c2⟩
    · exact Or.inr (Or.inl ⟨b1, i0, a1, a2, a3, a4, by rw [b2, a5]⟩)
    · exact Or.inr (Or.inr ⟨b1, c1, by rw [b2, c2]⟩)

theorem IsRoute_single {N : Nat} {g : Graph} {s e : Int} {pl : Arr N} {k : Int}
    (h : IsRoute g s e pl k) : (s = e ↔ aget pl 2 = 0) ∧ aget pl 1 ≠ 0 := by
  have hk := h.k_pos
  have hv1 := h.valid 1 (le_refl _) hk
  have hv1a : 1 ≤ aget pl 1 := hv1.1
  refine ⟨⟨?_, ?_⟩, by omega⟩
  · intro hse
    have hk1 : k = 1 := by
      have := h.nodup k 1 hk (le_refl _) (le_refl _) hk (by rw [h.last, h.first, hse])
      exact this
    exact h.rest 2 (by omega)
  · intro h2
    have hk1 : k = 1 := by
      by_contra hne
      have hv2 := h.valid 2 (by norm_num) (by omega)
      have : 1 ≤ aget pl 2 := hv2.1
      omega
    have := h.last
    rw [hk1, h.first] at this
    exact this.symm

/-- C9: status of `Do_Pathfind`. When the resolver yields valid non-zero
waypoints `bz` (pursuer) and `be` (target) on a graph with valid non-zero edge
targets, and a path record with the pursuer's id or a free one exists, then
`Pathfind(bz, be)` returns 0 or 1 and `Do_Pathfind` returns 0 exactly when
`Pathfind` returned 0, -1 exactly when `Pathfind` returned 1 and `bz = be`,
and 1 exactly when `Pathfind` returned 1 and `bz ≠ be`; on success the route is
stored in a record of the pursuer, and `bz = be` holds exactly when that route
has a single waypoint after the sentinel. -/
theorem Do_Pathfind_status {N : Nat} (g : Graph)
    (sweep : Int × Int × Int → Int × Int × Int → Int → Bool)
    (zent tent : Int) (zorg eorg : Int × Int × Int) (nav : Nav N) (bz be : Int)
    (hb : Do_Pathfind_resolve N g sweep nav.closest_waypoints zent tent zorg eorg = (bz, be))
    (hv : ValidGraph N g) (hz : ValidIndex N bz) (he : ValidIndex N be)
    (hslot : ∃ i : Int, 0 ≤ i ∧ i < (MaxZombies : Int) ∧
      ((zget nav.zombie_list i).zombienum = zent ∨ (zget nav.zombie_list i).zombienum = 0)) :
    ∃ (status : Int) (ws1 : Search N) (pl1 : Arr N) (ret : Int) (nav1 : Nav N),
      Pathfind g bz be nav.ws nav.proces_list = some (status, ws1, pl1) ∧
      Do_Pathfind g sweep zent tent zorg eorg nav = some (ret, nav1) ∧
      (status = 0 ∨ status = 1) ∧
      (ret = 0 ↔ status = 0) ∧
      (ret = -1 ↔ status = 1 ∧ bz = be) ∧
      (ret = 1 ↔ status = 1 ∧ bz ≠ be) ∧
      (status = 1 → ∃ i : Int, 0 ≤ i ∧ i < (MaxZombies : Int) ∧
        (zget nav1.zombie_list i).zombienum = zent ∧
        (zget nav1.zombie_list i).pathlist = pl1 ∧
        aget pl1 0 = -1 ∧ aget pl1 1 ≠ 0 ∧ (bz = be ↔ aget pl1 2 = 0)) := by
  obtain ⟨status, ws1, pl1, _, p1, _, _, _, p5⟩ := Pathfind_spec hv hz he nav.ws nav.proces_list
  rw [Do_Pathfind, hb]
  dsimp only
  rw [p1]
  dsimp only
  rcases p5 with ⟨a, _, _, _, k, hr⟩ | ⟨a, _⟩
  · obtain ⟨hsingle, hnz⟩ := IsRoute_single hr
    rw [a, if_pos (by norm_num)]
    have hstore : ∃ i0 : Int, 0 ≤ i0 ∧ i0 < (MaxZombies : Int) ∧
        Do_Pathfind_store zent pl1 MaxZombies 0 nav.zombie_list =
          (zset nav.zombie_list i0 { zombienum := zent, pathlist := pl1 }, i0) := by
      rcases Do_Pathfind_store_outcome zent pl1 nav.zombie_list with
        ⟨i0, a1, a2, _, _, a5⟩ | ⟨_, i0, a1, a2, _, _, a5⟩ | ⟨c1, c2, _⟩
      · exact ⟨i0, a1, a2, a5⟩
      · exact ⟨i0, a1, a2, a5⟩
      · obtain ⟨i, h0, h1, h2 | h2⟩ := hslot
        · exact absurd h2 (c1 i h0 h1)
        · exact absurd h2 (c2 i h0 h1)
    obtain ⟨i0, s1, s2, s3⟩ := hstore
    rw [s3]
    dsimp only
    rw [zget_zset_eq _ _ _ s1 s2]
    dsimp only
    by_cases hse : bz = be
    · have h2 : aget pl1 2 = 0 := hsingle.1 hse
      rw [if_pos ⟨h2, hnz⟩]
      refine ⟨1, ws1, pl1, -1, _, rfl, rfl, Or.inr rfl, by norm_num, by simp [hse],
        by simp [hse], ?_⟩
      intro _
      refine ⟨i0, s1, s2, ?_, ?_, hr.sentinel, hnz, hsingle⟩
      · show (zget (zset nav.zombie_list i0 { zombienum := zent, pathlist := pl1 }) i0).zombienum
          = zent
        rw [zget_zset_eq _ _ _ s1 s2]
      · show (zget (zset nav.zombie_list i0 { zombienum := zent, pathlist := pl1 }) i0).pathlist
          = pl1
        rw [zget_zset_eq _ _ _ s1 s2]
    · have h2 : ¬ aget pl1 2 = 0 := fun hh => hse (hsingle.2 hh)
      rw [if_neg (fun hh => h2 hh.1)]
      refine ⟨1, ws1, pl1, 1, _, rfl, rfl, Or.inr rfl, by norm_num, by simp [hse],
        by simp [hse], ?_⟩
      intro _
      refine ⟨i0, s1, s2, ?_, ?_, hr.sentinel, hnz, hsingle⟩
      · show (zget (zset nav.zombie_list i0 { zombienum := zent, pathlist := pl1 }) i0).zombienum
          = zent
        rw [zget_zset_eq _ _ _ s1 s2]
      · show (zget (zset nav.zombie_list i0 { zombienum := zent, pathlist := pl1 }) i0).pathlist
          = pl1
        rw [zget_zset_eq _ _ _ s1 s2]
  · rw [a, if_neg (by norm_num)]
    refine ⟨0, ws1, pl1, 0, _, rfl, rfl, Or.inl rfl, by norm_num, by norm_num, by norm_num, ?_⟩
    intro h
    norm_num at h


theorem navGraph_valid : ValidGraph 4 navGraph := chainGraph_valid

/-- Witness of C9: on `navGraph` with an unobstructed sweep, entity 5 stands at
waypoint 1 and entity 6 at waypoint 3; no path record is in use. -/
theorem Do_Pathfind_status_witness :
    ∃ (status : Int) (ws1 : Search 4) (pl1 : Arr 4) (ret : Int) (nav1 : Nav 4),
      Pathfind navGraph 1 3 navEmpty.ws navEmpty.proces_list = some (status, ws1, pl1) ∧
      Do_Pathfind navGraph (fun _ _ _ => true) 5 6 (10, 0, 0) (30, 0, 0) navEmpty =
        some (ret, nav1) ∧
      (status = 0 ∨ status = 1) ∧
      (ret = 0 ↔ status = 0) ∧
      (ret = -1 ↔ status = 1 ∧ (1 : Int) = 3) ∧
      (ret = 1 ↔ status = 1 ∧ (1 : Int) ≠ 3) ∧
      (status = 1 → ∃ i : Int, 0 ≤ i ∧ i < (MaxZombies : Int) ∧
        (zget nav1.zombie_list i).zombienum = 5 ∧
        (zget nav1.zombie_list i).pathlist = pl1 ∧
        aget pl1 0 = -1 ∧ aget pl1 1 ≠ 0 ∧ ((1 : Int) = 3 ↔ aget pl1 2 = 0)) :=
  Do_Pathfind_status navGraph (fun _ _ _ => true) 5 6 (10, 0, 0) (30, 0, 0) navEmpty 1 3
    (by decide!) navGraph_valid ⟨by decide, by decide⟩ ⟨by decide, by decide⟩
    ⟨0, by decide, by decide, Or.inr (by decide!)⟩

/-- C10: Path Store update by `Do_Pathfind`. Under the hypotheses of C9 on the
resolver and the graph: when `Pathfind` returns 0 `zombie_list` is unchanged;
when it returns 1 and a record with the pursuer's id exists, the lowest such
record receives the whole `proces_list` and keeps its id, and when none exists
the lowest record with id 0 receives the pursuer's id and the whole
`proces_list`; in both cases every other record is unchanged. The statement
does not need the pursuer's id to be non-zero. -/
theorem Do_Pathfind_store_frame {N : Nat} (g : Graph)
    (sweep : Int × Int × Int → Int × Int × Int → Int → Bool)
    (zent tent : Int) (zorg eorg : Int × Int × Int) (nav : Nav N) (bz be : Int)
    (hb : Do_Pathfind_resolve N g sweep nav.closest_waypoints zent tent zorg eorg = (bz, be))
    (hv : ValidGraph N g) (hz : ValidIndex N bz) (he : ValidIndex N be) :
    ∃ (status : Int) (ws1 : Search N) (pl1 : Arr N) (ret : Int) (nav1 : Nav N),
      Pathfind g bz be nav.ws nav.proces_list = some (status, ws1, pl1) ∧
      Do_Pathfind g sweep zent tent zorg eorg nav = some (ret, nav1) ∧
      (status = 0 ∨ status = 1) ∧
      (status = 0 → nav1.zombie_list = nav.zombie_list) ∧
      (status = 1 →
        (∀ i0 : Int, 0 ≤ i0 → i0 < (MaxZombies : Int) →
          (zget nav.zombie_list i0).zombienum = zent →
          (∀ j : Int, 0 ≤ j → j < i0 → (zget nav.zombie_list j).zombienum ≠ zent) →
          zget nav1.zombie_list i0 = { zombienum := zent, pathlist := pl1 } ∧
          ∀ j : Int, j ≠ i0 → zget nav1.zombie_list j = zget nav.zombie_list j) ∧
        ((∀ j : Int, 0 ≤ j → j < (MaxZombies : Int) →
            (zget nav.zombie_list j).zombienum ≠ zent) →
          ∀ i0 : Int, 0 ≤ i0 → i0 < (MaxZombies : Int) →
          (zget nav.zombie_list i0).zombienum = 0 →
          (∀ j : Int, 0 ≤ j → j < i0 → (zget nav.zombie_list j).zombienum ≠ 0) →
          zget nav1.zombie_list i0 = { zombienum := zent, pathlist := pl1 } ∧
          ∀ j : Int, j ≠ i0 → zget nav1.zombie_list j = zget nav.zombie_list j)) := by
  obtain ⟨status, ws1, pl1, _, p1, _, _, _, p5⟩ := Pathfind_spec hv hz he nav.ws nav.proces_list
  have hret : ∀ (c : Prop) [Decidable c] (a b : Nav N),
      ∃ (ret : Int) (nav1 : Nav N), (if c then some ((-1 : Int), a) else some ((1 : Int), b)) =
        some (ret, nav1) ∧ (nav1 = a ∨ nav1 = b) := by
    intro c _ a b
    by_cases hc : c
    · exact ⟨-1, a, by rw [if_pos hc], Or.inl rfl⟩
    · exact ⟨1, b, by rw [if_neg hc], Or.inr rfl⟩
  rw [Do_Pathfind, hb]
  dsimp only
  rw [p1]
  dsimp only
  rcases p5 with ⟨a, _⟩ | ⟨a, _⟩
  · rw [a, if_pos (by norm_num)]
    obtain ⟨ret, nav1, e1, e2⟩ := hret
      (aget (zget (Do_Pathfind_store zent pl1 MaxZombies 0 nav.zombie_list).1
          (Do_Pathfind_store zent pl1 MaxZombies 0 nav.zombie_list).2).pathlist 2 = 0 ∧
        aget (zget (Do_Pathfind_store zent pl1 MaxZombies 0 nav.zombie_list).1
          (Do_Pathfind_store zent pl1 MaxZombies 0 nav.zombie_list).2).pathlist 1 ≠ 0)
      { ws := ws1, proces_list := pl1
        closest_waypoints := fun k =>
          if k = tent then be else if k = zent then bz else nav.closest_waypoints k
        zombie_list := (Do_Pathfind_store zent pl1 MaxZombies 0 nav.zombie_list).1 }
      { ws := ws1, proces_list := pl1
        closest_waypoints := fun k =>
          if k = tent then be else if k = zent then bz else nav.closest_waypoints k
        zombie_list := (Do_Pathfind_store zent pl1 MaxZombies 0 nav.zombie_list).1 }
    have hzl : nav1.zombie_list =
        (Do_Pathfind_store zent pl1 MaxZombies 0 nav.zombie_list).1 := by
      rcases e2 with e2 | e2 <;> rw [e2]
    refine ⟨1, ws1, pl1, ret, nav1, rfl, e1, Or.inr rfl, fun h => by norm_num at h, ?_⟩
    intro _
    rw [hzl]
    constructor
    · intro i0 h0 h1 h2 h3
      rcases Do_Pathfind_store_outcome zent pl1 nav.zombie_list with
        ⟨i1, a1, a2, a3, a4, a5⟩ | ⟨b1, _⟩ | ⟨c1, _⟩
      · have hi : i1 = i0 := by
          by_contra hne
          rcases lt_or_gt_of_ne hne with hl | hl
          · exact h3 i1 a1 hl a3
          · exact a4 i0 h0 hl h2
        rw [a5, hi]
        exact ⟨zget_zset_eq _ _ _ h0 h1, fun j hj => zget_zset_ne _ _ _ _ hj⟩
      · exact absurd h2 (b1 i0 h0 h1)
      · exact absurd h2 (c1 i0 h0 h1)
    · intro hno i0 h0 h1 h2 h3
      rcases Do_Pathfind_store_outcome zent pl1 nav.zombie_list with
        ⟨i1, a1, a2, a3, _⟩ | ⟨_, i1, a1, a2, a3, a4, a5⟩ | ⟨_, c2, _⟩
      · exact absurd a3 (hno i1 a1 a2)
      · have hi : i1 = i0 := by
          by_contra hne
          rcases lt_or_gt_of_ne hne with hl | hl
          · exact h3 i1 a1 hl a3
          · exact a4 i0 h0 hl h2
        rw [a5, hi]
        exact ⟨zget_zset_eq _ _ _ h0 h1, fun j hj => zget_zset_ne _ _ _ _ hj⟩
      · exact absurd h2 (c2 i0 h0 h1)
  · rw [a, if_neg (by norm_num)]
    exact ⟨0, ws1, pl1, 0, _, rfl, rfl, Or.inl rfl, fun _ => rfl, fun h => by norm_num at h⟩

/-- Witness of C10 on the input of the witness of C9. -/
theorem Do_Pathfind_store_frame_witness :
    ∃ (status : Int) (ws1 : Search 4) (pl1 : Arr 4) (ret : Int) (nav1 : Nav 4),
      Pathfind navGraph 1 3 navEmpty.ws navEmpty.proces_list = some (status, ws1, pl1) ∧
      Do_Pathfind navGraph (fun _ _ _ => true) 5 6 (10, 0, 0) (30, 0, 0) navEmpty =
        some (ret, nav1) ∧
      (status = 0 ∨ status = 1) ∧
      (status = 0 → nav1.zombie_list = navEmpty.zombie_list) ∧
      (status = 1 →
        (∀ i0 : Int, 0 ≤ i0 → i0 < (MaxZombies : Int) →
          (zget navEmpty.zombie_list i0).zombienum = 5 →
          (∀ j : Int, 0 ≤ j → j < i0 → (zget navEmpty.zombie_list j).zombienum ≠ 5) →
          zget nav1.zombie_list i0 = { zombienum := 5, pathlist := pl1 } ∧
          ∀ j : Int, j ≠ i0 → zget nav1.zombie_list j = zget navEmpty.zombie_list j) ∧
        ((∀ j : Int, 0 ≤ j → j < (MaxZombies : Int) →
            (zget navEmpty.zombie_list j).zombienum ≠ 5) →
          ∀ i0 : Int, 0 ≤ i0 → i0 < (MaxZombies : Int) →
          (zget navEmpty.zombie_list i0).zombienum = 0 →
          (∀ j : Int, 0 ≤ j → j < i0 → (zget navEmpty.zombie_list j).zombienum ≠ 0) →
          zget nav1.zombie_list i0 = { zombienum := 5, pathlist := pl1 } ∧
          ∀ j : Int, j ≠ i0 → zget nav1.zombie_list j = zget navEmpty.zombie_list j)) :=
  Do_Pathfind_store_frame navGraph (fun _ _ _ => true) 5 6 (10, 0, 0) (30, 0, 0) navEmpty 1 3
    (by decide!) navGraph_valid ⟨by decide, by decide⟩ ⟨by decide, by decide⟩


/-! ## The resolver of `Do_Pathfind` -/

/-- The scan over all waypoints, first component: the result is the initial
pair or a candidate that is strictly nearer, and no candidate in the scanned
range is nearer than the result. -/
theorem Do_Pathfind_scan_fst (g : Graph)
    (sweep : Int × Int × Int → Int × Int × Int → Int → Bool)
    (zorg : Int × Int × Int) (zent : Int) (eorg : Int × Int × Int) (eent : Int) :
    ∀ (k : Nat) (i : Int) (acc : (Int × Int) × (Int × Int)),
      ((Do_Pathfind_scan g sweep zorg zent eorg eent k i acc).1 = acc.1 ∨
        ∃ j : Int, i ≤ j ∧ j < i + k ∧ Candidate g sweep zorg zent j ∧
          (Do_Pathfind_scan g sweep zorg zent eorg eent k i acc).1
            = (VectorDistanceSquared (g.origin j) zorg, j) ∧
          VectorDistanceSquared (g.origin j) zorg < acc.1.1) ∧
      (Do_Pathfind_scan g sweep zorg zent eorg eent k i acc).1.1 ≤ acc.1.1 ∧
      ∀ j : Int, i ≤ j → j < i + k → Candidate g sweep zorg zent j →
        (Do_Pathfind_scan g sweep zorg zent eorg eent k i acc).1.1
          ≤ VectorDistanceSquared (g.origin j) zorg := by
  intro k
  induction k with
  | zero =>
    intro i acc
    refine ⟨Or.inl rfl, le_refl _, ?_⟩
    intro j h1 h2
    simp at h2
    omega
  | succ k ih =>
    intro i acc
    rw [Do_Pathfind_scan]
    by_cases hskip : g.used i = 0 ∨ g.open_ i = 0
    · rw [if_pos hskip]
      obtain ⟨h1, h2, h3⟩ := ih (i + 1) acc
      refine ⟨?_, h2, ?_⟩
      · rcases h1 with h1 | ⟨j, hj1, hj2, hj3, hj4, hj5⟩
        · exact Or.inl h1
        · exact Or.inr ⟨j, by omega, by push_cast; omega, hj3, hj4, hj5⟩
      · intro j hj1 hj2 hc
        by_cases hji : j = i
        · subst hji
          rcases hskip with hs | hs
          · exact absurd hs hc.1
          · exact absurd hs hc.2.1
        · exact h3 j (by omega) (by push_cast at hj2; omega) hc
    · rw [if_neg hskip]
      push_neg at hskip
      by_cases hz : VectorDistanceSquared (g.origin i) zorg < acc.1.1 ∧
          sweep zorg (g.origin i) zent = true
      · obtain ⟨h1, h2, h3⟩ := ih (i + 1)
          (if VectorDistanceSquared (g.origin i) zorg < acc.1.1 ∧
              sweep zorg (g.origin i) zent = true
            then (VectorDistanceSquared (g.origin i) zorg, i) else acc.1,
           if VectorDistanceSquared (g.origin i) eorg < acc.2.1 ∧
              sweep eorg (g.origin i) eent = true
            then (VectorDistanceSquared (g.origin i) eorg, i) else acc.2)
        simp only [if_pos hz] at h1 h2 h3
        simp only [if_pos hz]
        refine ⟨Or.inr ?_, by omega, ?_⟩
        · rcases h1 with h1 | ⟨j, hj1, hj2, hj3, hj4, hj5⟩
          · exact ⟨i, le_refl _, by push_cast; omega, ⟨hskip.1, hskip.2, hz.2⟩, h1, hz.1⟩
          · exact ⟨j, by omega, by push_cast; omega, hj3, hj4, by omega⟩
        · intro j hj1 hj2 hc
          by_cases hji : j = i
          · subst hji
            exact h2
          · exact h3 j (by omega) (by push_cast at hj2; omega) hc
      · obtain ⟨h1, h2, h3⟩ := ih (i + 1)
          (if VectorDistanceSquared (g.origin i) zorg < acc.1.1 ∧
              sweep zorg (g.origin i) zent = true
            then (VectorDistanceSquared (g.origin i) zorg, i) else acc.1,
           if VectorDistanceSquared (g.origin i) eorg < acc.2.1 ∧
              sweep eorg (g.origin i) eent = true
            then (VectorDistanceSquared (g.origin i) eorg, i) else acc.2)
        simp only [if_neg hz] at h1 h2 h3
        simp only [if_neg hz]
        refine ⟨?_, h2, ?_⟩
        · rcases h1 with h1 | ⟨j, hj1, hj2, hj3, hj4, hj5⟩
          · exact Or.inl h1
          · exact Or.inr ⟨j, by omega, by push_cast; omega, hj3, hj4, hj5⟩
        · intro j hj1 hj2 hc
          by_cases hji : j = i
          · subst hji
            have : ¬ VectorDistanceSquared (g.origin j) zorg < acc.1.1 := by
              intro hlt
              exact hz ⟨hlt, hc.2.2⟩
            omega
          · exact h3 j (by omega) (by push_cast at hj2; omega) hc

/-- The scan over all waypoints, second component. -/
theorem Do_Pathfind_scan_snd (g : Graph)
    (sweep : Int × Int × Int → Int × Int × Int → Int → Bool)
    (zorg : Int × Int × Int) (zent : Int) (eorg : Int × Int × Int) (eent : Int) :
    ∀ (k : Nat) (i : Int) (acc : (Int × Int) × (Int × Int)),
      ((Do_Pathfind_scan g sweep zorg zent eorg eent k i acc).2 = acc.2 ∨
        ∃ j : Int, i ≤ j ∧ j < i + k ∧ Candidate g sweep eorg eent j ∧
          (Do_Pathfind_scan g sweep zorg zent eorg eent k i acc).2
            = (VectorDistanceSquared (g.origin j) eorg, j) ∧
          VectorDistanceSquared (g.origin j) eorg < acc.2.1) ∧
      (Do_Pathfind_scan g sweep zorg zent eorg eent k i acc).2.1 ≤ acc.2.1 ∧
      ∀ j : Int, i ≤ j → j < i + k → Candidate g sweep eorg eent j →
        (Do_Pathfind_scan g sweep zorg zent eorg eent k i acc).2.1
          ≤ VectorDistanceSquared (g.origin j) eorg := by
  intro k
  induction k with
  | zero =>
    intro i acc
    refine ⟨Or.inl rfl, le_refl _, ?_⟩
    intro j h1 h2
    simp at h2
    omega
  | succ k ih =>
    intro i acc
    rw [Do_Pathfind_scan]
    by_cases hskip : g.used i = 0 ∨ g.open_ i = 0
    · rw [if_pos hskip]
      obtain ⟨h1, h2, h3⟩ := ih (i + 1) acc
      refine ⟨?_, h2, ?_⟩
      · rcases h1 with h1 | ⟨j, hj1, hj2, hj3, hj4, hj5⟩
        · exact Or.inl h1
        · exact Or.inr ⟨j, by omega, by push_cast; omega, hj3, hj4, hj5⟩
      · intro j hj1 hj2 hc
        by_cases hji : j = i
        · subst hji
          rcases hskip with hs | hs
          · exact absurd hs hc.1
          · exact absurd hs hc.2.1
        · exact h3 j (by omega) (by push_cast at hj2; omega) hc
    · rw [if_neg hskip]
      push_neg at hskip
      by_cases hz : VectorDistanceSquared (g.origin i) eorg < acc.2.1 ∧
          sweep eorg (g.origin i) eent = true
      · obtain ⟨h1, h2, h3⟩ := ih (i + 1)
          (if VectorDistanceSquared (g.origin i) zorg < acc.1.1 ∧
              sweep zorg (g.origin i) zent = true
            then (VectorDistanceSquared (g.origin i) zorg, i) else acc.1,
           if VectorDistanceSquared (g.origin i) eorg < acc.2.1 ∧
              sweep eorg (g.origin i) eent = true
            then (VectorDistanceSquared (g.origin i) eorg, i) else acc.2)
        simp only [if_pos hz] at h1 h2 h3
        simp only [if_pos hz]
        refine ⟨Or.inr ?_, by omega, ?_⟩
        · rcases h1 with h1 | ⟨j, hj1, hj2, hj3, hj4, hj5⟩
          · exact ⟨i, le_refl _, by push_cast; omega, ⟨hskip.1, hskip.2, hz.2⟩, h1, hz.1⟩
          · exact ⟨j, by omega, by push_cast; omega, hj3, hj4, by omega⟩
        · intro j hj1 hj2 hc
          by_cases hji : j = i
          · subst hji
            exact h2
          · exact h3 j (by omega) (by push_cast at hj2; omega) hc
      · obtain ⟨h1, h2, h3⟩ := ih (i + 1)
          (if VectorDistanceSquared (g.origin i) zorg < acc.1.1 ∧
              sweep zorg (g.origin i) zent = true
            then (VectorDistanceSquared (g.origin i) zorg, i) else acc.1,
           if VectorDistanceSquared (g.origin i) eorg < acc.2.1 ∧
              sweep eorg (g.origin i) eent = true
            then (VectorDistanceSquared (g.origin i) eorg, i) else acc.2)
        simp only [if_neg hz] at h1 h2 h3
        simp only [if_neg hz]
        refine ⟨?_, h2, ?_⟩
        · rcases h1 with h1 | ⟨j, hj1, hj2, hj3, hj4, hj5⟩
          · exact Or.inl h1
          · exact Or.inr ⟨j, by omega, by push_cast; omega, hj3, hj4, hj5⟩
        · intro j hj1 hj2 hc
          by_cases hji : j = i
          · subst hji
            have : ¬ VectorDistanceSquared (g.origin j) eorg < acc.2.1 := by
              intro hlt
              exact hz ⟨hlt, hc.2.2⟩
            omega
          · exact h3 j (by omega) (by push_cast at hj2; omega) hc

/-- Without a cached waypoint the first stage of the resolver leaves the
initial pair. -/
theorem Do_Pathfind_cached_none (g : Graph)
    (sweep : Int × Int × Int → Int × Int × Int → Int → Bool)
    (org : Int × Int × Int) (ent prevclosest : Int) (h : prevclosest < 0) :
    Do_Pathfind_cached g sweep org ent prevclosest = (750 * 750, -1) := by
  rw [Do_Pathfind_cached, if_neg (by omega)]

/-- With a cached waypoint whose sweep is unobstructed the first stage of the
resolver yields that waypoint. -/
theorem Do_Pathfind_cached_hit (g : Graph)
    (sweep : Int × Int × Int → Int × Int × Int → Int → Bool)
    (org : Int × Int × Int) (ent prevclosest : Int) (h : 0 ≤ prevclosest)
    (hs : sweep org (g.origin prevclosest) ent = true) :
    Do_Pathfind_cached g sweep org ent prevclosest
      = (VectorDistanceSquared (g.origin prevclosest) org, prevclosest) := by
  rw [Do_Pathfind_cached, if_pos (by omega), if_pos hs]

/-- The resolver for the pursuer: the result is the waypoint of the first
stage, and no candidate is nearer than that stage found, or it is a candidate
strictly nearer than the first stage found and nearest of all candidates. -/
theorem Do_Pathfind_resolve_fst {N : Nat} (g : Graph)
    (sweep : Int × Int × Int → Int × Int × Int → Int → Bool)
    (closest_waypoints : Int → Int) (zent tent : Int) (zorg eorg : Int × Int × Int) :
    ((Do_Pathfind_resolve N g sweep closest_waypoints zent tent zorg eorg).1
        = (Do_Pathfind_cached g sweep zorg zent (closest_waypoints zent)).2 ∧
      ∀ j : Int, 0 ≤ j → j < N → Candidate g sweep zorg zent j →
        (Do_Pathfind_cached g sweep zorg zent (closest_waypoints zent)).1
          ≤ VectorDistanceSquared (g.origin j) zorg) ∨
    (Nearest N g sweep zorg zent
        (Do_Pathfind_resolve N g sweep closest_waypoints zent tent zorg eorg).1 ∧
      VectorDistanceSquared
        (g.origin (Do_Pathfind_resolve N g sweep closest_waypoints zent tent zorg eorg).1)
        zorg < (Do_Pathfind_cached g sweep zorg zent (closest_waypoints zent)).1) := by
  obtain ⟨h1, _, h3⟩ := Do_Pathfind_scan_fst g sweep zorg zent eorg tent N 0
    (Do_Pathfind_cached g sweep zorg zent (closest_waypoints zent),
     Do_Pathfind_cached g sweep eorg tent (closest_waypoints tent))
  simp only [Do_Pathfind_resolve, Nearest]
  rcases h1 with h1 | ⟨j, hj1, hj2, hj3, hj4, hj5⟩
  · left
    rw [h1] at h3 ⊢
    exact ⟨rfl, fun j hj1 hj2 hc => h3 j hj1 (by omega) hc⟩
  · right
    rw [hj4] at h3 ⊢
    exact ⟨⟨hj1, by omega, hj3, fun j hj1 hj2 hc => h3 j hj1 (by omega) hc⟩, hj5⟩

/-- The resolver for the target. -/
theorem Do_Pathfind_resolve_snd {N : Nat} (g : Graph)
    (sweep : Int × Int × Int → Int × Int × Int → Int → Bool)
    (closest_waypoints : Int → Int) (zent tent : Int) (zorg eorg : Int × Int × Int) :
    ((Do_Pathfind_resolve N g sweep closest_waypoints zent tent zorg eorg).2
        = (Do_Pathfind_cached g sweep eorg tent (closest_waypoints tent)).2 ∧
      ∀ j : Int, 0 ≤ j → j < N → Candidate g sweep eorg tent j →
        (Do_Pathfind_cached g sweep eorg tent (closest_waypoints tent)).1
          ≤ VectorDistanceSquared (g.origin j) eorg) ∨
    (Nearest N g sweep eorg tent
        (Do_Pathfind_resolve N g sweep closest_waypoints zent tent zorg eorg).2 ∧
      VectorDistanceSquared
        (g.origin (Do_Pathfind_resolve N g sweep closest_waypoints zent tent zorg eorg).2)
        eorg < (Do_Pathfind_cached g sweep eorg tent (closest_waypoints tent)).1) := by
  obtain ⟨h1, _, h3⟩ := Do_Pathfind_scan_snd g sweep zorg zent eorg tent N 0
    (Do_Pathfind_cached g sweep zorg zent (closest_waypoints zent),
     Do_Pathfind_cached g sweep eorg tent (closest_waypoints tent))
  simp only [Do_Pathfind_resolve, Nearest]
  rcases h1 with h1 | ⟨j, hj1, hj2, hj3, hj4, hj5⟩
  · left
    rw [h1] at h3 ⊢
    exact ⟨rfl, fun j hj1 hj2 hc => h3 j hj1 (by omega) hc⟩
  · right
    rw [hj4] at h3 ⊢
    exact ⟨⟨hj1, by omega, hj3, fun j hj1 hj2 hc => h3 j hj1 (by omega) hc⟩, hj5⟩

/-! ## Properties of the resolver -/

/-- C11, as the claim states it, fails: in `navGraph` the waypoints 1, 2, 3
are used and open and every sweep is unobstructed, yet for agents without a
cached waypoint at `(1000, 0, 0)`, more than 750 away from every waypoint, the
resolver yields `-1` for both. -/
theorem full_scan_beyond_range :
    Do_Pathfind_resolve 4 navGraph sweepClear (fun _ => -1) 1 2 (1000, 0, 0) (1000, 0, 0)
        = (-1, -1) ∧
      navGraph.used 1 ≠ 0 ∧ navGraph.open_ 1 ≠ 0 ∧
      sweepClear (1000, 0, 0) (navGraph.origin 1) 1 = true := by
  decide!

/-- C11 (amended): for an agent without a cached waypoint (cache entry
negative) the resolver of `Do_Pathfind` yields either a used, open waypoint
with an unobstructed sweep from the agent whose squared distance is below
`750 * 750` and minimal among all used, open waypoints with an unobstructed
sweep, or `-1`, and `-1` only if no used, open waypoint with an unobstructed
sweep lies at a squared distance below `750 * 750`. The first part is about
the pursuer, the second about the target. -/
theorem Do_Pathfind_full_scan {N : Nat} (g : Graph)
    (sweep : Int × Int × Int → Int × Int × Int → Int → Bool)
    (closest_waypoints : Int → Int) (zent tent : Int) (zorg eorg : Int × Int × Int) :
    (closest_waypoints zent < 0 →
      ((Do_Pathfind_resolve N g sweep closest_waypoints zent tent zorg eorg).1 = -1 ∧
        ∀ j : Int, 0 ≤ j → j < N → Candidate g sweep zorg zent j →
          750 * 750 ≤ VectorDistanceSquared (g.origin j) zorg) ∨
      (Nearest N g sweep zorg zent
          (Do_Pathfind_resolve N g sweep closest_waypoints zent tent zorg eorg).1 ∧
        VectorDistanceSquared
          (g.origin (Do_Pathfind_resolve N g sweep closest_waypoints zent tent zorg eorg).1)
          zorg < 750 * 750)) ∧
    (closest_waypoints tent < 0 →
      ((Do_Pathfind_resolve N g sweep closest_waypoints zent tent zorg eorg).2 = -1 ∧
        ∀ j : Int, 0 ≤ j → j < N → Candidate g sweep eorg tent j →
          750 * 750 ≤ VectorDistanceSquared (g.origin j) eorg) ∨
      (Nearest N g sweep eorg tent
          (Do_Pathfind_resolve N g sweep closest_waypoints zent tent zorg eorg).2 ∧
        VectorDistanceSquared
          (g.origin (Do_Pathfind_resolve N g sweep closest_waypoints zent tent zorg eorg).2)
          eorg < 750 * 750)) := by
  constructor
  · intro hc
    have h := Do_Pathfind_resolve_fst (N := N) g sweep closest_waypoints zent tent zorg eorg
    rw [Do_Pathfind_cached_none g sweep zorg zent _ hc] at h
    exact h
  · intro hc
    have h := Do_Pathfind_resolve_snd (N := N) g sweep closest_waypoints zent tent zorg eorg
    rw [Do_Pathfind_cached_none g sweep eorg tent _ hc] at h
    exact h

/-- The amended C11 at `navGraph` with the pursuer at waypoint 1 and the
target at waypoint 3, neither with a cached waypoint. -/
theorem Do_Pathfind_full_scan_witness :
    ((-1 : Int) < 0 ∧
      (((Do_Pathfind_resolve 4 navGraph sweepClear (fun _ => -1) 1 2
            (10, 0, 0) (30, 0, 0)).1 = -1 ∧
        ∀ j : Int, 0 ≤ j → j < (4 : Nat) → Candidate navGraph sweepClear (10, 0, 0) 1 j →
          750 * 750 ≤ VectorDistanceSquared (navGraph.origin j) (10, 0, 0)) ∨
      (Nearest 4 navGraph sweepClear (10, 0, 0) 1
          (Do_Pathfind_resolve 4 navGraph sweepClear (fun _ => -1) 1 2
            (10, 0, 0) (30, 0, 0)).1 ∧
        VectorDistanceSquared
          (navGraph.origin (Do_Pathfind_resolve 4 navGraph sweepClear (fun _ => -1) 1 2
            (10, 0, 0) (30, 0, 0)).1)
          (10, 0, 0) < 750 * 750))) ∧
    (Do_Pathfind_resolve 4 navGraph sweepClear (fun _ => -1) 1 2 (10, 0, 0) (30, 0, 0))
      = (1, 3) :=
  ⟨⟨by decide,
    (Do_Pathfind_full_scan (N := 4) navGraph sweepClear (fun _ => -1) 1 2
      (10, 0, 0) (30, 0, 0)).1 (by decide)⟩, by decide!⟩

/-- C12, as the claim states it, fails: in `navGraph` an agent at waypoint 3
whose cache holds waypoint 1, with every sweep unobstructed, is resolved to
waypoint 3, because the scan over all waypoints runs after the test of the
cached one and finds a nearer waypoint. -/
theorem cache_not_reused :
    sweepClear (30, 0, 0) (navGraph.origin 1) 1 = true ∧
      (Do_Pathfind_resolve 4 navGraph sweepClear (fun _ => 1) 1 2
        (30, 0, 0) (30, 0, 0)).1 = 3 := by
  decide!

/-- C12 (amended): when the cache of an agent holds the waypoint `w` and the
sweep from the agent to `w` is unobstructed, the resolver yields `w` unless a
used, open waypoint with an unobstructed sweep is strictly nearer to the agent
than `w`; in that case it yields such a waypoint of minimal squared distance.
The first part is about the pursuer, the second about the target. -/
theorem Do_Pathfind_cache_reuse {N : Nat} (g : Graph)
    (sweep : Int × Int × Int → Int × Int × Int → Int → Bool)
    (closest_waypoints : Int → Int) (zent tent : Int) (zorg eorg : Int × Int × Int) :
    (0 ≤ closest_waypoints zent →
      sweep zorg (g.origin (closest_waypoints zent)) zent = true →
      ((Do_Pathfind_resolve N g sweep closest_waypoints zent tent zorg eorg).1
          = closest_waypoints zent ∧
        ∀ j : Int, 0 ≤ j → j < N → Candidate g sweep zorg zent j →
          VectorDistanceSquared (g.origin (closest_waypoints zent)) zorg
            ≤ VectorDistanceSquared (g.origin j) zorg) ∨
      (Nearest N g sweep zorg zent
          (Do_Pathfind_resolve N g sweep closest_waypoints zent tent zorg eorg).1 ∧
        VectorDistanceSquared
          (g.origin (Do_Pathfind_resolve N g sweep closest_waypoints zent tent zorg eorg).1)
          zorg < VectorDistanceSquared (g.origin (closest_waypoints zent)) zorg)) ∧
    (0 ≤ closest_waypoints tent →
      sweep eorg (g.origin (closest_waypoints tent)) tent = true →
      ((Do_Pathfind_resolve N g sweep closest_waypoints zent tent zorg eorg).2
          = closest_waypoints tent ∧
        ∀ j : Int, 0 ≤ j → j < N → Candidate g sweep eorg tent j →
          VectorDistanceSquared (g.origin (closest_waypoints tent)) eorg
            ≤ VectorDistanceSquared (g.origin j) eorg) ∨
      (Nearest N g sweep eorg tent
          (Do_Pathfind_resolve N g sweep closest_waypoints zent tent zorg eorg).2 ∧
        VectorDistanceSquared
          (g.origin (Do_Pathfind_resolve N g sweep closest_waypoints zent tent zorg eorg).2)
          eorg < VectorDistanceSquared (g.origin (closest_waypoints tent)) eorg)) := by
  constructor
  · intro hc hs
    have h := Do_Pathfind_resolve_fst (N := N) g sweep closest_waypoints zent tent zorg eorg
    rw [Do_Pathfind_cached_hit g sweep zorg zent _ hc hs] at h
    exact h
  · intro hc hs
    have h := Do_Pathfind_resolve_snd (N := N) g sweep closest_waypoints zent tent zorg eorg
    rw [Do_Pathfind_cached_hit g sweep eorg tent _ hc hs] at h
    exact h

/-- The amended C12 at `navGraph` with the pursuer at waypoint 2 and waypoint
2 in its cache. -/
theorem Do_Pathfind_cache_reuse_witness :
    ((0 : Int) ≤ 2 ∧ sweepClear (20, 0, 0) (navGraph.origin 2) 1 = true ∧
      (((Do_Pathfind_resolve 4 navGraph sweepClear (fun _ => 2) 1 2
            (20, 0, 0) (30, 0, 0)).1 = 2 ∧
        ∀ j : Int, 0 ≤ j → j < (4 : Nat) → Candidate navGraph sweepClear (20, 0, 0) 1 j →
          VectorDistanceSquared (navGraph.origin 2) (20, 0, 0)
            ≤ VectorDistanceSquared (navGraph.origin j) (20, 0, 0)) ∨
      (Nearest 4 navGraph sweepClear (20, 0, 0) 1
          (Do_Pathfind_resolve 4 navGraph sweepClear (fun _ => 2) 1 2
            (20, 0, 0) (30, 0, 0)).1 ∧
        VectorDistanceSquared
          (navGraph.origin (Do_Pathfind_resolve 4 navGraph sweepClear (fun _ => 2) 1 2
            (20, 0, 0) (30, 0, 0)).1)
          (20, 0, 0) < VectorDistanceSquared (navGraph.origin 2) (20, 0, 0)))) ∧
    (Do_Pathfind_resolve 4 navGraph sweepClear (fun _ => 2) 1 2 (20, 0, 0) (30, 0, 0))
      = (2, 3) :=
  ⟨⟨by decide, by decide,
    (Do_Pathfind_cache_reuse (N := 4) navGraph sweepClear (fun _ => 2) 1 2
      (20, 0, 0) (30, 0, 0)).1 (by decide) (by decide)⟩, by decide!⟩

/-- C13 fails on the code: in `gateGraph` a first call of `Do_Pathfind` with
the pursuer at waypoint 2 caches that waypoint; `Close_Waypoint` with the tag
`door` then closes it; at the next call the resolver still yields waypoint 2
for the pursuer, although its `open` flag is zero and the open waypoints 1
and 3 have unobstructed sweeps. The test of the cached waypoint does not read
`open`, which the scan over all waypoints does. -/
theorem closed_cached_waypoint_resolved :
    (Do_Pathfind gateGraph sweepClear 1 2 (20, 0, 0) (30, 0, 0) navEmpty).map
        (fun r =>
          (r.2.closest_waypoints 1,
            Do_Pathfind_resolve 4 (Close_Waypoint 4 "door" gateGraph) sweepClear
              r.2.closest_waypoints 1 2 (20, 0, 0) (30, 0, 0)))
      = some (2, (2, 3)) ∧
    (Close_Waypoint 4 "door" gateGraph).open_ 2 = 0 ∧
    (Close_Waypoint 4 "door" gateGraph).open_ 1 ≠ 0 ∧
    (Close_Waypoint 4 "door" gateGraph).used 1 ≠ 0 := by
  decide!

/-- C14 fails on the code: with every sweep obstructed the resolver yields
`-1` for both agents, and `Do_Pathfind` still calls `Pathfind(-1, -1)`, which
reports a path; `Do_Pathfind` returns `-1` instead of `0` and record 0 of
`zombie_list` now belongs to the pursuer and holds `-1` at index 1. -/
theorem unresolved_not_reported :
    Do_Pathfind_resolve 4 navGraph sweepBlocked navEmpty.closest_waypoints 1 2
        (10, 0, 0) (30, 0, 0) = (-1, -1) ∧
    (Do_Pathfind navGraph sweepBlocked 1 2 (10, 0, 0) (30, 0, 0) navEmpty).map
        (fun r =>
          (r.1, (zget r.2.zombie_list 0).zombienum,
            aget (zget r.2.zombie_list 0).pathlist 0,
            aget (zget r.2.zombie_list 0).pathlist 1))
      = some (-1, 1, -1, -1) ∧
    (zget navEmpty.zombie_list 0).zombienum = 0 ∧
    aget (zget navEmpty.zombie_list 0).pathlist 1 = 0 := by
  decide!

/-! ## Waypoint groups -/

/-- Two graphs with the same fields are equal. -/
theorem Graph_ext (a b : Graph) (h1 : a.origin = b.origin) (h2 : a.open_ = b.open_)
    (h3 : a.used = b.used) (h4 : a.special = b.special) (h5 : a.target_id = b.target_id)
    (h6 : a.dist = b.dist) : a = b := by
  cases a
  cases b
  simp only [Graph.mk.injEq]
  exact ⟨h1, h2, h3, h4, h5, h6⟩

/-- The loop of `Open_Waypoint` writes `open = 1` at the indices of its range
whose tag is not empty and equals `p`, and nothing else. -/
theorem Open_Waypoint_loop_spec (p : String) :
    ∀ (k : Nat) (i : Int) (g : Graph),
      (Open_Waypoint_loop p k i g).origin = g.origin ∧
      (Open_Waypoint_loop p k i g).used = g.used ∧
      (Open_Waypoint_loop p k i g).special = g.special ∧
      (Open_Waypoint_loop p k i g).target_id = g.target_id ∧
      (Open_Waypoint_loop p k i g).dist = g.dist ∧
      ∀ j : Int, (Open_Waypoint_loop p k i g).open_ j =
        if i ≤ j ∧ j < i + k ∧ g.special j ≠ "" ∧ p = g.special j then 1 else g.open_ j := by
  intro k
  induction k with
  | zero =>
    intro i g
    refine ⟨rfl, rfl, rfl, rfl, rfl, ?_⟩
    intro j
    rw [Open_Waypoint_loop, if_neg]
    intro h
    have := h.2.1
    simp at this
    omega
  | succ k ih =>
    intro i g
    rw [Open_Waypoint_loop]
    by_cases hm : g.special i ≠ "" ∧ p = g.special i
    · rw [if_pos hm.1, if_pos hm.2]
      obtain ⟨h1, h2, h3, h4, h5, h6⟩ := ih (i + 1)
        { g with open_ := fun j => if j = i then 1 else g.open_ j }
      refine ⟨h1, h2, h3, h4, h5, ?_⟩
      intro j
      rw [h6 j]
      by_cases hji : j = i
      · subst hji
        rw [if_neg (by omega), if_pos ⟨le_refl _, by push_cast; omega, hm.1, hm.2⟩]
        simp
      · by_cases hc : i ≤ j ∧ j < i + (k + 1 : Nat) ∧ g.special j ≠ "" ∧ p = g.special j
        · rw [if_pos hc, if_pos ⟨by omega, by have := hc.2.1; push_cast at this; omega,
            hc.2.2.1, hc.2.2.2⟩]
        · rw [if_neg hc, if_neg]
          · simp [hji]
          · intro hc2
            exact hc ⟨by omega, by have := hc2.2.1; push_cast; omega, hc2.2.2.1, hc2.2.2.2⟩
    · have hres : (if g.special i ≠ "" then
            if p = g.special i then
              Open_Waypoint_loop p k (i + 1)
                { g with open_ := fun j => if j = i then 1 else g.open_ j }
            else Open_Waypoint_loop p k (i + 1) g
          else Open_Waypoint_loop p k (i + 1) g) = Open_Waypoint_loop p k (i + 1) g := by
        by_cases hs : g.special i ≠ ""
        · rw [if_pos hs, if_neg (fun hp => hm ⟨hs, hp⟩)]
        · rw [if_neg hs]
      rw [hres]
      obtain ⟨h1, h2, h3, h4, h5, h6⟩ := ih (i + 1) g
      refine ⟨h1, h2, h3, h4, h5, ?_⟩
      intro j
      rw [h6 j]
      by_cases hc : i ≤ j ∧ j < i + (k + 1 : Nat) ∧ g.special j ≠ "" ∧ p = g.special j
      · have hji : j ≠ i := by
          intro hji
          subst hji
          exact hm hc.2.2
        rw [if_pos hc, if_pos ⟨by omega, by have := hc.2.1; push_cast at this; omega,
          hc.2.2.1, hc.2.2.2⟩]
      · rw [if_neg hc, if_neg]
        intro hc2
        exact hc ⟨by omega, by have := hc2.2.1; push_cast; omega, hc2.2.2.1, hc2.2.2.2⟩

/-- The loop of `Close_Waypoint` writes `open = 0` at the indices of its range
whose tag is not empty and equals `p`, and nothing else. -/
theorem Close_Waypoint_loop_spec (p : String) :
    ∀ (k : Nat) (i : Int) (g : Graph),
      (Close_Waypoint_loop p k i g).origin = g.origin ∧
      (Close_Waypoint_loop p k i g).used = g.used ∧
      (Close_Waypoint_loop p k i g).special = g.special ∧
      (Close_Waypoint_loop p k i g).target_id = g.target_id ∧
      (Close_Waypoint_loop p k i g).dist = g.dist ∧
      ∀ j : Int, (Close_Waypoint_loop p k i g).open_ j =
        if i ≤ j ∧ j < i + k ∧ g.special j ≠ "" ∧ p = g.special j then 0 else g.open_ j := by
  intro k
  induction k with
  | zero =>
    intro i g
    refine ⟨rfl, rfl, rfl, rfl, rfl, ?_⟩
    intro j
    rw [Close_Waypoint_loop, if_neg]
    intro h
    have := h.2.1
    simp at this
    omega
  | succ k ih =>
    intro i g
    rw [Close_Waypoint_loop]
    by_cases hm : g.special i ≠ "" ∧ p = g.special i
    · rw [if_pos hm.1, if_pos hm.2]
      obtain ⟨h1, h2, h3, h4, h5, h6⟩ := ih (i + 1)
        { g with open_ := fun j => if j = i then 0 else g.open_ j }
      refine ⟨h1, h2, h3, h4, h5, ?_⟩
      intro j
      rw [h6 j]
      by_cases hji : j = i
      · subst hji
        rw [if_neg (by omega), if_pos ⟨le_refl _, by push_cast; omega, hm.1, hm.2⟩]
        simp
      · by_cases hc : i ≤ j ∧ j < i + (k + 1 : Nat) ∧ g.special j ≠ "" ∧ p = g.special j
        · rw [if_pos hc, if_pos ⟨by omega, by have := hc.2.1; push_cast at this; omega,
            hc.2.2.1, hc.2.2.2⟩]
        · rw [if_neg hc, if_neg]
          · simp [hji]
          · intro hc2
            exact hc ⟨by omega, by have := hc2.2.1; push_cast; omega, hc2.2.2.1, hc2.2.2.2⟩
    · have hres : (if g.special i ≠ "" then
            if p = g.special i then
              Close_Waypoint_loop p k (i + 1)
                { g with open_ := fun j => if j = i then 0 else g.open_ j }
            else Close_Waypoint_loop p k (i + 1) g
          else Close_Waypoint_loop p k (i + 1) g) = Close_Waypoint_loop p k (i + 1) g := by
        by_cases hs : g.special i ≠ ""
        · rw [if_pos hs, if_neg (fun hp => hm ⟨hs, hp⟩)]
        · rw [if_neg hs]
      rw [hres]
      obtain ⟨h1, h2, h3, h4, h5, h6⟩ := ih (i + 1) g
      refine ⟨h1, h2, h3, h4, h5, ?_⟩
      intro j
      rw [h6 j]
      by_cases hc : i ≤ j ∧ j < i + (k + 1 : Nat) ∧ g.special j ≠ "" ∧ p = g.special j
      · have hji : j ≠ i := by
          intro hji
          subst hji
          exact hm hc.2.2
        rw [if_pos hc, if_pos ⟨by omega, by have := hc.2.1; push_cast at this; omega,
          hc.2.2.1, hc.2.2.2⟩]
      · rw [if_neg hc, if_neg]
        intro hc2
        exact hc ⟨by omega, by have := hc2.2.1; push_cast; omega, hc2.2.2.1, hc2.2.2.2⟩

/-- The `open` flags after `Open_Waypoint`. -/
theorem Open_Waypoint_open (N : Nat) (p : String) (g : Graph) (j : Int) :
    (Open_Waypoint N p g).open_ j =
      if 1 ≤ j ∧ j < (N : Int) ∧ g.special j ≠ "" ∧ p = g.special j then 1 else g.open_ j := by
  rw [Open_Waypoint, (Open_Waypoint_loop_spec p (N - 1) 1 g).2.2.2.2.2 j]
  by_cases hc : 1 ≤ j ∧ j < (N : Int) ∧ g.special j ≠ "" ∧ p = g.special j
  · rw [if_pos hc, if_pos ⟨hc.1, by omega, hc.2.2.1, hc.2.2.2⟩]
  · rw [if_neg hc, if_neg]
    intro hc2
    exact hc ⟨hc2.1, by omega, hc2.2.2.1, hc2.2.2.2⟩

/-- The `open` flags after `Close_Waypoint`. -/
theorem Close_Waypoint_open (N : Nat) (p : String) (g : Graph) (j : Int) :
    (Close_Waypoint N p g).open_ j =
      if 1 ≤ j ∧ j < (N : Int) ∧ g.special j ≠ "" ∧ p = g.special j then 0 else g.open_ j := by
  rw [Close_Waypoint, (Close_Waypoint_loop_spec p (N - 1) 1 g).2.2.2.2.2 j]
  by_cases hc : 1 ≤ j ∧ j < (N : Int) ∧ g.special j ≠ "" ∧ p = g.special j
  · rw [if_pos hc, if_pos ⟨hc.1, by omega, hc.2.2.1, hc.2.2.2⟩]
  · rw [if_neg hc, if_neg]
    intro hc2
    exact hc ⟨hc2.1, by omega, hc2.2.2.1, hc2.2.2.2⟩

/-- C17: for a non-empty tag `t`, `Open_Waypoint(t)` sets `open = 1` and
`Close_Waypoint(t)` sets `open = 0` at every waypoint `1 .. MAX_WAYPOINTS - 1`
whose tag equals `t`; every waypoint whose tag differs from `t` or is empty
keeps its flag; no other field of a waypoint changes; and when no waypoint
`1 .. MAX_WAYPOINTS - 1` has the tag `t` the call changes nothing. -/
theorem group_gating (N : Nat) (t : String) (ht : t ≠ "") (g : Graph) :
    (∀ i : Int, 1 ≤ i → i < (N : Int) → g.special i = t →
      (Open_Waypoint N t g).open_ i = 1 ∧ (Close_Waypoint N t g).open_ i = 0) ∧
    (∀ i : Int, g.special i ≠ t ∨ g.special i = "" →
      (Open_Waypoint N t g).open_ i = g.open_ i ∧
        (Close_Waypoint N t g).open_ i = g.open_ i) ∧
    ((Open_Waypoint N t g).origin = g.origin ∧ (Open_Waypoint N t g).used = g.used ∧
      (Open_Waypoint N t g).special = g.special ∧
      (Open_Waypoint N t g).target_id = g.target_id ∧ (Open_Waypoint N t g).dist = g.dist) ∧
    ((Close_Waypoint N t g).origin = g.origin ∧ (Close_Waypoint N t g).used = g.used ∧
      (Close_Waypoint N t g).special = g.special ∧
      (Close_Waypoint N t g).target_id = g.target_id ∧
      (Close_Waypoint N t g).dist = g.dist) ∧
    ((∀ i : Int, 1 ≤ i → i < (N : Int) → g.special i ≠ t) →
      Open_Waypoint N t g = g ∧ Close_Waypoint N t g = g) := by
  have ho := Open_Waypoint_loop_spec t (N - 1) 1 g
  have hc := Close_Waypoint_loop_spec t (N - 1) 1 g
  refine ⟨?_, ?_, ⟨ho.1, ho.2.1, ho.2.2.1, ho.2.2.2.1, ho.2.2.2.2.1⟩,
    ⟨hc.1, hc.2.1, hc.2.2.1, hc.2.2.2.1, hc.2.2.2.2.1⟩, ?_⟩
  · intro i h1 h2 h3
    have hcond : 1 ≤ i ∧ i < (N : Int) ∧ g.special i ≠ "" ∧ t = g.special i :=
      ⟨h1, h2, by rw [h3]; exact ht, h3.symm⟩
    rw [Open_Waypoint_open, Close_Waypoint_open, if_pos hcond, if_pos hcond]
    exact ⟨rfl, rfl⟩
  · intro i h
    have hcond : ¬ (1 ≤ i ∧ i < (N : Int) ∧ g.special i ≠ "" ∧ t = g.special i) := by
      intro hc2
      rcases h with h | h
      · exact h hc2.2.2.2.symm
      · exact hc2.2.2.1 h
    rw [Open_Waypoint_open, Close_Waypoint_open, if_neg hcond, if_neg hcond]
    exact ⟨rfl, rfl⟩
  · intro hno
    have hcond : ∀ j : Int,
        ¬ (1 ≤ j ∧ j < (N : Int) ∧ g.special j ≠ "" ∧ t = g.special j) := by
      intro j hc2
      exact hno j hc2.1 hc2.2.1 hc2.2.2.2.symm
    constructor
    · refine Graph_ext _ _ ho.1 ?_ ho.2.1 ho.2.2.1 ho.2.2.2.1 ho.2.2.2.2.1
      funext j
      have := Open_Waypoint_open N t g j
      rw [if_neg (hcond j)] at this
      exact this
    · refine Graph_ext _ _ hc.1 ?_ hc.2.1 hc.2.2.1 hc.2.2.2.1 hc.2.2.2.2.1
      funext j
      have := Close_Waypoint_open N t g j
      rw [if_neg (hcond j)] at this
      exact this

/-- C17 at `gateGraph`, in which waypoint 2 alone carries the tag `door`. -/
theorem group_gating_witness :
    "door" ≠ "" ∧
    (∀ i : Int, 1 ≤ i → i < ((4 : Nat) : Int) → gateGraph.special i = "door" →
      (Open_Waypoint 4 "door" gateGraph).open_ i = 1 ∧
        (Close_Waypoint 4 "door" gateGraph).open_ i = 0) ∧
    (∀ i : Int, gateGraph.special i ≠ "door" ∨ gateGraph.special i = "" →
      (Open_Waypoint 4 "door" gateGraph).open_ i = gateGraph.open_ i ∧
        (Close_Waypoint 4 "door" gateGraph).open_ i = gateGraph.open_ i) ∧
    ((Open_Waypoint 4 "door" gateGraph).origin = gateGraph.origin ∧
      (Open_Waypoint 4 "door" gateGraph).used = gateGraph.used ∧
      (Open_Waypoint 4 "door" gateGraph).special = gateGraph.special ∧
      (Open_Waypoint 4 "door" gateGraph).target_id = gateGraph.target_id ∧
      (Open_Waypoint 4 "door" gateGraph).dist = gateGraph.dist) ∧
    ((Close_Waypoint 4 "door" gateGraph).origin = gateGraph.origin ∧
      (Close_Waypoint 4 "door" gateGraph).used = gateGraph.used ∧
      (Close_Waypoint 4 "door" gateGraph).special = gateGraph.special ∧
      (Close_Waypoint 4 "door" gateGraph).target_id = gateGraph.target_id ∧
      (Close_Waypoint 4 "door" gateGraph).dist = gateGraph.dist) ∧
    ((∀ i : Int, 1 ≤ i → i < ((4 : Nat) : Int) → gateGraph.special i ≠ "door") →
      Open_Waypoint 4 "door" gateGraph = gateGraph ∧
        Close_Waypoint 4 "door" gateGraph = gateGraph) :=
  ⟨by decide, group_gating 4 "door" (by decide) gateGraph⟩

/-! ## The path queries -/

/-- A `pathlist` is all zero or has a topmost non-zero entry. -/
theorem pathlist_top {N : Nat} (pl : Arr N) :
    (∀ j : Int, aget pl j = 0) ∨ ∃ m : Int, aget pl m ≠ 0 ∧ ZeroAbove pl m := by
  have key : ∀ b : Nat, (∀ j : Int, j < (b : Int) → aget pl j = 0) ∨
      ∃ m : Int, aget pl m ≠ 0 ∧ ∀ j : Int, m < j → j < (b : Int) → aget pl j = 0 := by
    intro b
    induction b with
    | zero =>
      left
      intro j hj
      exact aget_oob pl j (by simp at hj; omega)
    | succ b ih =>
      by_cases hb : aget pl (b : Int) = 0
      · rcases ih with h | ⟨m, hm1, hm2⟩
        · left
          intro j hj
          by_cases hjb : j = (b : Int)
          · rw [hjb]; exact hb
          · exact h j (by push_cast at hj; omega)
        · right
          refine ⟨m, hm1, ?_⟩
          intro j hj1 hj2
          by_cases hjb : j = (b : Int)
          · rw [hjb]; exact hb
          · exact hm2 j hj1 (by push_cast at hj2; omega)
      · right
        exact ⟨b, hb, fun j hj1 hj2 => by push_cast at hj2; omega⟩
  rcases key N with h | ⟨m, hm1, hm2⟩
  · left
    intro j
    by_cases hj : j < (N : Int)
    · exact h j hj
    · exact aget_oob pl j (by omega)
  · right
    refine ⟨m, hm1, ?_⟩
    intro j hj
    by_cases hj2 : j < (N : Int)
    · exact hm2 j hj hj2
    · exact aget_oob pl j (by omega)

/-- The scan of `Get_Next_Waypoint` over a range of zeros. -/
theorem Get_Next_Waypoint_scan_zero {N : Nat} (pl : Arr N) :
    ∀ (k : Nat) (s cw : Int), (∀ j : Int, s - k < j → j ≤ s → aget pl j = 0) →
      Get_Next_Waypoint_scan k s cw pl = (pl, s - k, cw, false) := by
  intro k
  induction k with
  | zero =>
    intro s cw _
    rw [Get_Next_Waypoint_scan]
    simp
  | succ k ih =>
    intro s cw h
    rw [Get_Next_Waypoint_scan, if_neg (not_not.mpr (h s (by push_cast; omega) (le_refl _)))]
    rw [ih (s - 1) cw (fun j hj1 hj2 => h j (by push_cast; omega) (by omega))]
    congr 2
    push_cast
    omega

/-- The scan of `Get_Next_Waypoint` down to the topmost non-zero entry. -/
theorem Get_Next_Waypoint_scan_top {N : Nat} (pl : Arr N) (m : Int) (hm : aget pl m ≠ 0) :
    ∀ (k : Nat) (s cw : Int), m ≤ s → s < m + k →
      (∀ j : Int, m < j → j ≤ s → aget pl j = 0) →
      Get_Next_Waypoint_scan k s cw pl =
        if m = 1 then (aset pl m 0, m, cw, true) else (aset pl m 0, m - 1, m - 1, false) := by
  intro k
  induction k with
  | zero =>
    intro s cw h1 h2 _
    simp at h2
    omega
  | succ k ih =>
    intro s cw h1 h2 h3
    rw [Get_Next_Waypoint_scan]
    by_cases hs : s = m
    · subst hs
      rw [if_pos hm]
    · rw [if_neg (not_not.mpr (h3 s (by omega) (le_refl _)))]
      exact ih (s - 1) cw (by omega) (by push_cast at h2; omega)
        (fun j hj1 hj2 => h3 j hj1 (by omega))

/-- The loop over the records of `Get_Next_Waypoint` when no record belongs
to the entity. -/
theorem Get_Next_Waypoint_find_none {N : Nat} (entnum : Int) (zl : ZombieList N) :
    ∀ (k : Nat) (i : Int), (∀ j : Int, i ≤ j → j < i + k → (zget zl j).zombienum ≠ entnum) →
      Get_Next_Waypoint_find entnum k i zl =
        { zombie_list := zl, i := i + k, s := 0, currentWay := 0, returned := false } := by
  intro k
  induction k with
  | zero =>
    intro i _
    rw [Get_Next_Waypoint_find]
    simp
  | succ k ih =>
    intro i h
    rw [Get_Next_Waypoint_find, if_neg (fun hc => h i (le_refl _) (by push_cast; omega) hc.symm)]
    rw [ih (i + 1) (fun j hj1 hj2 => h j (by omega) (by push_cast; omega))]
    congr 1
    push_cast
    omega

/-- The loop over the records of `Get_Next_Waypoint` stops at the first
record of the entity. -/
theorem Get_Next_Waypoint_find_at {N : Nat} (entnum : Int) (zl : ZombieList N) (i : Int)
    (hi : (zget zl i).zombienum = entnum) :
    ∀ (k : Nat) (i0 : Int), i0 ≤ i → i < i0 + k →
      (∀ j : Int, i0 ≤ j → j < i → (zget zl j).zombienum ≠ entnum) →
      Get_Next_Waypoint_find entnum k i0 zl =
        { zombie_list :=
            zset zl i
              { zget zl i with
                pathlist :=
                  (Get_Next_Waypoint_scan N ((N : Int) - 1) 0 (zget zl i).pathlist).1 }
          i := i
          s := (Get_Next_Waypoint_scan N ((N : Int) - 1) 0 (zget zl i).pathlist).2.1
          currentWay := (Get_Next_Waypoint_scan N ((N : Int) - 1) 0 (zget zl i).pathlist).2.2.1
          returned :=
            (Get_Next_Waypoint_scan N ((N : Int) - 1) 0 (zget zl i).pathlist).2.2.2 } := by
  intro k
  induction k with
  | zero =>
    intro i0 h1 h2 _
    simp at h2
    omega
  | succ k ih =>
    intro i0 h1 h2 h3
    rw [Get_Next_Waypoint_find]
    by_cases hs : i0 = i
    · subst hs
      rw [if_pos hi.symm]
    · rw [if_neg (fun hc => h3 i0 (le_refl _) (by omega) hc.symm)]
      exact ih (i0 + 1) (by omega) (by push_cast at h2; omega)
        (fun j hj1 hj2 => h3 j (by omega) hj2)

/-- The loop `while(1)` of the path queries returns when it starts at an index
`1 .. fuel`. -/
theorem Get_Waypoint_smooth_some {N : Nat} (g : Graph)
    (probe : vec3_t → vec3_t → vec3_t → vec3_t → Int → Int)
    (start mins maxs : vec3_t) (ent : Int) (pathlist : Arr N) :
    ∀ (k : Nat) (currentWay skippedWays : Int) (move : vec3_t),
      1 ≤ currentWay → currentWay ≤ k →
      ∃ v : vec3_t,
        Get_Waypoint_smooth g probe start mins maxs ent pathlist k currentWay skippedWays move
          = some v := by
  intro k
  induction k with
  | zero =>
    intro cw sk mv h1 h2
    simp at h2
    omega
  | succ k ih =>
    intro cw sk mv h1 h2
    rw [Get_Waypoint_smooth]
    by_cases hp : probe start mins maxs (origin_vec g (aget pathlist cw)) ent = 1
    · rw [if_pos hp]
      by_cases hc : cw = 1
      · rw [if_pos hc]
        exact ⟨_, rfl⟩
      · rw [if_neg hc]
        exact ih (cw - 1) (sk + 1) _ (by omega) (by push_cast at h2; omega)
    · rw [if_neg hp]
      by_cases hsk : sk > 0
      · rw [if_pos hsk]
        exact ⟨_, rfl⟩
      · rw [if_neg hsk]
        exact ⟨_, rfl⟩

/-- With a probe that succeeds for every entry below the start index the loop
`while(1)` returns the origin of entry 1. -/
theorem Get_Waypoint_smooth_all {N : Nat} (g : Graph)
    (probe : vec3_t → vec3_t → vec3_t → vec3_t → Int → Int)
    (start mins maxs : vec3_t) (ent : Int) (pathlist : Arr N) :
    ∀ (k : Nat) (currentWay skippedWays : Int) (move : vec3_t),
      1 ≤ currentWay → currentWay ≤ k →
      (∀ j : Int, 1 ≤ j → j ≤ currentWay →
        probe start mins maxs (origin_vec g (aget pathlist j)) ent = 1) →
      Get_Waypoint_smooth g probe start mins maxs ent pathlist k currentWay skippedWays move
        = some (origin_vec g (aget pathlist 1)) := by
  intro k
  induction k with
  | zero =>
    intro cw sk mv h1 h2
    simp at h2
    omega
  | succ k ih =>
    intro cw sk mv h1 h2 hp
    rw [Get_Waypoint_smooth, if_pos (hp cw h1 (le_refl _))]
    by_cases hc : cw = 1
    · rw [if_pos hc, hc]
    · rw [if_neg hc]
      exact ih (cw - 1) (sk + 1) _ (by omega) (by push_cast at h2; omega)
        (fun j hj1 hj2 => hp j hj1 (by omega))

/-- Two writes to the same record: the second one stays. -/
theorem zset_zset {N : Nat} (zl : ZombieList N) (i : Int) (a b : zombie_ai N) :
    zset (zset zl i a) i b = zset zl i b := by
  funext j
  unfold zset
  by_cases h : (j.val : Int) = i
  · simp [h]
  · simp [h]

/-- `Get_Next_Waypoint` for an entity without a record returns the zero
vector and changes nothing. -/
theorem Get_Next_Waypoint_absent {N : Nat} (g : Graph)
    (probe : vec3_t → vec3_t → vec3_t → vec3_t → Int → Int)
    (entnum : Int) (start mins maxs : vec3_t) (zl : ZombieList N)
    (h : ∀ j : Int, 0 ≤ j → j < (MaxZombies : Int) → (zget zl j).zombienum ≠ entnum) :
    Get_Next_Waypoint g probe entnum start mins maxs zl = some ((0, 0, 0), zl) := by
  have hf := Get_Next_Waypoint_find_none entnum zl MaxZombies 0
    (fun j hj1 hj2 => h j hj1 (by omega))
  simp only [Get_Next_Waypoint, hf]
  simp

/-- `Get_Next_Waypoint` on a record that is all zero returns the zero
vector. -/
theorem Get_Next_Waypoint_empty {N : Nat} (g : Graph)
    (probe : vec3_t → vec3_t → vec3_t → vec3_t → Int → Int)
    (entnum : Int) (start mins maxs : vec3_t) (zl : ZombieList N) (i : Int)
    (hrec : FirstRecord zl entnum i) (hz : ∀ j : Int, aget (zget zl i).pathlist j = 0) :
    Get_Next_Waypoint g probe entnum start mins maxs zl =
      some ((0, 0, 0), zset zl i { zget zl i with pathlist := (zget zl i).pathlist }) := by
  have hf := Get_Next_Waypoint_find_at entnum zl i hrec.2.2.1 MaxZombies 0 hrec.1
    (by have := hrec.2.1; omega) (fun j hj1 hj2 => hrec.2.2.2 j hj1 hj2)
  have hsc := Get_Next_Waypoint_scan_zero (zget zl i).pathlist N ((N : Int) - 1) 0
    (fun j _ _ => hz j)
  simp only [Get_Next_Waypoint, hf, hsc]
  simp

/-- `Get_Next_Waypoint` on a record whose topmost entry is at index 0 or 1
clears that entry and returns the zero vector. -/
theorem Get_Next_Waypoint_last {N : Nat} (g : Graph)
    (probe : vec3_t → vec3_t → vec3_t → vec3_t → Int → Int)
    (entnum : Int) (start mins maxs : vec3_t) (zl : ZombieList N) (i m : Int)
    (hrec : FirstRecord zl entnum i) (hm : aget (zget zl i).pathlist m ≠ 0)
    (hz : ZeroAbove (zget zl i).pathlist m) (hm1 : m ≤ 1) :
    Get_Next_Waypoint g probe entnum start mins maxs zl =
      some ((0, 0, 0),
        zset zl i { zget zl i with pathlist := aset (zget zl i).pathlist m 0 }) := by
  have hb := aget_ne_zero_bounds _ _ hm
  have hf := Get_Next_Waypoint_find_at entnum zl i hrec.2.2.1 MaxZombies 0 hrec.1
    (by have := hrec.2.1; omega) (fun j hj1 hj2 => hrec.2.2.2 j hj1 hj2)
  have hsc := Get_Next_Waypoint_scan_top (zget zl i).pathlist m hm N ((N : Int) - 1) 0
    (by omega) (by omega) (fun j hj1 _ => hz j hj1)
  by_cases h1 : m = 1
  · rw [if_pos h1] at hsc
    simp only [Get_Next_Waypoint, hf, hsc]
    simp
  · rw [if_neg h1] at hsc
    have h0 : m = 0 := by omega
    subst h0
    simp only [Get_Next_Waypoint, hf, hsc]
    simp

/-- `Get_Next_Waypoint` on a record whose topmost entry is at an index
`m ≥ 2` runs the loop `while(1)` from index `m - 1` and clears the entries
`m` and `m - 1`. -/
theorem Get_Next_Waypoint_top {N : Nat} (g : Graph)
    (probe : vec3_t → vec3_t → vec3_t → vec3_t → Int → Int)
    (entnum : Int) (start mins maxs : vec3_t) (zl : ZombieList N) (i m : Int)
    (hrec : FirstRecord zl entnum i) (hm : aget (zget zl i).pathlist m ≠ 0)
    (hz : ZeroAbove (zget zl i).pathlist m) (hm2 : 2 ≤ m) :
    ∃ v : vec3_t,
      Get_Waypoint_smooth g probe start (mins.1 - 2, mins.2.1 - 2, mins.2.2)
          (maxs.1 + 2, maxs.2.1 + 2, maxs.2.2) entnum (aset (zget zl i).pathlist m 0) N
          (m - 1) 0 (origin_vec g (aget (aset (zget zl i).pathlist m 0) (m - 1))) = some v ∧
      Get_Next_Waypoint g probe entnum start mins maxs zl =
        some (v,
          zset zl i
            { zget zl i with
              pathlist := aset (aset (zget zl i).pathlist m 0) (m - 1) 0 }) := by
  have hb := aget_ne_zero_bounds _ _ hm
  have hf := Get_Next_Waypoint_find_at entnum zl i hrec.2.2.1 MaxZombies 0 hrec.1
    (by have := hrec.2.1; omega) (fun j hj1 hj2 => hrec.2.2.2 j hj1 hj2)
  have hsc := Get_Next_Waypoint_scan_top (zget zl i).pathlist m hm N ((N : Int) - 1) 0
    (by omega) (by omega) (fun j hj1 _ => hz j hj1)
  rw [if_neg (by omega)] at hsc
  obtain ⟨v, hv⟩ := Get_Waypoint_smooth_some g probe start (mins.1 - 2, mins.2.1 - 2, mins.2.2)
    (maxs.1 + 2, maxs.2.1 + 2, maxs.2.2) entnum (aset (zget zl i).pathlist m 0) N
    (m - 1) 0 (origin_vec g (aget (aset (zget zl i).pathlist m 0) (m - 1)))
    (by omega) (by omega)
  refine ⟨v, hv, ?_⟩
  simp only [Get_Next_Waypoint, hf, hsc]
  rw [if_neg (by simp), if_neg (by omega)]
  simp only [zget_zset_eq zl i _ hrec.1 hrec.2.1]
  rw [hv]
  simp only [zset_zset]

/-- A write to the `pathlist` of the record of an entity leaves it the first
record of that entity. -/
theorem FirstRecord_zset {N : Nat} (zl : ZombieList N) (entnum i : Int)
    (hrec : FirstRecord zl entnum i) (pl1 : Arr N) :
    FirstRecord (zset zl i { zget zl i with pathlist := pl1 }) entnum i ∧
      (zget (zset zl i { zget zl i with pathlist := pl1 }) i).pathlist = pl1 := by
  refine ⟨⟨hrec.1, hrec.2.1, ?_, ?_⟩, ?_⟩
  · rw [zget_zset_eq zl i _ hrec.1 hrec.2.1]
    exact hrec.2.2.1
  · intro j hj1 hj2
    rw [zget_zset_ne zl i j _ (by omega)]
    exact hrec.2.2.2 j hj1 hj2
  · rw [zget_zset_eq zl i _ hrec.1 hrec.2.1]

/-- One call of `Get_Next_Waypoint` on the record of an entity: the call
returns, it writes to the `pathlist` of that record only, it sets no entry, it
clears the topmost non-zero entry, and it returns the zero vector when no
entry above index 1 is left. -/
theorem Get_Next_Waypoint_step {N : Nat} (g : Graph)
    (probe : vec3_t → vec3_t → vec3_t → vec3_t → Int → Int)
    (entnum : Int) (start mins maxs : vec3_t) (zl : ZombieList N) (i : Int)
    (hrec : FirstRecord zl entnum i) :
    ∃ (v : vec3_t) (pl1 : Arr N),
      Get_Next_Waypoint g probe entnum start mins maxs zl =
        some (v, zset zl i { zget zl i with pathlist := pl1 }) ∧
      (∀ x : Int, aget pl1 x = 0 ∨ aget pl1 x = aget (zget zl i).pathlist x) ∧
      (∀ m : Int, aget (zget zl i).pathlist m ≠ 0 → ZeroAbove (zget zl i).pathlist m →
        aget pl1 m = 0) ∧
      (ZeroAbove (zget zl i).pathlist 1 → v = (0, 0, 0)) := by
  rcases pathlist_top (zget zl i).pathlist with hz | ⟨m, hm, hz⟩
  · refine ⟨(0, 0, 0), (zget zl i).pathlist,
      Get_Next_Waypoint_empty g probe entnum start mins maxs zl i hrec hz,
      fun x => Or.inr rfl, fun m hm _ => absurd (hz m) hm, fun _ => rfl⟩
  · have hb := aget_ne_zero_bounds _ _ hm
    have huniq : ∀ m2 : Int, aget (zget zl i).pathlist m2 ≠ 0 →
        ZeroAbove (zget zl i).pathlist m2 → m2 = m := by
      intro m2 h1 h2
      by_contra hne
      rcases lt_or_gt_of_ne hne with hlt | hgt
      · exact hm (h2 m hlt)
      · exact h1 (hz m2 hgt)
    by_cases hm1 : m ≤ 1
    · refine ⟨(0, 0, 0), aset (zget zl i).pathlist m 0,
        Get_Next_Waypoint_last g probe entnum start mins maxs zl i m hrec hm hz hm1, ?_, ?_,
        fun _ => rfl⟩
      · intro x
        rw [aget_aset]
        by_cases hx : x = m ∧ 0 ≤ x ∧ x < (N : Int)
        · rw [if_pos hx]; exact Or.inl rfl
        · rw [if_neg hx]; exact Or.inr rfl
      · intro m2 h1 h2
        rw [huniq m2 h1 h2]
        exact aget_aset_eq _ m 0 hb.1 hb.2
    · obtain ⟨v, _, hv⟩ := Get_Next_Waypoint_top g probe entnum start mins maxs zl i m hrec hm hz
        (by omega)
      refine ⟨v, aset (aset (zget zl i).pathlist m 0) (m - 1) 0, hv, ?_, ?_, ?_⟩
      · intro x
        rw [aget_aset, aget_aset]
        by_cases hx : x = m - 1 ∧ 0 ≤ x ∧ x < (N : Int)
        · rw [if_pos hx]; exact Or.inl rfl
        · rw [if_neg hx]
          by_cases hx2 : x = m ∧ 0 ≤ x ∧ x < (N : Int)
          · rw [if_pos hx2]; exact Or.inl rfl
          · rw [if_neg hx2]; exact Or.inr rfl
      · intro m2 h1 h2
        rw [huniq m2 h1 h2, aget_aset_ne _ _ _ _ (by omega)]
        exact aget_aset_eq _ m 0 hb.1 hb.2
      · intro h1
        exact absurd (h1 m (by omega)) hm

/-- After a call of `Get_Next_Waypoint` the zeros of the `pathlist` reach one
index further down. -/
theorem Get_Next_Waypoint_shrink {N : Nat} (pl pl1 : Arr N) (M : Int)
    (h1 : ∀ x : Int, aget pl1 x = 0 ∨ aget pl1 x = aget pl x)
    (h2 : ∀ m : Int, aget pl m ≠ 0 → ZeroAbove pl m → aget pl1 m = 0)
    (hz : ZeroAbove pl M) : ZeroAbove pl1 (M - 1) := by
  intro j hj
  by_cases hjM : j = M
  · subst hjM
    by_cases h0 : aget pl j = 0
    · rcases h1 j with h | h
      · exact h
      · rw [h]; exact h0
    · exact h2 j h0 hz
  · rcases h1 j with h | h
    · exact h
    · rw [h]; exact hz j (by omega)

/-- Successive calls of `Get_Next_Waypoint` all return, and each moves the
zeros of the `pathlist` one index further down. -/
theorem Get_Next_Waypoint_calls_spec {N : Nat} (g : Graph)
    (probe : vec3_t → vec3_t → vec3_t → vec3_t → Int → Int)
    (entnum : Int) (mins maxs : vec3_t) (i : Int) :
    ∀ (starts : List vec3_t) (zl : ZombieList N) (M : Int),
      FirstRecord zl entnum i → ZeroAbove (zget zl i).pathlist M →
      ∃ zl1 : ZombieList N,
        Get_Next_Waypoint_calls g probe entnum mins maxs starts zl = some zl1 ∧
        FirstRecord zl1 entnum i ∧ ZeroAbove (zget zl1 i).pathlist (M - starts.length) := by
  intro starts
  induction starts with
  | nil =>
    intro zl M hrec hz
    refine ⟨zl, rfl, hrec, ?_⟩
    simpa using hz
  | cons start rest ih =>
    intro zl M hrec hz
    obtain ⟨v, pl1, hcall, h1, h2, _⟩ :=
      Get_Next_Waypoint_step g probe entnum start mins maxs zl i hrec
    obtain ⟨hrec1, hpl1⟩ := FirstRecord_zset zl entnum i hrec pl1
    have hz1 : ZeroAbove (zget (zset zl i { zget zl i with pathlist := pl1 }) i).pathlist
        (M - 1) := by
      rw [hpl1]
      exact Get_Next_Waypoint_shrink _ pl1 M h1 h2 hz
    obtain ⟨zl1, hc, hr, hzz⟩ := ih _ (M - 1) hrec1 hz1
    refine ⟨zl1, ?_, hr, ?_⟩
    · rw [Get_Next_Waypoint_calls, hcall]
      exact hc
    · have : M - ((start :: rest).length : Int) = M - 1 - (rest.length : Int) := by
        simp only [List.length_cons]
        push_cast
        omega
      rw [this]
      exact hzz

/-- C15, as the claim states it, fails: `Do_Pathfind` in `navGraph` from
waypoint 1 to waypoint 3 stores the route `[-1, 3, 2, 1]` of three waypoints.
With a probe that always succeeds the first call of `Get_Next_Waypoint`
returns the origin `(30, 0, 0)` of waypoint 3, the end of the route, and
leaves `[-1, 3, 0, 0]`: two entries are gone. The second call returns the
zero vector and leaves `[-1, 0, 0, 0]`. -/
theorem next_waypoint_not_in_order :
    (Do_Pathfind navGraph sweepClear 1 2 (10, 0, 0) (30, 0, 0) navEmpty).map
        (fun r => (r.1, (zget r.2.zombie_list 0).zombienum,
          aget (zget r.2.zombie_list 0).pathlist 1, aget (zget r.2.zombie_list 0).pathlist 2,
          aget (zget r.2.zombie_list 0).pathlist 3))
      = some (1, 1, 3, 2, 1) ∧
    ((Do_Pathfind navGraph sweepClear 1 2 (10, 0, 0) (30, 0, 0) navEmpty).bind
        (fun r => Get_Next_Waypoint navGraph probeClear 1 (10, 0, 0) (-16, -16, -32)
          (16, 16, 40) r.2.zombie_list)).map
        (fun r => (r.1, aget (zget r.2 0).pathlist 0, aget (zget r.2 0).pathlist 1,
          aget (zget r.2 0).pathlist 2, aget (zget r.2 0).pathlist 3))
      = some ((30, 0, 0), -1, 3, 0, 0) ∧
    (((Do_Pathfind navGraph sweepClear 1 2 (10, 0, 0) (30, 0, 0) navEmpty).bind
        (fun r => Get_Next_Waypoint_calls navGraph probeClear 1 (-16, -16, -32) (16, 16, 40)
          [(10, 0, 0)] r.2.zombie_list)).bind
        (Get_Next_Waypoint navGraph probeClear 1 (30, 0, 0) (-16, -16, -32) (16, 16, 40))).map
        (fun r => (r.1, aget (zget r.2 0).pathlist 0, aget (zget r.2 0).pathlist 1,
          aget (zget r.2 0).pathlist 2, aget (zget r.2 0).pathlist 3))
      = some ((0, 0, 0), -1, 0, 0, 0) := by
  decide!

/-- C15 (amended): let the record of an entity hold a path whose topmost
entry is at index `n ≥ 2`, and let the probe succeed for the entries
`1 .. n - 1`. Then `Get_Next_Waypoint` returns the origin of entry 1, the
waypoint next to the target, clears entry `n`, sets no entry and leaves the
other records as they are. In every state a call on the record of the entity
returns, clears the topmost non-zero entry and sets no entry, so the path
shrinks with every call. After `n` or more calls no entry at an index `≥ 1`
is left, and every further call returns the zero vector. -/
theorem Get_Next_Waypoint_consumes {N : Nat} (g : Graph)
    (probe : vec3_t → vec3_t → vec3_t → vec3_t → Int → Int)
    (entnum : Int) (start mins maxs : vec3_t) (zl : ZombieList N) (i n : Int)
    (hrec : FirstRecord zl entnum i) (hn : 2 ≤ n)
    (htop : aget (zget zl i).pathlist n ≠ 0) (hz : ZeroAbove (zget zl i).pathlist n)
    (hprobe : ∀ j : Int, 1 ≤ j → j < n →
      probe start (mins.1 - 2, mins.2.1 - 2, mins.2.2) (maxs.1 + 2, maxs.2.1 + 2, maxs.2.2)
        (origin_vec g (aget (zget zl i).pathlist j)) entnum = 1) :
    (∃ zl1 : ZombieList N,
      Get_Next_Waypoint g probe entnum start mins maxs zl =
        some (origin_vec g (aget (zget zl i).pathlist 1), zl1) ∧
      aget (zget zl1 i).pathlist n = 0 ∧
      (∀ x : Int, aget (zget zl1 i).pathlist x = 0 ∨
        aget (zget zl1 i).pathlist x = aget (zget zl i).pathlist x) ∧
      ∀ j : Int, j ≠ i → zget zl1 j = zget zl j) ∧
    (∀ (zl2 : ZombieList N) (start2 : vec3_t) (m : Int), FirstRecord zl2 entnum i →
      aget (zget zl2 i).pathlist m ≠ 0 → ZeroAbove (zget zl2 i).pathlist m →
      ∃ (v : vec3_t) (zl3 : ZombieList N),
        Get_Next_Waypoint g probe entnum start2 mins maxs zl2 = some (v, zl3) ∧
        aget (zget zl3 i).pathlist m = 0 ∧
        ∀ x : Int, aget (zget zl3 i).pathlist x = 0 ∨
          aget (zget zl3 i).pathlist x = aget (zget zl2 i).pathlist x) ∧
    (∀ starts : List vec3_t, n ≤ (starts.length : Int) →
      ∃ zl1 : ZombieList N,
        Get_Next_Waypoint_calls g probe entnum mins maxs starts zl = some zl1 ∧
        (∀ x : Int, 1 ≤ x → aget (zget zl1 i).pathlist x = 0) ∧
        ∀ start2 : vec3_t, ∃ zl2 : ZombieList N,
          Get_Next_Waypoint g probe entnum start2 mins maxs zl1 = some ((0, 0, 0), zl2)) := by
  have hb := aget_ne_zero_bounds _ _ htop
  refine ⟨?_, ?_, ?_⟩
  · obtain ⟨v, hv, hcall⟩ :=
      Get_Next_Waypoint_top g probe entnum start mins maxs zl i n hrec htop hz hn
    have hall := Get_Waypoint_smooth_all g probe start (mins.1 - 2, mins.2.1 - 2, mins.2.2)
      (maxs.1 + 2, maxs.2.1 + 2, maxs.2.2) entnum (aset (zget zl i).pathlist n 0) N
      (n - 1) 0 (origin_vec g (aget (aset (zget zl i).pathlist n 0) (n - 1)))
      (by omega) (by omega)
      (fun j hj1 hj2 => by
        rw [aget_aset_ne _ _ _ _ (by omega)]
        exact hprobe j hj1 (by omega))
    rw [hall, aget_aset_ne _ _ _ _ (by omega)] at hv
    have hv2 : v = origin_vec g (aget (zget zl i).pathlist 1) := (Option.some.inj hv).symm
    obtain ⟨_, hpl1⟩ := FirstRecord_zset zl entnum i hrec
      (aset (aset (zget zl i).pathlist n 0) (n - 1) 0)
    refine ⟨_, by rw [hcall, hv2], ?_, ?_, ?_⟩
    · rw [hpl1, aget_aset_ne _ _ _ _ (by omega)]
      exact aget_aset_eq _ n 0 hb.1 hb.2
    · intro x
      rw [hpl1, aget_aset, aget_aset]
      by_cases hx : x = n - 1 ∧ 0 ≤ x ∧ x < (N : Int)
      · rw [if_pos hx]; exact Or.inl rfl
      · rw [if_neg hx]
        by_cases hx2 : x = n ∧ 0 ≤ x ∧ x < (N : Int)
        · rw [if_pos hx2]; exact Or.inl rfl
        · rw [if_neg hx2]; exact Or.inr rfl
    · intro j hj
      exact zget_zset_ne zl i j _ hj
  · intro zl2 start2 m hrec2 hm2 hz2
    obtain ⟨v, pl1, hcall, h1, h2, _⟩ :=
      Get_Next_Waypoint_step g probe entnum start2 mins maxs zl2 i hrec2
    obtain ⟨_, hpl1⟩ := FirstRecord_zset zl2 entnum i hrec2 pl1
    refine ⟨v, _, hcall, ?_, ?_⟩
    · rw [hpl1]
      exact h2 m hm2 hz2
    · intro x
      rw [hpl1]
      exact h1 x
  · intro starts hlen
    obtain ⟨zl1, hc, hr, hzz⟩ :=
      Get_Next_Waypoint_calls_spec g probe entnum mins maxs i starts zl n hrec hz
    have hz0 : ZeroAbove (zget zl1 i).pathlist 0 := fun j hj => hzz j (by omega)
    refine ⟨zl1, hc, fun x hx => hz0 x (by omega), ?_⟩
    intro start2
    obtain ⟨v, pl1, hcall, _, _, h3⟩ :=
      Get_Next_Waypoint_step g probe entnum start2 mins maxs zl1 i hr
    have hv : v = (0, 0, 0) := h3 (fun j hj => hz0 j (by omega))
    exact ⟨_, by rw [hcall, hv]⟩

/-- The record 0 of `routeList` is the first record of entity 1. -/
theorem routeList_record : FirstRecord routeList 1 0 :=
  ⟨le_refl _, by decide, by decide!, fun j h1 h2 => absurd h2 (by omega)⟩

/-- The amended C15 at `routeList`, the route `[-1, 3, 2, 1]` in `navGraph`,
with a probe that always succeeds. -/
theorem Get_Next_Waypoint_consumes_witness :
    FirstRecord routeList 1 0 ∧ (2 : Int) ≤ 3 ∧ aget (zget routeList 0).pathlist 3 ≠ 0 ∧
    ZeroAbove (zget routeList 0).pathlist 3 ∧
    (∀ j : Int, 1 ≤ j → j < 3 →
      probeClear (10, 0, 0) ((-16 : ℚ) - 2, (-16 : ℚ) - 2, (-32 : ℚ))
        ((16 : ℚ) + 2, (16 : ℚ) + 2, (40 : ℚ))
        (origin_vec navGraph (aget (zget routeList 0).pathlist j)) 1 = 1) ∧
    ((∃ zl1 : ZombieList 4,
      Get_Next_Waypoint navGraph probeClear 1 (10, 0, 0) (-16, -16, -32) (16, 16, 40) routeList =
        some (origin_vec navGraph (aget (zget routeList 0).pathlist 1), zl1) ∧
      aget (zget zl1 0).pathlist 3 = 0 ∧
      (∀ x : Int, aget (zget zl1 0).pathlist x = 0 ∨
        aget (zget zl1 0).pathlist x = aget (zget routeList 0).pathlist x) ∧
      ∀ j : Int, j ≠ 0 → zget zl1 j = zget routeList j) ∧
    (∀ (zl2 : ZombieList 4) (start2 : vec3_t) (m : Int), FirstRecord zl2 1 0 →
      aget (zget zl2 0).pathlist m ≠ 0 → ZeroAbove (zget zl2 0).pathlist m →
      ∃ (v : vec3_t) (zl3 : ZombieList 4),
        Get_Next_Waypoint navGraph probeClear 1 start2 (-16, -16, -32) (16, 16, 40) zl2
          = some (v, zl3) ∧
        aget (zget zl3 0).pathlist m = 0 ∧
        ∀ x : Int, aget (zget zl3 0).pathlist x = 0 ∨
          aget (zget zl3 0).pathlist x = aget (zget zl2 0).pathlist x) ∧
    (∀ starts : List vec3_t, (3 : Int) ≤ (starts.length : Int) →
      ∃ zl1 : ZombieList 4,
        Get_Next_Waypoint_calls navGraph probeClear 1 (-16, -16, -32) (16, 16, 40) starts
          routeList = some zl1 ∧
        (∀ x : Int, 1 ≤ x → aget (zget zl1 0).pathlist x = 0) ∧
        ∀ start2 : vec3_t, ∃ zl2 : ZombieList 4,
          Get_Next_Waypoint navGraph probeClear 1 start2 (-16, -16, -32) (16, 16, 40) zl1
            = some ((0, 0, 0), zl2))) :=
  ⟨routeList_record, by decide, by decide!,
    fun j hj => aget_oob _ j (by push_cast; omega), fun _ _ _ => rfl,
    Get_Next_Waypoint_consumes navGraph probeClear 1 (10, 0, 0) (-16, -16, -32) (16, 16, 40)
      routeList 0 3 routeList_record (by decide) (by decide!)
      (fun j hj => aget_oob _ j (by push_cast; omega)) (fun _ _ _ => rfl)⟩

/-! ## Scores and the reconstructed route -/

/-- C20 fails on the code: in `forkGraph` the call `Pathfind(1, 4)` returns 1
with the route `1 -> 4` in `proces_list`, whose only edge has distance 100,
and `came_from[4] = 1`, yet `g_score[4]` is 2: the expansion of waypoint 2
lowered the scores of waypoint 4 in place and left `came_from[4]` as it
was. -/
theorem g_score_not_route_cost :
    (Pathfind forkGraph 1 4 (Search.zero 5 0) (fun _ => 0)).map
        (fun r => (r.1, aget r.2.2 0, aget r.2.2 1, aget r.2.2 2, aget r.2.2 3))
      = some (1, -1, 4, 1, 0) ∧
    (Pathfind forkGraph 1 4 (Search.zero 5 0) (fun _ => 0)).map
        (fun r => (aget r.2.1.came_from 4, aget r.2.1.g_score 1, aget r.2.1.g_score 4))
      = some (1, 0, 2) ∧
    forkGraph.target_id 1 2 = 4 ∧ forkGraph.dist 1 2 = 100 := by
  decide!

/-- C16 fails on the code for `Get_First_Waypoint`. In `offsetGraph`,
`Do_Pathfind` with both agents at waypoint 1 returns `-1` and stores
`[-1, 1, 0, 0]` for entity 1; two calls of `Get_Next_Waypoint` return the
zero vector and clear first entry 1, then the sentinel, so the record is all
zero. The scan of `Get_First_Waypoint` then ends with `s = -1`, which the
test `s == 0` lets pass: with a probe that never succeeds the call returns
the origin `(5, 0, 0)` of waypoint 0 after the write `pathlist[-1] = 0`, and
with a probe that always succeeds the loop `while(1)` counts `currentWay`
down from 0 and reads `pathlist[-1]`, `pathlist[-2]`, and so on without
end. `Get_Next_Waypoint` tests `s == -1 || s == 0` at this place. -/
theorem first_waypoint_past_sentinel :
    (Do_Pathfind offsetGraph sweepClear 1 2 (15, 0, 0) (15, 0, 0) navEmpty).map
        (fun r => (r.1, (zget r.2.zombie_list 0).zombienum,
          aget (zget r.2.zombie_list 0).pathlist 0, aget (zget r.2.zombie_list 0).pathlist 1,
          aget (zget r.2.zombie_list 0).pathlist 2))
      = some (-1, 1, -1, 1, 0) ∧
    ((Do_Pathfind offsetGraph sweepClear 1 2 (15, 0, 0) (15, 0, 0) navEmpty).bind
        (fun r => Get_Next_Waypoint_calls offsetGraph probeBlocked 1 (-16, -16, -32)
          (16, 16, 40) [(15, 0, 0), (15, 0, 0)] r.2.zombie_list)).map
        (fun zl => ((zget zl 0).zombienum, aget (zget zl 0).pathlist 0,
          aget (zget zl 0).pathlist 1, (Get_First_Waypoint_find 1 zl MaxZombies 0).i,
          (Get_First_Waypoint_find 1 zl MaxZombies 0).s))
      = some (1, 0, 0, 0, -1) ∧
    (((Do_Pathfind offsetGraph sweepClear 1 2 (15, 0, 0) (15, 0, 0) navEmpty).bind
        (fun r => Get_Next_Waypoint_calls offsetGraph probeBlocked 1 (-16, -16, -32)
          (16, 16, 40) [(15, 0, 0), (15, 0, 0)] r.2.zombie_list)).bind
        (Get_First_Waypoint offsetGraph probeBlocked 1 (15, 0, 0) (-16, -16, -32)
          (16, 16, 40))).map (fun r => r.1)
      = some (5, 0, 0) ∧
    ((Do_Pathfind offsetGraph sweepClear 1 2 (15, 0, 0) (15, 0, 0) navEmpty).bind
        (fun r => Get_Next_Waypoint_calls offsetGraph probeClear 1 (-16, -16, -32)
          (16, 16, 40) [(15, 0, 0), (15, 0, 0)] r.2.zombie_list)).bind
        (fun zl => (Get_First_Waypoint offsetGraph probeClear 1 (15, 0, 0) (-16, -16, -32)
          (16, 16, 40) zl).map (fun r => r.1))
      = none ∧
    (Do_Pathfind offsetGraph sweepClear 1 2 (15, 0, 0) (15, 0, 0) navEmpty).bind
        (fun r => (Get_Next_Waypoint_calls offsetGraph probeClear 1 (-16, -16, -32)
          (16, 16, 40) [(15, 0, 0), (15, 0, 0)] r.2.zombie_list).map (fun _ => (0 : Int)))
      = some 0 := by
  decide!

/-! ## `TraceMove` -/

/-- The sample loop of `TraceMove` ends without a fall when no sample sweep
has a positive fraction and `n` steps of the spacing `maxs[0]` reach
`tempDist`. -/
theorem TraceMove_fall_none (SV_Move : vec3_t → vec3_t → vec3_t → vec3_t → Int → trace_t)
    (mins maxs : vec3_t) (ent : Int) (forward : vec3_t) (tempDist : ℚ) (v : TraceMove_vars)
    (hdown : ∀ i : ℚ,
      (SV_Move (VectorAdd (VectorScale forward i) v.CurrentPos) mins maxs
        (VectorAdd (VectorAdd (VectorScale forward i) v.CurrentPos)
          (VectorScale (0, 0, 1) (-500))) ent).fraction = 0) :
    ∀ (n fuel : Nat) (i : ℚ), tempDist ≤ i + n * maxs.1 → n < fuel →
      TraceMove_fall SV_Move mins maxs ent forward tempDist v fuel i = some none := by
  intro n
  induction n with
  | zero =>
    intro fuel i h1 h2
    obtain ⟨k, rfl⟩ : ∃ k, fuel = k + 1 := ⟨fuel - 1, by omega⟩
    rw [TraceMove_fall, if_neg]
    simp at h1
    exact not_lt.mpr h1
  | succ n ih =>
    intro fuel i h1 h2
    obtain ⟨k, rfl⟩ : ∃ k, fuel = k + 1 := ⟨fuel - 1, by omega⟩
    rw [TraceMove_fall]
    by_cases hi : i < tempDist
    · rw [if_pos hi, if_neg (by rw [hdown i]; exact lt_irrefl 0)]
      apply ih k (i + maxs.1) _ (by omega)
      push_cast at h1
      linarith
    · rw [if_neg hi]

/-- The sample loop of `TraceMove` never ends when the spacing `maxs[0]` is
zero, a sample is due and no sample sweep has a positive fraction. -/
theorem TraceMove_fall_stuck (SV_Move : vec3_t → vec3_t → vec3_t → vec3_t → Int → trace_t)
    (mins maxs : vec3_t) (ent : Int) (forward : vec3_t) (tempDist : ℚ) (v : TraceMove_vars)
    (i : ℚ) (hmaxs : maxs.1 = 0) (hi : i < tempDist)
    (hdown :
      (SV_Move (VectorAdd (VectorScale forward i) v.CurrentPos) mins maxs
        (VectorAdd (VectorAdd (VectorScale forward i) v.CurrentPos)
          (VectorScale (0, 0, 1) (-500))) ent).fraction = 0) :
    ∀ fuel : Nat, TraceMove_fall SV_Move mins maxs ent forward tempDist v fuel i = none := by
  intro fuel
  induction fuel with
  | zero => rw [TraceMove_fall]
  | succ k ih =>
    rw [TraceMove_fall, if_pos hi, if_neg (by rw [hdown]; exact lt_irrefl 0), hmaxs, add_zero]
    exact ih

/-- A fall in the sample loop of `TraceMove`: some sample sweep at a distance
`j` had a positive fraction; `CurrentDist` grows by `j`, and `LoopBreak` grows
by one when the fraction is one and is reset to zero otherwise. -/
theorem TraceMove_fall_some (SV_Move : vec3_t → vec3_t → vec3_t → vec3_t → Int → trace_t)
    (mins maxs : vec3_t) (ent : Int) (forward : vec3_t) (tempDist : ℚ) (v : TraceMove_vars) :
    ∀ (fuel : Nat) (i : ℚ) (v1 : TraceMove_vars),
      TraceMove_fall SV_Move mins maxs ent forward tempDist v fuel i = some (some v1) →
      ∃ j : ℚ,
        0 < (SV_Move (VectorAdd (VectorScale forward j) v.CurrentPos) mins maxs
          (VectorAdd (VectorAdd (VectorScale forward j) v.CurrentPos)
            (VectorScale (0, 0, 1) (-500))) ent).fraction ∧
        v1.CurrentDist = v.CurrentDist + j ∧
        ((SV_Move (VectorAdd (VectorScale forward j) v.CurrentPos) mins maxs
          (VectorAdd (VectorAdd (VectorScale forward j) v.CurrentPos)
            (VectorScale (0, 0, 1) (-500))) ent).fraction = 1 →
          v1.LoopBreak = v.LoopBreak + 1) ∧
        ((SV_Move (VectorAdd (VectorScale forward j) v.CurrentPos) mins maxs
          (VectorAdd (VectorAdd (VectorScale forward j) v.CurrentPos)
            (VectorScale (0, 0, 1) (-500))) ent).fraction ≠ 1 →
          v1.LoopBreak = 0) := by
  intro fuel
  induction fuel with
  | zero =>
    intro i v1 h
    rw [TraceMove_fall] at h
    exact absurd h (by simp)
  | succ k ih =>
    intro i v1 h
    rw [TraceMove_fall] at h
    by_cases hi : i < tempDist
    · rw [if_pos hi] at h
      by_cases hf : (SV_Move (VectorAdd (VectorScale forward i) v.CurrentPos) mins maxs
          (VectorAdd (VectorAdd (VectorScale forward i) v.CurrentPos)
            (VectorScale (0, 0, 1) (-500))) ent).fraction > 0
      · rw [if_pos hf] at h
        have hv := Option.some.inj (Option.some.inj h)
        refine ⟨i, hf, ?_, ?_, ?_⟩
        · rw [← hv]
        · intro h1
          rw [← hv]
          exact if_pos h1
        · intro h1
          rw [← hv]
          exact if_neg h1
      · rw [if_neg hf] at h
        exact ih _ v1 h
    · rw [if_neg hi] at h
      exact absurd h (by simp)

/-- The part of the loop body of `TraceMove` after the samples returns `0`
or `1`, or enters the loop again with `LoopBreak` and `CurrentDist` as they
were. -/
theorem TraceMove_advance_frame
    (SV_Move : vec3_t → vec3_t → vec3_t → vec3_t → Int → trace_t)
    (VectorLength : vec3_t → ℚ) (mins maxs end_ : vec3_t) (ent : Int)
    (loop : TraceMove_vars → Option Int) (v : TraceMove_vars) (trace1 : trace_t) :
    TraceMove_advance SV_Move VectorLength mins maxs end_ ent loop v trace1 = some 0 ∨
    TraceMove_advance SV_Move VectorLength mins maxs end_ ent loop v trace1 = some 1 ∨
    ∃ v1 : TraceMove_vars, v1.LoopBreak = v.LoopBreak ∧ v1.CurrentDist = v.CurrentDist ∧
      TraceMove_advance SV_Move VectorLength mins maxs end_ ent loop v trace1 = loop v1 := by
  unfold TraceMove_advance
  simp only
  split_ifs <;>
    first
    | exact Or.inl rfl
    | exact Or.inr (Or.inl rfl)
    | (refine Or.inr (Or.inr ⟨_, ?_, ?_, rfl⟩) <;> rfl)

/-- One iteration of the loop of `TraceMove` in which the horizontal sweep is
unobstructed and no sample falls: the vertical test decides. -/
theorem TraceMove_loop_level (fuel : Nat)
    (SV_Move : vec3_t → vec3_t → vec3_t → vec3_t → Int → trace_t)
    (VectorLength : vec3_t → ℚ) (mins maxs end_ : vec3_t) (ent : Int)
    (forward : vec3_t) (HorDist : ℚ) (k n : Nat) (v : TraceMove_vars)
    (hdist : v.CurrentDist < HorDist) (hbreak : v.LoopBreak ≤ 20)
    (hfirst : (SV_Move v.CurrentPos mins maxs v.tempHorGoal ent).fraction = 1)
    (hdown : ∀ i : ℚ,
      (SV_Move (VectorAdd (VectorScale forward i) v.CurrentPos) mins maxs
        (VectorAdd (VectorAdd (VectorScale forward i) v.CurrentPos)
          (VectorScale (0, 0, 1) (-500))) ent).fraction = 0)
    (hn : VectorLength (VectorSubtract v.tempHorGoal v.CurrentPos) ≤ maxs.1 + n * maxs.1)
    (hfuel : n < fuel) :
    TraceMove_loop fuel SV_Move VectorLength mins maxs end_ ent forward HorDist (k + 1) v =
      some (if end_.2.2 - v.tempHorGoal.2.2 < 18 ∧ end_.2.2 - v.tempHorGoal.2.2 > -1 * 18
        then 1 else 0) := by
  have hfall := TraceMove_fall_none SV_Move mins maxs ent forward
    ((SV_Move v.CurrentPos mins maxs v.tempHorGoal ent).fraction
      * VectorLength (VectorSubtract v.tempHorGoal v.CurrentPos)) v hdown n fuel maxs.1
    (by rw [hfirst, one_mul]; exact hn) hfuel
  rw [TraceMove_loop, if_pos hdist, if_neg (by omega), hfall]
  have h1 : ¬ ((1 : ℚ) > 0 ∧ (1 : ℚ) < 1) := fun h => lt_irrefl _ h.2
  simp only [TraceMove_advance, hfirst, if_neg h1]
  rw [if_neg (lt_irrefl (1 : ℚ)), if_pos trivial]
  split_ifs <;> rfl

/-- With exact arithmetic in the sample counter: let the spacing `maxs[0]` of
the samples be positive and the horizontal distance between `start` and `end`
be positive. If the first horizontal sweep reaches the goal with fraction 1
and every downward sweep from a sample point returns fraction 0, then
`TraceMove` returns, with 1 when the absolute height difference between `end`
and `start` is below the step height 18 and with 0 otherwise. The counter `i`
of the model is a rational, so `i += maxs[0]` advances for every positive
spacing; the `float` counter of the source stops advancing when the spacing is
below half a unit in the last place of `i`, a case that this statement does
not cover. -/
theorem TraceMove_vertical (SV_Move : vec3_t → vec3_t → vec3_t → vec3_t → Int → trace_t)
    (VectorLength : vec3_t → ℚ) (VectorNormalize : vec3_t → vec3_t)
    (start mins maxs end_ : vec3_t) (ent : Int)
    (hmaxs : 0 < maxs.1)
    (hsep : 0 < VectorLength (VectorSubtract (end_.1, end_.2.1, start.2.2) start))
    (hfirst : (SV_Move start mins maxs (end_.1, end_.2.1, start.2.2) ent).fraction = 1)
    (hdown : ∀ i : ℚ,
      (SV_Move
        (VectorAdd
          (VectorScale (VectorNormalize (VectorSubtract (end_.1, end_.2.1, start.2.2) start)) i)
          start) mins maxs
        (VectorAdd
          (VectorAdd
            (VectorScale (VectorNormalize (VectorSubtract (end_.1, end_.2.1, start.2.2) start))
              i) start)
          (VectorScale (0, 0, 1) (-500))) ent).fraction = 0) :
    ∃ n : Nat, ∀ fuel : Nat, n ≤ fuel →
      TraceMove fuel SV_Move VectorLength VectorNormalize start mins maxs end_ ent =
        some (if |end_.2.2 - start.2.2| < 18 then 1 else 0) := by
  obtain ⟨n, hn⟩ := exists_nat_ge
    (VectorLength (VectorSubtract (end_.1, end_.2.1, start.2.2) start) / maxs.1)
  have hn2 : VectorLength (VectorSubtract (end_.1, end_.2.1, start.2.2) start)
      ≤ maxs.1 + n * maxs.1 := by
    have := (div_le_iff₀ hmaxs).mp hn
    linarith
  refine ⟨n + 1, ?_⟩
  intro fuel hfuel
  obtain ⟨k, rfl⟩ : ∃ k, fuel = k + 1 := ⟨fuel - 1, by omega⟩
  rw [TraceMove]
  by_cases hse : start.1 = end_.1 ∧ start.2.1 = end_.2.1 ∧ start.2.2 = end_.2.2
  · rw [if_pos hse, hse.2.2, sub_self, abs_zero, if_pos (by norm_num)]
  · rw [if_neg hse]
    rw [TraceMove_loop_level (k + 1) SV_Move VectorLength mins maxs end_ ent _ _ k n
      { CurrentPos := start, tempHorGoal := (end_.1, end_.2.1, start.2.2),
        CurrentDist := 0, LoopBreak := 0 }
      hsep (by show (0 : Int) ≤ 20; omega) hfirst hdown hn2 (by omega)]
    congr 1
    by_cases habs : |end_.2.2 - start.2.2| < 18
    · rw [if_pos habs, if_pos]
      rw [abs_lt] at habs
      exact ⟨habs.2, by linarith [habs.1]⟩
    · rw [if_neg habs, if_neg]
      intro hc
      apply habs
      rw [abs_lt]
      exact ⟨by linarith [hc.2], hc.1⟩

/-- In `flatWorld` every downward sweep is stopped at once. -/
theorem flatWorld_down (p mins maxs : vec3_t) (ent : Int) :
    (flatWorld p mins maxs (VectorAdd p (VectorScale (0, 0, 1) (-500))) ent).fraction = 0 := by
  have h : (VectorAdd p (VectorScale (0, 0, 1) (-500))).2.2 < p.2.2 := by
    simp only [VectorAdd, VectorScale]
    linarith
  simp only [flatWorld, if_pos h]

/-- `TraceMove` does not return when the spacing `maxs[0]` of the samples is
zero, the first horizontal sweep advances, and the downward sweep at the
start finds the ground at once. -/
theorem TraceMove_no_return (SV_Move : vec3_t → vec3_t → vec3_t → vec3_t → Int → trace_t)
    (VectorLength : vec3_t → ℚ) (VectorNormalize : vec3_t → vec3_t)
    (start mins maxs end_ : vec3_t) (ent : Int)
    (hmaxs : maxs.1 = 0)
    (hne : ¬ (start.1 = end_.1 ∧ start.2.1 = end_.2.1 ∧ start.2.2 = end_.2.2))
    (hsep : 0 < VectorLength (VectorSubtract (end_.1, end_.2.1, start.2.2) start))
    (hfirst : 0 < (SV_Move start mins maxs (end_.1, end_.2.1, start.2.2) ent).fraction
      * VectorLength (VectorSubtract (end_.1, end_.2.1, start.2.2) start))
    (hdown :
      (SV_Move
        (VectorAdd
          (VectorScale (VectorNormalize (VectorSubtract (end_.1, end_.2.1, start.2.2) start))
            maxs.1) start) mins maxs
        (VectorAdd
          (VectorAdd
            (VectorScale (VectorNormalize (VectorSubtract (end_.1, end_.2.1, start.2.2) start))
              maxs.1) start)
          (VectorScale (0, 0, 1) (-500))) ent).fraction = 0) :
    ∀ fuel : Nat,
      TraceMove fuel SV_Move VectorLength VectorNormalize start mins maxs end_ ent = none := by
  intro fuel
  rw [TraceMove, if_neg hne]
  cases fuel with
  | zero => rw [TraceMove_loop]
  | succ k =>
    have hfall := TraceMove_fall_stuck SV_Move mins maxs ent
      (VectorNormalize (VectorSubtract (end_.1, end_.2.1, start.2.2) start))
      ((SV_Move start mins maxs (end_.1, end_.2.1, start.2.2) ent).fraction
        * VectorLength (VectorSubtract (end_.1, end_.2.1, start.2.2) start))
      { CurrentPos := start, tempHorGoal := (end_.1, end_.2.1, start.2.2),
        CurrentDist := 0, LoopBreak := 0 }
      maxs.1 hmaxs (by rw [hmaxs]; exact hfirst) hdown (k + 1)
    rw [TraceMove_loop, if_pos hsep, if_neg (by show ¬ ((0 : Int) > 20); omega), hfall]

/-- C18 fails on the code for a box of zero width: in `flatWorld`, from
`(0, 0, 0)` to `(100, 0, 0)` with `maxs[0] = 0`, the first horizontal sweep
has fraction 1 and every downward sweep has fraction 0, the height difference
is zero, and `TraceMove` does not return, whatever the number of iterations:
the sample loop `for(i = maxs[0]; i < tempDist; i += maxs[0])` stays at
`i = 0`. The loop around it is guarded by `LoopBreak` against running without
end; the sample loop has no guard. -/
theorem vertical_check_zero_width :
    (flatWorld (0, 0, 0) (0, 0, 0) (0, 0, 0) (100, 0, 0) 1).fraction = 1 ∧
    (∀ p : vec3_t,
      (flatWorld p (0, 0, 0) (0, 0, 0) (VectorAdd p (VectorScale (0, 0, 1) (-500))) 1).fraction
        = 0) ∧
    ¬ ∃ fuel : Nat,
      TraceMove fuel flatWorld axisLength axisNormalize (0, 0, 0) (0, 0, 0) (0, 0, 0)
        (100, 0, 0) 1 ≠ none :=
  ⟨by decide!, fun p => flatWorld_down p _ _ _, fun ⟨fuel, h⟩ =>
    h (TraceMove_no_return flatWorld axisLength axisNormalize (0, 0, 0) (0, 0, 0) (0, 0, 0)
      (100, 0, 0) 1 rfl (by decide!) (by decide!) (by decide!) (flatWorld_down _ _ _ _) fuel)⟩

/-- The statement `TraceMove_vertical` in `flatWorld` from `(0, 0, 0)` to
`(100, 0, 10)` with a box of half-width 16: `TraceMove` returns 1. -/
theorem TraceMove_vertical_witness :
    (0 : ℚ) < 16 ∧
    0 < axisLength (VectorSubtract (100, 0, 0) (0, 0, 0)) ∧
    (flatWorld (0, 0, 0) (-16, -16, -32) (16, 16, 40) (100, 0, 0) 1).fraction = 1 ∧
    (∃ n : Nat, ∀ fuel : Nat, n ≤ fuel →
      TraceMove fuel flatWorld axisLength axisNormalize (0, 0, 0) (-16, -16, -32) (16, 16, 40)
        (100, 0, 10) 1 = some (if |(10 : ℚ) - 0| < 18 then 1 else 0)) ∧
    TraceMove 8 flatWorld axisLength axisNormalize (0, 0, 0) (-16, -16, -32) (16, 16, 40)
      (100, 0, 10) 1 = some 1 :=
  ⟨by decide!, by decide!, by decide!,
    TraceMove_vertical flatWorld axisLength axisNormalize (0, 0, 0) (-16, -16, -32)
      (16, 16, 40) (100, 0, 10) 1 (by decide!) (by decide!) (by decide!)
      (fun _ => flatWorld_down _ _ _ _), by decide!⟩

/-- The counters after `j` full-length falls. -/
theorem TraceMove_fallen_counters (forward : vec3_t) (maxs0 : ℚ) (v : TraceMove_vars) :
    ∀ j : Nat,
      (TraceMove_fallen forward maxs0 v j).LoopBreak = v.LoopBreak + j ∧
      (TraceMove_fallen forward maxs0 v j).CurrentDist = v.CurrentDist + j * maxs0 := by
  intro j
  induction j with
  | zero => simp [TraceMove_fallen]
  | succ j ih =>
    simp only [TraceMove_fallen, ih.1, ih.2]
    constructor
    · push_cast; omega
    · push_cast; ring

/-- One iteration of the loop of `TraceMove` in which the first sample falls
the full length. -/
theorem TraceMove_loop_fall (f : Nat)
    (SV_Move : vec3_t → vec3_t → vec3_t → vec3_t → Int → trace_t)
    (VectorLength : vec3_t → ℚ) (mins maxs end_ : vec3_t) (ent : Int)
    (forward : vec3_t) (HorDist : ℚ) (k : Nat) (v : TraceMove_vars)
    (hdist : v.CurrentDist < HorDist) (hbreak : v.LoopBreak ≤ 20)
    (hhor : maxs.1 < (SV_Move v.CurrentPos mins maxs v.tempHorGoal ent).fraction
      * VectorLength (VectorSubtract v.tempHorGoal v.CurrentPos))
    (hdown :
      (SV_Move (VectorAdd (VectorScale forward maxs.1) v.CurrentPos) mins maxs
        (VectorAdd (VectorAdd (VectorScale forward maxs.1) v.CurrentPos)
          (VectorScale (0, 0, 1) (-500))) ent).fraction = 1) :
    TraceMove_loop (f + 1) SV_Move VectorLength mins maxs end_ ent forward HorDist (k + 1) v =
      TraceMove_loop (f + 1) SV_Move VectorLength mins maxs end_ ent forward HorDist k
        (TraceMove_fallen forward maxs.1 v 1) := by
  have hfall : TraceMove_fall SV_Move mins maxs ent forward
      ((SV_Move v.CurrentPos mins maxs v.tempHorGoal ent).fraction
        * VectorLength (VectorSubtract v.tempHorGoal v.CurrentPos)) v (f + 1) maxs.1
      = some (some (TraceMove_fallen forward maxs.1 v 1)) := by
    rw [TraceMove_fall, if_pos hhor, if_pos (by rw [hdown]; exact zero_lt_one)]
    simp only [hdown, TraceMove_fallen, if_pos]
  rw [TraceMove_loop, if_pos hdist, if_neg (by omega), hfall]

/-- Iterations of the loop of `TraceMove` in each of which the first sample
falls the full length. -/
theorem TraceMove_loop_falls (f : Nat)
    (SV_Move : vec3_t → vec3_t → vec3_t → vec3_t → Int → trace_t)
    (VectorLength : vec3_t → ℚ) (mins maxs end_ : vec3_t) (ent : Int)
    (forward : vec3_t) (HorDist : ℚ) (v : TraceMove_vars)
    (hdown : ∀ p : vec3_t,
      (SV_Move p mins maxs (VectorAdd p (VectorScale (0, 0, 1) (-500))) ent).fraction = 1) :
    ∀ (j k : Nat),
      (∀ a : Nat, a < j →
        (TraceMove_fallen forward maxs.1 v a).CurrentDist < HorDist ∧
        (TraceMove_fallen forward maxs.1 v a).LoopBreak ≤ 20 ∧
        maxs.1 < (SV_Move (TraceMove_fallen forward maxs.1 v a).CurrentPos mins maxs
            (TraceMove_fallen forward maxs.1 v a).tempHorGoal ent).fraction
          * VectorLength (VectorSubtract (TraceMove_fallen forward maxs.1 v a).tempHorGoal
              (TraceMove_fallen forward maxs.1 v a).CurrentPos)) →
      TraceMove_loop (f + 1) SV_Move VectorLength mins maxs end_ ent forward HorDist (k + j) v =
        TraceMove_loop (f + 1) SV_Move VectorLength mins maxs end_ ent forward HorDist k
          (TraceMove_fallen forward maxs.1 v j) := by
  intro j
  induction j with
  | zero =>
    intro k _
    rfl
  | succ j ih =>
    intro k h
    have h1 := ih (k + 1) (fun a ha => h a (by omega))
    have h2 := h j (by omega)
    have h3 := TraceMove_loop_fall f SV_Move VectorLength mins maxs end_ ent forward HorDist k
      (TraceMove_fallen forward maxs.1 v j) h2.1 h2.2.1 h2.2.2 (hdown _)
    have hk : k + (j + 1) = k + 1 + j := by omega
    rw [hk, h1, h3]
    rfl

/-- C19, as the claim states it, fails: in `voidWorld` every sweep travels
its full length, yet from `(0, 0, 0)` to `(100, 0, 0)` with samples every 16
units `TraceMove` returns 0: after six falls the rest of the way, 4 units, is
shorter than the spacing of the samples, no sample is taken, and the vertical
test fails 600 units below the goal. From `(0, 0, 0)` to `(0, 0, 50)`,
straight up, `TraceMove` returns 0 without entering the loop. -/
theorem fall_guard_not_reached :
    (∀ (p mins maxs q : vec3_t) (ent : Int), (voidWorld p mins maxs q ent).fraction = 1) ∧
    TraceMove 30 voidWorld axisLength axisNormalize (0, 0, 0) (-16, -16, -32) (16, 16, 40)
      (100, 0, 0) 1 = some 0 ∧
    TraceMove 30 voidWorld axisLength axisNormalize (0, 0, 0) (-16, -16, -32) (16, 16, 40)
      (0, 0, 50) 1 = some 0 :=
  ⟨fun _ _ _ _ _ => rfl, by decide!, by decide!⟩

/-- C19 (amended): let `start` and `end` differ, let the spacing `maxs[0]` of
the samples be positive and the horizontal distance exceed 21 times that
spacing. If every downward sweep travels its full length (fraction 1) and,
in each of the first 21 iterations, the horizontal sweep advances beyond the
first sample point, then `TraceMove` returns `-1`. In every world a fall adds
one to the guard counter `LoopBreak` when its downward sweep has fraction 1
and resets the counter to zero when the fraction is smaller, and an iteration
without a fall leaves the counter as it was. -/
theorem TraceMove_fall_guard (SV_Move : vec3_t → vec3_t → vec3_t → vec3_t → Int → trace_t)
    (VectorLength : vec3_t → ℚ) (VectorNormalize : vec3_t → vec3_t)
    (start mins maxs end_ : vec3_t) (ent : Int)
    (hne : ¬ (start.1 = end_.1 ∧ start.2.1 = end_.2.1 ∧ start.2.2 = end_.2.2))
    (hmaxs : 0 < maxs.1)
    (hdist : 21 * maxs.1 < VectorLength (VectorSubtract (end_.1, end_.2.1, start.2.2) start))
    (hhor : ∀ j : Nat, j ≤ 20 →
      maxs.1 <
        (SV_Move
          (TraceMove_fallen
            (VectorNormalize (VectorSubtract (end_.1, end_.2.1, start.2.2) start)) maxs.1
            { CurrentPos := start, tempHorGoal := (end_.1, end_.2.1, start.2.2),
              CurrentDist := 0, LoopBreak := 0 } j).CurrentPos mins maxs
          (TraceMove_fallen
            (VectorNormalize (VectorSubtract (end_.1, end_.2.1, start.2.2) start)) maxs.1
            { CurrentPos := start, tempHorGoal := (end_.1, end_.2.1, start.2.2),
              CurrentDist := 0, LoopBreak := 0 } j).tempHorGoal ent).fraction
        * VectorLength
          (VectorSubtract
            (TraceMove_fallen
              (VectorNormalize (VectorSubtract (end_.1, end_.2.1, start.2.2) start)) maxs.1
              { CurrentPos := start, tempHorGoal := (end_.1, end_.2.1, start.2.2),
                CurrentDist := 0, LoopBreak := 0 } j).tempHorGoal
            (TraceMove_fallen
              (VectorNormalize (VectorSubtract (end_.1, end_.2.1, start.2.2) start)) maxs.1
              { CurrentPos := start, tempHorGoal := (end_.1, end_.2.1, start.2.2),
                CurrentDist := 0, LoopBreak := 0 } j).CurrentPos))
    (hdown : ∀ p : vec3_t,
      (SV_Move p mins maxs (VectorAdd p (VectorScale (0, 0, 1) (-500))) ent).fraction = 1) :
    (∃ n : Nat, ∀ fuel : Nat, n ≤ fuel →
      TraceMove fuel SV_Move VectorLength VectorNormalize start mins maxs end_ ent
        = some (-1)) ∧
    (∀ (world : vec3_t → vec3_t → vec3_t → vec3_t → Int → trace_t) (forward : vec3_t)
      (tempDist : ℚ) (v v1 : TraceMove_vars) (fuel : Nat) (i : ℚ),
      TraceMove_fall world mins maxs ent forward tempDist v fuel i = some (some v1) →
      ∃ j : ℚ,
        0 < (world (VectorAdd (VectorScale forward j) v.CurrentPos) mins maxs
          (VectorAdd (VectorAdd (VectorScale forward j) v.CurrentPos)
            (VectorScale (0, 0, 1) (-500))) ent).fraction ∧
        v1.CurrentDist = v.CurrentDist + j ∧
        ((world (VectorAdd (VectorScale forward j) v.CurrentPos) mins maxs
          (VectorAdd (VectorAdd (VectorScale forward j) v.CurrentPos)
            (VectorScale (0, 0, 1) (-500))) ent).fraction = 1 →
          v1.LoopBreak = v.LoopBreak + 1) ∧
        ((world (VectorAdd (VectorScale forward j) v.CurrentPos) mins maxs
          (VectorAdd (VectorAdd (VectorScale forward j) v.CurrentPos)
            (VectorScale (0, 0, 1) (-500))) ent).fraction ≠ 1 →
          v1.LoopBreak = 0)) ∧
    (∀ (world : vec3_t → vec3_t → vec3_t → vec3_t → Int → trace_t)
      (loop : TraceMove_vars → Option Int) (v : TraceMove_vars) (trace1 : trace_t),
      TraceMove_advance world VectorLength mins maxs end_ ent loop v trace1 = some 0 ∨
      TraceMove_advance world VectorLength mins maxs end_ ent loop v trace1 = some 1 ∨
      ∃ v1 : TraceMove_vars, v1.LoopBreak = v.LoopBreak ∧ v1.CurrentDist = v.CurrentDist ∧
        TraceMove_advance world VectorLength mins maxs end_ ent loop v trace1 = loop v1) := by
  refine ⟨⟨22, ?_⟩, ?_, ?_⟩
  · intro fuel hfuel
    obtain ⟨f, rfl⟩ : ∃ f, fuel = f + 1 := ⟨fuel - 1, by omega⟩
    obtain ⟨k, hk⟩ : ∃ k, f + 1 = k + 1 + 21 := ⟨f - 21, by omega⟩
    have hc := TraceMove_fallen_counters
      (VectorNormalize (VectorSubtract (end_.1, end_.2.1, start.2.2) start)) maxs.1
      { CurrentPos := start, tempHorGoal := (end_.1, end_.2.1, start.2.2),
        CurrentDist := 0, LoopBreak := 0 }
    rw [TraceMove, if_neg hne]
    have hfalls := TraceMove_loop_falls f SV_Move VectorLength mins maxs end_ ent
      (VectorNormalize (VectorSubtract (end_.1, end_.2.1, start.2.2) start))
      (VectorLength (VectorSubtract (end_.1, end_.2.1, start.2.2) start))
      { CurrentPos := start, tempHorGoal := (end_.1, end_.2.1, start.2.2),
        CurrentDist := 0, LoopBreak := 0 } hdown 21 (k + 1)
      (fun a ha => by
        refine ⟨?_, ?_, hhor a (by omega)⟩
        · rw [(hc a).2]
          have : (a : ℚ) ≤ 21 := by exact_mod_cast (by omega : a ≤ 21)
          have : (a : ℚ) * maxs.1 ≤ 21 * maxs.1 := by nlinarith
          show (0 : ℚ) + a * maxs.1 < _
          linarith
        · rw [(hc a).1]
          show (0 : Int) + a ≤ 20
          omega)
    have hk2 : TraceMove_loop (f + 1) SV_Move VectorLength mins maxs end_ ent
        (VectorNormalize (VectorSubtract (end_.1, end_.2.1, start.2.2) start))
        (VectorLength (VectorSubtract (end_.1, end_.2.1, start.2.2) start)) (f + 1)
        { CurrentPos := start, tempHorGoal := (end_.1, end_.2.1, start.2.2),
          CurrentDist := 0, LoopBreak := 0 } =
      TraceMove_loop (f + 1) SV_Move VectorLength mins maxs end_ ent
        (VectorNormalize (VectorSubtract (end_.1, end_.2.1, start.2.2) start))
        (VectorLength (VectorSubtract (end_.1, end_.2.1, start.2.2) start)) (k + 1 + 21)
        { CurrentPos := start, tempHorGoal := (end_.1, end_.2.1, start.2.2),
          CurrentDist := 0, LoopBreak := 0 } := by
      rw [← hk]
    rw [hk2, hfalls, TraceMove_loop, if_pos, if_pos]
    · rw [(hc 21).1]
      show (0 : Int) + (21 : Nat) > 20
      omega
    · rw [(hc 21).2]
      show (0 : ℚ) + (21 : Nat) * maxs.1 < _
      push_cast
      linarith
  · intro world forward tempDist v v1 fuel i h
    exact TraceMove_fall_some world mins maxs ent forward tempDist v fuel i v1 h
  · intro world loop v trace1
    exact TraceMove_advance_frame world VectorLength mins maxs end_ ent loop v trace1

/-- The amended C19 in `voidWorld` from `(0, 0, 0)` to `(1000, 0, 0)` with
samples every 16 units: `TraceMove` returns `-1`. -/
theorem TraceMove_fall_guard_witness :
    ¬ ((0 : ℚ) = 1000 ∧ (0 : ℚ) = 0 ∧ (0 : ℚ) = 0) ∧ (0 : ℚ) < 16 ∧
    21 * (16 : ℚ) < axisLength (VectorSubtract (1000, 0, 0) (0, 0, 0)) ∧
    (∀ j : Nat, j ≤ 20 →
      (16 : ℚ) <
        (voidWorld
          (TraceMove_fallen (axisNormalize (VectorSubtract (1000, 0, 0) (0, 0, 0))) 16
            { CurrentPos := (0, 0, 0), tempHorGoal := (1000, 0, 0),
              CurrentDist := 0, LoopBreak := 0 } j).CurrentPos (-16, -16, -32) (16, 16, 40)
          (TraceMove_fallen (axisNormalize (VectorSubtract (1000, 0, 0) (0, 0, 0))) 16
            { CurrentPos := (0, 0, 0), tempHorGoal := (1000, 0, 0),
              CurrentDist := 0, LoopBreak := 0 } j).tempHorGoal 1).fraction
        * axisLength
          (VectorSubtract
            (TraceMove_fallen (axisNormalize (VectorSubtract (1000, 0, 0) (0, 0, 0))) 16
              { CurrentPos := (0, 0, 0), tempHorGoal := (1000, 0, 0),
                CurrentDist := 0, LoopBreak := 0 } j).tempHorGoal
            (TraceMove_fallen (axisNormalize (VectorSubtract (1000, 0, 0) (0, 0, 0))) 16
              { CurrentPos := (0, 0, 0), tempHorGoal := (1000, 0, 0),
                CurrentDist := 0, LoopBreak := 0 } j).CurrentPos)) ∧
    (∀ p : vec3_t,
      (voidWorld p (-16, -16, -32) (16, 16, 40) (VectorAdd p (VectorScale (0, 0, 1) (-500)))
        1).fraction = 1) ∧
    (∃ n : Nat, ∀ fuel : Nat, n ≤ fuel →
      TraceMove fuel voidWorld axisLength axisNormalize (0, 0, 0) (-16, -16, -32) (16, 16, 40)
        (1000, 0, 0) 1 = some (-1)) ∧
    TraceMove 22 voidWorld axisLength axisNormalize (0, 0, 0) (-16, -16, -32) (16, 16, 40)
      (1000, 0, 0) 1 = some (-1) :=
  ⟨by decide!, by decide!, by decide!, by decide!, fun _ => rfl,
    (TraceMove_fall_guard voidWorld axisLength axisNormalize (0, 0, 0) (-16, -16, -32)
      (16, 16, 40) (1000, 0, 0) 1 (by decide!) (by decide!) (by decide!) (by decide!)
      (fun _ => rfl)).1, by decide!⟩

/-! ## `Get_First_Waypoint` and the common loops -/

/-- The scan of `Get_First_Waypoint` over a range of zeros. -/
theorem Get_First_Waypoint_scan_zero {N : Nat} (pl : Arr N) :
    ∀ (k : Nat) (s cw : Int), (∀ j : Int, s - k < j → j ≤ s → aget pl j = 0) →
      Get_First_Waypoint_scan pl k s cw = (s - k, cw) := by
  intro k
  induction k with
  | zero =>
    intro s cw _
    rw [Get_First_Waypoint_scan]
    simp
  | succ k ih =>
    intro s cw h
    rw [Get_First_Waypoint_scan, if_neg (not_not.mpr (h s (by push_cast; omega) (le_refl _)))]
    rw [ih (s - 1) cw (fun j hj1 hj2 => h j (by push_cast; omega) (by omega))]
    congr 1
    push_cast
    omega

/-- The scan of `Get_First_Waypoint` down to the topmost non-zero entry. -/
theorem Get_First_Waypoint_scan_top {N : Nat} (pl : Arr N) (m : Int) (hm : aget pl m ≠ 0) :
    ∀ (k : Nat) (s cw : Int), m ≤ s → s < m + k →
      (∀ j : Int, m < j → j ≤ s → aget pl j = 0) →
      Get_First_Waypoint_scan pl k s cw = (m, m) := by
  intro k
  induction k with
  | zero =>
    intro s cw h1 h2 _
    simp at h2
    omega
  | succ k ih =>
    intro s cw h1 h2 h3
    rw [Get_First_Waypoint_scan]
    by_cases hs : s = m
    · subst hs
      rw [if_pos hm]
    · rw [if_neg (not_not.mpr (h3 s (by omega) (le_refl _)))]
      exact ih (s - 1) cw (by omega) (by push_cast at h2; omega)
        (fun j hj1 hj2 => h3 j hj1 (by omega))

/-- The loop over the records of `Get_First_Waypoint` when no record belongs
to the entity. -/
theorem Get_First_Waypoint_find_none {N : Nat} (entnum : Int) (zl : ZombieList N) :
    ∀ (k : Nat) (i : Int), (∀ j : Int, i ≤ j → j < i + k → (zget zl j).zombienum ≠ entnum) →
      Get_First_Waypoint_find entnum zl k i =
        { zombie_list := zl, i := i + k, s := 0, currentWay := 0, returned := false } := by
  intro k
  induction k with
  | zero =>
    intro i _
    rw [Get_First_Waypoint_find]
    simp
  | succ k ih =>
    intro i h
    rw [Get_First_Waypoint_find, if_neg (fun hc => h i (le_refl _) (by push_cast; omega) hc.symm)]
    rw [ih (i + 1) (fun j hj1 hj2 => h j (by omega) (by push_cast; omega))]
    congr 1
    push_cast
    omega

/-- The loop over the records of `Get_First_Waypoint` stops at the first
record of the entity. -/
theorem Get_First_Waypoint_find_at {N : Nat} (entnum : Int) (zl : ZombieList N) (i : Int)
    (hi : (zget zl i).zombienum = entnum) :
    ∀ (k : Nat) (i0 : Int), i0 ≤ i → i < i0 + k →
      (∀ j : Int, i0 ≤ j → j < i → (zget zl j).zombienum ≠ entnum) →
      Get_First_Waypoint_find entnum zl k i0 =
        { zombie_list := zl
          i := i
          s := (Get_First_Waypoint_scan (zget zl i).pathlist N ((N : Int) - 1) 0).1
          currentWay := (Get_First_Waypoint_scan (zget zl i).pathlist N ((N : Int) - 1) 0).2
          returned := false } := by
  intro k
  induction k with
  | zero =>
    intro i0 h1 h2 _
    simp at h2
    omega
  | succ k ih =>
    intro i0 h1 h2 h3
    rw [Get_First_Waypoint_find]
    by_cases hs : i0 = i
    · subst hs
      rw [if_pos hi.symm]
    · rw [if_neg (fun hc => h3 i0 (le_refl _) (by omega) hc.symm)]
      exact ih (i0 + 1) (by omega) (by push_cast at h2; omega)
        (fun j hj1 hj2 => h3 j (by omega) hj2)

/-- `Get_First_Waypoint` for an entity without a record returns the zero
vector and changes nothing. -/
theorem Get_First_Waypoint_absent {N : Nat} (g : Graph)
    (probe : vec3_t → vec3_t → vec3_t → vec3_t → Int → Int)
    (entnum : Int) (start mins maxs : vec3_t) (zl : ZombieList N)
    (h : ∀ j : Int, 0 ≤ j → j < (MaxZombies : Int) → (zget zl j).zombienum ≠ entnum) :
    Get_First_Waypoint g probe entnum start mins maxs zl = some ((0, 0, 0), zl) := by
  have hf := Get_First_Waypoint_find_none entnum zl MaxZombies 0
    (fun j hj1 hj2 => h j hj1 (by omega))
  simp only [Get_First_Waypoint, hf]
  simp

/-- `Get_First_Waypoint` on a record whose only entry is the sentinel returns
the zero vector and changes nothing. -/
theorem Get_First_Waypoint_sentinel {N : Nat} (g : Graph)
    (probe : vec3_t → vec3_t → vec3_t → vec3_t → Int → Int)
    (entnum : Int) (start mins maxs : vec3_t) (zl : ZombieList N) (i : Int)
    (hrec : FirstRecord zl entnum i) (hm : aget (zget zl i).pathlist 0 ≠ 0)
    (hz : ZeroAbove (zget zl i).pathlist 0) :
    Get_First_Waypoint g probe entnum start mins maxs zl = some ((0, 0, 0), zl) := by
  have hb := aget_ne_zero_bounds _ _ hm
  have hf := Get_First_Waypoint_find_at entnum zl i hrec.2.2.1 MaxZombies 0 hrec.1
    (by have := hrec.2.1; omega) (fun j hj1 hj2 => hrec.2.2.2 j hj1 hj2)
  have hsc := Get_First_Waypoint_scan_top (zget zl i).pathlist 0 hm N ((N : Int) - 1) 0
    (by omega) (by omega) (fun j hj1 _ => hz j hj1)
  simp only [Get_First_Waypoint, hf, hsc]
  simp

/-- `Get_First_Waypoint` on a record whose topmost entry is at an index
`m ≥ 1` runs the loop `while(1)` from index `m` and clears entry `m`. -/
theorem Get_First_Waypoint_top {N : Nat} (g : Graph)
    (probe : vec3_t → vec3_t → vec3_t → vec3_t → Int → Int)
    (entnum : Int) (start mins maxs : vec3_t) (zl : ZombieList N) (i m : Int)
    (hrec : FirstRecord zl entnum i) (hm : aget (zget zl i).pathlist m ≠ 0)
    (hz : ZeroAbove (zget zl i).pathlist m) (hm1 : 1 ≤ m) :
    ∃ v : vec3_t,
      Get_Waypoint_smooth g probe start (mins.1 - 2, mins.2.1 - 2, mins.2.2)
          (maxs.1 + 2, maxs.2.1 + 2, maxs.2.2) entnum (zget zl i).pathlist N
          m 0 (origin_vec g (aget (zget zl i).pathlist m)) = some v ∧
      Get_First_Waypoint g probe entnum start mins maxs zl =
        some (v, zset zl i { zget zl i with pathlist := aset (zget zl i).pathlist m 0 }) := by
  have hb := aget_ne_zero_bounds _ _ hm
  have hf := Get_First_Waypoint_find_at entnum zl i hrec.2.2.1 MaxZombies 0 hrec.1
    (by have := hrec.2.1; omega) (fun j hj1 hj2 => hrec.2.2.2 j hj1 hj2)
  have hsc := Get_First_Waypoint_scan_top (zget zl i).pathlist m hm N ((N : Int) - 1) 0
    (by omega) (by omega) (fun j hj1 _ => hz j hj1)
  obtain ⟨v, hv⟩ := Get_Waypoint_smooth_some g probe start (mins.1 - 2, mins.2.1 - 2, mins.2.2)
    (maxs.1 + 2, maxs.2.1 + 2, maxs.2.2) entnum (zget zl i).pathlist N
    m 0 (origin_vec g (aget (zget zl i).pathlist m)) hm1 (by omega)
  refine ⟨v, hv, ?_⟩
  simp only [Get_First_Waypoint, hf, hsc]
  rw [if_neg (by omega), hv]

/-- The refinement loop returns the last traced point whose probe succeeds,
and `move` when there is none. -/
theorem Get_Waypoint_refine_last (probe : vec3_t → vec3_t → vec3_t → vec3_t → Int → Int)
    (start mins maxs : vec3_t) (ent : Int) (curStart toAdd : vec3_t) :
    ∀ (k : Nat) (curScale Scalar : ℚ) (move : vec3_t),
      Get_Waypoint_refine probe start mins maxs ent curStart toAdd k curScale Scalar move =
        lastReached probe start mins maxs ent
          ((Get_Waypoint_refine_trace probe start mins maxs ent curStart toAdd k curScale
            Scalar).map Prod.snd) move := by
  intro k
  induction k with
  | zero =>
    intro cs sc mv
    rfl
  | succ k ih =>
    intro cs sc mv
    rw [Get_Waypoint_refine, Get_Waypoint_refine_trace]
    by_cases hp : probe start mins maxs (VectorAdd (VectorScale toAdd (cs * sc)) curStart) ent = 1
    · rw [if_pos hp, if_pos hp, ih]
      simp only [lastReached, List.map_cons, List.filter_cons, hp, decide_True, if_true,
        List.getLast?_cons, Option.getD_some]
    · rw [if_neg hp, if_neg hp, ih]
      simp only [lastReached, List.map_cons, List.filter_cons, hp, decide_False]
      rfl

/-- The loop `while(1)` returns `move` when the first probe does not
succeed and nothing was skipped. -/
theorem Get_Waypoint_smooth_blocked {N : Nat} (g : Graph)
    (probe : vec3_t → vec3_t → vec3_t → vec3_t → Int → Int)
    (start mins maxs : vec3_t) (ent : Int) (pathlist : Arr N) (k : Nat)
    (currentWay : Int) (move : vec3_t)
    (hp : probe start mins maxs (origin_vec g (aget pathlist currentWay)) ent ≠ 1) :
    Get_Waypoint_smooth g probe start mins maxs ent pathlist (k + 1) currentWay 0 move
      = some move := by
  rw [Get_Waypoint_smooth, if_neg hp, if_neg (by omega)]

/-- The loop `while(1)` when the probes to the entries `currentWay .. j`
succeed and `j = 1` or the probe to entry `j - 1` does not succeed. -/
theorem Get_Waypoint_smooth_run {N : Nat} (g : Graph)
    (probe : vec3_t → vec3_t → vec3_t → vec3_t → Int → Int)
    (start mins maxs : vec3_t) (ent : Int) (pathlist : Arr N) (j : Int) (hj : 1 ≤ j)
    (hstop : j = 1 ∨ probe start mins maxs (origin_vec g (aget pathlist (j - 1))) ent ≠ 1) :
    ∀ (k : Nat) (currentWay skippedWays : Int) (move : vec3_t),
      j ≤ currentWay → currentWay ≤ k → 0 ≤ skippedWays →
      (∀ x : Int, j ≤ x → x ≤ currentWay →
        probe start mins maxs (origin_vec g (aget pathlist x)) ent = 1) →
      Get_Waypoint_smooth g probe start mins maxs ent pathlist k currentWay skippedWays move =
        some (if j = 1 then origin_vec g (aget pathlist 1)
          else Get_Waypoint_refine probe start mins maxs ent (origin_vec g (aget pathlist j))
            (VectorSubtract (origin_vec g (aget pathlist (j - 1)))
              (origin_vec g (aget pathlist j))) 5 1 (1 / 2)
            (origin_vec g (aget pathlist j))) := by
  intro k
  induction k with
  | zero =>
    intro cw sk mv h1 h2
    simp at h2
    omega
  | succ k ih =>
    intro cw sk mv h1 h2 h3 hp
    rw [Get_Waypoint_smooth, if_pos (hp cw h1 (le_refl _))]
    by_cases hc : cw = 1
    · have hj1 : j = 1 := by omega
      rw [if_pos hc, if_pos hj1, hc]
    · rw [if_neg hc]
      by_cases hcj : cw = j
      · have hj1 : j ≠ 1 := by omega
        rcases hstop with hs | hs
        · exact absurd hs hj1
        · obtain ⟨k2, rfl⟩ : ∃ k2, k = k2 + 1 := ⟨k - 1, by push_cast at h2; omega⟩
          rw [if_neg hj1, Get_Waypoint_smooth, hcj, if_neg hs, if_pos (by omega)]
          have e : j - 1 + 1 = j := by omega
          rw [e]
      · exact ih (cw - 1) (sk + 1) _ (by omega) (by push_cast at h2; omega) (by omega)
          (fun x hx1 hx2 => hp x hx1 (by omega))

/-- The refinement loop reads the probe only through the test `== 1`. -/
theorem Get_Waypoint_refine_congr (p1 p2 : vec3_t → vec3_t → vec3_t → vec3_t → Int → Int)
    (h : ∀ (a b c d : vec3_t) (e : Int), p1 a b c d e = 1 ↔ p2 a b c d e = 1)
    (start mins maxs : vec3_t) (ent : Int) (curStart toAdd : vec3_t) :
    ∀ (k : Nat) (curScale Scalar : ℚ) (move : vec3_t),
      Get_Waypoint_refine p1 start mins maxs ent curStart toAdd k curScale Scalar move =
        Get_Waypoint_refine p2 start mins maxs ent curStart toAdd k curScale Scalar move := by
  intro k
  induction k with
  | zero => intro cs sc mv; rfl
  | succ k ih =>
    intro cs sc mv
    rw [Get_Waypoint_refine, Get_Waypoint_refine]
    by_cases hp : p1 start mins maxs (VectorAdd (VectorScale toAdd (cs * sc)) curStart) ent = 1
    · rw [if_pos hp, if_pos ((h _ _ _ _ _).1 hp), ih]
    · rw [if_neg hp, if_neg (fun hc => hp ((h _ _ _ _ _).2 hc)), ih]

/-- The loop `while(1)` reads the probe only through the test `== 1`. -/
theorem Get_Waypoint_smooth_congr {N : Nat} (g : Graph)
    (p1 p2 : vec3_t → vec3_t → vec3_t → vec3_t → Int → Int)
    (h : ∀ (a b c d : vec3_t) (e : Int), p1 a b c d e = 1 ↔ p2 a b c d e = 1)
    (start mins maxs : vec3_t) (ent : Int) (pathlist : Arr N) :
    ∀ (k : Nat) (currentWay skippedWays : Int) (move : vec3_t),
      Get_Waypoint_smooth g p1 start mins maxs ent pathlist k currentWay skippedWays move =
        Get_Waypoint_smooth g p2 start mins maxs ent pathlist k currentWay skippedWays move := by
  intro k
  induction k with
  | zero => intro cw sk mv; rfl
  | succ k ih =>
    intro cw sk mv
    rw [Get_Waypoint_smooth, Get_Waypoint_smooth]
    by_cases hp : p1 start mins maxs (origin_vec g (aget pathlist cw)) ent = 1
    · rw [if_pos hp, if_pos ((h _ _ _ _ _).1 hp), ih]
    · rw [if_neg hp, if_neg (fun hc => hp ((h _ _ _ _ _).2 hc)),
        Get_Waypoint_refine_congr p1 p2 h]

/-- `Get_First_Waypoint` reads the probe only through the test `== 1`. -/
theorem Get_First_Waypoint_congr {N : Nat} (g : Graph)
    (p1 p2 : vec3_t → vec3_t → vec3_t → vec3_t → Int → Int)
    (h : ∀ (a b c d : vec3_t) (e : Int), p1 a b c d e = 1 ↔ p2 a b c d e = 1)
    (entnum : Int) (start mins maxs : vec3_t) (zl : ZombieList N) :
    Get_First_Waypoint g p1 entnum start mins maxs zl =
      Get_First_Waypoint g p2 entnum start mins maxs zl := by
  simp only [Get_First_Waypoint, Get_Waypoint_smooth_congr g p1 p2 h]

/-- The trace of the refinement loop has one entry for each iteration, and
each traced point is `curStart + curScale * toAdd`. -/
theorem Get_Waypoint_refine_trace_points
    (probe : vec3_t → vec3_t → vec3_t → vec3_t → Int → Int)
    (start mins maxs : vec3_t) (ent : Int) (curStart toAdd : vec3_t) :
    ∀ (k : Nat) (curScale Scalar : ℚ),
      (Get_Waypoint_refine_trace probe start mins maxs ent curStart toAdd k curScale
        Scalar).length = k ∧
      ∀ ct : ℚ × vec3_t,
        ct ∈ Get_Waypoint_refine_trace probe start mins maxs ent curStart toAdd k curScale
          Scalar →
        ct.2 = VectorAdd (VectorScale toAdd ct.1) curStart := by
  intro k
  induction k with
  | zero =>
    intro cs sc
    rw [Get_Waypoint_refine_trace]
    exact ⟨rfl, fun ct h => absurd h (List.not_mem_nil ct)⟩
  | succ k ih =>
    intro cs sc
    rw [Get_Waypoint_refine_trace]
    obtain ⟨h1, h2⟩ := ih (cs * sc)
      (if probe start mins maxs (VectorAdd (VectorScale toAdd (cs * sc)) curStart) ent = 1
        then 1 / 2 + 1 else 1 / 2)
    refine ⟨by rw [List.length_cons, h1], ?_⟩
    intro ct hct
    rcases List.mem_cons.1 hct with h | h
    · rw [h]
    · exact h2 ct h

/-- The scales of the trace of the refinement loop: the first is
`curScale * Scalar`, and each next one is the scale before it times `1.5`
when the probe of the point before it succeeded and times `0.5` when it did
not. -/
theorem Get_Waypoint_refine_trace_scales
    (probe : vec3_t → vec3_t → vec3_t → vec3_t → Int → Int)
    (start mins maxs : vec3_t) (ent : Int) (curStart toAdd : vec3_t) :
    ∀ (k : Nat) (curScale Scalar : ℚ),
      (∀ ct : ℚ × vec3_t,
        (Get_Waypoint_refine_trace probe start mins maxs ent curStart toAdd k curScale
          Scalar)[0]? = some ct → ct.1 = curScale * Scalar) ∧
      ∀ (q : Nat) (ct ct1 : ℚ × vec3_t),
        (Get_Waypoint_refine_trace probe start mins maxs ent curStart toAdd k curScale
          Scalar)[q]? = some ct →
        (Get_Waypoint_refine_trace probe start mins maxs ent curStart toAdd k curScale
          Scalar)[q + 1]? = some ct1 →
        ct1.1 = ct.1 * (if probe start mins maxs ct.2 ent = 1 then 1 / 2 + 1 else 1 / 2) := by
  intro k
  induction k with
  | zero =>
    intro cs sc
    rw [Get_Waypoint_refine_trace]
    exact ⟨fun ct h => by simp at h, fun q ct ct1 h => by simp at h⟩
  | succ k ih =>
    intro cs sc
    rw [Get_Waypoint_refine_trace]
    obtain ⟨h1, h2⟩ := ih (cs * sc)
      (if probe start mins maxs (VectorAdd (VectorScale toAdd (cs * sc)) curStart) ent = 1
        then 1 / 2 + 1 else 1 / 2)
    refine ⟨?_, ?_⟩
    · intro ct h
      simp only [List.getElem?_cons_zero, Option.some.injEq] at h
      rw [← h]
    · intro q ct ct1 hq hq1
      cases q with
      | zero =>
        simp only [List.getElem?_cons_zero, Option.some.injEq] at hq
        simp only [zero_add, List.getElem?_cons_succ] at hq1
        rw [h1 ct1 hq1, ← hq]
      | succ q =>
        simp only [List.getElem?_cons_succ] at hq hq1
        exact h2 q ct ct1 hq hq1

/-- Bounds of the scales of the trace of the refinement loop. -/
theorem Get_Waypoint_refine_trace_bounds
    (probe : vec3_t → vec3_t → vec3_t → vec3_t → Int → Int)
    (start mins maxs : vec3_t) (ent : Int) (curStart toAdd : vec3_t) :
    ∀ (k : Nat) (curScale Scalar : ℚ), 0 < curScale * Scalar →
      ∀ (q : Nat) (ct : ℚ × vec3_t),
        (Get_Waypoint_refine_trace probe start mins maxs ent curStart toAdd k curScale
          Scalar)[q]? = some ct →
        curScale * Scalar * (1 / 2) ^ q ≤ ct.1 ∧ ct.1 ≤ curScale * Scalar * (3 / 2) ^ q ∧
        ((∀ c : ℚ × vec3_t,
            c ∈ Get_Waypoint_refine_trace probe start mins maxs ent curStart toAdd k curScale
              Scalar → probe start mins maxs c.2 ent ≠ 1) →
          ct.1 = curScale * Scalar * (1 / 2) ^ q) := by
  intro k
  induction k with
  | zero =>
    intro cs sc _ q ct h
    rw [Get_Waypoint_refine_trace] at h
    simp at h
  | succ k ih =>
    intro cs sc hpos q ct h
    rw [Get_Waypoint_refine_trace] at h ⊢
    cases q with
    | zero =>
      simp only [List.getElem?_cons_zero, Option.some.injEq] at h
      rw [← h]
      simp
    | succ q =>
      simp only [List.getElem?_cons_succ] at h
      by_cases hp : probe start mins maxs (VectorAdd (VectorScale toAdd (cs * sc)) curStart)
          ent = 1
      · rw [if_pos hp] at h ⊢
        obtain ⟨b1, b2, _⟩ := ih (cs * sc) (1 / 2 + 1) (by positivity) q ct h
        have hq1 : (0 : ℚ) < (1 / 2) ^ q := by positivity
        have hq2 : (0 : ℚ) < (3 / 2) ^ q := by positivity
        refine ⟨?_, ?_, ?_⟩
        · rw [pow_succ]
          nlinarith
        · rw [pow_succ]
          nlinarith
        · intro hall
          exact absurd hp (hall _ (List.mem_cons_self _ _))
      · rw [if_neg hp] at h ⊢
        obtain ⟨b1, b2, b3⟩ := ih (cs * sc) (1 / 2) (by positivity) q ct h
        have hq1 : (0 : ℚ) < (1 / 2) ^ q := by positivity
        have hq2 : (0 : ℚ) < (3 / 2) ^ q := by positivity
        refine ⟨?_, ?_, ?_⟩
        · rw [pow_succ]
          nlinarith
        · rw [pow_succ]
          nlinarith
        · intro hall
          rw [b3 (fun c hc => hall c (List.mem_cons_of_mem _ hc)), pow_succ]
          ring

/-- The point that `lastReached` yields is `move` or a point of the list
whose probe succeeds. -/
theorem lastReached_mem (probe : vec3_t → vec3_t → vec3_t → vec3_t → Int → Int)
    (start mins maxs : vec3_t) (ent : Int) (points : List vec3_t) (move : vec3_t) :
    ((∀ t : vec3_t, t ∈ points → probe start mins maxs t ent ≠ 1) ∧
      lastReached probe start mins maxs ent points move = move) ∨
    (lastReached probe start mins maxs ent points move ∈ points ∧
      probe start mins maxs (lastReached probe start mins maxs ent points move) ent = 1) := by
  unfold lastReached
  cases hl : (points.filter (fun t => decide (probe start mins maxs t ent = 1))).getLast? with
  | none =>
    left
    rw [List.getLast?_eq_none_iff] at hl
    refine ⟨?_, rfl⟩
    intro t ht hp
    have : t ∈ points.filter (fun t => decide (probe start mins maxs t ent = 1)) :=
      List.mem_filter.2 ⟨ht, by simpa using hp⟩
    rw [hl] at this
    exact absurd this (List.not_mem_nil t)
  | some v =>
    right
    have hv : v ∈ points.filter (fun t => decide (probe start mins maxs t ent = 1)) :=
      List.mem_of_getLast?_eq_some hl
    have := List.mem_filter.1 hv
    exact ⟨this.1, by simpa using this.2⟩

/-! ## The steering point of `Get_First_Waypoint` -/

/-- C25: for a record of the entity whose farthest non-zero entry is at
`s ≥ 1`, when the probes to the entries `s, s - 1, ..., j` succeed and `j = 1`
or the probe to entry `j - 1` does not succeed, `Get_First_Waypoint` returns
the origin of entry `j` when `j = 1` or none of the 5 refinement probes
succeeds, and otherwise the last of the 5 points
`origin j + c * (origin (j - 1) - origin j)` whose probe succeeded; and a probe
that differs only in results other than `1`, such as `-1` for `0`, gives the
same call result. -/
theorem Get_First_Waypoint_steering {N : Nat} (g : Graph)
    (probe : vec3_t → vec3_t → vec3_t → vec3_t → Int → Int)
    (entnum : Int) (start mins maxs : vec3_t) (zl : ZombieList N) (i s j : Int)
    (hrec : FirstRecord zl entnum i) (hs : 1 ≤ s)
    (htop : aget (zget zl i).pathlist s ≠ 0) (hz : ZeroAbove (zget zl i).pathlist s)
    (hj : 1 ≤ j) (hjs : j ≤ s)
    (hok : ∀ x : Int, j ≤ x → x ≤ s →
      probe start (mins.1 - 2, mins.2.1 - 2, mins.2.2) (maxs.1 + 2, maxs.2.1 + 2, maxs.2.2)
        (origin_vec g (aget (zget zl i).pathlist x)) entnum = 1)
    (hstop : j = 1 ∨
      probe start (mins.1 - 2, mins.2.1 - 2, mins.2.2) (maxs.1 + 2, maxs.2.1 + 2, maxs.2.2)
        (origin_vec g (aget (zget zl i).pathlist (j - 1))) entnum ≠ 1) :
    (∃ zl1 : ZombieList N,
      Get_First_Waypoint g probe entnum start mins maxs zl =
        some (if j = 1 then origin_vec g (aget (zget zl i).pathlist 1)
          else lastReached probe start (mins.1 - 2, mins.2.1 - 2, mins.2.2)
            (maxs.1 + 2, maxs.2.1 + 2, maxs.2.2) entnum
            ((Get_Waypoint_refine_trace probe start (mins.1 - 2, mins.2.1 - 2, mins.2.2)
              (maxs.1 + 2, maxs.2.1 + 2, maxs.2.2) entnum
              (origin_vec g (aget (zget zl i).pathlist j))
              (VectorSubtract (origin_vec g (aget (zget zl i).pathlist (j - 1)))
                (origin_vec g (aget (zget zl i).pathlist j))) 5 1 (1 / 2)).map Prod.snd)
            (origin_vec g (aget (zget zl i).pathlist j)), zl1)) ∧
    ((Get_Waypoint_refine_trace probe start (mins.1 - 2, mins.2.1 - 2, mins.2.2)
        (maxs.1 + 2, maxs.2.1 + 2, maxs.2.2) entnum
        (origin_vec g (aget (zget zl i).pathlist j))
        (VectorSubtract (origin_vec g (aget (zget zl i).pathlist (j - 1)))
          (origin_vec g (aget (zget zl i).pathlist j))) 5 1 (1 / 2)).length = 5 ∧
      ∀ ct : ℚ × vec3_t,
        ct ∈ Get_Waypoint_refine_trace probe start (mins.1 - 2, mins.2.1 - 2, mins.2.2)
          (maxs.1 + 2, maxs.2.1 + 2, maxs.2.2) entnum
          (origin_vec g (aget (zget zl i).pathlist j))
          (VectorSubtract (origin_vec g (aget (zget zl i).pathlist (j - 1)))
            (origin_vec g (aget (zget zl i).pathlist j))) 5 1 (1 / 2) →
        ct.2 = VectorAdd
          (VectorScale (VectorSubtract (origin_vec g (aget (zget zl i).pathlist (j - 1)))
            (origin_vec g (aget (zget zl i).pathlist j))) ct.1)
          (origin_vec g (aget (zget zl i).pathlist j))) ∧
    (∀ points : List vec3_t,
      ((∀ t : vec3_t, t ∈ points →
          probe start (mins.1 - 2, mins.2.1 - 2, mins.2.2) (maxs.1 + 2, maxs.2.1 + 2, maxs.2.2)
            t entnum ≠ 1) ∧
        lastReached probe start (mins.1 - 2, mins.2.1 - 2, mins.2.2)
          (maxs.1 + 2, maxs.2.1 + 2, maxs.2.2) entnum points
          (origin_vec g (aget (zget zl i).pathlist j)) =
            origin_vec g (aget (zget zl i).pathlist j)) ∨
      (lastReached probe start (mins.1 - 2, mins.2.1 - 2, mins.2.2)
          (maxs.1 + 2, maxs.2.1 + 2, maxs.2.2) entnum points
          (origin_vec g (aget (zget zl i).pathlist j)) ∈ points ∧
        probe start (mins.1 - 2, mins.2.1 - 2, mins.2.2) (maxs.1 + 2, maxs.2.1 + 2, maxs.2.2)
          (lastReached probe start (mins.1 - 2, mins.2.1 - 2, mins.2.2)
            (maxs.1 + 2, maxs.2.1 + 2, maxs.2.2) entnum points
            (origin_vec g (aget (zget zl i).pathlist j))) entnum = 1)) ∧
    ∀ probe2 : vec3_t → vec3_t → vec3_t → vec3_t → Int → Int,
      (∀ (a b c d : vec3_t) (e : Int), probe2 a b c d e = 1 ↔ probe a b c d e = 1) →
      Get_First_Waypoint g probe2 entnum start mins maxs zl =
        Get_First_Waypoint g probe entnum start mins maxs zl := by
  have hb := aget_ne_zero_bounds _ _ htop
  refine ⟨?_, Get_Waypoint_refine_trace_points _ _ _ _ _ _ _ 5 1 (1 / 2), ?_, ?_⟩
  · obtain ⟨v, hv, hcall⟩ :=
      Get_First_Waypoint_top g probe entnum start mins maxs zl i s hrec htop hz hs
    rw [Get_Waypoint_smooth_run g probe start (mins.1 - 2, mins.2.1 - 2, mins.2.2)
      (maxs.1 + 2, maxs.2.1 + 2, maxs.2.2) entnum (zget zl i).pathlist j hj hstop N s 0
      (origin_vec g (aget (zget zl i).pathlist s)) hjs (by omega) (le_refl _) hok,
      Get_Waypoint_refine_last] at hv
    exact ⟨_, by rw [hcall, ← Option.some.inj hv]⟩
  · intro points
    exact lastReached_mem _ _ _ _ _ points _
  · intro probe2 h
    exact Get_First_Waypoint_congr g probe2 probe h entnum start mins maxs zl

/-- C25 at `routeList`, the route `[-1, 3, 2, 1]` in `navGraph`, with the
probe `probeNear`: the probes to the waypoints at 10 and 20 succeed, the probe
to the waypoint at 30 does not, and the refinement probes succeed at 25, 27.5
and 25.625, so that the steering point is `(205 / 8, 0, 0)`; the probe
`probeNearZero` gives the same call result. -/
theorem Get_First_Waypoint_steering_witness :
    FirstRecord routeList 1 0 ∧ (1 : Int) ≤ 3 ∧ aget (zget routeList 0).pathlist 3 ≠ 0 ∧
    ZeroAbove (zget routeList 0).pathlist 3 ∧ (1 : Int) ≤ 2 ∧ (2 : Int) ≤ 3 ∧
    (∀ x : Int, 2 ≤ x → x ≤ 3 →
      probeNear (10, 0, 0) ((-16 : ℚ) - 2, (-16 : ℚ) - 2, (-32 : ℚ))
        ((16 : ℚ) + 2, (16 : ℚ) + 2, (40 : ℚ))
        (origin_vec navGraph (aget (zget routeList 0).pathlist x)) 1 = 1) ∧
    probeNear (10, 0, 0) ((-16 : ℚ) - 2, (-16 : ℚ) - 2, (-32 : ℚ))
      ((16 : ℚ) + 2, (16 : ℚ) + 2, (40 : ℚ))
      (origin_vec navGraph (aget (zget routeList 0).pathlist (2 - 1))) 1 ≠ 1 ∧
    (Get_First_Waypoint navGraph probeNear 1 (10, 0, 0) (-16, -16, -32) (16, 16, 40)
      routeList).map Prod.fst = some (205 / 8, 0, 0) ∧
    (∃ zl1 : ZombieList 4,
      Get_First_Waypoint navGraph probeNear 1 (10, 0, 0) (-16, -16, -32) (16, 16, 40)
          routeList =
        some (if (2 : Int) = 1 then origin_vec navGraph (aget (zget routeList 0).pathlist 1)
          else lastReached probeNear (10, 0, 0) ((-16 : ℚ) - 2, (-16 : ℚ) - 2, (-32 : ℚ))
            ((16 : ℚ) + 2, (16 : ℚ) + 2, (40 : ℚ)) 1
            ((Get_Waypoint_refine_trace probeNear (10, 0, 0)
              ((-16 : ℚ) - 2, (-16 : ℚ) - 2, (-32 : ℚ))
              ((16 : ℚ) + 2, (16 : ℚ) + 2, (40 : ℚ)) 1
              (origin_vec navGraph (aget (zget routeList 0).pathlist 2))
              (VectorSubtract (origin_vec navGraph (aget (zget routeList 0).pathlist (2 - 1)))
                (origin_vec navGraph (aget (zget routeList 0).pathlist 2)))
              5 1 (1 / 2)).map Prod.snd)
            (origin_vec navGraph (aget (zget routeList 0).pathlist 2)), zl1)) ∧
    Get_First_Waypoint navGraph probeNearZero 1 (10, 0, 0) (-16, -16, -32) (16, 16, 40)
        routeList =
      Get_First_Waypoint navGraph probeNear 1 (10, 0, 0) (-16, -16, -32) (16, 16, 40)
        routeList :=
  ⟨routeList_record, by decide, by decide!,
    fun j hj => aget_oob _ j (by push_cast; omega),
    by decide, by decide,
    fun x h1 h2 => by
      obtain rfl | rfl : x = 2 ∨ x = 3 := by omega
      · decide!
      · decide!,
    by decide!, by decide!,
    (Get_First_Waypoint_steering navGraph probeNear 1 (10, 0, 0) (-16, -16, -32) (16, 16, 40)
      routeList 0 3 2 routeList_record (by decide) (by decide!)
      (fun j hj => aget_oob _ j (by push_cast; omega)) (by decide) (by decide)
      (fun x h1 h2 => by
        obtain rfl | rfl : x = 2 ∨ x = 3 := by omega
        · decide!
        · decide!)
      (Or.inr (by decide!))).1,
    (Get_First_Waypoint_steering navGraph probeNear 1 (10, 0, 0) (-16, -16, -32) (16, 16, 40)
      routeList 0 3 2 routeList_record (by decide) (by decide!)
      (fun j hj => aget_oob _ j (by push_cast; omega)) (by decide) (by decide)
      (fun x h1 h2 => by
        obtain rfl | rfl : x = 2 ∨ x = 3 := by omega
        · decide!
        · decide!)
      (Or.inr (by decide!))).2.2.2 probeNearZero
      (fun a b c d e => by
        unfold probeNearZero probeNear
        split_ifs <;> simp)⟩

/-! ## The two smoother variants -/

/-- C27: for a record of the entity whose entries `1 .. s` are non-zero and
whose entries above `s` are zero, with `s ≥ 2`, and for every probe,
`Get_Next_Waypoint` returns the same steering point and leaves the same
`zombie_list` as `Get_First_Waypoint` called on the list in which entry `s` is
cleared. -/
theorem Get_Next_Waypoint_as_first {N : Nat} (g : Graph)
    (probe : vec3_t → vec3_t → vec3_t → vec3_t → Int → Int)
    (entnum : Int) (start mins maxs : vec3_t) (zl : ZombieList N) (i s : Int)
    (hrec : FirstRecord zl entnum i) (hs : 2 ≤ s)
    (hnz : ∀ x : Int, 1 ≤ x → x ≤ s → aget (zget zl i).pathlist x ≠ 0)
    (hz : ZeroAbove (zget zl i).pathlist s) :
    Get_Next_Waypoint g probe entnum start mins maxs zl =
      Get_First_Waypoint g probe entnum start mins maxs
        (zset zl i { zget zl i with pathlist := aset (zget zl i).pathlist s 0 }) := by
  have htop := hnz s (by omega) (le_refl _)
  have hb := aget_ne_zero_bounds _ _ htop
  obtain ⟨v, hv, hcall⟩ :=
    Get_Next_Waypoint_top g probe entnum start mins maxs zl i s hrec htop hz hs
  obtain ⟨hrec1, hpl1⟩ := FirstRecord_zset zl entnum i hrec (aset (zget zl i).pathlist s 0)
  have hm1 : aget (aset (zget zl i).pathlist s 0) (s - 1) ≠ 0 := by
    rw [aget_aset_ne _ _ _ _ (by omega)]
    exact hnz (s - 1) (by omega) (by omega)
  have hz1 : ZeroAbove (aset (zget zl i).pathlist s 0) (s - 1) := by
    intro j hj
    by_cases hjs : j = s
    · rw [hjs]
      exact aget_aset_eq _ s 0 hb.1 hb.2
    · rw [aget_aset_ne _ _ _ _ hjs]
      exact hz j (by omega)
  obtain ⟨v1, hv1, hcall1⟩ :=
    Get_First_Waypoint_top g probe entnum start mins maxs
      (zset zl i { zget zl i with pathlist := aset (zget zl i).pathlist s 0 }) i (s - 1) hrec1
      (by rw [hpl1]; exact hm1) (by rw [hpl1]; exact hz1) (by omega)
  rw [hpl1, hv] at hv1
  rw [hcall, hcall1, ← Option.some.inj hv1, hpl1, zset_zset,
    zget_zset_eq zl i _ hrec.1 hrec.2.1]

/-- C27 at `routeList`, the route `[-1, 3, 2, 1]` in `navGraph`, with the
probe `probeNear`. -/
theorem Get_Next_Waypoint_as_first_witness :
    FirstRecord routeList 1 0 ∧ (2 : Int) ≤ 3 ∧
    (∀ x : Int, 1 ≤ x → x ≤ 3 → aget (zget routeList 0).pathlist x ≠ 0) ∧
    ZeroAbove (zget routeList 0).pathlist 3 ∧
    Get_Next_Waypoint navGraph probeNear 1 (10, 0, 0) (-16, -16, -32) (16, 16, 40) routeList =
      Get_First_Waypoint navGraph probeNear 1 (10, 0, 0) (-16, -16, -32) (16, 16, 40)
        (zset routeList 0
          { zget routeList 0 with pathlist := aset (zget routeList 0).pathlist 3 0 }) :=
  ⟨routeList_record, by decide,
    fun x h1 h2 => by
      obtain rfl | rfl | rfl : x = 1 ∨ x = 2 ∨ x = 3 := by omega
      · decide!
      · decide!
      · decide!,
    fun j hj => aget_oob _ j (by push_cast; omega),
    Get_Next_Waypoint_as_first navGraph probeNear 1 (10, 0, 0) (-16, -16, -32) (16, 16, 40)
      routeList 0 3 routeList_record (by decide)
      (fun x h1 h2 => by
        obtain rfl | rfl | rfl : x = 1 ∨ x = 2 ∨ x = 3 := by omega
        · decide!
        · decide!
        · decide!)
      (fun j hj => aget_oob _ j (by push_cast; omega))⟩

/-! ## The first candidate of the smoother -/

/-- C29: when the probe to the first candidate does not succeed, no refinement
is made and the call returns the origin of that candidate and clears its
entry. For `Get_First_Waypoint` the first candidate is the farthest entry, at
`s ≥ 1`; for `Get_Next_Waypoint` it is the entry below the farthest one, which
the call has dropped, so the farthest entry is at `s ≥ 2` and the entries `s`
and `s - 1` are cleared. -/
theorem first_candidate_returned {N : Nat} (g : Graph)
    (probe : vec3_t → vec3_t → vec3_t → vec3_t → Int → Int)
    (entnum : Int) (start mins maxs : vec3_t) (zl : ZombieList N) (i s : Int)
    (hrec : FirstRecord zl entnum i)
    (htop : aget (zget zl i).pathlist s ≠ 0) (hz : ZeroAbove (zget zl i).pathlist s) :
    (1 ≤ s →
      probe start (mins.1 - 2, mins.2.1 - 2, mins.2.2) (maxs.1 + 2, maxs.2.1 + 2, maxs.2.2)
        (origin_vec g (aget (zget zl i).pathlist s)) entnum ≠ 1 →
      Get_First_Waypoint g probe entnum start mins maxs zl =
        some (origin_vec g (aget (zget zl i).pathlist s),
          zset zl i { zget zl i with pathlist := aset (zget zl i).pathlist s 0 })) ∧
    (2 ≤ s →
      probe start (mins.1 - 2, mins.2.1 - 2, mins.2.2) (maxs.1 + 2, maxs.2.1 + 2, maxs.2.2)
        (origin_vec g (aget (zget zl i).pathlist (s - 1))) entnum ≠ 1 →
      Get_Next_Waypoint g probe entnum start mins maxs zl =
        some (origin_vec g (aget (zget zl i).pathlist (s - 1)),
          zset zl i
            { zget zl i with
              pathlist := aset (aset (zget zl i).pathlist s 0) (s - 1) 0 })) := by
  have hb := aget_ne_zero_bounds _ _ htop
  obtain ⟨k, hk⟩ : ∃ k : Nat, N = k + 1 := ⟨N - 1, by omega⟩
  refine ⟨?_, ?_⟩
  · intro hs hp
    obtain ⟨v, hv, hcall⟩ :=
      Get_First_Waypoint_top g probe entnum start mins maxs zl i s hrec htop hz hs
    subst hk
    rw [Get_Waypoint_smooth_blocked g probe start _ _ entnum _ k s _ hp] at hv
    rw [hcall, ← Option.some.inj hv]
  · intro hs hp
    obtain ⟨v, hv, hcall⟩ :=
      Get_Next_Waypoint_top g probe entnum start mins maxs zl i s hrec htop hz hs
    subst hk
    rw [Get_Waypoint_smooth_blocked g probe start _ _ entnum _ k (s - 1) _
      (by rw [aget_aset_ne _ _ _ _ (by omega)]; exact hp),
      aget_aset_ne _ _ _ _ (by omega)] at hv
    rw [hcall, ← Option.some.inj hv]

/-- C29 at `routeList`, the route `[-1, 3, 2, 1]` in `navGraph`, with the
probe `probeBlocked`: `Get_First_Waypoint` returns the origin of waypoint 1,
the farthest entry, and `Get_Next_Waypoint` the origin of waypoint 2, the
entry below it. -/
theorem first_candidate_returned_witness :
    FirstRecord routeList 1 0 ∧ aget (zget routeList 0).pathlist 3 ≠ 0 ∧
    ZeroAbove (zget routeList 0).pathlist 3 ∧ (1 : Int) ≤ 3 ∧ (2 : Int) ≤ 3 ∧
    probeBlocked (7, 0, 0) ((-16 : ℚ) - 2, (-16 : ℚ) - 2, (-32 : ℚ))
      ((16 : ℚ) + 2, (16 : ℚ) + 2, (40 : ℚ))
      (origin_vec navGraph (aget (zget routeList 0).pathlist 3)) 1 ≠ 1 ∧
    probeBlocked (7, 0, 0) ((-16 : ℚ) - 2, (-16 : ℚ) - 2, (-32 : ℚ))
      ((16 : ℚ) + 2, (16 : ℚ) + 2, (40 : ℚ))
      (origin_vec navGraph (aget (zget routeList 0).pathlist (3 - 1))) 1 ≠ 1 ∧
    Get_First_Waypoint navGraph probeBlocked 1 (7, 0, 0) (-16, -16, -32) (16, 16, 40)
        routeList =
      some (origin_vec navGraph (aget (zget routeList 0).pathlist 3),
        zset routeList 0
          { zget routeList 0 with pathlist := aset (zget routeList 0).pathlist 3 0 }) ∧
    Get_Next_Waypoint navGraph probeBlocked 1 (7, 0, 0) (-16, -16, -32) (16, 16, 40)
        routeList =
      some (origin_vec navGraph (aget (zget routeList 0).pathlist (3 - 1)),
        zset routeList 0
          { zget routeList 0 with
            pathlist := aset (aset (zget routeList 0).pathlist 3 0) (3 - 1) 0 }) ∧
    origin_vec navGraph (aget (zget routeList 0).pathlist 3) = (10, 0, 0) ∧
    origin_vec navGraph (aget (zget routeList 0).pathlist (3 - 1)) = (20, 0, 0) :=
  ⟨routeList_record, by decide!, fun j hj => aget_oob _ j (by push_cast; omega),
    by decide, by decide, by decide!, by decide!,
    (first_candidate_returned navGraph probeBlocked 1 (7, 0, 0) (-16, -16, -32) (16, 16, 40)
      routeList 0 3 routeList_record (by decide!)
      (fun j hj => aget_oob _ j (by push_cast; omega))).1 (by decide) (by decide!),
    (first_candidate_returned navGraph probeBlocked 1 (7, 0, 0) (-16, -16, -32) (16, 16, 40)
      routeList 0 3 routeList_record (by decide!)
      (fun j hj => aget_oob _ j (by push_cast; omega))).2 (by decide) (by decide!),
    by decide!, by decide!⟩

/-! ## The scales of the refinement -/

/-- The refinement of C26 as the spec states it fails: in `navGraph` with the
route `[-1, 3, 2, 1]` and a probe that is blocked only at the waypoint at
`(30, 0, 0)`, the refinement between the waypoints at `(20, 0, 0)` and
`(30, 0, 0)` uses the scales `1/2, 3/4, 9/8, 27/16, 81/32`, and
`Get_First_Waypoint` returns `(725 / 16, 0, 0)`, which is not on the segment
between the two waypoints. -/
theorem refinement_leaves_segment :
    (Get_Waypoint_refine_trace probeExcept (10, 0, 0) (-18, -18, -32) (18, 18, 40) 1
      (20, 0, 0) (VectorSubtract (30, 0, 0) (20, 0, 0)) 5 1 (1 / 2)).map Prod.fst =
        [1 / 2, 3 / 4, 9 / 8, 27 / 16, 81 / 32] ∧
    (Get_First_Waypoint navGraph probeExcept 1 (10, 0, 0) (-16, -16, -32) (16, 16, 40)
      routeList).map Prod.fst = some (725 / 16, 0, 0) ∧
    origin_vec navGraph (aget (zget routeList 0).pathlist 2) = (20, 0, 0) ∧
    origin_vec navGraph (aget (zget routeList 0).pathlist 1) = (30, 0, 0) ∧
    ¬ OnSegment (20, 0, 0) (30, 0, 0) (725 / 16, 0, 0) := by
  refine ⟨by decide!, by decide!, by decide!, by decide!, ?_⟩
  rintro ⟨c, _, h1, h⟩
  have h2 := congrArg Prod.fst h
  simp only [VectorAdd, VectorScale, VectorSubtract] at h2
  linarith

/-- C26, amended: each of the 5 refinement points between the last reachable
waypoint `a` and the first unreachable waypoint `b` is `a + c * (b - a)`; the
scale `c` is `1/2` at the first point, and at each next point it is the scale
before it times `0.5` when the probe of the point before it did not succeed
and times `1.5` when it succeeded, so `(1/2)^(q+1) ≤ c ≤ (1/2) * (3/2)^q` at
the point `q` (counted from 0), and `0 < c ≤ 81/32` throughout. When no
refinement probe succeeds the scales are `1/2, 1/4, 1/8, 1/16, 1/32` and every
probed point lies on the segment between the two waypoints. The point that the
loop hands back is the point `move` it started with or a probed point whose
probe succeeded. -/
theorem Get_Waypoint_refine_scales
    (probe : vec3_t → vec3_t → vec3_t → vec3_t → Int → Int)
    (start mins maxs : vec3_t) (ent : Int) (a b move : vec3_t) :
    (Get_Waypoint_refine_trace probe start mins maxs ent a (VectorSubtract b a) 5 1
      (1 / 2)).length = 5 ∧
    (∀ (q : Nat) (ct : ℚ × vec3_t),
      (Get_Waypoint_refine_trace probe start mins maxs ent a (VectorSubtract b a) 5 1
        (1 / 2))[q]? = some ct →
      ct.2 = VectorAdd (VectorScale (VectorSubtract b a) ct.1) a ∧
      (1 / 2) ^ (q + 1) ≤ ct.1 ∧ ct.1 ≤ 1 / 2 * (3 / 2) ^ q ∧ 0 < ct.1 ∧ ct.1 ≤ 81 / 32) ∧
    (∀ ct : ℚ × vec3_t,
      (Get_Waypoint_refine_trace probe start mins maxs ent a (VectorSubtract b a) 5 1
        (1 / 2))[0]? = some ct → ct.1 = 1 / 2) ∧
    (∀ (q : Nat) (ct ct1 : ℚ × vec3_t),
      (Get_Waypoint_refine_trace probe start mins maxs ent a (VectorSubtract b a) 5 1
        (1 / 2))[q]? = some ct →
      (Get_Waypoint_refine_trace probe start mins maxs ent a (VectorSubtract b a) 5 1
        (1 / 2))[q + 1]? = some ct1 →
      ct1.1 = ct.1 * (if probe start mins maxs ct.2 ent = 1 then 3 / 2 else 1 / 2)) ∧
    ((∀ c : ℚ × vec3_t,
        c ∈ Get_Waypoint_refine_trace probe start mins maxs ent a (VectorSubtract b a) 5 1
          (1 / 2) → probe start mins maxs c.2 ent ≠ 1) →
      (∀ (q : Nat) (ct : ℚ × vec3_t),
        (Get_Waypoint_refine_trace probe start mins maxs ent a (VectorSubtract b a) 5 1
          (1 / 2))[q]? = some ct →
        ct.1 = (1 / 2) ^ (q + 1) ∧ ct.1 < 1 ∧ OnSegment a b ct.2) ∧
      Get_Waypoint_refine probe start mins maxs ent a (VectorSubtract b a) 5 1 (1 / 2) move
        = move) ∧
    (Get_Waypoint_refine probe start mins maxs ent a (VectorSubtract b a) 5 1 (1 / 2) move
        = move ∨
      ∃ ct : ℚ × vec3_t,
        ct ∈ Get_Waypoint_refine_trace probe start mins maxs ent a (VectorSubtract b a) 5 1
          (1 / 2) ∧
        probe start mins maxs ct.2 ent = 1 ∧
        Get_Waypoint_refine probe start mins maxs ent a (VectorSubtract b a) 5 1 (1 / 2) move
          = ct.2) := by
  have hpts := Get_Waypoint_refine_trace_points probe start mins maxs ent a
    (VectorSubtract b a) 5 1 (1 / 2)
  have hsc := Get_Waypoint_refine_trace_scales probe start mins maxs ent a
    (VectorSubtract b a) 5 1 (1 / 2)
  have hbd := Get_Waypoint_refine_trace_bounds probe start mins maxs ent a
    (VectorSubtract b a) 5 1 (1 / 2) (by norm_num)
  have hlast := Get_Waypoint_refine_last probe start mins maxs ent a (VectorSubtract b a) 5 1
    (1 / 2) move
  have hmem := lastReached_mem probe start mins maxs ent
    ((Get_Waypoint_refine_trace probe start mins maxs ent a (VectorSubtract b a) 5 1
      (1 / 2)).map Prod.snd) move
  refine ⟨hpts.1, ?_, ?_, ?_, ?_, ?_⟩
  · intro q ct h
    have hq : q < 5 := by
      have := (List.getElem?_eq_some_iff.1 h).1
      rw [hpts.1] at this
      exact this
    obtain ⟨b1, b2, _⟩ := hbd q ct h
    have hp1 : (0 : ℚ) < (1 / 2) ^ (q + 1) := by positivity
    have e1 : (1 : ℚ) * (1 / 2) * (1 / 2) ^ q = (1 / 2) ^ (q + 1) := by rw [pow_succ]; ring
    have hle : (3 / 2 : ℚ) ^ q ≤ (3 / 2) ^ 4 :=
      pow_le_pow_right₀ (by norm_num) (by omega)
    rw [e1] at b1
    refine ⟨hpts.2 ct (List.getElem?_mem h), b1, by linarith, by linarith, ?_⟩
    have : (1 : ℚ) * (1 / 2) * (3 / 2) ^ 4 = 81 / 32 := by norm_num
    nlinarith
  · intro ct h
    rw [hsc.1 ct h]
    norm_num
  · intro q ct ct1 h h1
    rw [hsc.2 q ct ct1 h h1]
    norm_num
  · intro hall
    refine ⟨?_, ?_⟩
    · intro q ct h
      obtain ⟨_, _, b3⟩ := hbd q ct h
      have e1 : (1 : ℚ) * (1 / 2) * (1 / 2) ^ q = (1 / 2) ^ (q + 1) := by rw [pow_succ]; ring
      have hc : ct.1 = (1 / 2) ^ (q + 1) := by rw [b3 hall, e1]
      have hp1 : (0 : ℚ) < (1 / 2) ^ (q + 1) := by positivity
      have hp2 : ((1 : ℚ) / 2) ^ (q + 1) < 1 :=
        pow_lt_one₀ (by norm_num) (by norm_num) (by omega)
      refine ⟨hc, by rw [hc]; exact hp2, ct.1, by rw [hc]; exact le_of_lt hp1,
        by rw [hc]; exact le_of_lt hp2, hpts.2 ct (List.getElem?_mem h)⟩
    · rw [hlast]
      rcases hmem with h | h
      · exact h.2
      · obtain ⟨ct, hct, he⟩ := List.mem_map.1 h.1
        exact absurd (he ▸ h.2) (hall ct hct)
  · rw [hlast]
    rcases hmem with h | h
    · exact Or.inl h.2
    · obtain ⟨ct, hct, he⟩ := List.mem_map.1 h.1
      exact Or.inr ⟨ct, hct, by rw [he]; exact h.2, he.symm⟩

/-- The amended C26 at the refinement between the waypoints at `(20, 0, 0)`
and `(30, 0, 0)` with a probe that never succeeds: the scale of the last point
is `1/32` and the point handed back is the starting one. -/
theorem Get_Waypoint_refine_scales_witness :
    (∀ c : ℚ × vec3_t,
      c ∈ Get_Waypoint_refine_trace probeBlocked (10, 0, 0) (-18, -18, -32) (18, 18, 40) 1
        (20, 0, 0) (VectorSubtract (30, 0, 0) (20, 0, 0)) 5 1 (1 / 2) →
      probeBlocked (10, 0, 0) (-18, -18, -32) (18, 18, 40) c.2 1 ≠ 1) ∧
    (Get_Waypoint_refine_trace probeBlocked (10, 0, 0) (-18, -18, -32) (18, 18, 40) 1
      (20, 0, 0) (VectorSubtract (30, 0, 0) (20, 0, 0)) 5 1 (1 / 2))[4]? =
        some (1 / 32, (325 / 16, 0, 0)) ∧
    ((1 / 32 : ℚ) = (1 / 2) ^ (4 + 1) ∧ (1 / 32 : ℚ) < 1 ∧
      OnSegment (20, 0, 0) (30, 0, 0) (325 / 16, 0, 0)) ∧
    Get_Waypoint_refine probeBlocked (10, 0, 0) (-18, -18, -32) (18, 18, 40) 1
      (20, 0, 0) (VectorSubtract (30, 0, 0) (20, 0, 0)) 5 1 (1 / 2) (20, 0, 0) = (20, 0, 0) :=
  ⟨fun _ _ => by show (0 : Int) ≠ 1; decide, by decide!,
    ((Get_Waypoint_refine_scales probeBlocked (10, 0, 0) (-18, -18, -32) (18, 18, 40) 1
      (20, 0, 0) (30, 0, 0) (20, 0, 0)).2.2.2.2.1 (fun _ _ => by show (0 : Int) ≠ 1; decide)).1 4
        (1 / 32, (325 / 16, 0, 0)) (by decide!),
    ((Get_Waypoint_refine_scales probeBlocked (10, 0, 0) (-18, -18, -32) (18, 18, 40) 1
      (20, 0, 0) (30, 0, 0) (20, 0, 0)).2.2.2.2.1 (fun _ _ => by show (0 : Int) ≠ 1; decide)).2⟩

/-! ## The sentinel of a path record -/

/-- One call of `Get_First_Waypoint` on a record with the sentinel in entry 0
keeps the sentinel and clears at most entries at indices `≥ 1`. -/
theorem Get_First_Waypoint_keeps {N : Nat} (g : Graph)
    (probe : vec3_t → vec3_t → vec3_t → vec3_t → Int → Int)
    (entnum : Int) (start mins maxs : vec3_t) (zl : ZombieList N) (i : Int)
    (hrec : FirstRecord zl entnum i) (h0 : aget (zget zl i).pathlist 0 = -1) :
    ∃ (v : vec3_t) (zl1 : ZombieList N),
      Get_First_Waypoint g probe entnum start mins maxs zl = some (v, zl1) ∧
      FirstRecord zl1 entnum i ∧
      (∀ x : Int, aget (zget zl1 i).pathlist x = aget (zget zl i).pathlist x ∨
        (1 ≤ x ∧ aget (zget zl1 i).pathlist x = 0)) ∧
      ∀ j : Int, j ≠ i → zget zl1 j = zget zl j := by
  rcases pathlist_top (zget zl i).pathlist with hz | ⟨m, hm, hz⟩
  · rw [hz 0] at h0
    exact absurd h0 (by decide)
  · have hb := aget_ne_zero_bounds _ _ hm
    by_cases hm0 : m = 0
    · subst hm0
      exact ⟨_, zl, Get_First_Waypoint_sentinel g probe entnum start mins maxs zl i hrec hm hz,
        hrec, fun x => Or.inl rfl, fun j _ => rfl⟩
    · obtain ⟨v, _, hcall⟩ :=
        Get_First_Waypoint_top g probe entnum start mins maxs zl i m hrec hm hz (by omega)
      obtain ⟨hrec1, hpl1⟩ := FirstRecord_zset zl entnum i hrec (aset (zget zl i).pathlist m 0)
      refine ⟨v, _, hcall, hrec1, ?_, fun j hj => zget_zset_ne zl i j _ hj⟩
      intro x
      rw [hpl1]
      by_cases hx : x = m
      · rw [hx]
        exact Or.inr ⟨by omega, aget_aset_eq _ m 0 hb.1 hb.2⟩
      · exact Or.inl (aget_aset_ne _ _ _ _ hx)

/-- One call of `Get_Next_Waypoint` on a record that has a non-zero entry at
an index `≥ 1` clears at most entries at indices `≥ 1`. -/
theorem Get_Next_Waypoint_keeps {N : Nat} (g : Graph)
    (probe : vec3_t → vec3_t → vec3_t → vec3_t → Int → Int)
    (entnum : Int) (start mins maxs : vec3_t) (zl : ZombieList N) (i : Int)
    (hrec : FirstRecord zl entnum i)
    (hx : ∃ x : Int, 1 ≤ x ∧ aget (zget zl i).pathlist x ≠ 0) :
    ∃ (v : vec3_t) (zl1 : ZombieList N),
      Get_Next_Waypoint g probe entnum start mins maxs zl = some (v, zl1) ∧
      FirstRecord zl1 entnum i ∧
      (∀ x : Int, aget (zget zl1 i).pathlist x = aget (zget zl i).pathlist x ∨
        (1 ≤ x ∧ aget (zget zl1 i).pathlist x = 0)) ∧
      ∀ j : Int, j ≠ i → zget zl1 j = zget zl j := by
  obtain ⟨x0, hx1, hx2⟩ := hx
  rcases pathlist_top (zget zl i).pathlist with hz | ⟨m, hm, hz⟩
  · exact absurd (hz x0) hx2
  · have hb := aget_ne_zero_bounds _ _ hm
    have hm1 : 1 ≤ m := by
      by_contra hlt
      exact hx2 (hz x0 (by omega))
    by_cases hm2 : m = 1
    · have hcall := Get_Next_Waypoint_last g probe entnum start mins maxs zl i m hrec hm hz
        (by omega)
      obtain ⟨hrec1, hpl1⟩ := FirstRecord_zset zl entnum i hrec (aset (zget zl i).pathlist m 0)
      refine ⟨_, _, hcall, hrec1, ?_, fun j hj => zget_zset_ne zl i j _ hj⟩
      intro x
      rw [hpl1]
      by_cases hx : x = m
      · rw [hx]
        exact Or.inr ⟨by omega, aget_aset_eq _ m 0 hb.1 hb.2⟩
      · exact Or.inl (aget_aset_ne _ _ _ _ hx)
    · obtain ⟨v, _, hcall⟩ :=
        Get_Next_Waypoint_top g probe entnum start mins maxs zl i m hrec hm hz (by omega)
      obtain ⟨hrec1, hpl1⟩ := FirstRecord_zset zl entnum i hrec
        (aset (aset (zget zl i).pathlist m 0) (m - 1) 0)
      refine ⟨v, _, hcall, hrec1, ?_, fun j hj => zget_zset_ne zl i j _ hj⟩
      intro x
      rw [hpl1]
      by_cases hx : x = m - 1
      · rw [hx]
        exact Or.inr ⟨by omega, aget_aset_eq _ (m - 1) 0 (by omega) (by omega)⟩
      · rw [aget_aset_ne _ _ _ _ hx]
        by_cases hx3 : x = m
        · rw [hx3]
          exact Or.inr ⟨by omega, aget_aset_eq _ m 0 hb.1 hb.2⟩
        · exact Or.inl (aget_aset_ne _ _ _ _ hx3)

/-- C30 as the spec states it fails. In `navGraph`, `Do_Pathfind` from
waypoint 1 to waypoint 3 returns 1 and stores `[-1, 3, 2, 1]` for entity 1;
three calls of `Get_Next_Waypoint` clear the entries 3 and 2, then entry 1,
then entry 0, the sentinel. -/
theorem sentinel_cleared :
    (Do_Pathfind navGraph sweepClear 1 2 (10, 0, 0) (30, 0, 0) navEmpty).map
        (fun r => (r.1, (zget r.2.zombie_list 0).zombienum,
          aget (zget r.2.zombie_list 0).pathlist 0, aget (zget r.2.zombie_list 0).pathlist 1,
          aget (zget r.2.zombie_list 0).pathlist 3))
      = some (1, 1, -1, 3, 1) ∧
    ((Do_Pathfind navGraph sweepClear 1 2 (10, 0, 0) (30, 0, 0) navEmpty).bind
        (fun r => Get_Waypoint_calls navGraph probeClear 1 (-16, -16, -32)
          (16, 16, 40) [(true, (10, 0, 0)), (true, (10, 0, 0))] r.2.zombie_list)).map
        (fun zl => (aget (zget zl 0).pathlist 0, aget (zget zl 0).pathlist 1,
          aget (zget zl 0).pathlist 2, aget (zget zl 0).pathlist 3))
      = some (-1, 0, 0, 0) ∧
    ((Do_Pathfind navGraph sweepClear 1 2 (10, 0, 0) (30, 0, 0) navEmpty).bind
        (fun r => Get_Waypoint_calls navGraph probeClear 1 (-16, -16, -32)
          (16, 16, 40) [(true, (10, 0, 0)), (true, (10, 0, 0)), (true, (10, 0, 0))]
          r.2.zombie_list)).map
        (fun zl => (aget (zget zl 0).pathlist 0, aget (zget zl 0).pathlist 1,
          aget (zget zl 0).pathlist 2, aget (zget zl 0).pathlist 3))
      = some (0, 0, 0, 0) := by
  refine ⟨by decide!, by decide!, by decide!⟩

/-- C30, amended: for a record of the entity with the sentinel `-1` in entry
0, as `Do_Pathfind` writes it, every sequence of calls of
`Get_First_Waypoint` and `Get_Next_Waypoint` in which each call of
`Get_Next_Waypoint` is made while the record has a non-zero entry at an index
`≥ 1` returns, leaves `-1` in entry 0, changes the record only by clearing
entries at indices `≥ 1`, and leaves the other records as they are. -/
theorem sentinel_kept {N : Nat} (g : Graph)
    (probe : vec3_t → vec3_t → vec3_t → vec3_t → Int → Int)
    (entnum : Int) (mins maxs : vec3_t) (i : Int) :
    ∀ (calls : List (Bool × vec3_t)) (zl : ZombieList N),
      FirstRecord zl entnum i → aget (zget zl i).pathlist 0 = -1 →
      NextGuarded g probe entnum mins maxs i calls zl →
      ∃ zl1 : ZombieList N,
        Get_Waypoint_calls g probe entnum mins maxs calls zl = some zl1 ∧
        aget (zget zl1 i).pathlist 0 = -1 ∧
        (∀ x : Int, aget (zget zl1 i).pathlist x = aget (zget zl i).pathlist x ∨
          (1 ≤ x ∧ aget (zget zl1 i).pathlist x = 0)) ∧
        ∀ j : Int, j ≠ i → zget zl1 j = zget zl j := by
  intro calls
  induction calls with
  | nil =>
    intro zl _ h0 _
    exact ⟨zl, rfl, h0, fun x => Or.inl rfl, fun j _ => rfl⟩
  | cons c rest ih =>
    intro zl hrec h0 hg
    obtain ⟨kind, start⟩ := c
    cases kind with
    | true =>
      simp only [NextGuarded] at hg
      obtain ⟨v, zl1, hcall, hrec1, hpl1, hoth1⟩ :=
        Get_Next_Waypoint_keeps g probe entnum start mins maxs zl i hrec hg.1
      have h01 : aget (zget zl1 i).pathlist 0 = -1 := by
        rcases hpl1 0 with h | h
        · rw [h]; exact h0
        · exact absurd h.1 (by decide)
      obtain ⟨zl2, hc2, h02, hpl2, hoth2⟩ := ih zl1 hrec1 h01 (hg.2 (v, zl1) hcall)
      refine ⟨zl2, ?_, h02, ?_, fun j hj => by rw [hoth2 j hj, hoth1 j hj]⟩
      · simp only [Get_Waypoint_calls, hcall]
        exact hc2
      · intro x
        rcases hpl2 x with h | h
        · rw [h]
          exact hpl1 x
        · exact Or.inr h
    | false =>
      simp only [NextGuarded] at hg
      obtain ⟨v, zl1, hcall, hrec1, hpl1, hoth1⟩ :=
        Get_First_Waypoint_keeps g probe entnum start mins maxs zl i hrec h0
      have h01 : aget (zget zl1 i).pathlist 0 = -1 := by
        rcases hpl1 0 with h | h
        · rw [h]; exact h0
        · exact absurd h.1 (by decide)
      obtain ⟨zl2, hc2, h02, hpl2, hoth2⟩ := ih zl1 hrec1 h01 (hg (v, zl1) hcall)
      refine ⟨zl2, ?_, h02, ?_, fun j hj => by rw [hoth2 j hj, hoth1 j hj]⟩
      · simp only [Get_Waypoint_calls, hcall]
        exact hc2
      · intro x
        rcases hpl2 x with h | h
        · rw [h]
          exact hpl1 x
        · exact Or.inr h

/-- The amended C30 at `routeList`, the route `[-1, 3, 2, 1]` in `navGraph`:
a call of `Get_Next_Waypoint` and two calls of `Get_First_Waypoint` leave the
record `[-1, 0, 0, 0]`. -/
theorem sentinel_kept_witness :
    FirstRecord routeList 1 0 ∧ aget (zget routeList 0).pathlist 0 = -1 ∧
    NextGuarded navGraph probeClear 1 (-16, -16, -32) (16, 16, 40) 0
      [(true, (10, 0, 0)), (false, (10, 0, 0)), (false, (10, 0, 0))]
      routeList ∧
    (Get_Waypoint_calls navGraph probeClear 1 (-16, -16, -32) (16, 16, 40)
      [(true, (10, 0, 0)), (false, (10, 0, 0)), (false, (10, 0, 0))]
      routeList).map
        (fun zl => (aget (zget zl 0).pathlist 0, aget (zget zl 0).pathlist 1,
          aget (zget zl 0).pathlist 2, aget (zget zl 0).pathlist 3))
      = some (-1, 0, 0, 0) ∧
    ∃ zl1 : ZombieList 4,
      Get_Waypoint_calls navGraph probeClear 1 (-16, -16, -32) (16, 16, 40)
        [(true, (10, 0, 0)), (false, (10, 0, 0)), (false, (10, 0, 0))]
        routeList = some zl1 ∧
      aget (zget zl1 0).pathlist 0 = -1 ∧
      (∀ x : Int, aget (zget zl1 0).pathlist x = aget (zget routeList 0).pathlist x ∨
        (1 ≤ x ∧ aget (zget zl1 0).pathlist x = 0)) ∧
      ∀ j : Int, j ≠ 0 → zget zl1 j = zget routeList j :=
  ⟨routeList_record, by decide!,
    ⟨⟨2, by decide, by decide!⟩, fun _ _ _ _ _ _ => trivial⟩,
    by decide!,
    sentinel_kept navGraph probeClear 1 (-16, -16, -32) (16, 16, 40) 0
      [(true, (10, 0, 0)), (false, (10, 0, 0)), (false, (10, 0, 0))]
      routeList routeList_record (by decide!)
      ⟨⟨2, by decide, by decide!⟩, fun _ _ _ _ _ _ => trivial⟩⟩

/-! ## Binary insertion into a sorted open list -/

/-- The binary search of `AddWayToList` on a sorted open list: when the
entries up to `min` are not above `wayVal` and the entries from `max` on are
not below it, the search ends in the insertion block at an index `p` with the
entries before `p` not above `wayVal` and the entries from `p` on not below
it. -/
theorem AddWayToList_search_sorted {N : Nat} (waynum wayVal : Int) (st : Search N)
    (hs : SortedOpen st) :
    ∀ (fuel : Nat) (min max : Int), min < max → (max - min).toNat ≤ fuel → -1 ≤ min →
      max ≤ st.opensetLength →
      (∀ i : Int, 0 ≤ i → i ≤ min → aget st.f_score (aget st.openset i) ≤ wayVal) →
      (∀ i : Int, max ≤ i → i < st.opensetLength →
        wayVal ≤ aget st.f_score (aget st.openset i)) →
      ∃ p : Int, 0 ≤ p ∧ p ≤ st.opensetLength ∧
        AddWayToList_search waynum wayVal st fuel min max =
          some (p, AddWayToList_insert waynum p st) ∧
        (∀ i : Int, 0 ≤ i → i < p → aget st.f_score (aget st.openset i) ≤ wayVal) ∧
        (∀ i : Int, p ≤ i → i < st.opensetLength →
          wayVal ≤ aget st.f_score (aget st.openset i)) := by
  intro fuel
  induction fuel with
  | zero => intro min max h1 h2 _ _ _ _; omega
  | succ fuel ih =>
    intro min max h1 h2 h3 h4 hlo hhi
    rw [AddWayToList_search, if_pos h1]
    by_cases hd : max - min = 1
    · rw [if_pos hd]
      exact ⟨max, by omega, h4, rfl, fun i a b => hlo i a (by omega), hhi⟩
    · rw [if_neg hd]
      have ht : Int.tdiv (min + max) 2 = (min + max) / 2 :=
        Int.tdiv_eq_ediv (by omega) (by norm_num)
      simp only [ht]
      have hlt0 : min < (min + max) / 2 := by omega
      have hlt1 : (min + max) / 2 < max := by omega
      have hbelow : ∀ i : Int, 0 ≤ i → i ≤ (min + max) / 2 →
          aget st.f_score (aget st.openset i) ≤
            aget st.f_score (aget st.openset ((min + max) / 2)) :=
        fun i a b => hs i _ a b (by omega)
      have habove : ∀ i : Int, (min + max) / 2 ≤ i → i < st.opensetLength →
          aget st.f_score (aget st.openset ((min + max) / 2)) ≤
            aget st.f_score (aget st.openset i) :=
        fun i a b => hs _ i (by omega) a b
      generalize aget st.f_score (aget st.openset ((min + max) / 2)) = tv at hbelow habove
      rcases lt_trichotomy wayVal tv with hlt | heq | hgt
      · have e1 : ¬ wayVal > tv := by omega
        have e3 : ¬ wayVal = tv := by omega
        simp only [if_neg e1, if_pos hlt, if_neg e3]
        exact ih min ((min + max) / 2) hlt0 (by omega) h3 (by omega) hlo
          (fun i a b => by have := habove i a b; omega)
      · have e1 : ¬ wayVal > tv := by omega
        have e2 : ¬ wayVal < tv := by omega
        simp only [if_neg e1, if_neg e2, if_pos heq]
        exact ih ((min + max) / 2 - 1) ((min + max) / 2) (by omega) (by omega) (by omega)
          (by omega) (fun i a b => by have := hbelow i a (by omega); omega)
          (fun i a b => by have := habove i a b; omega)
      · have e3 : ¬ wayVal = tv := by omega
        simp only [if_pos hgt, if_neg e3]
        exact ih ((min + max) / 2) max hlt1 (by omega) (by omega) h4
          (fun i a b => by have := hbelow i a b; omega) hhi

/-- C21: for every open list of length `len < MAX_WAYPOINTS` in ascending
`f_score` order and every waypoint `n`, `AddWayToList(2, n)` returns an index
`p` with `0 ≤ p ≤ len`, so never `-1`, and leaves an open list of length
`len + 1` in ascending `f_score` order that holds `n` at index `p`, the old
entries before `p` in place and the old entries from `p` on one index
higher, with `opensetRef[n]` set and the scores unchanged. -/
theorem AddWayToList_sorted {N : Nat} (n : Int) (st : Search N)
    (hlen : 0 ≤ st.opensetLength) (hroom : st.opensetLength < (N : Int))
    (hn0 : 0 ≤ n) (hn1 : n < (N : Int)) (hs : SortedOpen st) :
    ∃ (p : Int) (st1 : Search N), AddWayToList 2 n st = some (p, st1) ∧
      0 ≤ p ∧ p ≤ st.opensetLength ∧ p ≠ -1 ∧
      st1.opensetLength = st.opensetLength + 1 ∧ SortedOpen st1 ∧
      aget st1.openset p = n ∧
      (∀ i : Int, 0 ≤ i → i < p → aget st1.openset i = aget st.openset i) ∧
      (∀ i : Int, p < i → i ≤ st.opensetLength →
        aget st1.openset i = aget st.openset (i - 1)) ∧
      aget st1.opensetRef n = 1 ∧ st1.f_score = st.f_score := by
  obtain ⟨p, hp0, hp1, hp2, hlo, hhi⟩ := AddWayToList_search_sorted n (aget st.f_score n) st hs
    ((st.opensetLength + 1).toNat + 1) (-1) st.opensetLength (by omega) (by omega) (le_refl _)
    (le_refl _) (fun i a b => by omega) (fun i a b => by omega)
  have hget := AddWayToList_insert_get st.openset st.opensetLength p n hp0 hp1 hroom
  have hget1 : ∀ j : Int, aget (AddWayToList_insert n p st).openset j =
      if j = p then n else if p < j ∧ j ≤ st.opensetLength then aget st.openset (j - 1)
        else aget st.openset j := hget
  refine ⟨p, AddWayToList_insert n p st, ?_, hp0, hp1, by omega, rfl, ?_, ?_, ?_, ?_, ?_, rfl⟩
  · rw [AddWayToList, if_neg (by norm_num), if_pos rfl]
    exact hp2
  · intro i j hi hij hj
    have hj1 : j < st.opensetLength + 1 := hj
    show aget st.f_score (aget (AddWayToList_insert n p st).openset i) ≤
      aget st.f_score (aget (AddWayToList_insert n p st).openset j)
    rw [hget1 i, hget1 j]
    by_cases hip : i = p
    · rw [if_pos hip]
      by_cases hjp : j = p
      · rw [if_pos hjp]
      · rw [if_neg hjp, if_pos (by omega)]
        exact hhi (j - 1) (by omega) (by omega)
    · rw [if_neg hip]
      by_cases hip2 : p < i
      · rw [if_pos (by omega), if_neg (by omega), if_pos (by omega)]
        exact hs (i - 1) (j - 1) (by omega) (by omega) (by omega)
      · rw [if_neg (by omega)]
        by_cases hjp : j = p
        · rw [if_pos hjp]
          exact hlo i hi (by omega)
        · rw [if_neg hjp]
          by_cases hjp2 : p < j
          · rw [if_pos (by omega)]
            have h1 := hlo i hi (by omega)
            have h2 := hhi (j - 1) (by omega) (by omega)
            omega
          · rw [if_neg (by omega)]
            exact hs i j hi hij (by omega)
  · rw [hget1, if_pos rfl]
  · intro i hi0 hi1
    rw [hget1, if_neg (by omega), if_neg (by omega)]
  · intro i hi0 hi1
    rw [hget1, if_neg (by omega), if_pos ⟨hi0, hi1⟩]
  · exact aget_aset_eq _ n 1 hn0 hn1

/-- C21 on `tieState`, whose open list holds waypoint 2 with `f_score` 5, and
waypoint 3 with `f_score` 0: waypoint 3 is put at index 0 and waypoint 2 moves
to index 1. -/
theorem AddWayToList_sorted_witness :
    (0 : Int) ≤ tieState.opensetLength ∧ tieState.opensetLength < ((4 : Nat) : Int) ∧
    (0 : Int) ≤ 3 ∧ (3 : Int) < ((4 : Nat) : Int) ∧ SortedOpen tieState ∧
    (AddWayToList 2 3 tieState).map
      (fun r => (r.1, r.2.opensetLength, aget r.2.openset 0, aget r.2.openset 1,
        aget r.2.opensetRef 3)) = some (0, 2, 3, 2, 1) ∧
    ∃ (p : Int) (st1 : Search 4), AddWayToList 2 3 tieState = some (p, st1) ∧
      0 ≤ p ∧ p ≤ tieState.opensetLength ∧ p ≠ -1 ∧
      st1.opensetLength = tieState.opensetLength + 1 ∧ SortedOpen st1 ∧
      aget st1.openset p = 3 ∧
      (∀ i : Int, 0 ≤ i → i < p → aget st1.openset i = aget tieState.openset i) ∧
      (∀ i : Int, p < i → i ≤ tieState.opensetLength →
        aget st1.openset i = aget tieState.openset (i - 1)) ∧
      aget st1.opensetRef 3 = 1 ∧ st1.f_score = tieState.f_score :=
  ⟨by decide!, by decide!, by decide, by decide, tieState_sorted, by decide!,
    AddWayToList_sorted 3 tieState (by decide!) (by decide!) (by decide) (by decide)
      tieState_sorted⟩

/-! ## Reconstruction at a missing forward edge -/

/-- When `current` is not the start node, its `came_from` is in the closed
list and the `for` loop finds no forward edge from it to `current`, the
`while (1)` loop of `reconstruct_path` comes back to its head with the same
`current`, so it does not end whatever the number of iterations. -/
theorem reconstruct_path_walk_stuck {N : Nat} (g : Graph) (st : Search N)
    (start_node current : Int) (hne : current ≠ start_node)
    (hcl : CheckIfWayInList 1 (aget st.came_from current) st ≠ 0)
    (hfind : reconstruct_path_find g (aget st.came_from current) current 8 0 = current) :
    ∀ (fuel : Nat) (s : Int) (pl : Arr N),
      reconstruct_path_walk g st start_node fuel s current pl = none := by
  intro fuel
  induction fuel with
  | zero => intro s pl; rfl
  | succ fuel ih =>
    intro s pl
    rw [reconstruct_path_walk]
    simp only [if_neg hne, if_pos hcl, hfind]
    exact ih (s + 1) _

/-! ## The points inside an expansion -/

theorem forkGraph_valid : ValidGraph 5 forkGraph := by
  intro c n _ h
  obtain ⟨k, _, hpre, hkn⟩ := h
  have h0 := hpre k (le_refl _)
  rw [hkn] at h0
  simp only [forkGraph] at hkn
  unfold ValidIndex
  split_ifs at hkn <;> omega

/-- The invariants of the search hold after every prefix of the loop over the
neighbours of the node that is being expanded. -/
theorem Pathfind_edges_part {N : Nat} {g : Graph} {s e cur : Int} (hv : ValidGraph N g) :
    ∀ (k i : Nat) (st : Search N) (r : Int → Nat), i + k ≤ 8 → Inv g s e cur i st →
      RankOK g s r st → ScoreOK g s e st → aget st.closedset cur ≠ 0 →
      (∀ j : Nat, j < i → 0 ≤ g.target_id cur j) →
      ∃ (st1 : Search N) (i1 : Nat) (r1 : Int → Nat),
        Pathfind_edges g e cur k i st = some st1 ∧ Inv g s e cur i1 st1 ∧
        RankOK g s r1 st1 ∧ ScoreOK g s e st1 ∧ st1.closedset = st.closedset := by
  intro k
  induction k with
  | zero =>
    intro i st r _ h hr hsc _ _
    exact ⟨st, i, r, rfl, h, hr, hsc, rfl⟩
  | succ k ih =>
    intro i st r hik h hr hsc hcur hpre
    rw [Pathfind_edges]
    by_cases hneg : g.target_id cur i < 0
    · rw [if_pos hneg]
      exact ⟨st, i, r, rfl, h, hr, hsc, rfl⟩
    · rw [if_neg hneg]
      have hpre2 : ∀ j : Nat, j ≤ i → 0 ≤ g.target_id cur j := by
        intro j hj
        by_cases hji : j = i
        · rw [hji]; omega
        · exact hpre j (by omega)
      obtain ⟨st1, r1, h1, h2, h3, h3b, h4, _⟩ :=
        Pathfind_edge_spec hv h r hr hsc (by omega) hcur hpre2
      rw [h1]
      dsimp only
      obtain ⟨st2, i2, r2, k1, k2, k3, k3b, k4⟩ := ih (i + 1) st1 r1 (by omega) h2 h3 h3b
        (by rw [h4]; exact hcur) (fun j hj => hpre2 j (by omega))
      exact ⟨st2, i2, r2, k1, k2, k3, k3b, by rw [k4, h4]⟩

/-- The invariants of the search hold at every point inside an iteration of
the main loop that follows a state in which they hold. -/
theorem Pathfind_point_spec {N : Nat} {g : Graph} {s e : Int} (hv : ValidGraph N g)
    (st : Search N) (r : Int → Nat) (cur : Int) (h : Inv g s e cur 8 st)
    (hr : RankOK g s r st) (hsc : ScoreOK g s e st) (k j : Nat) (hj : j ≤ 8)
    (stp : Search N) (hp : Pathfind_point g e k j st = some stp) :
    ∃ (c : Int) (i1 : Nat) (r1 : Int → Nat),
      Inv g s e c i1 stp ∧ RankOK g s r1 stp ∧ ScoreOK g s e stp := by
  unfold Pathfind_point at hp
  cases hh : Pathfind_head g e k st with
  | none => rw [hh] at hp; cases hp
  | some st1 =>
    rw [hh] at hp
    dsimp only at hp
    obtain ⟨a1, ⟨r1, a2⟩, a3, _⟩ := Pathfind_head_spec hv k st r cur h hr hsc st1 hh
    rcases CheckIfEmptyList_open st1 a1.open_ok with ⟨c1, c2⟩ | ⟨c1, c2⟩
    · rw [c1, if_pos rfl] at hp
      by_cases hend : GetLowestFromOpenSet st1 = e
      · rw [if_pos hend] at hp
        cases hp
      · rw [if_neg hend] at hp
        obtain ⟨hcv, hcr, hcc⟩ := InvC_head a1 c2
        rw [AddWayToList, if_pos rfl] at hp
        dsimp only at hp
        have hrem := RemoveWayFromList_head
          ({ st1 with closedset := aset st1.closedset (aget st1.openset 0) 1 } : Search N) c2
        dsimp only at hrem
        unfold GetLowestFromOpenSet at hp hend
        rw [hrem] at hp
        have hcl1 : aget (aset st1.closedset (aget st1.openset 0) 1) (aget st1.openset 0) ≠ 0 :=
          (aget_aset_one_ne_zero _ _ _ hcv).2 (Or.inl rfl)
        have hpop : Inv g s e (aget st1.openset 0) 0
            ({ st1 with
              closedset := aset st1.closedset (aget st1.openset 0) 1
              openset := RemoveWayFromList_shift (aset st1.openset 0 0)
                st1.opensetLength.toNat 0
              opensetRef := aset st1.opensetRef (aget st1.openset 0) 0
              opensetLength := st1.opensetLength - 1 } : Search N) := InvC_pop a1 c2 hend
        have hrpop : RankOK g s r1
            ({ st1 with
              closedset := aset st1.closedset (aget st1.openset 0) 1
              openset := RemoveWayFromList_shift (aset st1.openset 0 0)
                st1.opensetLength.toNat 0
              opensetRef := aset st1.opensetRef (aget st1.openset 0) 0
              opensetLength := st1.opensetLength - 1 } : Search N) :=
          RankC_pop a2 _ hcv hcr hcc
        have hspop : ScoreOK g s e
            ({ st1 with
              closedset := aset st1.closedset (aget st1.openset 0) 1
              openset := RemoveWayFromList_shift (aset st1.openset 0 0)
                st1.opensetLength.toNat 0
              opensetRef := aset st1.opensetRef (aget st1.openset 0) 0
              opensetLength := st1.opensetLength - 1 } : Search N) := ScoreC_pop a3 _ hcv hcr
        obtain ⟨st2, i2, r2, k1, k2, k3, k3b, _⟩ := Pathfind_edges_part hv j 0 _ r1 (by omega)
          hpop hrpop hspop hcl1 (fun j hj => by omega)
        rw [k1] at hp
        cases hp
        exact ⟨_, i2, r2, k2, k3, k3b⟩
    · rw [c1, if_neg (by norm_num)] at hp
      cases hp

/-! ## The score invariant -/

/-- C22: in a search from a valid start in a graph with valid edge targets,
seeding returns, and in the seeded workspace, at the head of every iteration
of the main loop and after every pass of the loop over the neighbours of the
expanded node, every waypoint in the open list or in the closed list has
`f_score = g_score + heuristic_cost_estimate(node, end)`; the passes include
those that improve a node of the open list in place. -/
theorem score_invariant {N : Nat} {g : Graph} {s e : Int} (hv : ValidGraph N g)
    (hs : ValidIndex N s) (st : Search N) :
    ∃ st0 : Search N, Pathfind_seed g s e st = some st0 ∧
      (∀ (k : Nat) (stk : Search N), Pathfind_head g e k st0 = some stk →
        ∀ n : Int, aget stk.closedset n ≠ 0 ∨ aget stk.opensetRef n ≠ 0 →
          aget stk.f_score n = aget stk.g_score n + heuristic_cost_estimate g n e) ∧
      ∀ (k j : Nat) (stp : Search N), j ≤ 8 → Pathfind_point g e k j st0 = some stp →
        ∀ n : Int, aget stp.closedset n ≠ 0 ∨ aget stp.opensetRef n ≠ 0 →
          aget stp.f_score n = aget stp.g_score n + heuristic_cost_estimate g n e := by
  obtain ⟨st0, h0, h1, h2, h3, _⟩ := Pathfind_seed_spec g s e 0 hs st
  refine ⟨st0, h0, ?_, ?_⟩
  · intro k stk hk n hn
    obtain ⟨_, _, a3, _⟩ := Pathfind_head_spec hv k st0 _ 0 h1 h2 h3 stk hk
    exact a3.f_eq n hn
  · intro k j stp hj hp n hn
    obtain ⟨_, _, _, _, _, a3⟩ := Pathfind_point_spec hv st0 _ 0 h1 h2 h3 k j hj stp hp
    exact a3.f_eq n hn

/-- C22 on the fork `1 -> 2` (1), `1 -> 3` (50), `1 -> 4` (100), `2 -> 4` (1)
searched from 1 to 4: the first pass of the expansion of waypoint 2 improves
waypoint 4, which is in the open list, from `g_score` 100 to 2, and its
`f_score` is 2 as well, the heuristic being 0. -/
theorem score_invariant_witness :
    ValidGraph 5 forkGraph ∧ ValidIndex 5 1 ∧
    ((Pathfind_seed forkGraph 1 4 (Search.zero 5 0)).bind
        (Pathfind_head forkGraph 4 1)).map
      (fun st => (aget st.opensetRef 4, aget st.g_score 4, aget st.f_score 4)) =
        some (1, 100, 100) ∧
    ((Pathfind_seed forkGraph 1 4 (Search.zero 5 0)).bind
        (Pathfind_point forkGraph 4 1 1)).map
      (fun st => (aget st.opensetRef 4, aget st.g_score 4, aget st.f_score 4,
        heuristic_cost_estimate forkGraph 4 4)) = some (1, 2, 2, 0) ∧
    ∃ st0 : Search 5, Pathfind_seed forkGraph 1 4 (Search.zero 5 0) = some st0 ∧
      (∀ (k : Nat) (stk : Search 5), Pathfind_head forkGraph 4 k st0 = some stk →
        ∀ n : Int, aget stk.closedset n ≠ 0 ∨ aget stk.opensetRef n ≠ 0 →
          aget stk.f_score n = aget stk.g_score n + heuristic_cost_estimate forkGraph n 4) ∧
      ∀ (k j : Nat) (stp : Search 5), j ≤ 8 →
        Pathfind_point forkGraph 4 k j st0 = some stp →
        ∀ n : Int, aget stp.closedset n ≠ 0 ∨ aget stp.opensetRef n ≠ 0 →
          aget stp.f_score n = aget stp.g_score n + heuristic_cost_estimate forkGraph n 4 :=
  ⟨forkGraph_valid, ⟨by decide, by decide⟩, by decide!, by decide!,
    score_invariant forkGraph_valid ⟨by decide, by decide⟩ (Search.zero 5 0)⟩

/-! ## The membership mirror -/

theorem Mirror_of_OpenOK {N : Nat} {os ref : Arr N} {len : Int} (h : OpenOK os ref len) :
    Mirror os ref len :=
  ⟨h.ref, h.inj, h.zero⟩

/-- The members of a mirrored open list are indices of the arrays. -/
theorem Mirror_bounds {N : Nat} {os ref : Arr N} {len : Int} (h : Mirror os ref len)
    (i : Int) (hi0 : 0 ≤ i) (hi1 : i < len) : 0 ≤ aget os i ∧ aget os i < (N : Int) :=
  aget_ne_zero_bounds ref _ ((h.ref _).2 ⟨i, hi0, hi1, rfl⟩)

theorem Mirror_len_lt_of_absent {N : Nat} {os ref : Arr N} {len : Int} (h : Mirror os ref len)
    (n : Int) (hn0 : 0 ≤ n) (hn1 : n < (N : Int)) (hr : aget ref n = 0) :
    len < (N : Int) := by
  by_cases hl : 0 ≤ len
  · have hc := Finset.card_le_card_of_injOn (s := Finset.Ico (0 : Int) len)
      (t := (Finset.Ico (0 : Int) N).erase n) (fun i => aget os i)
      (by
        intro i hi
        rw [Finset.mem_Ico] at hi
        rw [Finset.mem_erase, Finset.mem_Ico]
        refine ⟨?_, Mirror_bounds h i hi.1 hi.2⟩
        intro he
        exact ((h.ref n).2 ⟨i, hi.1, hi.2, he⟩) hr)
      (by
        intro i hi j hj hij
        rw [Finset.mem_coe, Finset.mem_Ico] at hi hj
        exact h.inj i j hi.1 hi.2 hj.1 hj.2 hij)
    rw [Finset.card_erase_of_mem (by rw [Finset.mem_Ico]; exact ⟨hn0, hn1⟩), Int.card_Ico,
      Int.card_Ico] at hc
    omega
  · omega

/-- The insertion block of `AddWayToList` keeps the mirror when the waypoint
is an index of the arrays that is not in the open list. -/
theorem Mirror_insert {N : Nat} {os ref : Arr N} {len : Int} (h : Mirror os ref len)
    (n p : Int) (hn0 : 0 ≤ n) (hn1 : n < (N : Int)) (hr : aget ref n = 0)
    (h0 : 0 ≤ p) (h1 : p ≤ len) :
    Mirror (aset (AddWayToList_shift os p (len - p).toNat) p n) (aset ref n 1) (len + 1) := by
  have hlen := Mirror_len_lt_of_absent h n hn0 hn1 hr
  have hget := AddWayToList_insert_get os len p n h0 h1 hlen
  have habs : ∀ i : Int, 0 ≤ i → i < len → aget os i ≠ n := by
    intro i hi0 hi1 he
    exact ((h.ref n).2 ⟨i, hi0, hi1, he⟩) hr
  refine ⟨?_, ?_, ?_⟩
  · intro m
    rw [aget_aset]
    constructor
    · intro hm
      by_cases hmn : m = n
      · exact ⟨p, h0, by omega, by rw [hget, if_pos rfl, hmn]⟩
      · have hm2 : aget ref m ≠ 0 := by
          have : ¬ (m = n ∧ 0 ≤ m ∧ m < (N : Int)) := fun hh => hmn hh.1
          rwa [if_neg this] at hm
        obtain ⟨i, hi0, hi1, hi2⟩ := (h.ref m).1 hm2
        by_cases hip : i < p
        · refine ⟨i, hi0, by omega, ?_⟩
          rw [hget, if_neg (by omega), if_neg (by omega), hi2]
        · refine ⟨i + 1, by omega, by omega, ?_⟩
          rw [hget, if_neg (by omega), if_pos (by omega)]
          rw [show i + 1 - 1 = i by omega, hi2]
    · rintro ⟨i, hi0, hi1, hi2⟩
      rw [hget] at hi2
      by_cases hmn : m = n
      · rw [if_pos ⟨hmn, by omega, by omega⟩]; norm_num
      · have : ¬ (m = n ∧ 0 ≤ m ∧ m < (N : Int)) := fun hh => hmn hh.1
        rw [if_neg this]
        split_ifs at hi2 with c1 c2
        · exact absurd hi2.symm hmn
        · exact (h.ref m).2 ⟨i - 1, by omega, by omega, hi2⟩
        · exact (h.ref m).2 ⟨i, hi0, by omega, hi2⟩
  · intro i j hi0 hi1 hj0 hj1
    rw [hget, hget]
    split_ifs with c1 c2 c3 c4 c5 c6 c7
    · intro _; omega
    · intro e; exact absurd e.symm (habs (j - 1) (by omega) (by omega))
    · intro e; exact absurd e.symm (habs j (by omega) (by omega))
    · intro e; exact absurd e (habs (i - 1) (by omega) (by omega))
    · intro e
      have := h.inj (i - 1) (j - 1) (by omega) (by omega) (by omega) (by omega) e
      omega
    · intro e
      have := h.inj (i - 1) j (by omega) (by omega) (by omega) (by omega) e
      omega
    · intro e; exact absurd e (habs i (by omega) (by omega))
    · intro e
      have := h.inj i (j - 1) (by omega) (by omega) (by omega) (by omega) e
      omega
    · intro e
      exact h.inj i j (by omega) (by omega) (by omega) (by omega) e
  · intro i hi
    rw [hget]
    split_ifs with c1 c2
    · omega
    · omega
    · exact h.zero i (by omega)

/-- The scan of `RemoveWayFromList` that meets no entry equal to `waynum`
leaves the workspace as it is. -/
theorem RemoveWayFromList_scan_absent {N : Nat} (waynum : Int) (st : Search N) :
    ∀ (k : Nat) (i : Int),
      (∀ j : Int, i ≤ j → j < i + (k : Int) → aget st.openset j ≠ waynum) →
      RemoveWayFromList_scan waynum st k i = st := by
  intro k
  induction k with
  | zero => intro i _; rfl
  | succ k ih =>
    intro i h
    rw [RemoveWayFromList_scan, if_neg (h i (le_refl _) (by push_cast; omega))]
    exact ih (i + 1) (fun j a b => h j (by omega) (by push_cast; omega))

/-- The scan of `RemoveWayFromList` removes the first entry equal to
`waynum`. -/
theorem RemoveWayFromList_scan_at {N : Nat} (waynum : Int) (st : Search N) (i0 : Int)
    (hi0 : aget st.openset i0 = waynum) :
    ∀ (k : Nat) (i : Int), i ≤ i0 → i0 < i + (k : Int) →
      (∀ j : Int, i ≤ j → j < i0 → aget st.openset j ≠ waynum) →
      RemoveWayFromList_scan waynum st k i =
        { st with
          openset := RemoveWayFromList_shift (aset st.openset i0 0)
            (st.opensetLength - i0).toNat i0
          opensetRef := aset st.opensetRef waynum 0
          opensetLength := st.opensetLength - 1 } := by
  intro k
  induction k with
  | zero => intro i h1 h2 _; exact absurd h2 (by push_cast; omega)
  | succ k ih =>
    intro i h1 h2 h3
    rw [RemoveWayFromList_scan]
    by_cases hi : i = i0
    · rw [hi, if_pos hi0]
    · rw [if_neg (h3 i (le_refl _) (by omega))]
      exact ih (i + 1) (by omega) (by push_cast at h2 ⊢; omega)
        (fun j a b => h3 j (by omega) b)

/-- The removal of the entry at index `i0` of an open list that does not fill
the array keeps the mirror. -/
theorem Mirror_remove_at {N : Nat} {os ref : Arr N} {len : Int} (h : Mirror os ref len)
    (hlen : len < (N : Int)) (i0 : Int) (h0 : 0 ≤ i0) (h1 : i0 < len) :
    Mirror (RemoveWayFromList_shift (aset os i0 0) (len - i0).toNat i0)
      (aset ref (aget os i0) 0) (len - 1) := by
  have hget : ∀ j : Int,
      aget (RemoveWayFromList_shift (aset os i0 0) (len - i0).toNat i0) j =
        if i0 ≤ j ∧ j < len then aget os (j + 1) else aget os j := by
    intro j
    rw [RemoveWayFromList_shift_get _ _ _ h0 (by omega)]
    have e : i0 + (((len - i0).toNat : Nat) : Int) = len := by omega
    rw [e]
    by_cases hj : i0 ≤ j ∧ j < len
    · rw [if_pos hj, if_pos hj, aget_aset_ne _ _ _ _ (by omega)]
    · rw [if_neg hj, if_neg hj]
      by_cases hj0 : j = i0
      · omega
      · rw [aget_aset_ne _ _ _ _ hj0]
  have hb := Mirror_bounds h i0 h0 h1
  refine ⟨?_, ?_, ?_⟩
  · intro m
    rw [aget_aset]
    constructor
    · intro hm
      by_cases hmn : m = aget os i0 ∧ 0 ≤ m ∧ m < (N : Int)
      · rw [if_pos hmn] at hm; exact absurd rfl hm
      · rw [if_neg hmn] at hm
        obtain ⟨i, hi0, hi1, hi2⟩ := (h.ref m).1 hm
        have hi : i ≠ i0 := by
          intro hi
          apply hmn
          rw [hi] at hi2
          rw [← hi2]
          exact ⟨rfl, hb.1, hb.2⟩
        by_cases hlt : i < i0
        · refine ⟨i, hi0, by omega, ?_⟩
          rw [hget, if_neg (by omega), hi2]
        · refine ⟨i - 1, by omega, by omega, ?_⟩
          rw [hget, if_pos ⟨by omega, by omega⟩, show i - 1 + 1 = i by omega, hi2]
    · rintro ⟨i, hi0, hi1, hi2⟩
      rw [hget] at hi2
      have hne : m ≠ aget os i0 := by
        intro he
        rw [he] at hi2
        by_cases hc : i0 ≤ i ∧ i < len
        · rw [if_pos hc] at hi2
          have := h.inj (i + 1) i0 (by omega) (by omega) h0 h1 hi2
          omega
        · rw [if_neg hc] at hi2
          have := h.inj i i0 hi0 (by omega) h0 h1 hi2
          omega
      have : ¬ (m = aget os i0 ∧ 0 ≤ m ∧ m < (N : Int)) := fun hh => hne hh.1
      rw [if_neg this]
      by_cases hc : i0 ≤ i ∧ i < len
      · rw [if_pos hc] at hi2
        exact (h.ref m).2 ⟨i + 1, by omega, by omega, hi2⟩
      · rw [if_neg hc] at hi2
        exact (h.ref m).2 ⟨i, hi0, by omega, hi2⟩
  · intro i j hi0 hi1 hj0 hj1
    rw [hget, hget]
    split_ifs with c1 c2 c3
    · intro e
      have := h.inj (i + 1) (j + 1) (by omega) (by omega) (by omega) (by omega) e
      omega
    · intro e
      have := h.inj (i + 1) j (by omega) (by omega) (by omega) (by omega) e
      omega
    · intro e
      have := h.inj i (j + 1) (by omega) (by omega) (by omega) (by omega) e
      omega
    · intro e
      exact h.inj i j (by omega) (by omega) (by omega) (by omega) e
  · intro i hi
    rw [hget]
    split_ifs with c
    · exact h.zero (i + 1) (by omega)
    · exact h.zero i (by omega)

/-- `RemoveWayFromList(2, .)` keeps the mirror of an open list that does not
fill the array. -/
theorem Mirror_remove {N : Nat} (st : Search N)
    (h : Mirror st.openset st.opensetRef st.opensetLength)
    (hlen : st.opensetLength < (N : Int)) (w : Int) :
    Mirror (RemoveWayFromList 2 w st).openset (RemoveWayFromList 2 w st).opensetRef
      (RemoveWayFromList 2 w st).opensetLength := by
  rw [RemoveWayFromList, if_neg (by norm_num), if_pos rfl]
  by_cases hw : aget st.opensetRef w ≠ 0
  · obtain ⟨i0, a0, a1, a2⟩ := (h.ref w).1 hw
    rw [RemoveWayFromList_scan_at w st i0 a2 st.opensetLength.toNat 0 a0 (by omega)
      (fun j b c e => by
        have := h.inj j i0 b (by omega) a0 a1 (by rw [e, a2])
        omega)]
    have := Mirror_remove_at h hlen i0 a0 a1
    rw [a2] at this
    exact this
  · rw [RemoveWayFromList_scan_absent w st st.opensetLength.toNat 0
      (fun j b c e => hw ((h.ref w).2 ⟨j, b, by omega, e⟩))]
    exact h

/-- `AddWayToList(2, n)` returns, and it keeps the mirror when `n` is an index
of the arrays that is not in the open list. -/
theorem Mirror_add {N : Nat} (st : Search N)
    (h : Mirror st.openset st.opensetRef st.opensetLength) (n : Int)
    (hn0 : 0 ≤ n) (hn1 : n < (N : Int)) (hr : aget st.opensetRef n = 0) :
    ∃ r : Int × Search N, AddWayToList 2 n st = some r ∧
      Mirror r.2.openset r.2.opensetRef r.2.opensetLength := by
  by_cases hl : 0 ≤ st.opensetLength
  · obtain ⟨p, hp0, hp1, hp2⟩ := AddWayToList_open n st hl
    exact ⟨_, hp2, Mirror_insert h n p hn0 hn1 hr hp0 hp1⟩
  · refine ⟨(-1, st), ?_, h⟩
    rw [AddWayToList, if_neg (by norm_num), if_pos rfl]
    have e : (st.opensetLength + 1).toNat = 0 := by omega
    rw [e, AddWayToList_search, if_neg (by omega)]

theorem tieState_mirror :
    Mirror tieState.openset tieState.opensetRef tieState.opensetLength := by
  have hlen : tieState.opensetLength = 1 := rfl
  refine ⟨?_, ?_, ?_⟩
  · intro n
    constructor
    · intro hn
      have hb := aget_ne_zero_bounds _ _ hn
      have h0 := hb.1
      have h1 : n < 4 := by exact_mod_cast hb.2
      refine ⟨0, le_refl _, by decide!, ?_⟩
      interval_cases n
      · exact absurd (by decide!) hn
      · exact absurd (by decide!) hn
      · decide!
      · exact absurd (by decide!) hn
    · rintro ⟨i, h0, h1, h2⟩
      rw [hlen] at h1
      have hi : i = 0 := by omega
      rw [← h2, hi]
      decide!
  · intro i j hi0 hi1 hj0 hj1 _
    rw [hlen] at hi1 hj1
    omega
  · intro i hi
    rw [hlen] at hi
    by_cases hb : i < 4
    · interval_cases i
      · decide!
      · decide!
      · decide!
    · exact aget_oob _ _ (by push_cast; omega)

/-- C23: in a search from a valid start in a graph with valid edge targets,
at the head of every iteration of the main loop `opensetRef[n]` is non-zero
exactly for the waypoints `n` that occur in `openset[0 .. opensetLength)`, no
waypoint occurs twice in that range, every entry of `openset` at an index
`≥ opensetLength` is zero, and no waypoint is in both the open list and the
closed list; the same holds after the `RemoveWayFromList(2, current)` of the
iteration and after each pass of the loop over the neighbours, with its
`AddWayToList(2, .)`. In any workspace with the first three conditions,
`AddWayToList(2, n)` called as the search calls it, for a waypoint `n` with
`CheckIfWayInList(2, n)` zero, returns and keeps them, and
`RemoveWayFromList(2, .)` on an open list that does not fill the array keeps
them. -/
theorem membership_mirror {N : Nat} (g : Graph) (s e : Int) (st : Search N) :
    (ValidGraph N g → ValidIndex N s →
      ∃ st0 : Search N, Pathfind_seed g s e st = some st0 ∧
        (∀ (k : Nat) (stk : Search N), Pathfind_head g e k st0 = some stk →
          Mirror stk.openset stk.opensetRef stk.opensetLength ∧
          stk.opensetLength < (N : Int) ∧
          ∀ n : Int, ¬ (aget stk.opensetRef n ≠ 0 ∧ aget stk.closedset n ≠ 0)) ∧
        ∀ (k j : Nat) (stp : Search N), j ≤ 8 → Pathfind_point g e k j st0 = some stp →
          Mirror stp.openset stp.opensetRef stp.opensetLength ∧
          stp.opensetLength < (N : Int) ∧
          ∀ n : Int, ¬ (aget stp.opensetRef n ≠ 0 ∧ aget stp.closedset n ≠ 0)) ∧
    (Mirror st.openset st.opensetRef st.opensetLength →
      (∀ n : Int, 0 ≤ n → n < (N : Int) → CheckIfWayInList 2 n st = 0 →
        ∃ r : Int × Search N, AddWayToList 2 n st = some r ∧
          Mirror r.2.openset r.2.opensetRef r.2.opensetLength) ∧
      (st.opensetLength < (N : Int) →
        ∀ w : Int,
          Mirror (RemoveWayFromList 2 w st).openset (RemoveWayFromList 2 w st).opensetRef
            (RemoveWayFromList 2 w st).opensetLength)) := by
  refine ⟨?_, ?_⟩
  · intro hv hs
    have hN : 1 ≤ N := by
      have := hs.1
      have := hs.2
      omega
    obtain ⟨st0, h0, h1, h2, h3, _⟩ := Pathfind_seed_spec g s e 0 hs st
    refine ⟨st0, h0, ?_, ?_⟩
    · intro k stk hk
      obtain ⟨a1, _, _, _⟩ := Pathfind_head_spec hv k st0 _ 0 h1 h2 h3 stk hk
      have := OpenOK_len_le a1.open_ok hN
      exact ⟨Mirror_of_OpenOK a1.open_ok, by omega,
        fun n hn => hn.1 (a1.disjoint n hn.2)⟩
    · intro k j stp hj hp
      obtain ⟨_, _, _, a1, _, _⟩ := Pathfind_point_spec hv st0 _ 0 h1 h2 h3 k j hj stp hp
      have := OpenOK_len_le a1.open_ok hN
      exact ⟨Mirror_of_OpenOK a1.open_ok, by omega,
        fun n hn => hn.1 (a1.disjoint n hn.2)⟩
  · intro h
    refine ⟨?_, fun hlen w => Mirror_remove st h hlen w⟩
    intro n hn0 hn1 hc
    have hr : aget st.opensetRef n = 0 := by
      rw [CheckIfWayInList_open] at hc
      by_contra hne
      rw [if_pos hne] at hc
      exact absurd hc (by norm_num)
    exact Mirror_add st h n hn0 hn1 hr

/-- C23 on `chainGraph` searched from 1 to 3 and on `tieState`: waypoint 1,
which is not in the open list `[2]`, is added, and waypoint 2 is removed. -/
theorem membership_mirror_witness :
    ValidGraph 4 chainGraph ∧ ValidIndex 4 1 ∧
    Mirror tieState.openset tieState.opensetRef tieState.opensetLength ∧
    (0 : Int) ≤ 1 ∧ (1 : Int) < ((4 : Nat) : Int) ∧ CheckIfWayInList 2 1 tieState = 0 ∧
    tieState.opensetLength < ((4 : Nat) : Int) ∧
    (∃ st0 : Search 4, Pathfind_seed chainGraph 1 3 tieState = some st0 ∧
      (∀ (k : Nat) (stk : Search 4), Pathfind_head chainGraph 3 k st0 = some stk →
        Mirror stk.openset stk.opensetRef stk.opensetLength ∧
        stk.opensetLength < ((4 : Nat) : Int) ∧
        ∀ n : Int, ¬ (aget stk.opensetRef n ≠ 0 ∧ aget stk.closedset n ≠ 0)) ∧
      ∀ (k j : Nat) (stp : Search 4), j ≤ 8 →
        Pathfind_point chainGraph 3 k j st0 = some stp →
        Mirror stp.openset stp.opensetRef stp.opensetLength ∧
        stp.opensetLength < ((4 : Nat) : Int) ∧
        ∀ n : Int, ¬ (aget stp.opensetRef n ≠ 0 ∧ aget stp.closedset n ≠ 0)) ∧
    (∃ r : Int × Search 4, AddWayToList 2 1 tieState = some r ∧
      Mirror r.2.openset r.2.opensetRef r.2.opensetLength) ∧
    Mirror (RemoveWayFromList 2 2 tieState).openset (RemoveWayFromList 2 2 tieState).opensetRef
      (RemoveWayFromList 2 2 tieState).opensetLength ∧
    (AddWayToList 2 1 tieState).map
      (fun r => (r.2.opensetLength, aget r.2.openset 0, aget r.2.openset 1,
        aget r.2.opensetRef 1, aget r.2.opensetRef 2)) = some (2, 1, 2, 1, 1) ∧
    ((RemoveWayFromList 2 2 tieState).opensetLength,
      aget (RemoveWayFromList 2 2 tieState).openset 0,
      aget (RemoveWayFromList 2 2 tieState).opensetRef 2) = (0, 0, 0) :=
  ⟨chainGraph_valid, ⟨by decide, by decide⟩, tieState_mirror, by decide, by decide,
    by decide!, by decide!,
    (membership_mirror chainGraph 1 3 tieState).1 chainGraph_valid ⟨by decide, by decide⟩,
    ((membership_mirror chainGraph 1 3 tieState).2 tieState_mirror).1 1 (by decide)
      (by decide) (by decide!),
    ((membership_mirror chainGraph 1 3 tieState).2 tieState_mirror).2 (by decide!) 2,
    by decide!, by decide!⟩

/-! ## Discovery and `came_from` -/

/-- What one pass of the loop over the neighbours does to `opensetRef` and
`came_from`: for each waypoint, either the flag is as before and, when the
waypoint was in a list, so is `came_from`; or the waypoint was in no list, is
now flagged, and has `came_from` equal to the expanded node. -/
theorem Pathfind_edge_track {N : Nat} (g : Graph) (e cur : Int) (i : Nat)
    (st st1 : Search N) (h : Pathfind_edge g e cur i st = some st1) :
    st1.closedset = st.closedset ∧
    ∀ n : Int,
      (aget st1.opensetRef n = aget st.opensetRef n ∧
        (aget st.closedset n ≠ 0 ∨ aget st.opensetRef n ≠ 0 →
          aget st1.came_from n = aget st.came_from n)) ∨
      (aget st.opensetRef n = 0 ∧ aget st.closedset n = 0 ∧
        aget st1.came_from n = cur ∧ aget st1.opensetRef n ≠ 0) := by
  rw [Pathfind_edge] at h
  dsimp only at h
  rw [CheckIfWayInList_closed] at h
  by_cases hop : g.open_ (g.target_id cur i) = 0
  · rw [if_pos hop] at h
    cases h
    exact ⟨rfl, fun n => Or.inl ⟨rfl, fun _ => rfl⟩⟩
  · rw [if_neg hop] at h
    by_cases hcl : aget st.closedset (g.target_id cur i) ≠ 0
    · rw [if_pos hcl, if_pos (by norm_num)] at h
      cases h
      exact ⟨rfl, fun n => Or.inl ⟨rfl, fun _ => rfl⟩⟩
    · rw [if_neg hcl, if_neg (by norm_num)] at h
      have hcl0 : aget st.closedset (g.target_id cur i) = 0 := not_not.1 hcl
      have key : ∀ (gs fs : Arr N),
          (if CheckIfWayInList 2 (g.target_id cur i)
                ({ st with g_score := gs, f_score := fs } : Search N) = 0 then
              (AddWayToList 2 (g.target_id cur i)
                ({ st with
                  g_score := aset gs (g.target_id cur i)
                    (aget st.g_score cur + g.dist cur i)
                  f_score := aset fs (g.target_id cur i)
                    (aget st.g_score cur + g.dist cur i +
                      heuristic_cost_estimate g (g.target_id cur i) e)
                  came_from := aset st.came_from (g.target_id cur i) cur } :
                    Search N)).map Prod.snd
            else some ({ st with g_score := gs, f_score := fs } : Search N)) = some st1 →
          st1.closedset = st.closedset ∧
          ∀ n : Int,
            (aget st1.opensetRef n = aget st.opensetRef n ∧
              (aget st.closedset n ≠ 0 ∨ aget st.opensetRef n ≠ 0 →
                aget st1.came_from n = aget st.came_from n)) ∨
            (aget st.opensetRef n = 0 ∧ aget st.closedset n = 0 ∧
              aget st1.came_from n = cur ∧ aget st1.opensetRef n ≠ 0) := by
        intro gs fs hk
        by_cases hin : CheckIfWayInList 2 (g.target_id cur i)
            ({ st with g_score := gs, f_score := fs } : Search N) = 0
        · rw [if_pos hin] at hk
          have href0 : aget st.opensetRef (g.target_id cur i) = 0 := by
            rw [CheckIfWayInList_open] at hin
            by_contra hc
            rw [if_pos hc] at hin
            exact absurd hin (by norm_num)
          rw [AddWayToList, if_neg (by norm_num), if_pos rfl] at hk
          cases hs : AddWayToList_search (g.target_id cur i)
              (aget (aset fs (g.target_id cur i)
                (aget st.g_score cur + g.dist cur i +
                  heuristic_cost_estimate g (g.target_id cur i) e)) (g.target_id cur i))
              ({ st with
                g_score := aset gs (g.target_id cur i) (aget st.g_score cur + g.dist cur i)
                f_score := aset fs (g.target_id cur i)
                  (aget st.g_score cur + g.dist cur i +
                    heuristic_cost_estimate g (g.target_id cur i) e)
                came_from := aset st.came_from (g.target_id cur i) cur } : Search N)
              ((st.opensetLength + 1).toNat + 1) (-1) st.opensetLength with
          | none =>
            rw [hs] at hk
            cases hk
          | some r =>
            rw [hs] at hk
            have hr : r.2 = st1 := by simpa using hk
            have hcf : ∀ n : Int, aget st.closedset n ≠ 0 ∨ aget st.opensetRef n ≠ 0 →
                aget (aset st.came_from (g.target_id cur i) cur) n = aget st.came_from n := by
              intro n hn
              have hne : n ≠ g.target_id cur i := by
                intro hh
                rw [hh] at hn
                rcases hn with hn | hn
                · exact hcl hn
                · exact hn href0
              exact aget_aset_ne _ _ _ _ hne
            rcases AddWayToList_search_state _ _ _ _ _ _ r hs with hst | ⟨p, hst⟩
            · rw [← hr, hst]
              exact ⟨rfl, fun n => Or.inl ⟨rfl, hcf n⟩⟩
            · rw [← hr, hst]
              refine ⟨rfl, ?_⟩
              intro n
              by_cases hnb : n = g.target_id cur i ∧ 0 ≤ n ∧ n < (N : Int)
              · right
                refine ⟨by rw [hnb.1]; exact href0, by rw [hnb.1]; exact hcl0, ?_, ?_⟩
                · show aget (aset st.came_from (g.target_id cur i) cur) n = cur
                  rw [aget_aset, if_pos hnb]
                · show aget (aset st.opensetRef (g.target_id cur i) 1) n ≠ 0
                  rw [aget_aset, if_pos hnb]
                  norm_num
              · left
                refine ⟨?_, hcf n⟩
                show aget (aset st.opensetRef (g.target_id cur i) 1) n = aget st.opensetRef n
                rw [aget_aset, if_neg hnb]
        · rw [if_neg hin] at hk
          cases hk
          exact ⟨rfl, fun n => Or.inl ⟨rfl, fun _ => rfl⟩⟩
      by_cases hlt : aget st.g_score cur + g.dist cur i +
          heuristic_cost_estimate g (g.target_id cur i) e < aget st.f_score (g.target_id cur i)
      · simp only [if_pos hlt] at h
        exact key _ _ h
      · simp only [if_neg hlt] at h
        exact key st.g_score st.f_score h

/-- The statement of `Pathfind_edge_track` for the whole loop over the
neighbours. -/
theorem Pathfind_edges_track {N : Nat} (g : Graph) (e cur : Int) :
    ∀ (k i : Nat) (st st1 : Search N), Pathfind_edges g e cur k i st = some st1 →
      st1.closedset = st.closedset ∧
      ∀ n : Int,
        (aget st1.opensetRef n = aget st.opensetRef n ∧
          (aget st.closedset n ≠ 0 ∨ aget st.opensetRef n ≠ 0 →
            aget st1.came_from n = aget st.came_from n)) ∨
        (aget st.opensetRef n = 0 ∧ aget st.closedset n = 0 ∧
          aget st1.came_from n = cur ∧ aget st1.opensetRef n ≠ 0) := by
  intro k
  induction k with
  | zero =>
    intro i st st1 h
    rw [Pathfind_edges] at h
    cases h
    exact ⟨rfl, fun n => Or.inl ⟨rfl, fun _ => rfl⟩⟩
  | succ k ih =>
    intro i st st1 h
    rw [Pathfind_edges] at h
    by_cases hneg : g.target_id cur i < 0
    · rw [if_pos hneg] at h
      cases h
      exact ⟨rfl, fun n => Or.inl ⟨rfl, fun _ => rfl⟩⟩
    · rw [if_neg hneg] at h
      cases hed : Pathfind_edge g e cur i st with
      | none => rw [hed] at h; cases h
      | some st2 =>
        rw [hed] at h
        dsimp only at h
        obtain ⟨a1, a2⟩ := Pathfind_edge_track g e cur i st st2 hed
        obtain ⟨b1, b2⟩ := ih (i + 1) st2 st1 h
        refine ⟨by rw [b1, a1], ?_⟩
        intro n
        rcases b2 n with ⟨c1, c2⟩ | ⟨c1, c2, c3, c4⟩
        · rcases a2 n with ⟨d1, d2⟩ | ⟨d1, d2, d3, d4⟩
          · left
            refine ⟨by rw [c1, d1], ?_⟩
            intro hn
            rw [c2 (by rw [a1, d1]; exact hn), d2 hn]
          · right
            exact ⟨d1, d2, by rw [c2 (Or.inr d4), d3], by rw [c1]; exact d4⟩
        · rcases a2 n with ⟨d1, _⟩ | ⟨_, _, _, d4⟩
          · right
            exact ⟨by rw [← d1]; exact c1, by rw [← a1]; exact c2, c3, c4⟩
          · exact absurd c1 d4

/-- One expansion: the popped node becomes closed, a waypoint of the open
list stays in it unless it is the popped node, and a waypoint that is in a
list afterwards either was in one before, with the same `came_from`, or is in
the open list with `came_from` equal to the popped node. -/
theorem Pathfind_expand_track {N : Nat} (g : Graph) (e : Int) (st st1 : Search N)
    (hcv : ValidIndex N (aget st.openset 0)) (hlen : 0 < st.opensetLength)
    (hcr : aget st.opensetRef (aget st.openset 0) ≠ 0)
    (h : Pathfind_expand g e (aget st.openset 0) st = some st1) :
    st1.closedset = aset st.closedset (aget st.openset 0) 1 ∧
    (∀ n : Int, aget st.opensetRef n ≠ 0 →
      aget st1.opensetRef n ≠ 0 ∨ aget st1.closedset n ≠ 0) ∧
    ∀ n : Int, aget st1.closedset n ≠ 0 ∨ aget st1.opensetRef n ≠ 0 →
      ((aget st.closedset n ≠ 0 ∨ aget st.opensetRef n ≠ 0) ∧
        aget st1.came_from n = aget st.came_from n) ∨
      (aget st1.closedset n = 0 ∧ aget st1.came_from n = aget st.openset 0) := by
  rw [Pathfind_expand, AddWayToList, if_pos rfl] at h
  dsimp only at h
  have hrem := RemoveWayFromList_head
    ({ st with closedset := aset st.closedset (aget st.openset 0) 1 } : Search N) hlen
  dsimp only at hrem
  rw [hrem] at h
  obtain ⟨a1, a2⟩ := Pathfind_edges_track g e (aget st.openset 0) 8 0 _ st1 h
  have a1b : st1.closedset = aset st.closedset (aget st.openset 0) 1 := a1
  have a2b : ∀ n : Int,
      (aget st1.opensetRef n = aget (aset st.opensetRef (aget st.openset 0) 0) n ∧
        (aget (aset st.closedset (aget st.openset 0) 1) n ≠ 0 ∨
          aget (aset st.opensetRef (aget st.openset 0) 0) n ≠ 0 →
          aget st1.came_from n = aget st.came_from n)) ∨
      (aget (aset st.opensetRef (aget st.openset 0) 0) n = 0 ∧
        aget (aset st.closedset (aget st.openset 0) 1) n = 0 ∧
        aget st1.came_from n = aget st.openset 0 ∧ aget st1.opensetRef n ≠ 0) := a2
  refine ⟨a1b, ?_, ?_⟩
  · intro n hn
    by_cases hnc : n = aget st.openset 0
    · right
      rw [a1b, hnc]
      exact (aget_aset_one_ne_zero _ _ _ hcv).2 (Or.inl rfl)
    · left
      rcases a2b n with ⟨c1, _⟩ | ⟨_, _, _, c4⟩
      · rw [c1, aget_aset_ne _ _ _ _ hnc]
        exact hn
      · exact c4
  · intro n hn
    rcases a2b n with ⟨c1, c2⟩ | ⟨_, c2, c3, _⟩
    · left
      have hp : aget (aset st.closedset (aget st.openset 0) 1) n ≠ 0 ∨
          aget (aset st.opensetRef (aget st.openset 0) 0) n ≠ 0 := by
        rcases hn with hn | hn
        · left; rw [← a1b]; exact hn
        · right; rw [← c1]; exact hn
      refine ⟨?_, c2 hp⟩
      rcases hp with hp | hp
      · rcases (aget_aset_one_ne_zero _ _ _ hcv).1 hp with hq | hq
        · right; rw [hq]; exact hcr
        · left; exact hq
      · right
        exact ((aget_aset_zero_ne_zero _ _ _).1 hp).2
    · right
      exact ⟨by rw [a1b]; exact c2, c3⟩

/-- The heads of the main loop that follow a state in which the invariants
hold: the closed list grows by one waypoint in each iteration, a waypoint of
the open list stays in it until it is closed, and a waypoint that is in a list
either was in one at the start, with the same `came_from`, or has a
`came_from` that was closed before it. -/
theorem Pathfind_head_track {N : Nat} {g : Graph} {s e : Int} (hv : ValidGraph N g) :
    ∀ (k : Nat) (st : Search N) (r : Int → Nat) (cur : Int), Inv g s e cur 8 st →
      RankOK g s r st → ScoreOK g s e st →
      ∀ stk : Search N, Pathfind_head g e k st = some stk →
        closedCount stk.closedset = closedCount st.closedset + k ∧
        (∀ n : Int, aget st.opensetRef n ≠ 0 →
          aget stk.opensetRef n ≠ 0 ∨ aget stk.closedset n ≠ 0) ∧
        ∀ n : Int, aget stk.closedset n ≠ 0 ∨ aget stk.opensetRef n ≠ 0 →
          ((aget st.closedset n ≠ 0 ∨ aget st.opensetRef n ≠ 0) ∧
            aget stk.came_from n = aget st.came_from n) ∨
          ClosedBefore g e st (aget stk.came_from n) n := by
  intro k
  induction k with
  | zero =>
    intro st r cur _ _ _ stk hst
    rw [Pathfind_head] at hst
    cases hst
    exact ⟨rfl, fun n hn => Or.inl hn, fun n hn => Or.inl ⟨hn, rfl⟩⟩
  | succ k ih =>
    intro st r cur h hr hsc stk hst
    rw [Pathfind_head] at hst
    rcases CheckIfEmptyList_open st h.open_ok with ⟨c1, c2⟩ | ⟨c1, c2⟩
    · rw [c1, if_pos rfl] at hst
      by_cases hend : GetLowestFromOpenSet st = e
      · rw [if_pos hend] at hst
        cases hst
      · rw [if_neg hend] at hst
        obtain ⟨hcv, hcr, _⟩ := InvC_head h c2
        obtain ⟨st2, r2, k1, k2, k3, k3b, k4, k5, _⟩ :=
          Pathfind_expand_spec hv h r hr hsc c2 hend cur
        have k1b : Pathfind_expand g e (GetLowestFromOpenSet st) st = some st2 := k1
        rw [k1b] at hst
        have hone : Pathfind_head g e 1 st = some st2 := by
          rw [Pathfind_head, c1, if_pos rfl, if_neg hend, k1b]
          rfl
        obtain ⟨t1, t2, t3⟩ := Pathfind_expand_track g e st st2 hcv c2 hcr k1
        obtain ⟨a1, a2, a3⟩ := ih st2 r2 cur k2 k3 k3b stk hst
        obtain ⟨_, _, _, b4⟩ := Pathfind_head_spec hv k st2 r2 cur k2 k3 k3b stk hst
        refine ⟨by rw [a1, k5]; omega, ?_, ?_⟩
        · intro n hn
          rcases t2 n hn with hq | hq
          · exact a2 n hq
          · exact Or.inr (b4 n hq).1
        · intro n hn
          rcases a3 n hn with ⟨hd, hcf⟩ | ⟨m, stm, hm1, hm2, hm3⟩
          · rcases t3 n hd with ⟨hd0, hcf0⟩ | ⟨hc0, hcf0⟩
            · exact Or.inl ⟨hd0, by rw [hcf, hcf0]⟩
            · right
              refine ⟨1, st2, hone, ?_, hc0⟩
              rw [hcf, hcf0, t1]
              exact (aget_aset_one_ne_zero _ _ _ hcv).2 (Or.inl rfl)
          · right
            refine ⟨m + 1, stm, ?_, hm2, hm3⟩
            rw [Pathfind_head, c1, if_pos rfl, if_neg hend, k1b]
            exact hm1
    · rw [c1, if_neg (by norm_num)] at hst
      cases hst

/-- The walk of `reconstruct_path` in a workspace in which the invariant on
`came_from` holds: each entry that it writes after the first is the
`came_from` of the entry before it. -/
theorem reconstruct_path_walk_chain {N : Nat} {g : Graph} {s : Int} {st : Search N}
    {r : Int → Nat} (hr : RankOK g s r st) :
    ∀ (fuel : Nat) (sidx cur : Int) (pl : Arr N),
      (aget st.closedset cur ≠ 0 ∨ aget st.opensetRef cur ≠ 0) → r cur < fuel →
      1 ≤ sidx → sidx + r cur < (N : Int) →
      ∃ (pl1 : Arr N) (k : Int),
        reconstruct_path_walk g st s fuel sidx cur pl = some pl1 ∧ sidx ≤ k ∧ k < (N : Int) ∧
        aget pl1 sidx = cur ∧ aget pl1 k = s ∧
        (∀ j : Int, j < sidx ∨ k < j → aget pl1 j = aget pl j) ∧
        ∀ j : Int, sidx ≤ j → j < k →
          aget pl1 (j + 1) = aget st.came_from (aget pl1 j) ∧ aget pl1 j ≠ s ∧
          (aget st.closedset (aget pl1 j) ≠ 0 ∨ aget st.opensetRef (aget pl1 j) ≠ 0) := by
  intro fuel
  induction fuel with
  | zero => intro sidx cur pl _ h; omega
  | succ fuel ih =>
    intro sidx cur pl hcur hfuel hs hN
    rw [reconstruct_path_walk]
    have hself : aget (aset pl sidx cur) sidx = cur := aget_aset_eq _ _ _ (by omega) (by omega)
    by_cases hcs : cur = s
    · rw [if_pos hcs]
      refine ⟨aset pl sidx cur, sidx, rfl, le_refl _, by omega, hself, by rw [hself, hcs], ?_, ?_⟩
      · intro j hj
        exact aget_aset_ne _ _ _ _ (by omega)
      · intro j h1 h2
        omega
    · rw [if_neg hcs]
      obtain ⟨p1, p2, p3, p4⟩ := hr.parent cur hcur hcs
      rw [CheckIfWayInList_closed, if_pos p1, if_pos (by norm_num),
        reconstruct_path_find_of_edge g _ _ p2]
      obtain ⟨pl1, k, w1, w2, w3, w4, w5, w6, w7⟩ := ih (sidx + 1) (aget st.came_from cur)
        (aset pl sidx cur) (Or.inl p1) (by omega) (by omega) (by omega)
      have hsame : aget pl1 sidx = cur := by
        rw [w6 sidx (Or.inl (by omega))]
        exact hself
      refine ⟨pl1, k, w1, by omega, w3, hsame, w5, ?_, ?_⟩
      · intro j hj
        rw [w6 j (by omega)]
        exact aget_aset_ne _ _ _ _ (by omega)
      · intro j h1 h2
        by_cases hj : j = sidx
        · rw [hj, w4, hsame]
          exact ⟨rfl, hcs, hcur⟩
        · exact w7 j (by omega) h2

/-- The statement of `reconstruct_path_walk_chain` for `reconstruct_path`. -/
theorem reconstruct_path_chain {N : Nat} {g : Graph} {s e : Int} {st : Search N}
    {r : Int → Nat} (hr : RankOK g s r st)
    (he : aget st.closedset e ≠ 0 ∨ aget st.opensetRef e ≠ 0) (hre : r e + 2 ≤ N)
    (pl : Arr N) :
    ∃ (pl1 : Arr N) (k : Int),
      reconstruct_path g st s e pl = some pl1 ∧ 1 ≤ k ∧ k < (N : Int) ∧
      aget pl1 1 = e ∧ aget pl1 k = s ∧
      ∀ j : Int, 1 ≤ j → j < k →
        aget pl1 (j + 1) = aget st.came_from (aget pl1 j) ∧ aget pl1 j ≠ s ∧
        (aget st.closedset (aget pl1 j) ≠ 0 ∨ aget st.opensetRef (aget pl1 j) ≠ 0) := by
  obtain ⟨pl1, k, w1, w2, w3, w4, w5, _, w7⟩ := reconstruct_path_walk_chain hr N 1 e
    (aset (reconstruct_path_clear N 0 pl) 0 (-1)) he (by omega) (le_refl _) (by omega)
  exact ⟨pl1, k, w1, w2, w3, w4, w5, w7⟩

/-- A run of the main loop that returns 1 has called `reconstruct_path` in the
workspace that it leaves. -/
theorem Pathfind_loop_route {N : Nat} (g : Graph) (s e : Int) (pl : Arr N) :
    ∀ (fuel : Nat) (st st1 : Search N) (pl1 : Arr N),
      Pathfind_loop g s e fuel st pl = some (1, st1, pl1) →
      reconstruct_path g st1 s e pl = some pl1 := by
  intro fuel
  induction fuel with
  | zero =>
    intro st st1 pl1 h
    rw [Pathfind_loop] at h
    cases h
  | succ fuel ih =>
    intro st st1 pl1 h
    rw [Pathfind_loop] at h
    by_cases c1 : CheckIfEmptyList 2 st = 0
    · rw [if_pos c1] at h
      by_cases hend : GetLowestFromOpenSet st = e
      · rw [if_pos hend] at h
        cases hrec : reconstruct_path g st s e pl with
        | none => rw [hrec] at h; cases h
        | some pl2 =>
          rw [hrec] at h
          cases h
          exact hrec
      · rw [if_neg hend] at h
        cases hexp : Pathfind_expand g e (GetLowestFromOpenSet st) st with
        | none => rw [hexp] at h; cases h
        | some st2 =>
          rw [hexp] at h
          exact ih st2 st1 pl1 h
    · rw [if_neg c1] at h
      have h2 := congrArg (Option.map (fun r : Int × Search N × Arr N => r.1)) h
      simp at h2

/-! ## Termination of the search -/

/-- C28: on a graph whose edge targets are valid, with a valid start and a
valid end, `Pathfind` returns. At the head of iteration `k` of its main loop
exactly `k` waypoints are closed and `k + 2 ≤ MAX_WAYPOINTS`, so the loop
makes fewer than `MAX_WAYPOINTS` iterations; the open list holds at most
`MAX_WAYPOINTS - 1` waypoints; the waypoint that the iteration pops is in the
open list and not closed; and at the head of every later iteration a closed
waypoint is still closed and out of the open list and a waypoint of the open
list is in the open list or closed, so that no waypoint goes into the open
list twice or is popped twice. After a search that returns 1 the route in
`proces_list` runs from the end to the start along `came_from`, and each
`came_from` was closed before the waypoint it belongs to. -/
theorem Pathfind_terminates {N : Nat} {g : Graph} {s e : Int} (hv : ValidGraph N g)
    (hs : ValidIndex N s) (he : ValidIndex N e) (st : Search N) (pl : Arr N) :
    ∃ (status : Int) (st1 : Search N) (pl1 : Arr N) (st0 : Search N),
      Pathfind g s e st pl = some (status, st1, pl1) ∧
      Pathfind_seed g s e st = some st0 ∧
      (∃ kf : Nat, Pathfind_head g e kf st0 = some st1) ∧
      (∀ (k : Nat) (stk : Search N), Pathfind_head g e k st0 = some stk →
        k + 2 ≤ N ∧ closedCount stk.closedset = k ∧
        0 ≤ stk.opensetLength ∧ stk.opensetLength ≤ (N : Int) - 1 ∧
        (0 < stk.opensetLength →
          aget stk.opensetRef (GetLowestFromOpenSet stk) ≠ 0 ∧
          aget stk.closedset (GetLowestFromOpenSet stk) = 0) ∧
        ∀ (d : Nat) (std : Search N), Pathfind_head g e d stk = some std →
          ∀ n : Int,
            (aget stk.closedset n ≠ 0 →
              aget std.closedset n ≠ 0 ∧ aget std.opensetRef n = 0) ∧
            (aget stk.opensetRef n ≠ 0 →
              aget std.opensetRef n ≠ 0 ∨ aget std.closedset n ≠ 0)) ∧
      (status = 1 →
        ∃ k : Int, 1 ≤ k ∧ k < (N : Int) ∧ aget pl1 1 = e ∧ aget pl1 k = s ∧
          ∀ j : Int, 1 ≤ j → j < k →
            aget pl1 (j + 1) = aget st1.came_from (aget pl1 j) ∧
            ClosedBefore g e st0 (aget pl1 (j + 1)) (aget pl1 j)) := by
  obtain ⟨st0, h0, h1, h2, h3, h4⟩ := Pathfind_seed_spec g s e 0 hs st
  obtain ⟨status, st1, pl1, r1, p1, p2, p3, _, p5⟩ := Pathfind_spec hv hs he st pl
  obtain ⟨kf, hkf⟩ := Pathfind_final_head g s e st st0 pl h0 status st1 pl1 p1
  have hN : 1 ≤ N := by
    have := hs.1
    have := hs.2
    omega
  refine ⟨status, st1, pl1, st0, p1, h0, ⟨kf, hkf⟩, ?_, ?_⟩
  · intro k stk hk
    obtain ⟨a1, ⟨ra, a2⟩, a3, _⟩ := Pathfind_head_spec hv k st0 _ 0 h1 h2 h3 stk hk
    obtain ⟨t1, _, _⟩ := Pathfind_head_track hv k st0 _ 0 h1 h2 h3 stk hk
    rw [h4, closedCount_zero, zero_add] at t1
    have hcount := closedCount_le stk.closedset e he a1.end_out
    refine ⟨by omega, t1, a1.open_ok.len_nonneg, OpenOK_len_le a1.open_ok hN, ?_, ?_⟩
    · intro hlen
      obtain ⟨_, hcr, hcc⟩ := InvC_head a1 hlen
      exact ⟨hcr, hcc⟩
    · intro d std hd n
      obtain ⟨b1, _, _, b4⟩ := Pathfind_head_spec hv d stk ra 0 a1 a2 a3 std hd
      obtain ⟨_, u2, _⟩ := Pathfind_head_track hv d stk ra 0 a1 a2 a3 std hd
      exact ⟨fun hn => ⟨(b4 n hn).1, b1.disjoint n (b4 n hn).1⟩, u2 n⟩
  · intro hst
    rcases p5 with ⟨_, _, q3, q4, _⟩ | ⟨q1, _⟩
    · have hcr : aget st1.opensetRef e ≠ 0 :=
        (p2.open_ok.ref e).2 ⟨0, le_refl _, q4, q3⟩
      have hcount := closedCount_le st1.closedset e he p2.end_out
      have hre := p3.open_le e hcr
      obtain ⟨pl2, k, w1, w2, w3, w4, w5, w7⟩ :=
        reconstruct_path_chain p3 (Or.inr hcr) (by omega) pl
      have hloop : Pathfind_loop g s e N st0 pl = some (1, st1, pl1) := by
        have := p1
        rw [Pathfind, h0, hst] at this
        exact this
      have hroute := Pathfind_loop_route g s e pl N st0 st1 pl1 hloop
      rw [w1] at hroute
      have hpl : pl2 = pl1 := Option.some.inj hroute
      rw [hpl] at w4 w5 w7
      obtain ⟨_, _, t3⟩ := Pathfind_head_track hv kf st0 _ 0 h1 h2 h3 st1 hkf
      refine ⟨k, w2, w3, w4, w5, ?_⟩
      intro j hj1 hj2
      obtain ⟨c1, c2, c3⟩ := w7 j hj1 hj2
      refine ⟨c1, ?_⟩
      rw [c1]
      rcases t3 (aget pl1 j) c3 with ⟨hd, _⟩ | hcb
      · exfalso
        have hpar := (h2.parent (aget pl1 j) hd c2).1
        rw [h4] at hpar
        exact hpar (aget_zero _)
      · exact hcb
    · rw [q1] at hst
      exact absurd hst (by norm_num)

/-- C28 on the chain `1 -> 2 -> 3` searched from 1 to 3: the search returns 1
with the route `[-1, 3, 2, 1]`. -/
theorem Pathfind_terminates_witness :
    ValidGraph 4 chainGraph ∧ ValidIndex 4 1 ∧ ValidIndex 4 3 ∧
    (Pathfind chainGraph 1 3 (Search.zero 4 0) (fun _ => 0)).map
      (fun r => (r.1, aget r.2.2 0, aget r.2.2 1, aget r.2.2 2, aget r.2.2 3)) =
        some (1, -1, 3, 2, 1) ∧
    ∃ (status : Int) (st1 : Search 4) (pl1 : Arr 4) (st0 : Search 4),
      Pathfind chainGraph 1 3 (Search.zero 4 0) (fun _ => 0) = some (status, st1, pl1) ∧
      Pathfind_seed chainGraph 1 3 (Search.zero 4 0) = some st0 ∧
      (∃ kf : Nat, Pathfind_head chainGraph 3 kf st0 = some st1) ∧
      (∀ (k : Nat) (stk : Search 4), Pathfind_head chainGraph 3 k st0 = some stk →
        k + 2 ≤ 4 ∧ closedCount stk.closedset = k ∧
        0 ≤ stk.opensetLength ∧ stk.opensetLength ≤ ((4 : Nat) : Int) - 1 ∧
        (0 < stk.opensetLength →
          aget stk.opensetRef (GetLowestFromOpenSet stk) ≠ 0 ∧
          aget stk.closedset (GetLowestFromOpenSet stk) = 0) ∧
        ∀ (d : Nat) (std : Search 4), Pathfind_head chainGraph 3 d stk = some std →
          ∀ n : Int,
            (aget stk.closedset n ≠ 0 →
              aget std.closedset n ≠ 0 ∧ aget std.opensetRef n = 0) ∧
            (aget stk.opensetRef n ≠ 0 →
              aget std.opensetRef n ≠ 0 ∨ aget std.closedset n ≠ 0)) ∧
      (status = 1 →
        ∃ k : Int, 1 ≤ k ∧ k < ((4 : Nat) : Int) ∧ aget pl1 1 = 3 ∧ aget pl1 k = 1 ∧
          ∀ j : Int, 1 ≤ j → j < k →
            aget pl1 (j + 1) = aget st1.came_from (aget pl1 j) ∧
            ClosedBefore chainGraph 3 st0 (aget pl1 (j + 1)) (aget pl1 j)) :=
  ⟨chainGraph_valid, ⟨by decide, by decide⟩, ⟨by decide, by decide⟩, by decide!,
    Pathfind_terminates chainGraph_valid ⟨by decide, by decide⟩ ⟨by decide, by decide⟩
      (Search.zero 4 0) (fun _ => 0)⟩

/-! ## Reconstruction inside a search -/

end Waypoints
